import Mathlib

/-!
# DXIL resource-binding remapper (DiligentCore, `DXCompiler.cpp`)

A shallow embedding of `DXCompilerImpl::PatchDXIL`, `PatchResourceDeclaration`,
`PatchResourceHandle` and `IsDXILBytecode`, followed by theorems about them.

Conventions of the embedding:

* a `std::string` is a `List Char`; the terminating NUL that `operator[]` and
  `c_str()` expose at index `size()` is made explicit by `charAt`;
* `String::npos` is `none`: the search functions return `Option Nat`;
* a C++ exception is `Fault.thrown`; behaviour the C++ standard leaves
  undefined (reading a string beyond its terminator, indexing an array or a
  vector out of range, `atoi` on a value that does not fit `int`) is
  `Fault.undefinedBehaviour`; loops carry a fuel argument and running out of
  it is `Fault.outOfFuel`;
* a `Uint32` is a `Nat`, reduced `% 2^32` where the source computes in 32 bits;
* `VERIFY_EXPR` and `DEV_CHECK_ERR` are debug-build assertions and are compiled
  out of the embedding.
-/

namespace Diligent

/-! ## Strings -/

/-- A `std::string`, as the list of its characters (terminator excluded). -/
abbrev Str := List Char

/-- Outcomes other than a normal return. -/
inductive Fault where
  | thrown
  | undefinedBehaviour
  | outOfFuel
  deriving DecidableEq, Repr

/-- Equality of outcomes is decidable. -/
instance instDecidableEqExcept {ε α : Type} [DecidableEq ε] [DecidableEq α] :
    DecidableEq (Except ε α)
  | .ok a, .ok b => if h : a = b then isTrue (by rw [h]) else isFalse (by intro e; cases e; exact h rfl)
  | .error a, .error b =>
    if h : a = b then isTrue (by rw [h]) else isFalse (by intro e; cases e; exact h rfl)
  | .ok _, .error _ => isFalse (by intro e; cases e)
  | .error _, .ok _ => isFalse (by intro e; cases e)

/-- The expression `s[pos]`: the character at `pos`, the terminating NUL at
`pos = size()`, undefined behaviour beyond. -/
def charAt (s : Str) (pos : Nat) : Except Fault Char :=
  if pos ≤ s.length then .ok ((s.drop pos).headD '\x00') else .error .undefinedBehaviour

/-- The test `std::strncmp(&s[pos], pat.c_str(), pat.length()) == 0` for
`pos ≤ size()` and a pattern without NUL: `pat` occurs in `s` at `pos`. -/
def occursAt (pat s : Str) (pos : Nat) : Bool :=
  pat.isPrefixOf (s.drop pos)

/-- Scan of `std::string::find`: `i` is the index of the head of `xs`. -/
def findAux (pat : Str) : Str → Nat → Option Nat
  | [], i => if pat.isPrefixOf [] then some i else none
  | c :: cs, i => if pat.isPrefixOf (c :: cs) then some i else findAux pat cs (i + 1)

/-- The call `s.find(pat, pos)`. -/
def find (pat s : Str) (pos : Nat) : Option Nat :=
  if pos ≤ s.length then findAux pat (s.drop pos) pos else none

/-- Downward scan of `std::string::rfind`, starting at index `i`. -/
def rfindAux (pat s : Str) : Nat → Option Nat
  | 0 => if occursAt pat s 0 then some 0 else none
  | i + 1 => if occursAt pat s (i + 1) then some (i + 1) else rfindAux pat s i

/-- The call `s.rfind(pat, pos)`: the last occurrence that starts at or before
`pos`. -/
def rfind (pat s : Str) (pos : Nat) : Option Nat :=
  if pat.length ≤ s.length then rfindAux pat s (min pos (s.length - pat.length)) else none

/-- Scan of `std::string::find_first_not_of`. -/
def findFirstNotOfAux (set : Str) : Str → Nat → Option Nat
  | [], _ => none
  | c :: cs, i => if set.contains c then findFirstNotOfAux set cs (i + 1) else some i

/-- The call `s.find_first_not_of(set, pos)`. -/
def findFirstNotOf (set s : Str) (pos : Nat) : Option Nat :=
  findFirstNotOfAux set (s.drop pos) pos

/-- The call `s.substr(pos, n)` where `stop` is `pos + n` (`none` when `n`
reaches the end of the string); throws `std::out_of_range` for `pos > size()`. -/
def substr (s : Str) (pos : Nat) (stop : Option Nat) : Except Fault Str :=
  if pos ≤ s.length then
    match stop with
    | some e => .ok ((s.drop pos).take (e - pos))
    | none => .ok (s.drop pos)
  else .error .thrown

/-- The call `s.replace(pos, n, new)` where `stop` is `pos + n` (`none` when
`n` reaches the end of the string). -/
def replace (s : Str) (pos : Nat) (stop : Option Nat) (new : Str) : Str :=
  match stop with
  | some e => s.take pos ++ new ++ s.drop (max pos e)
  | none => s.take pos ++ new

/-! ## Numbers -/

/-- The C `isspace` test in the "C" locale. -/
def isSpace (c : Char) : Bool :=
  c == ' ' || c == '\t' || c == '\n' || c == '\x0b' || c == '\x0c' || c == '\r'

/-- The C `isdigit` test. -/
def isDigit (c : Char) : Bool :=
  '0'.toNat ≤ c.toNat && c.toNat ≤ '9'.toNat

/-- Value of a run of decimal digits, most significant first. -/
def digitsValue (ds : Str) : Nat :=
  ds.foldl (fun acc c => 10 * acc + (c.toNat - '0'.toNat)) 0

/-- The optional sign in front of a number: is it negative, and what follows. -/
def splitSign : Str → Bool × Str
  | '-' :: t => (true, t)
  | '+' :: t => (false, t)
  | t => (false, t)

/-- The conversion of `strtol(p, &end, 10)` without its range clamp: skip white
space, read an optional sign, then the longest run of digits. `none` when no
digit follows (no conversion is performed). -/
def strtol (s : Str) : Option Int :=
  let signed := splitSign (s.dropWhile isSpace)
  let ds := signed.2.takeWhile isDigit
  if ds = [] then none
  else if signed.1 then some (-(digitsValue ds : Int)) else some (digitsValue ds : Int)

/-- Is the value representable in a 32-bit `int`? -/
def fitsInt (v : Int) : Bool :=
  decide (-2147483648 ≤ v) && decide (v ≤ 2147483647)

/-- The call `std::stoi(s)`: throws `std::invalid_argument` when no conversion
is performed and `std::out_of_range` when the value does not fit `int`. -/
def stoi (s : Str) : Except Fault Int :=
  match strtol s with
  | none => .error .thrown
  | some v => if fitsInt v then .ok v else .error .thrown

/-- The call `std::atoi(p)`: 0 when no conversion is performed; the behaviour is
undefined when the value does not fit `int`. -/
def atoi (s : Str) : Except Fault Int :=
  match strtol s with
  | none => .ok 0
  | some v => if fitsInt v then .ok v else .error .undefinedBehaviour

/-- The conversion `static_cast<Uint32>(v)` of an `int`. -/
def toUint32 (v : Int) : Nat :=
  (v % 4294967296).toNat

/-- Decimal digits of `n`, least significant first; `fuel` bounds the count. -/
def decimalRev : Nat → Nat → Str
  | 0, _ => []
  | fuel + 1, n =>
    if n < 10 then [Char.ofNat ('0'.toNat + n)]
    else Char.ofNat ('0'.toNat + n % 10) :: decimalRev fuel (n / 10)

/-- The call `std::to_string(n)` for an unsigned `n`. -/
def to_string (n : Nat) : Str :=
  (decimalRev (n + 1) n).reverse

/-! ## Data model -/

/-- The enumeration `ShaderResType`; `Count` is the "not a resource" value the
classification of a declaration starts from. -/
inductive ShaderResType where
  | CBV
  | SRV
  | Sampler
  | UAV
  | Count
  deriving DecidableEq, Repr

/-- Modelled from the spec: the declaration of `ResourceBinding::BindInfo` is not
among the sources. The fields are those the code reads (`BindPoint`, `Space`,
`ArraySize`, `Type`, `UID`), in the order the test initialises them; the field
`Type` is called `ResType` here. All but `ResType` are `Uint32` in the code. -/
structure BindInfo where
  BindPoint : Nat
  Space : Nat
  ArraySize : Nat
  ResType : ShaderResType
  UID : Nat
  deriving DecidableEq, Repr

/-- The binding map `TResourceBindingMap`, as the list of its (name, binding)
pairs in iteration order. -/
abbrev TResourceBindingMap := List (Str × BindInfo)

/-- The struct `ResourceExtendedInfo`; every field starts at `~0u`. -/
structure ResourceExtendedInfo where
  SrcBindPoint : Nat := 4294967295
  SrcSpace : Nat := 4294967295
  RecordId : Nat := 4294967295
  deriving DecidableEq, Repr

/-- The vector `TResourceMapExtendedInfo`, indexed by `BindInfo.UID`. -/
abbrev TResourceMapExtendedInfo := List ResourceExtendedInfo

/-- The two objects the patchers mutate through references. -/
structure PatchState where
  ExtResInfo : TResourceMapExtendedInfo
  DXIL : Str
  deriving DecidableEq, Repr

/-- Result of a patching pass: the final state, or a fault together with the
state the references hold when it is raised. -/
abbrev PatchResult := Except (Fault × PatchState) PatchState

/-! ## PatchResourceDeclaration -/

/-- The constant `i32`. -/
def i32 : Str := "i32 ".toList

/-- The constant `NumberSymbols`. -/
def NumberSymbols : Str := "+-0123456789".toList

/-- The constant `ResourceRecStart`. -/
def ResourceRecStart : Str := "= !\x7b".toList

/-- The constant `EmptyResDecl`. -/
def EmptyResDecl : Str := ", !\x22\x22,".toList

/-- The constant `SamplerPart`. -/
def SamplerPart : Str := "%struct.SamplerState* undef".toList

/-- The constant `TexturePart`. -/
def TexturePart : Str := "%\x22class.Texture".toList

/-- The test `DXIL[pos] == ',' && DXIL[pos + 1] == ' '`; the second character is
read only when the first one matches. -/
def commaSpaceAt (DXIL : Str) (pos : Nat) : Except Fault Bool :=
  match charAt DXIL pos with
  | .error f => .error f
  | .ok c0 =>
    if c0 = ',' then
      match charAt DXIL (pos + 1) with
      | .error f => .error f
      | .ok c1 => .ok (decide (c1 = ' '))
    else .ok false

/-- The lambda `ReplaceRecord`: returns the patched text and the advanced `pos`. -/
def ReplaceRecord (DXIL : Str) (pos : Nat) (NewValue : Str) (ExpectedPrevValue : Nat) :
    Except Fault (Str × Nat) :=
  match commaSpaceAt DXIL pos with
  | .error f => .error f
  | .ok false => .error .thrown
  | .ok true =>
    let pos := pos + 2
    if occursAt i32 DXIL pos then
      let pos := pos + i32.length
      let RecordEndPos := findFirstNotOf NumberSymbols DXIL pos
      -- the check `pos != String::npos` always passes: `pos` is an index here
      match substr DXIL pos RecordEndPos with
      | .error f => .error f
      | .ok field =>
        match stoi field with
        | .error f => .error f
        | .ok v =>
          let PrevValue := toUint32 v
          if PrevValue = ExpectedPrevValue then
            .ok (replace DXIL pos RecordEndPos NewValue, pos + NewValue.length)
          else .error .thrown
    else .error .thrown

/-- What `ReadRecord` leaves behind: `false` with the position it reached, or
`true` with `pos = RecordEndPos` (`none` for `npos`) and the value read. -/
inductive ReadResult where
  | failed (pos : Nat)
  | read (pos : Option Nat) (CurValue : Nat)
  deriving DecidableEq, Repr

/-- The lambda `ReadRecord`. -/
def ReadRecord (DXIL : Str) (pos : Nat) : Except Fault ReadResult :=
  match commaSpaceAt DXIL pos with
  | .error f => .error f
  | .ok false => .ok (.failed pos)
  | .ok true =>
    let pos := pos + 2
    if occursAt i32 DXIL pos then
      let pos := pos + i32.length
      let RecordEndPos := findFirstNotOf NumberSymbols DXIL pos
      -- the check `pos == String::npos` never fires: `pos` is an index here
      match substr DXIL pos RecordEndPos with
      | .error f => .error f
      | .ok field =>
        match stoi field with
        | .error f => .error f
        | .ok v => .ok (.read RecordEndPos (toUint32 v))
    else .ok (.failed pos)

/-- The string `DxilName`: the resource name as a quoted metadata string. -/
def DxilName (Name : Str) : Str :=
  "!\x22".toList ++ Name ++ "\x22".toList

/-- Store `RecordId` into `ExtResInfo[UID]`. -/
def setRecordId (ExtResInfo : TResourceMapExtendedInfo) (UID RecordId : Nat) :
    TResourceMapExtendedInfo :=
  ExtResInfo.modify (fun Ext => { Ext with RecordId := RecordId }) UID

/-- Body of the loop over `ResourceMap` that patches the records carrying a
resource name (ray tracing and non-optimized shaders). -/
def patchNamedRecord (ResPair : Str × BindInfo) (st : PatchState) : PatchResult :=
  match st.ExtResInfo[ResPair.2.UID]? with
  | none => .error (.undefinedBehaviour, st)
  | some Ext =>
    let Space := ResPair.2.Space
    let BindPoint := ResPair.2.BindPoint
    let Name := DxilName ResPair.1
    match find Name st.DXIL 0 with
    | none => .ok st
    | some EndOfResTypeRecord =>
      match rfind ResourceRecStart st.DXIL EndOfResTypeRecord with
      | none => .error (.thrown, st)
      | some pos =>
        let pos := pos + ResourceRecStart.length
        if occursAt i32 st.DXIL pos then
          let pos := pos + i32.length
          let RecordIdStartPos := pos
          match findFirstNotOf NumberSymbols st.DXIL pos with
          | none => .error (.thrown, st)
          | some _ =>
            match atoi (st.DXIL.drop RecordIdStartPos) with
            | .error f => .error (f, st)
            | .ok id =>
              let RecordId := toUint32 id
              let ext := setRecordId st.ExtResInfo ResPair.2.UID RecordId
              let pos := EndOfResTypeRecord + Name.length
              match ReplaceRecord st.DXIL pos (to_string Space) Ext.SrcSpace with
              | .error f => .error (f, ⟨ext, st.DXIL⟩)
              | .ok (DXIL, pos) =>
                match ReplaceRecord DXIL pos (to_string BindPoint) Ext.SrcBindPoint with
                | .error f => .error (f, ⟨ext, DXIL⟩)
                | .ok (DXIL, _) => .ok ⟨ext, DXIL⟩
        else .error (.thrown, st)

/-- The first loop of `PatchResourceDeclaration`: every entry of the map in turn. -/
def patchNamedRecords : TResourceBindingMap → PatchState → PatchResult
  | [], st => .ok st
  | ResPair :: rest, st =>
    match patchNamedRecord ResPair st with
    | .error e => .error e
    | .ok st => patchNamedRecords rest st

/-- The type name `CBName` of a constant buffer in a stripped declaration. -/
def CBName (Name : Str) : Str :=
  "%".toList ++ Name ++ "* undef".toList

/-- Classification of the type signature at `pos` of a stripped declaration;
`Count` when it is none of the recognised shapes. -/
def classifyResType (ResourceMap : TResourceBindingMap) (DXIL : Str) (pos : Nat) :
    ShaderResType :=
  if occursAt TexturePart DXIL pos then .SRV
  else if occursAt SamplerPart DXIL pos then .Sampler
  else if ResourceMap.any
      (fun NameAndBinding =>
        decide (NameAndBinding.2.ResType = .CBV) && occursAt (CBName NameAndBinding.1) DXIL pos)
    then .CBV
  else .Count

/-- The search "in resource map" of the second loop: the first entry whose
recorded source bind point, source space and type are the ones given. -/
def findBySource (ExtResInfo : TResourceMapExtendedInfo) (BindPoint Space : Nat)
    (ResType : ShaderResType) :
    TResourceBindingMap → Except Fault (Option ((Str × BindInfo) × ResourceExtendedInfo))
  | [] => .ok none
  | NameAndBinding :: rest =>
    match ExtResInfo[NameAndBinding.2.UID]? with
    | none => .error .undefinedBehaviour
    | some Ext =>
      if Ext.SrcBindPoint = BindPoint ∧ Ext.SrcSpace = Space ∧ NameAndBinding.2.ResType = ResType
      then .ok (some (NameAndBinding, Ext))
      else findBySource ExtResInfo BindPoint Space ResType rest

/-- One pass through the body of the second loop of `PatchResourceDeclaration`
(optimized shaders without names), entered with `pos < DXIL.size()`: `none` is
`break`, `some (st, pos)` is the state and position the next iteration starts
from. -/
def patchAnonymousStep (ResourceMap : TResourceBindingMap) (st : PatchState) (pos : Nat) :
    Except (Fault × PatchState) (Option (PatchState × Nat)) :=
  match find EmptyResDecl st.DXIL pos with
  | none => .ok none
  | some EndOfResTypeRecord =>
    let BindingRecordStart := EndOfResTypeRecord + EmptyResDecl.length - 1
    match rfind ResourceRecStart st.DXIL EndOfResTypeRecord with
    | none => .error (.thrown, st)
    | some pos =>
      let pos := pos + ResourceRecStart.length
      if occursAt i32 st.DXIL pos then
        let pos := pos + i32.length
        let RecordIdStartPos := pos
        match findFirstNotOf NumberSymbols st.DXIL pos with
        | none => .error (.thrown, st)
        | some pos =>
          match atoi (st.DXIL.drop RecordIdStartPos) with
          | .error f => .error (f, st)
          | .ok id =>
            let RecordId := toUint32 id
            match commaSpaceAt st.DXIL pos with
            | .error f => .error (f, st)
            | .ok false => .error (.thrown, st)
            | .ok true =>
              let pos := pos + 2
              let ResType := classifyResType ResourceMap st.DXIL pos
              if ResType = .Count then .ok (some (st, BindingRecordStart))
              else
                match ReadRecord st.DXIL BindingRecordStart with
                | .error f => .error (f, st)
                | .ok (.failed pos) => .ok (some (st, pos))
                | .ok (.read none _) => .error (.undefinedBehaviour, st)
                | .ok (.read (some pos) Space) =>
                  match ReadRecord st.DXIL pos with
                  | .error f => .error (f, st)
                  | .ok (.failed pos) => .ok (some (st, pos))
                  | .ok (.read _ BindPoint) =>
                    match findBySource st.ExtResInfo BindPoint Space ResType ResourceMap with
                    | .error f => .error (f, st)
                    | .ok none => .error (.thrown, st)
                    | .ok (some (ResPair, Ext)) =>
                      let ext := setRecordId st.ExtResInfo ResPair.2.UID RecordId
                      match ReplaceRecord st.DXIL BindingRecordStart (to_string ResPair.2.Space)
                          Ext.SrcSpace with
                      | .error f => .error (f, ⟨ext, st.DXIL⟩)
                      | .ok (DXIL, pos) =>
                        match ReplaceRecord DXIL pos (to_string ResPair.2.BindPoint)
                            Ext.SrcBindPoint with
                        | .error f => .error (f, ⟨ext, DXIL⟩)
                        | .ok (DXIL, pos) => .ok (some (⟨ext, DXIL⟩, pos))
      else .ok (some (st, BindingRecordStart))

/-- The second loop of `PatchResourceDeclaration`,
`for (size_t pos = 0; pos < DXIL.size();)`, with at most `fuel` iterations. -/
def patchAnonymousRecords (ResourceMap : TResourceBindingMap) :
    Nat → PatchState → Nat → PatchResult
  | 0, st, pos => if pos < st.DXIL.length then .error (.outOfFuel, st) else .ok st
  | fuel + 1, st, pos =>
    if pos < st.DXIL.length then
      match patchAnonymousStep ResourceMap st pos with
      | .error e => .error e
      | .ok none => .ok st
      | .ok (some (st, pos)) => patchAnonymousRecords ResourceMap fuel st pos
    else .ok st

/-- The function `DXCompilerImpl::PatchResourceDeclaration`. Every iteration of
the second loop moves `pos` forward, so one unit of fuel per character is
enough. -/
def PatchResourceDeclaration (ResourceMap : TResourceBindingMap) (st : PatchState) :
    PatchResult :=
  match patchNamedRecords ResourceMap st with
  | .error e => .error e
  | .ok st => patchAnonymousRecords ResourceMap (st.DXIL.length + 1) st 0

/-! ## PatchResourceHandle -/

/-- The constant `CallHandlePattern`. -/
def CallHandlePattern : Str := " = call %dx.types.Handle @dx.op.createHandle(".toList

/-- The constant `i8`. -/
def i8 : Str := "i8 ".toList

/-- The table `ResClassToType`. -/
def ResClassToType : List ShaderResType := [.SRV, .UAV, .CBV, .Sampler]

/-- Scan of `NextArg` over the characters from `pos` on. -/
def NextArgAux : Str → Nat → Bool × Nat
  | [], pos => (false, pos)
  | c :: cs, pos =>
    if c = ',' then (true, pos)
    else if c = ')' ∨ c = '\n' then (false, pos)
    else NextArgAux cs (pos + 1)

/-- The lambda `NextArg`: the result and the advanced `pos`. -/
def NextArg (DXIL : Str) (pos : Nat) : Bool × Nat :=
  NextArgAux (DXIL.drop pos) pos

/-- The search of `ReplaceBindPoint`: the first entry whose record id and type
are the ones of the call and whose source range holds `SrcIndex`. The upper
bound is computed in 32 bits, as in the source. -/
def findByRange (ExtResInfo : TResourceMapExtendedInfo) (RangeId : Nat) (ResType : ShaderResType)
    (SrcIndex : Nat) :
    TResourceBindingMap → Except Fault (Option ((Str × BindInfo) × ResourceExtendedInfo))
  | [] => .ok none
  | NameAndBinding :: rest =>
    match ExtResInfo[NameAndBinding.2.UID]? with
    | none => .error .undefinedBehaviour
    | some Ext =>
      if Ext.RecordId = RangeId ∧ NameAndBinding.2.ResType = ResType ∧
          Ext.SrcBindPoint ≤ SrcIndex ∧
          SrcIndex < (Ext.SrcBindPoint + NameAndBinding.2.ArraySize) % 4294967296
      then .ok (some (NameAndBinding, Ext))
      else findByRange ExtResInfo RangeId ResType SrcIndex rest

/-- The lambda `ReplaceBindPoint`: the text with the index in
`[IndexStartPos, IndexEndPos)` replaced. -/
def ReplaceBindPoint (ResourceMap : TResourceBindingMap) (ExtResInfo : TResourceMapExtendedInfo)
    (DXIL : Str) (ResClass RangeId IndexStartPos IndexEndPos : Nat) : Except Fault Str :=
  match substr DXIL IndexStartPos (some IndexEndPos) with
  | .error f => .error f
  | .ok SrcIndexStr =>
    match stoi SrcIndexStr with
    | .error f => .error f
    | .ok v =>
      let SrcIndex := toUint32 v
      match ResClassToType[ResClass]? with
      | none => .error .undefinedBehaviour
      | some ResType =>
        match findByRange ExtResInfo RangeId ResType SrcIndex ResourceMap with
        | .error f => .error f
        | .ok none => .error .thrown
        | .ok (some (ResPair, Ext)) =>
          let IndexOffset := (SrcIndex + 4294967296 - Ext.SrcBindPoint) % 4294967296
          let NewIndexStr := to_string ((ResPair.2.BindPoint + IndexOffset) % 4294967296)
          .ok (replace DXIL IndexStartPos (some IndexEndPos) NewIndexStr)

/-- The "dynamic bind point" branch: the index operand `SrcIndexStr` is a
temporary; patch the constant of the `add i32` that defines it. -/
def patchDynamicIndex (ResourceMap : TResourceBindingMap) (ExtResInfo : TResourceMapExtendedInfo)
    (DXIL : Str) (ResClass RangeId IndexEndPos : Nat) (SrcIndexStr : Str) : Except Fault Str :=
  let IndexDecl := SrcIndexStr ++ " = add i32 ".toList
  match rfind IndexDecl DXIL IndexEndPos with
  | none => .error .thrown
  | some IndexDeclPos =>
    let pos := IndexDeclPos + IndexDecl.length
    match charAt DXIL pos with
    | .error f => .error f
    | .ok c =>
      if c = '%' then
        -- first arg is variable, move to second arg
        match NextArg DXIL pos with
        | (false, _) => .error .thrown
        | (true, pos) =>
          let pos := pos + 2
          match charAt DXIL pos with
          | .error f => .error f
          | .ok d =>
            if isDigit d then
              let ArgStart := pos
              match NextArg DXIL pos with
              | (false, _) => .error .thrown
              | (true, ArgEnd) =>
                ReplaceBindPoint ResourceMap ExtResInfo DXIL ResClass RangeId ArgStart ArgEnd
            else .error .thrown
      else
        -- first arg is a constant
        let ArgStart := pos
        match NextArg DXIL pos with
        | (false, _) => .error .thrown
        | (true, ArgEnd) =>
          ReplaceBindPoint ResourceMap ExtResInfo DXIL ResClass RangeId ArgStart ArgEnd

/-- The steps "`, `, type keyword, operand" that the loop repeats for the
resource class, the range id and the index: entered with `pos` on the comma,
returns the start of the operand and the position `NextArg` stops at. -/
def readOperand (DXIL : Str) (ty : Str) (pos : Nat) : Except Fault (Nat × Nat) :=
  match commaSpaceAt DXIL pos with
  | .error f => .error f
  | .ok false => .error .thrown
  | .ok true =>
    let pos := pos + 2
    if occursAt ty DXIL pos then
      let pos := pos + ty.length
      match NextArg DXIL pos with
      | (false, _) => .error .thrown
      | (true, stop) => .ok (pos, stop)
    else .error .thrown

/-- One pass through the body of the loop of `PatchResourceHandle`, entered with
`pos < DXIL.size()`: `none` is `break`, `some (DXIL, pos)` is the text and the
position the next iteration starts from. -/
def patchHandleStep (ResourceMap : TResourceBindingMap) (ExtResInfo : TResourceMapExtendedInfo)
    (DXIL : Str) (pos : Nat) : Except Fault (Option (Str × Nat)) :=
  match find CallHandlePattern DXIL pos with
  | none => .ok none
  | some callHandlePos =>
    let pos := callHandlePos + CallHandlePattern.length
    -- skip opcode
    if occursAt i32 DXIL pos then
      let pos := pos + i32.length
      match NextArg DXIL pos with
      | (false, _) => .error .thrown
      | (true, pos) =>
        -- read resource class
        match readOperand DXIL i8 pos with
        | .error f => .error f
        | .ok (ResClassStartPos, pos) =>
          match atoi (DXIL.drop ResClassStartPos) with
          | .error f => .error f
          | .ok cls =>
            let ResClass := toUint32 cls
            -- read resource range ID
            match readOperand DXIL i32 pos with
            | .error f => .error f
            | .ok (RangeIdStartPos, pos) =>
              match atoi (DXIL.drop RangeIdStartPos) with
              | .error f => .error f
              | .ok rid =>
                let RangeId := toUint32 rid
                -- read index in range
                match readOperand DXIL i32 pos with
                | .error f => .error f
                | .ok (IndexStartPos, IndexEndPos) =>
                  match substr DXIL IndexStartPos (some IndexEndPos) with
                  | .error f => .error f
                  | .ok [] => .error .thrown
                  | .ok (c :: cs) =>
                    let patched :=
                      if c = '%' then
                        patchDynamicIndex ResourceMap ExtResInfo DXIL ResClass RangeId IndexEndPos
                          (c :: cs)
                      else
                        ReplaceBindPoint ResourceMap ExtResInfo DXIL ResClass RangeId IndexStartPos
                          IndexEndPos
                    match patched with
                    | .error f => .error f
                    | .ok DXIL => .ok (some (DXIL, IndexEndPos))
    else .error .thrown

/-- The loop of `PatchResourceHandle`, `for (size_t pos = 0; pos < DXIL.size();)`,
with at most `fuel` iterations. -/
def patchHandles (ResourceMap : TResourceBindingMap) :
    Nat → PatchState → Nat → PatchResult
  | 0, st, pos => if pos < st.DXIL.length then .error (.outOfFuel, st) else .ok st
  | fuel + 1, st, pos =>
    if pos < st.DXIL.length then
      match patchHandleStep ResourceMap st.ExtResInfo st.DXIL pos with
      | .error f => .error (f, st)
      | .ok none => .ok st
      | .ok (some (DXIL, pos)) => patchHandles ResourceMap fuel ⟨st.ExtResInfo, DXIL⟩ pos
    else .ok st

/-- The function `DXCompilerImpl::PatchResourceHandle`. Every iteration moves
`pos` past a call pattern, so one unit of fuel per character is enough. -/
def PatchResourceHandle (ResourceMap : TResourceBindingMap) (st : PatchState) : PatchResult :=
  patchHandles ResourceMap (st.DXIL.length + 1) st 0

/-- The handler `catch (...)` of `PatchDXIL`: an exception becomes the result
`false`; the references keep what was written before it was raised. -/
def catchAll : PatchResult → Except (Fault × PatchState) (Bool × PatchState)
  | .ok st => .ok (true, st)
  | .error (.thrown, st) => .ok (false, st)
  | .error e => .error e

/-- The function `DXCompilerImpl::PatchDXIL`. -/
def PatchDXIL (ResourceMap : TResourceBindingMap) (st : PatchState) :
    Except (Fault × PatchState) (Bool × PatchState) :=
  catchAll
    (match PatchResourceDeclaration ResourceMap st with
     | .error e => .error e
     | .ok st => PatchResourceHandle ResourceMap st)

/-! ## IsDXILBytecode -/

/-- The declarations of `dxc/DxilContainer/DxilContainer.h` that `IsDXILBytecode`
uses; the header is not among the sources, so they are a parameter: the sizes of
`DxilContainerHeader` and `DxilPartHeader`, the byte offsets of the fields read,
and the three constants compared against. -/
structure ContainerLayout where
  sizeofContainerHeader : Nat
  offsetofHeaderFourCC : Nat
  offsetofVersionMajor : Nat
  offsetofPartCount : Nat
  sizeofPartHeader : Nat
  offsetofPartFourCC : Nat
  DFCC_Container : Nat
  DxilContainerVersionMajor : Nat
  DFCC_DXIL : Nat
  deriving DecidableEq, Repr

/-- Every field read lies inside its struct. -/
def ContainerLayout.WellFormed (L : ContainerLayout) : Prop :=
  L.offsetofHeaderFourCC + 4 ≤ L.sizeofContainerHeader ∧
  L.offsetofVersionMajor + 2 ≤ L.sizeofContainerHeader ∧
  L.offsetofPartCount + 4 ≤ L.sizeofContainerHeader ∧
  L.offsetofPartFourCC + 4 ≤ L.sizeofPartHeader

/-- The layout of the DirectX shader compiler headers (packed structs: fourCC,
16-byte hash, 16-bit major and minor version, container size, part count; part
fourCC, part size), with the fourCCs "DXBC" and "DXIL" and major version 1. -/
def dxcLayout : ContainerLayout :=
  { sizeofContainerHeader := 32
    offsetofHeaderFourCC := 0
    offsetofVersionMajor := 20
    offsetofPartCount := 28
    sizeofPartHeader := 8
    offsetofPartFourCC := 0
    DFCC_Container := 0x43425844
    DxilContainerVersionMajor := 1
    DFCC_DXIL := 0x4C495844 }

/-- Little-endian value of a run of bytes. -/
def littleEndian : List Nat → Nat
  | [] => 0
  | b :: bs => b % 256 + 256 * littleEndian bs

/-- Load of a `width`-byte unsigned integer at byte offset `off` of the buffer;
undefined behaviour unless all its bytes lie inside the buffer. -/
def load (buf : List Nat) (off width : Nat) : Except Fault Nat :=
  if off + width ≤ buf.length then .ok (littleEndian ((buf.drop off).take width))
  else .error .undefinedBehaviour

/-- The loop `for (uint32_t part = 0; part < PartCount; ++part)` of
`IsDXILBytecode`, with `remaining = PartCount - part`; `PartOffsets` is the
byte offset of the table. -/
def scanParts (L : ContainerLayout) (buf : List Nat) (PartOffsets : Nat) :
    Nat → Nat → Except Fault Bool
  | 0, _ => .ok false
  | remaining + 1, part =>
    match load buf (PartOffsets + 4 * part) 4 with
    | .error f => .error f
    | .ok Offset =>
      if Offset + L.sizeofPartHeader > buf.length then .ok false
      else
        match load buf (Offset + L.offsetofPartFourCC) 4 with
        | .error f => .error f
        | .ok PartFourCC =>
          if PartFourCC = L.DFCC_DXIL then .ok true
          else scanParts L buf PartOffsets remaining (part + 1)

/-- The function `IsDXILBytecode(pBytecode, Size)` on the buffer `buf` of `Size`
bytes; pointers are byte offsets from `data_begin` and `size_t` has 64 bits. -/
def IsDXILBytecode (L : ContainerLayout) (buf : List Nat) : Except Fault Bool :=
  if L.sizeofContainerHeader > buf.length then .ok false
  else
    match load buf L.offsetofHeaderFourCC 4 with
    | .error f => .error f
    | .ok HeaderFourCC =>
      if HeaderFourCC ≠ L.DFCC_Container then .ok false
      else
        match load buf L.offsetofVersionMajor 2 with
        | .error f => .error f
        | .ok Major =>
          if Major ≠ L.DxilContainerVersionMajor then .ok false
          else
            match load buf L.offsetofPartCount 4 with
            | .error f => .error f
            | .ok PartCount =>
              if L.sizeofContainerHeader + (4 * PartCount) % 18446744073709551616 > buf.length
              then .ok false
              else scanParts L buf L.sizeofContainerHeader PartCount 0

/-! ## Shapes of the input that the theorems speak about -/

/-- A field literal `lit` followed by `tail`: number symbols only, and `tail`
does not go on with one. -/
def FieldEnds (lit tail : Str) : Prop :=
  (∀ c ∈ lit, c ∈ NumberSymbols) ∧ (∀ c, tail.head? = some c → c ∉ NumberSymbols)

/-- Where the scan for the end of a field that starts at `p` stops. -/
def fieldStop (p : Nat) (lit tail : Str) : Option Nat :=
  if tail = [] then none else some (p + lit.length)

/-- A nonempty run of decimal digits `ds` followed by `tail`, which does not go
on with a digit. -/
def DigitsEnd (ds tail : Str) : Prop :=
  ds ≠ [] ∧ (∀ c ∈ ds, isDigit c = true) ∧ (∀ c, tail.head? = some c → isDigit c = false)

/-- The start of a metadata resource record up to its name field:
`head = !{i32 idLit, mid`. -/
def recordPrefix (head idLit mid : Str) : Str :=
  head ++ ResourceRecStart ++ i32 ++ idLit ++ ", ".toList ++ mid

/-- The text `DXIL` holds the metadata resource record
`= !{i32 idLit, mid!"Name", i32 sp, i32 bp tail` after `head`, and the quoted
`Name` is located in it: it does not occur earlier in the text, no `= !{` lies
between the start of the record and the name, the record id is a run of digits
that fits `int`, and `sp`, `bp` are the complete space and bind-point fields. -/
structure NamedRecord (DXIL Name head idLit mid sp bp tail : Str) : Prop where
  text : DXIL = recordPrefix head idLit mid ++ DxilName Name ++ ", i32 ".toList ++ sp ++
    ", i32 ".toList ++ bp ++ tail
  firstName : ∀ j, j < (recordPrefix head idLit mid).length → occursAt (DxilName Name) DXIL j = false
  lastStart : ∀ j, j ≤ (recordPrefix head idLit mid).length → head.length < j →
    occursAt ResourceRecStart DXIL j = false
  idDigits : idLit ≠ [] ∧ ∀ c ∈ idLit, isDigit c = true
  idFits : digitsValue idLit ≤ 2147483647
  space : ∀ c ∈ sp, c ∈ NumberSymbols
  bind : FieldEnds bp tail

/-- The shape `FieldEnds` can be checked by evaluation. -/
instance instDecidableFieldEnds (lit tail : Str) : Decidable (FieldEnds lit tail) :=
  decidable_of_iff ((∀ c ∈ lit, c ∈ NumberSymbols) ∧ (∀ c ∈ tail.take 1, c ∉ NumberSymbols))
    (by cases tail <;> simp [FieldEnds])

/-- The shape `DigitsEnd` can be checked by evaluation. -/
instance instDecidableDigitsEnd (ds tail : Str) : Decidable (DigitsEnd ds tail) :=
  decidable_of_iff (ds ≠ [] ∧ (∀ c ∈ ds, isDigit c = true) ∧ (∀ c ∈ tail.take 1, isDigit c = false))
    (by cases tail <;> simp [DigitsEnd])

/-- The text of a named record after its two fields were replaced. -/
def patchedNamedText (Name head idLit mid sp bp tail : Str) : Str :=
  recordPrefix head idLit mid ++ DxilName Name ++ ", i32 ".toList ++ sp ++ ", i32 ".toList ++ bp ++
    tail

/-- The text of a stripped (anonymous) metadata resource record after `head`:
`= !{i32 idLit, ty, !"", i32 sp, i32 bp tail`. -/
def anonymousText (head idLit ty sp bp tail : Str) : Str :=
  recordPrefix head idLit ty ++ ", !\x22\x22".toList ++ ", i32 ".toList ++ sp ++ ", i32 ".toList ++
    bp ++ tail

/-- The text `DXIL` holds the stripped record `anonymousText head idLit ty sp bp tail`,
and the scan from `pos` locates it: its marker `, !"",` is the first one at or
after `pos`, no `= !{` lies between the start of the record and the marker, the
record id is a run of digits that fits `int`, and `sp`, `bp` are the complete
space and bind-point fields. -/
structure AnonymousRecord (DXIL : Str) (pos : Nat) (head idLit ty sp bp tail : Str) : Prop where
  text : DXIL = anonymousText head idLit ty sp bp tail
  start : pos ≤ (recordPrefix head idLit ty).length
  firstMarker : ∀ j, j < (recordPrefix head idLit ty).length → pos ≤ j →
    occursAt EmptyResDecl DXIL j = false
  lastStart : ∀ j, j ≤ (recordPrefix head idLit ty).length → head.length < j →
    occursAt ResourceRecStart DXIL j = false
  idDigits : idLit ≠ [] ∧ ∀ c ∈ idLit, isDigit c = true
  idFits : digitsValue idLit ≤ 2147483647
  space : ∀ c ∈ sp, c ∈ NumberSymbols
  bind : FieldEnds bp tail

/-- Every entry of the map has a slot in the extended-info table. -/
def ValidUIDs (ResourceMap : TResourceBindingMap) (ExtResInfo : TResourceMapExtendedInfo) : Prop :=
  ∀ nb ∈ ResourceMap, nb.2.UID < ExtResInfo.length

/-- The shape `ValidUIDs` can be checked by evaluation. -/
instance instDecidableValidUIDs (ResourceMap : TResourceBindingMap)
    (ExtResInfo : TResourceMapExtendedInfo) : Decidable (ValidUIDs ResourceMap ExtResInfo) :=
  inferInstanceAs (Decidable (∀ nb ∈ ResourceMap, nb.2.UID < ExtResInfo.length))

/-- The entry `nb` carries the source triple (`Space`, `BindPoint`, `ResType`). -/
def HasSource (ExtResInfo : TResourceMapExtendedInfo) (BindPoint Space : Nat)
    (ResType : ShaderResType) (nb : Str × BindInfo) : Prop :=
  ∃ Ext, ExtResInfo[nb.2.UID]? = some Ext ∧ Ext.SrcBindPoint = BindPoint ∧ Ext.SrcSpace = Space ∧
    nb.2.ResType = ResType

/-- The type signature `ty` of a stripped declaration is one of the shapes the
positional pass recognises, as resource type `cls`: it starts with the texture
part, or with the sampler part, or (being neither) with the type name built from
the name of a constant-buffer entry of the map. -/
inductive RecognisedAs (ResourceMap : TResourceBindingMap) (ty : Str) : ShaderResType → Prop where
  | texture : TexturePart <+: ty → RecognisedAs ResourceMap ty .SRV
  | sampler : SamplerPart <+: ty → RecognisedAs ResourceMap ty .Sampler
  | cbuffer (nb : Str × BindInfo) : nb ∈ ResourceMap → nb.2.ResType = .CBV → CBName nb.1 <+: ty →
      ¬ TexturePart <+: ty → ¬ SamplerPart <+: ty → RecognisedAs ResourceMap ty .CBV

/-- An operand text: none of its characters stops `NextArg`. -/
def NoStop (s : Str) : Prop :=
  ∀ c ∈ s, c ≠ ',' ∧ c ≠ ')' ∧ c ≠ '\n'

/-- The shape `NoStop` can be checked by evaluation. -/
instance instDecidableNoStop (s : Str) : Decidable (NoStop s) :=
  inferInstanceAs (Decidable (∀ c ∈ s, c ≠ ',' ∧ c ≠ ')' ∧ c ≠ '\n'))

/-- The text of a program that holds, after `pre`, the call
`= call %dx.types.Handle @dx.op.createHandle(i32 op, i8 clsLit, i32 ridLit, i32 idx,rest`. -/
def callText (pre op clsLit ridLit idx rest : Str) : Str :=
  pre ++ CallHandlePattern ++ i32 ++ op ++ ", ".toList ++ i8 ++ clsLit ++ ", ".toList ++ i32 ++
    ridLit ++ ", ".toList ++ i32 ++ idx ++ ',' :: rest

/-- The text `DXIL` holds the createHandle call `callText pre op clsLit ridLit idx rest`
and the scan from `pos` locates it: its pattern is the first one at or after
`pos`, the opcode and the index operand hold no character that stops `NextArg`,
the index operand is not empty, and the resource class and the range id are
runs of digits that fit `int`. -/
structure HandleSite (DXIL : Str) (pos : Nat) (pre op clsLit ridLit idx rest : Str) : Prop where
  text : DXIL = callText pre op clsLit ridLit idx rest
  start : pos ≤ pre.length
  firstCall : ∀ j, j < pre.length → pos ≤ j → occursAt CallHandlePattern DXIL j = false
  opcode : NoStop op
  clsDigits : clsLit ≠ [] ∧ ∀ c ∈ clsLit, isDigit c = true
  clsFits : digitsValue clsLit ≤ 2147483647
  ridDigits : ridLit ≠ [] ∧ ∀ c ∈ ridLit, isDigit c = true
  ridFits : digitsValue ridLit ≤ 2147483647
  index : idx ≠ [] ∧ NoStop idx

/-- Position of the index operand of a located call. -/
def indexStart (pre op clsLit ridLit : Str) : Nat :=
  (pre ++ CallHandlePattern ++ i32 ++ op ++ ", ".toList ++ i8 ++ clsLit ++ ", ".toList ++ i32 ++
    ridLit ++ ", ".toList ++ i32).length

/-- The entry `nb` resolves a call: its record id and type are the ones of the
call and its source range `[SrcBindPoint, SrcBindPoint + ArraySize)` holds the
index; the upper bound is the 32-bit sum the source computes. -/
def Resolves (ExtResInfo : TResourceMapExtendedInfo) (RangeId : Nat) (ResType : ShaderResType)
    (SrcIndex : Nat) (nb : Str × BindInfo) : Prop :=
  ∃ Ext, ExtResInfo[nb.2.UID]? = some Ext ∧ Ext.RecordId = RangeId ∧ nb.2.ResType = ResType ∧
    Ext.SrcBindPoint ≤ SrcIndex ∧
    SrcIndex < (Ext.SrcBindPoint + nb.2.ArraySize) % 4294967296

/-- The text `IndexDecl` that defines the temporary `idx` by an addition. -/
def IndexDecl (idx : Str) : Str :=
  idx ++ " = add i32 ".toList

/-- Where the loop body of `PatchResourceHandle` takes the index value it
resolves: `used` is the text of that value and `ArgStart` its position in
`DXIL`, for a call whose index operand `idx` starts at `IndexStartPos`.
Either the operand is not a temporary and is itself the value (`literal`), or
it is a temporary `%t`; then the last `%t = add i32 ` that starts at or before
the end of the operand is followed by `used,` (`addConstantFirst`), or by a
variable, a comma, one more character, and `used,` where `used` starts with a
digit (`addVariableFirst`). -/
inductive UsedIndex (DXIL idx : Str) (IndexStartPos : Nat) (used : Str) (ArgStart : Nat) : Prop where
  | literal : idx.head? ≠ some '%' → used = idx → ArgStart = IndexStartPos →
      UsedIndex DXIL idx IndexStartPos used ArgStart
  | addConstantFirst (a more : Str) :
      idx.head? = some '%' →
      DXIL = a ++ IndexDecl idx ++ used ++ ',' :: more →
      a.length ≤ IndexStartPos + idx.length →
      (∀ j, j ≤ IndexStartPos + idx.length → a.length < j →
        occursAt (IndexDecl idx) DXIL j = false) →
      used.head? ≠ some '%' → NoStop used →
      ArgStart = a.length + (IndexDecl idx).length →
      UsedIndex DXIL idx IndexStartPos used ArgStart
  | addVariableFirst (a v more : Str) (x : Char) :
      idx.head? = some '%' →
      DXIL = a ++ IndexDecl idx ++ '%' :: v ++ ',' :: x :: used ++ ',' :: more →
      a.length ≤ IndexStartPos + idx.length →
      (∀ j, j ≤ IndexStartPos + idx.length → a.length < j →
        occursAt (IndexDecl idx) DXIL j = false) →
      NoStop v → (∃ d ds, used = d :: ds ∧ isDigit d = true) → NoStop used →
      ArgStart = a.length + (IndexDecl idx).length + 1 + v.length + 2 →
      UsedIndex DXIL idx IndexStartPos used ArgStart

/-- The unsigned integer of `width` bytes stored little-endian at byte offset
`off` of the buffer. -/
def field (buf : List Nat) (off width : Nat) : Nat :=
  littleEndian ((buf.drop off).take width)

/-- The `k`-th entry of the part-offset table that follows the header. -/
def partOffset (L : ContainerLayout) (buf : List Nat) (k : Nat) : Nat :=
  field buf (L.sizeofContainerHeader + 4 * k) 4

/-- The part count stored in the header. -/
def partCount (L : ContainerLayout) (buf : List Nat) : Nat :=
  field buf L.offsetofPartCount 4

/-- The header checks of `IsDXILBytecode`: the buffer holds a container header
with the container fourCC and the supported major version, and the part-offset
table fits in the buffer after the header. -/
def ValidHeader (L : ContainerLayout) (buf : List Nat) : Prop :=
  L.sizeofContainerHeader ≤ buf.length ∧
  field buf L.offsetofHeaderFourCC 4 = L.DFCC_Container ∧
  field buf L.offsetofVersionMajor 2 = L.DxilContainerVersionMajor ∧
  L.sizeofContainerHeader + 4 * partCount L buf ≤ buf.length

/-- The shape `ContainerLayout.WellFormed` can be checked by evaluation. -/
instance instDecidableWellFormed (L : ContainerLayout) : Decidable L.WellFormed :=
  inferInstanceAs (Decidable (_ ∧ _ ∧ _ ∧ _))

/-- The shape `ValidHeader` can be checked by evaluation. -/
instance instDecidableValidHeader (L : ContainerLayout) (buf : List Nat) :
    Decidable (ValidHeader L buf) :=
  inferInstanceAs (Decidable (_ ∧ _ ∧ _ ∧ _))

/-- Some part `k` carries the DXIL fourCC, and it and all parts before it have
their part header inside the buffer. -/
def HasReachableDxilPart (L : ContainerLayout) (buf : List Nat) : Prop :=
  ∃ k, k < partCount L buf ∧
    field buf (partOffset L buf k + L.offsetofPartFourCC) 4 = L.DFCC_DXIL ∧
    ∀ j, j ≤ k → partOffset L buf j + L.sizeofPartHeader ≤ buf.length

/-- The marker `, !"",` at `m`, the first one at or after `pos`, belongs to a
candidate that is not a resource declaration. Either the last `= !{` before it
is not followed by `i32 ` (`notRecord`), or it is followed by `i32 `, a record
id of digits, `, ` and a type signature that starts with neither the texture
part, nor the sampler part, nor the type name of a constant buffer of the map
(`unrecognised`). -/
inductive SkippedCandidate (ResourceMap : TResourceBindingMap) (DXIL : Str) (pos m : Nat) : Prop where
  | notRecord (head body rest : Str) :
      DXIL = head ++ ResourceRecStart ++ body ++ EmptyResDecl ++ rest →
      m = (head ++ ResourceRecStart ++ body).length →
      pos ≤ m →
      (∀ j, j < m → pos ≤ j → occursAt EmptyResDecl DXIL j = false) →
      (∀ j, j ≤ m → head.length < j → occursAt ResourceRecStart DXIL j = false) →
      ¬ i32 <+: body ++ EmptyResDecl ++ rest →
      SkippedCandidate ResourceMap DXIL pos m
  | unrecognised (head idLit ty rest : Str) :
      DXIL = recordPrefix head idLit ty ++ EmptyResDecl ++ rest →
      m = (recordPrefix head idLit ty).length →
      pos ≤ m →
      (∀ j, j < m → pos ≤ j → occursAt EmptyResDecl DXIL j = false) →
      (∀ j, j ≤ m → head.length < j → occursAt ResourceRecStart DXIL j = false) →
      (idLit ≠ [] ∧ ∀ c ∈ idLit, isDigit c = true) →
      digitsValue idLit ≤ 2147483647 →
      ¬ TexturePart <+: ty ++ EmptyResDecl ++ rest →
      ¬ SamplerPart <+: ty ++ EmptyResDecl ++ rest →
      (∀ nb ∈ ResourceMap, nb.2.ResType = .CBV → ¬ CBName nb.1 <+: ty ++ EmptyResDecl ++ rest) →
      SkippedCandidate ResourceMap DXIL pos m

/-- A dynamic index the handle pass does not support, for a call whose index
operand is the temporary `idx` and ends at `IndexEndPos`. Either no
`idx = add i32 ` starts at or before the end of the operand (`noDefinition`);
or the last one is followed by a variable, a comma, one more character and a
text that does not start with a digit, such as a second variable
(`secondNotConstant`); or it is followed by an operand `C` that is not a
variable and in which `std::stoi` finds no number that fits `int`
(`firstNotInteger`). -/
inductive UnsupportedIndex (DXIL idx : Str) (IndexEndPos : Nat) : Prop where
  | noDefinition :
      (∀ j, j ≤ IndexEndPos → occursAt (IndexDecl idx) DXIL j = false) →
      UnsupportedIndex DXIL idx IndexEndPos
  | secondNotConstant (a v more : Str) (x y : Char) :
      DXIL = a ++ IndexDecl idx ++ '%' :: v ++ ',' :: x :: y :: more →
      a.length ≤ IndexEndPos →
      (∀ j, j ≤ IndexEndPos → a.length < j → occursAt (IndexDecl idx) DXIL j = false) →
      NoStop v → isDigit y = false →
      UnsupportedIndex DXIL idx IndexEndPos
  | firstNotInteger (a C more : Str) :
      DXIL = a ++ IndexDecl idx ++ C ++ ',' :: more →
      a.length ≤ IndexEndPos →
      (∀ j, j ≤ IndexEndPos → a.length < j → occursAt (IndexDecl idx) DXIL j = false) →
      C.head? ≠ some '%' → NoStop C → stoi C = .error .thrown →
      UnsupportedIndex DXIL idx IndexEndPos

/-- The identity remap: every entry of the map asks for the space and the bind
point that its slot of the extended-info table records as the source. -/
def IdentityRemap (ResourceMap : TResourceBindingMap) (ExtResInfo : TResourceMapExtendedInfo) :
    Prop :=
  ∀ nb ∈ ResourceMap, ∀ Ext, ExtResInfo[nb.2.UID]? = some Ext →
    nb.2.Space = Ext.SrcSpace ∧ nb.2.BindPoint = Ext.SrcBindPoint

/-- A createHandle call with a constant index, as the disassembler prints it:
the text `gap` since the previous call (it ends with the name of the result),
the opcode operand, the literals of the resource class, of the range id and of
the index, and the non-uniform flag. -/
structure CallSite where
  gap : Str
  op : Str
  clsLit : Str
  ridLit : Str
  idx : Str
  nonUniform : Bool
  deriving DecidableEq, Repr

/-- The text of the flag operand. -/
def flagText (c : CallSite) : Str :=
  if c.nonUniform then "true".toList else "false".toList

/-- The text of a call:
`gap = call %dx.types.Handle @dx.op.createHandle(i32 op, i8 cls, i32 rid, i32 idx, i1 flag)`. -/
def callSiteText (c : CallSite) : Str :=
  c.gap ++ CallHandlePattern ++ i32 ++ c.op ++ ", ".toList ++ i8 ++ c.clsLit ++ ", ".toList ++ i32 ++
    c.ridLit ++ ", ".toList ++ i32 ++ c.idx ++ ", i1 ".toList ++ flagText c ++ ")".toList

/-- A program text: the calls one after the other, then `trailer`. -/
def programText : List CallSite → Str → Str
  | [], trailer => trailer
  | c :: cs, trailer => callSiteText c ++ programText cs trailer

/-- The call is well formed: no call pattern starts in the text before its own,
the opcode holds no character that stops `NextArg`, the class and the range id
are runs of digits that fit `int`, and the index is a run of at most 11 digits
that fits `int`. -/
structure CallSite.WellFormed (c : CallSite) : Prop where
  gap : ∀ k, k < c.gap.length → occursAt CallHandlePattern (c.gap ++ CallHandlePattern) k = false
  opcode : NoStop c.op
  clsDigits : c.clsLit ≠ [] ∧ ∀ ch ∈ c.clsLit, isDigit ch = true
  clsFits : digitsValue c.clsLit ≤ 2147483647
  ridDigits : c.ridLit ≠ [] ∧ ∀ ch ∈ c.ridLit, isDigit ch = true
  ridFits : digitsValue c.ridLit ≤ 2147483647
  idxDigits : c.idx ≠ [] ∧ ∀ ch ∈ c.idx, isDigit ch = true
  idxFits : digitsValue c.idx ≤ 2147483647
  idxShort : c.idx.length ≤ 11

/-- Some entry of the map resolves the call. -/
def Resolvable (ResourceMap : TResourceBindingMap) (ExtResInfo : TResourceMapExtendedInfo)
    (c : CallSite) : Prop :=
  ∃ ResType, ResClassToType[digitsValue c.clsLit]? = some ResType ∧
    ∃ nb ∈ ResourceMap, Resolves ExtResInfo (digitsValue c.ridLit) ResType (digitsValue c.idx) nb

/-- The call `c'` is the call `c` with its index rewritten for an entry that
resolves it: the index reads the decimal text of
`BindPoint + (idx - SrcBindPoint)`, a 32-bit sum; nothing else differs. -/
def Rewritten (ResourceMap : TResourceBindingMap) (ExtResInfo : TResourceMapExtendedInfo)
    (c c' : CallSite) : Prop :=
  ∃ ResType, ResClassToType[digitsValue c.clsLit]? = some ResType ∧
    ∃ nb ∈ ResourceMap, ∃ Ext, ExtResInfo[nb.2.UID]? = some Ext ∧
      Ext.RecordId = digitsValue c.ridLit ∧ nb.2.ResType = ResType ∧
      Ext.SrcBindPoint ≤ digitsValue c.idx ∧
      digitsValue c.idx < (Ext.SrcBindPoint + nb.2.ArraySize) % 4294967296 ∧
      c' = { c with
        idx := (to_string
          ((nb.2.BindPoint + (digitsValue c.idx - Ext.SrcBindPoint)) % 4294967296)) }

/-- Modelled from the spec: the declaration of `ShaderVersion` is not among the
sources. The fields are those `Compile` reads, `Major` and `Minor`; two versions
are equal when both fields are, and the value-initialised `ShaderVersion{}` is
version 0.0, the unspecified model. -/
structure ShaderVersion where
  Major : Nat
  Minor : Nat
  deriving DecidableEq, Repr

/-- The value of `ShaderModel` after the block `// validate shader version` of
`DXCompilerImpl::Compile`, for the requested `ShaderModel` and the value `MaxSM`
of `GetMaxShaderModel()`. -/
def CompileShaderModel (ShaderModel MaxSM : ShaderVersion) : ShaderVersion :=
  if ShaderModel = ⟨0, 0⟩ then MaxSM
  else if ShaderModel.Major < 6 then ⟨6, 0⟩
  else if ShaderModel.Major > MaxSM.Major ∨
      (ShaderModel.Major = MaxSM.Major ∧ ShaderModel.Minor > MaxSM.Minor) then MaxSM
  else ShaderModel

/-- The order of versions: by `Major`, then by `Minor`. -/
def ShaderVersion.le (a b : ShaderVersion) : Prop :=
  a.Major < b.Major ∨ (a.Major = b.Major ∧ a.Minor ≤ b.Minor)

/-- The order of versions can be checked by evaluation. -/
instance instDecidableShaderVersionLe (a b : ShaderVersion) : Decidable (a.le b) :=
  inferInstanceAs (Decidable (_ ∨ _))

/-- The start `%"class.RW` of the type signature of a read-write texture or
buffer in a stripped declaration. -/
def ReadWritePart : Str := "%\x22class.RW".toList

/-- One patched declaration record of the text `T`, for the entry `ResPair` of
the map. The record starts with `= !{i32 ` after `head`, and this is the last
`= !{` at or before its name field; the name field is the quoted name of the
entry (`named`) or the empty name `!""` after a comma (`stripped`); the two
fields `, i32 sp, i32 bp` that follow the name field, both complete runs of
number symbols, become the decimal texts of the desired space and bind point of
the entry; what follows the bind-point field (the range size comes first) and
what precedes the space field are the same in `T'`. -/
inductive RecordEdit (ResourceMap : TResourceBindingMap) (T T' : Str) : Prop where
  | named (head mid sp bp tail : Str) (ResPair : Str × BindInfo) :
      ResPair ∈ ResourceMap →
      T = head ++ ResourceRecStart ++ i32 ++ mid ++ DxilName ResPair.1 ++ ", i32 ".toList ++ sp ++
        ", i32 ".toList ++ bp ++ tail →
      T' = head ++ ResourceRecStart ++ i32 ++ mid ++ DxilName ResPair.1 ++ ", i32 ".toList ++
        to_string ResPair.2.Space ++ ", i32 ".toList ++ to_string ResPair.2.BindPoint ++ tail →
      (∀ j, head.length < j → j ≤ (head ++ ResourceRecStart ++ i32 ++ mid).length →
        occursAt ResourceRecStart T j = false) →
      (∀ c ∈ sp, c ∈ NumberSymbols) → FieldEnds bp tail →
      RecordEdit ResourceMap T T'
  | stripped (head mid sp bp tail : Str) (ResPair : Str × BindInfo) :
      ResPair ∈ ResourceMap →
      T = head ++ ResourceRecStart ++ i32 ++ mid ++ ", !\x22\x22".toList ++ ", i32 ".toList ++ sp ++
        ", i32 ".toList ++ bp ++ tail →
      T' = head ++ ResourceRecStart ++ i32 ++ mid ++ ", !\x22\x22".toList ++ ", i32 ".toList ++
        to_string ResPair.2.Space ++ ", i32 ".toList ++ to_string ResPair.2.BindPoint ++ tail →
      (∀ j, head.length < j → j ≤ (head ++ ResourceRecStart ++ i32 ++ mid).length →
        occursAt ResourceRecStart T j = false) →
      (∀ c ∈ sp, c ∈ NumberSymbols) → FieldEnds bp tail →
      RecordEdit ResourceMap T T'

/-- Is some comma of `x :: l` directly followed by a number symbol? -/
def numberAfterComma : Char → Str → Bool
  | _, [] => false
  | x, y :: rest => (x == ',' && NumberSymbols.contains y) || numberAfterComma y rest

/-- No comma of the text is directly followed by a number symbol: operands are
separated by a comma and a space, as the disassembler prints them. -/
def NoNumberAfterComma : Str → Prop
  | [] => True
  | x :: l => numberAfterComma x l = false

/-- The shape `NoNumberAfterComma` can be checked by evaluation. -/
instance instDecidableNoNumberAfterComma : (T : Str) → Decidable (NoNumberAfterComma T)
  | [] => isTrue trivial
  | x :: l => inferInstanceAs (Decidable (numberAfterComma x l = false))

/-- A metadata resource record as the disassembler prints it, one line of text:
`head= !{i32 idLit, ty, !"name", i32 sp, i32 bp rest`. The name is empty in
a stripped declaration; `rest` begins with the range-size field and ends the
line. -/
structure Decl where
  head : Str
  idLit : Str
  ty : Str
  name : Str
  sp : Str
  bp : Str
  rest : Str
  deriving DecidableEq, Repr

/-- The text of a record. -/
def Decl.text (d : Decl) : Str :=
  recordPrefix d.head d.idLit d.ty ++ ", ".toList ++ DxilName d.name ++ ", i32 ".toList ++ d.sp ++
    ", i32 ".toList ++ d.bp ++ d.rest

/-- The record is well formed: the record id, the space and the bind point are
runs of digits, the record id fits `int`; the text before the record holds no
quote, the type signature no `!` and no `=`, the name no quote, no `!` and no
line break;
what follows the bind point holds no quote, does not go on with a number symbol
and ends the line; and none of these texts holds an opening parenthesis. -/
structure Decl.WellFormed (d : Decl) : Prop where
  head : ∀ ch ∈ d.head, ch ≠ '\x22' ∧ ch ≠ '('
  idDigits : d.idLit ≠ [] ∧ ∀ ch ∈ d.idLit, isDigit ch = true
  idFits : digitsValue d.idLit ≤ 2147483647
  ty : ∀ ch ∈ d.ty, ch ≠ '!' ∧ ch ≠ '=' ∧ ch ≠ '('
  name : ∀ ch ∈ d.name, ch ≠ '\x22' ∧ ch ≠ '!' ∧ ch ≠ '(' ∧ ch ≠ '\n'
  space : d.sp ≠ [] ∧ ∀ ch ∈ d.sp, isDigit ch = true
  bind : d.bp ≠ [] ∧ ∀ ch ∈ d.bp, isDigit ch = true
  rest : ∀ ch ∈ d.rest, ch ≠ '\x22' ∧ ch ≠ '('
  line : d.rest.getLast? = some '\n'
  restStart : ∀ ch, d.rest.head? = some ch → ch ∉ NumberSymbols

/-- A createHandle call as the disassembler prints it. With a constant index
(`temp` is empty) the text is the one of the call site
`gap = call …(i32 op, i8 cls, i32 rid, i32 idx, i1 flag)`. With a dynamic index
the index operand is the temporary `temp`, defined before the call by
`temp = add i32 idx` followed by `link`, the text up to the call:
`gap temp = add i32 idx link = call …(i32 op, i8 cls, i32 rid, i32 temp, i1 flag)`. -/
structure Call where
  gap : Str
  temp : Str
  link : Str
  op : Str
  clsLit : Str
  ridLit : Str
  idx : Str
  nonUniform : Bool
  deriving DecidableEq, Repr

/-- The call as a call site: what precedes the call pattern, and the operands. -/
def Call.site (c : Call) : CallSite :=
  if c.temp = [] then ⟨c.gap, c.op, c.clsLit, c.ridLit, c.idx, c.nonUniform⟩
  else ⟨c.gap ++ IndexDecl c.temp ++ c.idx ++ c.link, c.op, c.clsLit, c.ridLit, c.temp,
    c.nonUniform⟩

/-- The temporary of a dynamic index is well formed: its name starts with `%`,
holds no other `%` and no character that stops `NextArg`; the constant of the
addition is followed by a comma; no call pattern starts between the previous
call and the call; and the addition is the last definition of the temporary
before the index operand. -/
structure Call.Temporary (c : Call) : Prop where
  name : c.temp.head? = some '%' ∧ NoStop c.temp ∧ ∀ ch ∈ c.temp.tail, ch ≠ '%'
  link : c.link.head? = some ','
  before : ∀ k, occursAt CallHandlePattern (c.gap ++ IndexDecl c.temp) k = false
  after : ∀ k, k < c.link.length →
    occursAt CallHandlePattern (c.link ++ CallHandlePattern) k = false
  lastDecl : ∀ k, k < indexStart c.link c.op c.clsLit c.ridLit →
    occursAt (IndexDecl c.temp)
      (callSiteText ⟨c.link, c.op, c.clsLit, c.ridLit, c.temp, c.nonUniform⟩) k = false

/-- The call is well formed: the opcode holds no character that stops `NextArg`,
the class and the range id are runs of digits that fit `int`, the constant (the
index, or the first operand of the addition) is a run of at most 11 digits, no
call pattern starts in the text before the call, the temporary of a dynamic
index is well formed, and the texts hold neither `!` nor, in the operands, `=`. -/
structure Call.WellFormed (c : Call) : Prop where
  opcode : NoStop c.op
  clsDigits : c.clsLit ≠ [] ∧ ∀ ch ∈ c.clsLit, isDigit ch = true
  clsFits : digitsValue c.clsLit ≤ 2147483647
  ridDigits : c.ridLit ≠ [] ∧ ∀ ch ∈ c.ridLit, isDigit ch = true
  ridFits : digitsValue c.ridLit ≤ 2147483647
  idxDigits : c.idx ≠ [] ∧ ∀ ch ∈ c.idx, isDigit ch = true
  idxShort : c.idx.length ≤ 11
  constant : c.temp = [] →
    ∀ k, k < c.gap.length → occursAt CallHandlePattern (c.gap ++ CallHandlePattern) k = false
  temporary : c.temp ≠ [] → c.Temporary
  noMark : ∀ ch ∈ c.gap ++ c.temp ++ c.link ++ c.op, ch ≠ '!'
  noEq : ∀ ch ∈ c.op ++ c.temp, ch ≠ '='

/-- Apply `f` to every element; `none` as soon as one result is `none`. -/
def allOrNone {α β : Type} (f : α → Option β) : List α → Option (List β)
  | [] => some []
  | a :: l =>
    match f a with
    | none => none
    | some b =>
      match allOrNone f l with
      | none => none
      | some bs => some (b :: bs)

/-- The record with the desired space and bind point of the entry `nb`. -/
def Decl.remap (nb : Str × BindInfo) (d : Decl) : Decl :=
  { d with sp := to_string nb.2.Space, bp := to_string nb.2.BindPoint }

/-- What the loop over the entries `L` makes of a well-formed record: the record
of an entry with its name gets the desired values when its fields fit `int` and
hold the recorded sources, and the loop fails when they do not; a record that no
entry names is kept. -/
def namedDecl (L : TResourceBindingMap) (E : TResourceMapExtendedInfo) (d : Decl) : Option Decl :=
  match L.find? (fun nb => decide (nb.1 = d.name)) with
  | none => some d
  | some nb =>
    match E[nb.2.UID]? with
    | none => none
    | some Ext =>
      if digitsValue d.sp ≤ 2147483647 ∧ digitsValue d.bp ≤ 2147483647 ∧
          digitsValue d.sp = Ext.SrcSpace ∧ digitsValue d.bp = Ext.SrcBindPoint
      then some (d.remap nb) else none

/-- Store the record ids in the table, one after the other. -/
def storeIds (ids : List (Nat × Nat)) (E : TResourceMapExtendedInfo) : TResourceMapExtendedInfo :=
  ids.foldl (fun E p => setRecordId E p.1 p.2) E

/-- The entry the positional loop finds for a stripped record, if any. -/
def sourceEntry (M : TResourceBindingMap) (E : TResourceMapExtendedInfo) (d : Decl) :
    Option (Str × BindInfo) :=
  match findBySource E (digitsValue d.bp) (digitsValue d.sp) (classifyResType M d.ty 0) M with
  | .ok (some (nb, _)) => some nb
  | _ => none

/-- What the positional loop makes of a well-formed record: a stripped record
of a recognised type gets the desired values of the entry found for its fields,
and the loop fails when the fields do not fit `int` or no entry is found; a
named record and a record of another type are kept. -/
def anonymousDecl (M : TResourceBindingMap) (E : TResourceMapExtendedInfo) (d : Decl) :
    Option Decl :=
  if d.name = [] ∧ classifyResType M d.ty 0 ≠ .Count then
    if digitsValue d.sp ≤ 2147483647 ∧ digitsValue d.bp ≤ 2147483647 then
      (sourceEntry M E d).map (fun nb => d.remap nb)
    else none
  else some d

/-- The index the handle loop writes for a constant of value `idx` in a call of
class `cls` and range id `rid`: `BindPoint + (idx - SrcBindPoint)`, a 32-bit
sum, for the entry found; none when the constant does not fit `int`, the class
is not in the table, or no entry is found. -/
def remapIndex (M : TResourceBindingMap) (E : TResourceMapExtendedInfo) (cls rid idx : Nat) :
    Option Nat :=
  if idx ≤ 2147483647 then
    match ResClassToType[cls]? with
    | none => none
    | some ResType =>
      match findByRange E rid ResType idx M with
      | .ok (some (nb, Ext)) => some ((nb.2.BindPoint + (idx - Ext.SrcBindPoint)) % 4294967296)
      | _ => none
  else none

/-- What the handle loop makes of a well-formed call: the constant becomes the
decimal text of the index found for its value, and the loop fails when there is
none. -/
def remapCall (M : TResourceBindingMap) (E : TResourceMapExtendedInfo) (c : Call) : Option Call :=
  (remapIndex M E (digitsValue c.clsLit) (digitsValue c.ridLit) (digitsValue c.idx)).map
    (fun n => { c with idx := (to_string n) })

/-- No occurrence of `pat` starts inside `s`, whatever follows `s`. -/
def NoStart (pat s : Str) : Prop :=
  ∀ (X : Str) (j : Nat), j < s.length → occursAt pat (s ++ X) j = false

/-- The text of a shader is well formed: its calls and its records are, the
named records have distinct names, the instructions after the last call hold no
`!` and no call pattern and end a line, and what follows the records holds
neither a call pattern nor a quoted metadata string. -/
structure WellFormedShader (calls : List Call) (mid : Str) (decls : List Decl) (trailer : Str) :
    Prop where
  eachCall : ∀ c ∈ calls, c.WellFormed
  noMark : ∀ ch ∈ mid, ch ≠ '!'
  line : mid.getLast? = some '\n'
  noCall : ¬ CallHandlePattern <:+: mid
  eachDecl : ∀ d ∈ decls, d.WellFormed
  names : decls.Pairwise (fun a b => a.name = b.name → a.name = [])
  trailer : ¬ CallHandlePattern <:+: trailer ∧ ¬ ['!', '\x22'] <:+: trailer

theorem charAt_append (a : Str) (c : Char) (b : Str) : charAt (a ++ c :: b) a.length = .ok c := by
  simp [charAt]

theorem findAux_eq_some (pat : Str) : ∀ (xs : Str) (i k : Nat),
    pat.isPrefixOf (xs.drop k) = true → k ≤ xs.length →
    (∀ j, j < k → pat.isPrefixOf (xs.drop j) = false) →
    findAux pat xs i = some (i + k)
  | [], i, k, h, hk, _ => by
    have : k = 0 := by simpa using hk
    subst this
    simp at h
    simp [findAux, h]
  | c :: cs, i, 0, h, _, _ => by
    simp at h
    simp [findAux, h]
  | c :: cs, i, k + 1, h, hk, hno => by
    have h0 := hno 0 (Nat.succ_pos k)
    simp only [List.drop_zero] at h0
    simp only [findAux, h0]
    have := findAux_eq_some pat cs (i + 1) k (by simpa using h) (by simpa using hk)
      (fun j hj => by simpa using hno (j + 1) (by omega))
    rw [this]
    simp; omega

theorem find_eq_some (pat s : Str) (pos p : Nat) (hp : occursAt pat s p = true) (hps : p ≤ s.length)
    (hle : pos ≤ p) (hno : ∀ j, pos ≤ j → j < p → occursAt pat s j = false) :
    find pat s pos = some p := by
  unfold find
  rw [if_pos (by omega)]
  have := findAux_eq_some pat (s.drop pos) pos (p - pos)
    (by simpa [occursAt, List.drop_drop, Nat.add_sub_cancel' hle, Nat.add_comm] using hp)
    (by simp; omega)
    (fun j hj => by
      have := hno (pos + j) (by omega) (by omega)
      simpa [occursAt, List.drop_drop, Nat.add_comm] using this)
  rw [this]; simp; omega

theorem findAux_eq_none (pat : Str) : ∀ (xs : Str) (i : Nat),
    (∀ j, j ≤ xs.length → pat.isPrefixOf (xs.drop j) = false) → findAux pat xs i = none
  | [], i, h => by
    have := h 0 (by simp)
    simp at this
    simp [findAux, this]
  | c :: cs, i, h => by
    have h0 := h 0 (by simp)
    simp only [List.drop_zero] at h0
    simp only [findAux, h0]
    exact findAux_eq_none pat cs (i + 1) (fun j hj => by simpa using h (j + 1) (by simpa using hj))

theorem find_eq_none (pat s : Str) (pos : Nat)
    (hno : ∀ j, pos ≤ j → j ≤ s.length → occursAt pat s j = false) : find pat s pos = none := by
  unfold find
  split
  · apply findAux_eq_none
    intro j hj
    have := hno (pos + j) (by omega) (by simp at hj; omega)
    simpa [occursAt, List.drop_drop, Nat.add_comm] using this
  · rfl

theorem occursAt_isInfix (pat s : Str) (j : Nat) (h : occursAt pat s j = true) : pat <:+: s := by
  unfold occursAt at h
  rw [ List.isPrefixOf_iff_prefix] at h
  exact h.isInfix.trans (List.drop_suffix j s).isInfix

theorem find_of_absent (pat s : Str) (pos : Nat) (h : ¬ pat <:+: s) :
    find pat s pos = none :=
  find_eq_none _ _ _ (fun j _ _ => by
    cases hj : occursAt pat s j with
    | false => rfl
    | true => exact absurd (occursAt_isInfix _ _ _ hj) h)

theorem rfindAux_eq_some (pat s : Str) (k : Nat) (hk : occursAt pat s k = true) :
    ∀ i, k ≤ i → (∀ j, k < j → j ≤ i → occursAt pat s j = false) → rfindAux pat s i = some k
  | 0, hi, _ => by
    have : k = 0 := by omega
    subst this
    simp [rfindAux, hk]
  | i + 1, hi, hno => by
    by_cases hki : k = i + 1
    · subst hki
      simp [rfindAux, hk]
    · have h1 := hno (i + 1) (by omega) (by omega)
      simp only [rfindAux, h1]
      exact rfindAux_eq_some pat s k hk i (by omega) (fun j hj hji => hno j hj (by omega))

theorem occursAt_length_le (pat s : Str) (k : Nat) (hk : occursAt pat s k = true) :
    k + pat.length ≤ s.length ∨ pat = [] := by
  unfold occursAt at hk
  rw [ List.isPrefixOf_iff_prefix] at hk
  have := hk.length_le
  simp at this
  by_cases hp : pat = []
  · exact Or.inr hp
  · left
    have hpl : 0 < pat.length := List.length_pos.mpr hp
    omega

theorem rfind_eq_some (pat s : Str) (pos k : Nat) (hpat : pat ≠ []) (hk : occursAt pat s k = true)
    (hle : k ≤ pos) (hno : ∀ j, k < j → j ≤ pos → occursAt pat s j = false) :
    rfind pat s pos = some k := by
  have hlen : k + pat.length ≤ s.length := by
    rcases occursAt_length_le pat s k hk with h | h
    · exact h
    · exact absurd h hpat
  unfold rfind
  rw [if_pos (by omega)]
  apply rfindAux_eq_some pat s k hk
  · omega
  · intro j hj hji
    exact hno j hj (by omega)

theorem drop_append_len (a b : Str) (n : Nat) (h : n = a.length) : (a ++ b).drop n = b := by
  subst h; simp

theorem take_append_len (a b : Str) (n : Nat) (h : n = a.length) : (a ++ b).take n = a := by
  subst h; simp

theorem findFirstNotOfAux_run (set : Str) : ∀ (lit tail : Str) (i : Nat),
    (∀ c ∈ lit, c ∈ set) → (∀ c, tail.head? = some c → c ∉ set) →
    findFirstNotOfAux set (lit ++ tail) i = if tail = [] then none else some (i + lit.length)
  | [], [], i, _, _ => by simp [findFirstNotOfAux]
  | [], c :: cs, i, _, ht => by
    have := ht c (by simp)
    simp [findFirstNotOfAux, this]
  | d :: ds, tail, i, hl, ht => by
    have hd : set.contains d = true := by simpa using hl d (by simp)
    have := findFirstNotOfAux_run set ds tail (i + 1) (fun c hc => hl c (by simp [hc])) ht
    rw [List.cons_append, findFirstNotOfAux, if_pos hd, this, List.length_cons]
    split
    · rfl
    · congr 1; omega

theorem commaI32_length : ", i32 ".toList.length = 6 := rfl

theorem i32_length : i32.length = 4 := rfl

theorem substr_field (pre lit tail : Str) (p : Nat) (hp : p = pre.length) :
    substr (pre ++ lit ++ tail) p (fieldStop p lit tail) = .ok lit := by
  subst hp
  unfold substr fieldStop
  rw [if_pos (by simp), List.append_assoc, drop_append_len _ _ _ rfl]
  by_cases ht : tail = []
  · subst ht; simp
  · rw [if_neg ht]
    simp

theorem replace_field (pre lit tail new : Str) (p : Nat) (hp : p = pre.length) :
    replace (pre ++ lit ++ tail) p (fieldStop p lit tail) new = pre ++ new ++ tail := by
  subst hp
  unfold replace fieldStop
  by_cases ht : tail = []
  · subst ht; simp
  · rw [if_neg ht]
    simp only
    rw [Nat.max_eq_right (by omega), drop_append_len _ _ _ (by simp),
      List.append_assoc pre lit tail, take_append_len _ _ _ rfl]

theorem commaSpaceAt_sep (a b : Str) :
    commaSpaceAt (a ++ ", i32 ".toList ++ b) a.length = .ok true := by
  have : ", i32 ".toList = [',', ' ', 'i', '3', '2', ' '] := rfl
  simp [commaSpaceAt, charAt, this]

theorem occursAt_i32_sep (a b : Str) :
    occursAt i32 (a ++ ", i32 ".toList ++ b) (a.length + 2) = true := by
  have e : a ++ ", i32 ".toList ++ b = (a ++ ", ".toList) ++ (i32 ++ b) := by
    have : ", i32 ".toList = ", ".toList ++ i32 := rfl
    rw [this]; simp
  rw [e, occursAt, drop_append_len _ _ _ (by simp)]
  simp [ List.isPrefixOf_iff_prefix]

theorem field_scan (a lit tail : Str) (h : FieldEnds lit tail) :
    findFirstNotOf NumberSymbols (a ++ ", i32 ".toList ++ lit ++ tail) (a.length + 2 + 4)
      = fieldStop (a.length + 2 + 4) lit tail := by
  unfold findFirstNotOf fieldStop
  rw [List.append_assoc, drop_append_len _ _ _ (by simp [commaI32_length]),
    findFirstNotOfAux_run _ _ _ _ h.1 h.2]

theorem ReplaceRecord_ok (a lit tail new : Str) (v : Int) (expected : Nat)
    (h : FieldEnds lit tail) (hv : stoi lit = .ok v) (he : toUint32 v = expected) :
    ReplaceRecord (a ++ ", i32 ".toList ++ lit ++ tail) a.length new expected =
      .ok (a ++ ", i32 ".toList ++ new ++ tail, a.length + 6 + new.length) := by
  have hc := commaSpaceAt_sep a (lit ++ tail)
  have ho := occursAt_i32_sep a (lit ++ tail)
  rw [← List.append_assoc] at hc ho
  simp only [ReplaceRecord, i32_length, hc, ho, if_true, field_scan a lit tail h]
  rw [substr_field _ _ _ _ (by simp [commaI32_length]),
    replace_field _ _ _ _ _ (by simp [commaI32_length])]
  simp only [hv, he, if_true]

theorem ReplaceRecord_mismatch (a lit tail new : Str) (v : Int) (expected : Nat)
    (h : FieldEnds lit tail) (hv : stoi lit = .ok v) (he : toUint32 v ≠ expected) :
    ReplaceRecord (a ++ ", i32 ".toList ++ lit ++ tail) a.length new expected = .error .thrown := by
  have hc := commaSpaceAt_sep a (lit ++ tail)
  have ho := occursAt_i32_sep a (lit ++ tail)
  rw [← List.append_assoc] at hc ho
  simp only [ReplaceRecord, i32_length, hc, ho, if_true, field_scan a lit tail h]
  rw [substr_field _ _ _ _ (by simp [commaI32_length])]
  simp only [hv, he, if_false]

theorem ReplaceRecord_unparsable (a lit tail new : Str) (expected : Nat)
    (h : FieldEnds lit tail) (hv : stoi lit = .error .thrown) :
    ReplaceRecord (a ++ ", i32 ".toList ++ lit ++ tail) a.length new expected = .error .thrown := by
  have hc := commaSpaceAt_sep a (lit ++ tail)
  have ho := occursAt_i32_sep a (lit ++ tail)
  rw [← List.append_assoc] at hc ho
  simp only [ReplaceRecord, i32_length, hc, ho, if_true, field_scan a lit tail h]
  rw [substr_field _ _ _ _ (by simp [commaI32_length])]
  simp only [hv]

theorem ReadRecord_ok (a lit tail : Str) (v : Int)
    (h : FieldEnds lit tail) (hv : stoi lit = .ok v) :
    ReadRecord (a ++ ", i32 ".toList ++ lit ++ tail) a.length =
      .ok (.read (fieldStop (a.length + 2 + 4) lit tail) (toUint32 v)) := by
  have hc := commaSpaceAt_sep a (lit ++ tail)
  have ho := occursAt_i32_sep a (lit ++ tail)
  rw [← List.append_assoc] at hc ho
  simp only [ReadRecord, i32_length, hc, ho, if_true, field_scan a lit tail h]
  rw [substr_field _ _ _ _ (by simp [commaI32_length])]
  simp only [hv]

/-! ## Numbers -/

theorem isDigit_not_isSpace (c : Char) (h : isDigit c = true) : isSpace c = false := by
  unfold isDigit at h
  unfold isSpace
  simp only [Bool.and_eq_true, decide_eq_true_eq] at h
  have h1 : c ≠ ' ' := by rintro rfl; revert h; decide
  have h2 : c ≠ '\t' := by rintro rfl; revert h; decide
  have h3 : c ≠ '\n' := by rintro rfl; revert h; decide
  have h4 : c ≠ '\x0b' := by rintro rfl; revert h; decide
  have h5 : c ≠ '\x0c' := by rintro rfl; revert h; decide
  have h6 : c ≠ '\r' := by rintro rfl; revert h; decide
  simp [h1, h2, h3, h4, h5, h6]

theorem isDigit_ne_sign (c : Char) (h : isDigit c = true) : c ≠ '-' ∧ c ≠ '+' := by
  unfold isDigit at h
  simp only [Bool.and_eq_true, decide_eq_true_eq] at h
  constructor
  · rintro rfl; revert h; decide
  · rintro rfl; revert h; decide

theorem takeWhile_run (p : Char → Bool) : ∀ (ds tail : Str),
    (∀ c ∈ ds, p c = true) → (∀ c, tail.head? = some c → p c = false) →
    (ds ++ tail).takeWhile p = ds
  | [], [], _, _ => rfl
  | [], c :: cs, _, ht => by
    have := ht c rfl
    simp [List.takeWhile, this]
  | d :: ds, tail, hd, ht => by
    have h0 := hd d (by simp)
    have := takeWhile_run p ds tail (fun c hc => hd c (by simp [hc])) ht
    simp [List.takeWhile, h0, this]

theorem splitSign_of_ne (c : Char) (t : Str) (h1 : c ≠ '-') (h2 : c ≠ '+') :
    splitSign (c :: t) = (false, c :: t) := by
  unfold splitSign
  split
  · rename_i heq; injection heq with h _; exact absurd h h1
  · rename_i heq; injection heq with h _; exact absurd h h2
  · rfl

theorem dropWhile_isSpace_digits (ds tail : Str) (h : DigitsEnd ds tail) :
    (ds ++ tail).dropWhile isSpace = ds ++ tail := by
  obtain ⟨hne, hd, _⟩ := h
  obtain ⟨d, ds', rfl⟩ := List.exists_cons_of_ne_nil hne
  have hs := isDigit_not_isSpace d (hd d (by simp))
  rw [List.cons_append, List.dropWhile_cons_of_neg (by simp [hs])]

theorem splitSign_digits (ds tail : Str) (h : DigitsEnd ds tail) :
    splitSign (ds ++ tail) = (false, ds ++ tail) := by
  obtain ⟨hne, hd, _⟩ := h
  obtain ⟨d, ds', rfl⟩ := List.exists_cons_of_ne_nil hne
  have hsign := isDigit_ne_sign d (hd d (by simp))
  rw [List.cons_append, splitSign_of_ne _ _ hsign.1 hsign.2]

theorem strtol_digits (ds tail : Str) (h : DigitsEnd ds tail) :
    strtol (ds ++ tail) = some (digitsValue ds : Int) := by
  unfold strtol
  rw [dropWhile_isSpace_digits ds tail h, splitSign_digits ds tail h]
  simp only [takeWhile_run isDigit ds tail h.2.1 h.2.2, if_neg h.1]
  simp

theorem atoi_digits (ds tail : Str) (h : DigitsEnd ds tail) (hfit : digitsValue ds ≤ 2147483647) :
    atoi (ds ++ tail) = .ok (digitsValue ds : Int) := by
  unfold atoi
  rw [strtol_digits ds tail h]
  have : fitsInt (digitsValue ds : Int) = true := by
    unfold fitsInt
    simp only [Bool.and_eq_true, decide_eq_true_eq]
    omega
  simp [this]

theorem stoi_digits (ds tail : Str) (h : DigitsEnd ds tail) (hfit : digitsValue ds ≤ 2147483647) :
    stoi (ds ++ tail) = .ok (digitsValue ds : Int) := by
  unfold stoi
  rw [strtol_digits ds tail h]
  have : fitsInt (digitsValue ds : Int) = true := by
    unfold fitsInt
    simp only [Bool.and_eq_true, decide_eq_true_eq]
    omega
  simp [this]

theorem toUint32_natCast (n : Nat) (h : n < 4294967296) : toUint32 (n : Int) = n := by
  unfold toUint32
  omega

theorem isDigit_mem_NumberSymbols (c : Char) (h : isDigit c = true) : c ∈ NumberSymbols := by
  unfold isDigit at h
  simp only [Bool.and_eq_true, decide_eq_true_eq] at h
  have hv : c.toNat = 48 ∨ c.toNat = 49 ∨ c.toNat = 50 ∨ c.toNat = 51 ∨ c.toNat = 52 ∨
      c.toNat = 53 ∨ c.toNat = 54 ∨ c.toNat = 55 ∨ c.toNat = 56 ∨ c.toNat = 57 := by
    have h1 : '0'.toNat = 48 := rfl
    have h2 : '9'.toNat = 57 := rfl
    omega
  have hc : ∀ k : Nat, c.toNat = k → c = Char.ofNat k := by
    intro k hk; rw [← hk]; simp [Char.ofNat_toNat]
  have : NumberSymbols = ['+', '-', '0', '1', '2', '3', '4', '5', '6', '7', '8', '9'] := rfl
  rw [this]
  rcases hv with h | h | h | h | h | h | h | h | h | h <;> rw [hc _ h] <;> decide

/-! ## The named-declaration pass -/

theorem fieldEnds_sep (sp rest : Str) (h : ∀ c ∈ sp, c ∈ NumberSymbols) :
    FieldEnds sp (", i32 ".toList ++ rest) := by
  refine ⟨h, ?_⟩
  intro c hc
  have : ", i32 ".toList = ',' :: " i32 ".toList := rfl
  rw [this] at hc
  simp at hc
  subst hc
  decide

theorem digitsEnd_sep (ds rest : Str) (h : ds ≠ [] ∧ ∀ c ∈ ds, isDigit c = true) :
    DigitsEnd ds (", ".toList ++ rest) := by
  refine ⟨h.1, h.2, ?_⟩
  intro c hc
  have : ", ".toList = ',' :: " ".toList := rfl
  rw [this] at hc
  simp at hc
  subst hc
  decide

theorem ResourceRecStart_length : ResourceRecStart.length = 4 := rfl

theorem occursAt_at (pat a b : Str) (n : Nat) (h : n = a.length) :
    occursAt pat (a ++ pat ++ b) n = true := by
  subst h
  simp [occursAt, List.isPrefixOf_iff_prefix]

/-- What the named loop does up to the two `ReplaceRecord` calls. -/
theorem NamedRecord.located {DXIL Name head idLit mid sp bp tail : Str}
    (h : NamedRecord DXIL Name head idLit mid sp bp tail) :
    find (DxilName Name) DXIL 0 = some (recordPrefix head idLit mid).length ∧
    rfind ResourceRecStart DXIL (recordPrefix head idLit mid).length = some head.length ∧
    occursAt i32 DXIL (head.length + 4) = true ∧
    findFirstNotOf NumberSymbols DXIL (head.length + 4 + 4) = some (head.length + 4 + 4 + idLit.length) ∧
    atoi (DXIL.drop (head.length + 4 + 4)) = .ok (digitsValue idLit : Int) := by
  have hlen : (recordPrefix head idLit mid).length ≤ DXIL.length := by
    rw [h.text]; simp only [List.length_append]; omega
  have hname : occursAt (DxilName Name) DXIL (recordPrefix head idLit mid).length = true := by
    rw [h.text]
    simp only [List.append_assoc]
    rw [← List.append_assoc]
    exact occursAt_at _ _ _ _ rfl
  have hstart : occursAt ResourceRecStart DXIL head.length = true := by
    rw [h.text, recordPrefix]
    simp only [List.append_assoc]
    rw [← List.append_assoc]
    exact occursAt_at _ _ _ _ rfl
  have hhead : head.length ≤ (recordPrefix head idLit mid).length := by
    simp only [recordPrefix, List.length_append]; omega
  refine ⟨?_, ?_, ?_, ?_, ?_⟩
  · exact find_eq_some _ _ _ _ hname hlen (Nat.zero_le _) (fun j _ hj => h.firstName j hj)
  · exact rfind_eq_some _ _ _ _ (by decide) hstart hhead (fun j h1 h2 => h.lastStart j h2 h1)
  · rw [h.text, recordPrefix]
    simp only [List.append_assoc]
    rw [← List.append_assoc, ← List.append_assoc]
    exact occursAt_at _ _ _ _ (by simp [ResourceRecStart_length])
  · rw [h.text, recordPrefix]
    simp only [List.append_assoc]
    rw [← List.append_assoc, ← List.append_assoc]
    unfold findFirstNotOf
    rw [drop_append_len _ _ _ (by simp [ResourceRecStart_length, i32_length])]
    have := findFirstNotOfAux_run NumberSymbols idLit
      (", ".toList ++ (mid ++ (DxilName Name ++ (", i32 ".toList ++ (sp ++ (", i32 ".toList ++ (bp ++ tail)))))))
      (head.length + 4 + 4) (fun c hc => isDigit_mem_NumberSymbols c (h.idDigits.2 c hc))
      (by
        intro c hc
        have e : ", ".toList = ',' :: " ".toList := rfl
        rw [e] at hc
        simp at hc
        subst hc
        decide)
    rw [this, if_neg]
    have e : ", ".toList = ',' :: " ".toList := rfl
    rw [e]; simp
  · rw [h.text, recordPrefix]
    simp only [List.append_assoc]
    rw [← List.append_assoc, ← List.append_assoc]
    rw [drop_append_len _ _ _ (by simp [ResourceRecStart_length, i32_length])]
    exact atoi_digits _ _ (digitsEnd_sep _ _ h.idDigits) h.idFits

/-- The named loop body on a located record, reduced to its two `ReplaceRecord`
calls. -/
theorem patchNamedRecord_located (Name : Str) (B : BindInfo) (ExtResInfo : TResourceMapExtendedInfo)
    (Ext : ResourceExtendedInfo) {DXIL head idLit mid sp bp tail : Str}
    (hExt : ExtResInfo[B.UID]? = some Ext)
    (h : NamedRecord DXIL Name head idLit mid sp bp tail) :
    patchNamedRecord (Name, B) ⟨ExtResInfo, DXIL⟩ =
      match ReplaceRecord DXIL ((recordPrefix head idLit mid).length + (DxilName Name).length)
          (to_string B.Space) Ext.SrcSpace with
      | .error f => .error (f, ⟨setRecordId ExtResInfo B.UID (digitsValue idLit), DXIL⟩)
      | .ok (DXIL, pos) =>
        match ReplaceRecord DXIL pos (to_string B.BindPoint) Ext.SrcBindPoint with
        | .error f => .error (f, ⟨setRecordId ExtResInfo B.UID (digitsValue idLit), DXIL⟩)
        | .ok (DXIL, _) => .ok ⟨setRecordId ExtResInfo B.UID (digitsValue idLit), DXIL⟩ := by
  obtain ⟨h1, h2, h3, h4, h5⟩ := h.located
  have hid : toUint32 (digitsValue idLit : Int) = digitsValue idLit :=
    toUint32_natCast _ (by have := h.idFits; omega)
  simp only [patchNamedRecord, hExt, h1, h2, ResourceRecStart_length, h3, if_true, i32_length, h4,
    h5, hid]
  try rfl

/-- The second loop of `PatchResourceDeclaration` on a text without the marker
`, !"",`: it returns at once with the state unchanged. -/
theorem patchAnonymousRecords_no_marker (ResourceMap : TResourceBindingMap) (fuel : Nat)
    (st : PatchState) (h : ¬ EmptyResDecl <:+: st.DXIL) :
    patchAnonymousRecords ResourceMap (fuel + 1) st 0 = .ok st := by
  rw [patchAnonymousRecords]
  split
  · simp only [patchAnonymousStep, find_of_absent _ _ _ h]
  · rfl

/-- Claim C1 (named-declaration patch). When the quoted name of the entry
`(Name, B)` first occurs in the text inside a well-formed metadata resource
record whose space and bind-point fields parse to the entry's recorded source
space and source bind point, the body of the named loop returns normally, the
two `i32` fields after the name read `to_string B.Space` and
`to_string B.BindPoint` (all other text is as before), the record id is stored
in the entry's `ExtResInfo` slot, and the loop goes on with the remaining
entries from that state. When the entry is the only one of the map and the
patched text holds no stripped declaration, that state is the result of
`PatchResourceDeclaration`. -/
theorem named_declaration_patched (Name : Str) (B : BindInfo) (rest : TResourceBindingMap)
    (ExtResInfo : TResourceMapExtendedInfo) (Ext : ResourceExtendedInfo)
    (DXIL head idLit mid sp bp tail : Str) (vs vb : Int)
    (hExt : ExtResInfo[B.UID]? = some Ext)
    (hrec : NamedRecord DXIL Name head idLit mid sp bp tail)
    (hsp : stoi sp = .ok vs) (hspv : toUint32 vs = Ext.SrcSpace)
    (hbp : stoi bp = .ok vb) (hbpv : toUint32 vb = Ext.SrcBindPoint) :
    patchNamedRecord (Name, B) ⟨ExtResInfo, DXIL⟩ =
      .ok ⟨setRecordId ExtResInfo B.UID (digitsValue idLit),
        patchedNamedText Name head idLit mid (to_string B.Space) (to_string B.BindPoint) tail⟩ ∧
    patchNamedRecords ((Name, B) :: rest) ⟨ExtResInfo, DXIL⟩ =
      patchNamedRecords rest ⟨setRecordId ExtResInfo B.UID (digitsValue idLit),
        patchedNamedText Name head idLit mid (to_string B.Space) (to_string B.BindPoint) tail⟩ ∧
    (¬ EmptyResDecl <:+:
        patchedNamedText Name head idLit mid (to_string B.Space) (to_string B.BindPoint) tail →
      PatchResourceDeclaration [(Name, B)] ⟨ExtResInfo, DXIL⟩ =
        .ok ⟨setRecordId ExtResInfo B.UID (digitsValue idLit),
          patchedNamedText Name head idLit mid (to_string B.Space) (to_string B.BindPoint)
            tail⟩) := by
  have key : patchNamedRecord (Name, B) ⟨ExtResInfo, DXIL⟩ =
      .ok ⟨setRecordId ExtResInfo B.UID (digitsValue idLit),
        patchedNamedText Name head idLit mid (to_string B.Space) (to_string B.BindPoint) tail⟩ := by
    rw [patchNamedRecord_located Name B ExtResInfo Ext hExt hrec]
    have e1 : DXIL = (recordPrefix head idLit mid ++ DxilName Name) ++ ", i32 ".toList ++ sp ++
        (", i32 ".toList ++ bp ++ tail) := by
      rw [hrec.text]; simp only [List.append_assoc]
    have r1 := ReplaceRecord_ok (recordPrefix head idLit mid ++ DxilName Name) sp
      (", i32 ".toList ++ bp ++ tail) (to_string B.Space) vs Ext.SrcSpace
      (by rw [List.append_assoc]; exact fieldEnds_sep sp _ hrec.space) hsp hspv
    rw [List.length_append] at r1
    rw [← e1] at r1
    rw [r1]
    simp only
    have e2 : recordPrefix head idLit mid ++ DxilName Name ++ ", i32 ".toList ++ to_string B.Space ++
        (", i32 ".toList ++ bp ++ tail) =
        (recordPrefix head idLit mid ++ DxilName Name ++ ", i32 ".toList ++ to_string B.Space) ++
          ", i32 ".toList ++ bp ++ tail := by
      simp only [List.append_assoc]
    have r2 := ReplaceRecord_ok
      (recordPrefix head idLit mid ++ DxilName Name ++ ", i32 ".toList ++ to_string B.Space) bp tail
      (to_string B.BindPoint) vb Ext.SrcBindPoint hrec.bind hbp hbpv
    have hl : (recordPrefix head idLit mid ++ DxilName Name ++ ", i32 ".toList ++
        to_string B.Space).length =
        (recordPrefix head idLit mid).length + (DxilName Name).length + 6 + (to_string B.Space).length := by
      simp only [List.length_append, commaI32_length]
    rw [hl, ← e2] at r2
    rw [r2]
    rfl
  refine ⟨key, by rw [patchNamedRecords, key], ?_⟩
  intro hno
  simp only [PatchResourceDeclaration, patchNamedRecords, key]
  exact patchAnonymousRecords_no_marker _ _ _ hno

set_option maxRecDepth 4000 in
/-- Witness of C1: the texture `g_Tex` at space 0, slot 3 remapped to space 2,
slot 7; `PatchResourceDeclaration` returns the text whose fields after the name
read `i32 2, i32 7`. -/
theorem named_declaration_patched_witness :
    NamedRecord
      "!5 = !\x7bi32 0, %\x22class.Texture2D<float>\x22* @g_Tex, !\x22g_Tex\x22, i32 0, i32 3, i32 1, i32 2, !6\x7d\n".toList
      "g_Tex".toList "!5 ".toList "0".toList "%\x22class.Texture2D<float>\x22* @g_Tex, ".toList
      "0".toList "3".toList ", i32 1, i32 2, !6\x7d\n".toList ∧
    stoi "0".toList = .ok 0 ∧ stoi "3".toList = .ok 3 ∧
    PatchResourceDeclaration [("g_Tex".toList, ⟨7, 2, 1, .SRV, 0⟩)]
      ⟨[⟨3, 0, 4294967295⟩],
        "!5 = !\x7bi32 0, %\x22class.Texture2D<float>\x22* @g_Tex, !\x22g_Tex\x22, i32 0, i32 3, i32 1, i32 2, !6\x7d\n".toList⟩ =
      .ok ⟨[⟨3, 0, 0⟩],
        "!5 = !\x7bi32 0, %\x22class.Texture2D<float>\x22* @g_Tex, !\x22g_Tex\x22, i32 2, i32 7, i32 1, i32 2, !6\x7d\n".toList⟩ :=
  have hrec : NamedRecord
      "!5 = !\x7bi32 0, %\x22class.Texture2D<float>\x22* @g_Tex, !\x22g_Tex\x22, i32 0, i32 3, i32 1, i32 2, !6\x7d\n".toList
      "g_Tex".toList "!5 ".toList "0".toList "%\x22class.Texture2D<float>\x22* @g_Tex, ".toList
      "0".toList "3".toList ", i32 1, i32 2, !6\x7d\n".toList :=
    ⟨by decide, by decide, by decide, by decide, by decide, by decide, by decide⟩
  ⟨hrec, by decide, by decide,
    ((named_declaration_patched "g_Tex".toList ⟨7, 2, 1, .SRV, 0⟩ [] [⟨3, 0, 4294967295⟩]
      ⟨3, 0, 4294967295⟩ _ _ _ _ _ _ _ 0 3 (by decide) hrec (by decide) (by decide) (by decide)
      (by decide)).2.2 (by decide)).trans (by decide)⟩

/-! ## Decimal text of a number -/

theorem digitChar_toNat (d : Nat) (h : d < 10) : (Char.ofNat ('0'.toNat + d)).toNat = 48 + d := by
  interval_cases d <;> rfl

theorem digitChar_isDigit (d : Nat) (h : d < 10) : isDigit (Char.ofNat ('0'.toNat + d)) = true := by
  interval_cases d <;> rfl

theorem decimalRev_digits : ∀ (fuel n : Nat), ∀ c ∈ decimalRev fuel n, isDigit c = true
  | 0, _, c, hc => by simp [decimalRev] at hc
  | fuel + 1, n, c, hc => by
    unfold decimalRev at hc
    split at hc
    · rename_i h
      simp only [List.mem_singleton] at hc
      subst hc
      exact digitChar_isDigit n h
    · simp only [List.mem_cons] at hc
      rcases hc with rfl | hc
      · exact digitChar_isDigit _ (Nat.mod_lt _ (by decide))
      · exact decimalRev_digits fuel (n / 10) c hc

theorem decimalRev_ne_nil (fuel n : Nat) : decimalRev (fuel + 1) n ≠ [] := by
  unfold decimalRev
  split <;> simp

theorem digitsValue_reverse (l : Str) :
    digitsValue l.reverse = l.foldr (fun c acc => 10 * acc + (c.toNat - '0'.toNat)) 0 := by
  unfold digitsValue
  rw [List.foldl_reverse]

theorem decimalRev_value : ∀ (fuel n : Nat), n < fuel →
    (decimalRev fuel n).foldr (fun c acc => 10 * acc + (c.toNat - '0'.toNat)) 0 = n
  | 0, _, h => by omega
  | fuel + 1, n, h => by
    unfold decimalRev
    have h0 : '0'.toNat = 48 := rfl
    split
    · rename_i hn
      simp only [List.foldr, digitChar_toNat n hn]
      rw [h0]
      omega
    · rename_i hn
      have ih := decimalRev_value fuel (n / 10) (by omega)
      simp only [List.foldr, ih, digitChar_toNat _ (Nat.mod_lt n (by decide : 10 > 0))]
      rw [h0]
      omega

theorem to_string_value (n : Nat) : digitsValue (to_string n) = n := by
  unfold to_string
  rw [digitsValue_reverse, decimalRev_value _ _ (Nat.lt_succ_self n)]

theorem to_string_digitsEnd (n : Nat) : DigitsEnd (to_string n) [] := by
  refine ⟨?_, ?_, ?_⟩
  · unfold to_string
    simp only [ne_eq, List.reverse_eq_nil_iff]
    exact decimalRev_ne_nil n n
  · intro c hc
    unfold to_string at hc
    exact decimalRev_digits _ _ c (List.mem_reverse.mp hc)
  · intro c hc
    simp at hc

theorem to_string_numberSymbols (n : Nat) : ∀ c ∈ to_string n, c ∈ NumberSymbols :=
  fun c hc => isDigit_mem_NumberSymbols c ((to_string_digitsEnd n).2.1 c hc)

theorem strtol_to_string (n : Nat) : strtol (to_string n) = some (n : Int) := by
  have := strtol_digits (to_string n) [] (to_string_digitsEnd n)
  rw [List.append_nil, to_string_value] at this
  exact this

/-- The decimal text of `n` reads back as `n` when it fits `int`, and `stoi`
throws `std::out_of_range` otherwise. -/
theorem stoi_to_string (n : Nat) :
    stoi (to_string n) = if n ≤ 2147483647 then .ok (n : Int) else .error .thrown := by
  unfold stoi
  rw [strtol_to_string]
  simp only [fitsInt, Bool.and_eq_true, decide_eq_true_eq]
  by_cases h : n ≤ 2147483647
  · rw [if_pos h, if_pos (by omega)]
  · rw [if_neg h, if_neg (by omega)]

/-! ## Skipped names and the previous-value guard -/

theorem patchNamedRecords_append (before after : TResourceBindingMap) (st : PatchState) :
    patchNamedRecords (before ++ after) st =
      match patchNamedRecords before st with
      | .error e => .error e
      | .ok st => patchNamedRecords after st := by
  induction before generalizing st with
  | nil => rfl
  | cons e rest ih =>
    simp only [List.cons_append, patchNamedRecords]
    cases patchNamedRecord e st with
    | error e => rfl
    | ok st1 => exact ih st1

theorem PatchDXIL_of_named_thrown (ResourceMap : TResourceBindingMap) (st st1 : PatchState)
    (h : patchNamedRecords ResourceMap st = .error (.thrown, st1)) :
    PatchDXIL ResourceMap st = .ok (false, st1) := by
  simp only [PatchDXIL, PatchResourceDeclaration, h, catchAll]

/-- Claim C7 (missing name is skipped). When the quoted name `!"Name"` of an entry
occurs nowhere in the program text, the body of the named loop returns normally
with the text and the whole `ExtResInfo` table (so the entry's source space,
source bind point and record id) unchanged, and the loop goes on with the
remaining entries from that same state. -/
theorem missing_name_skipped (Name : Str) (B : BindInfo) (rest : TResourceBindingMap)
    (ExtResInfo : TResourceMapExtendedInfo) (DXIL : Str)
    (hUID : B.UID < ExtResInfo.length)
    (hno : ¬ DxilName Name <:+: DXIL) :
    patchNamedRecord (Name, B) ⟨ExtResInfo, DXIL⟩ = .ok ⟨ExtResInfo, DXIL⟩ ∧
    patchNamedRecords ((Name, B) :: rest) ⟨ExtResInfo, DXIL⟩ =
      patchNamedRecords rest ⟨ExtResInfo, DXIL⟩ := by
  have hfind : find (DxilName Name) DXIL 0 = none :=
    find_eq_none _ _ _ (fun j _ _ => by
      cases hj : occursAt (DxilName Name) DXIL j with
      | false => rfl
      | true => exact absurd (occursAt_isInfix _ _ _ hj) hno)
  have hExt : ExtResInfo[B.UID]? = some ExtResInfo[B.UID] := List.getElem?_eq_getElem hUID
  have key : patchNamedRecord (Name, B) ⟨ExtResInfo, DXIL⟩ = .ok ⟨ExtResInfo, DXIL⟩ := by
    simp only [patchNamedRecord, hExt, hfind]
  exact ⟨key, by rw [patchNamedRecords, key]⟩

/-- Witness of C7: an entry `g_Unused` against a text that only declares `g_Tex`. -/
theorem missing_name_skipped_witness :
    (0 : Nat) < [({} : ResourceExtendedInfo)].length ∧
    ¬ DxilName "g_Unused".toList <:+: "!5 = !\x7bi32 0, %T* @g_Tex, !\x22g_Tex\x22, i32 0, i32 3\x7d".toList ∧
    patchNamedRecords [("g_Unused".toList, ⟨1, 1, 1, .SRV, 0⟩)]
      ⟨[{}], "!5 = !\x7bi32 0, %T* @g_Tex, !\x22g_Tex\x22, i32 0, i32 3\x7d".toList⟩ =
      .ok ⟨[{}], "!5 = !\x7bi32 0, %T* @g_Tex, !\x22g_Tex\x22, i32 0, i32 3\x7d".toList⟩ :=
  ⟨by decide, by decide,
    (missing_name_skipped "g_Unused".toList ⟨1, 1, 1, .SRV, 0⟩ [] [{}] _ (by decide) (by decide)).2⟩

/-- Claim C5 (previous-value guard). Let the named loop reach the entry
`(Name, B)` in the state `(ExtResInfo, DXIL)` and locate its record. If the space
field parses to a value other than the recorded source space, or the space field
matches and the bind-point field parses to a value other than the recorded
source bind point, then `PatchDXIL` returns `false`; the text it leaves is the
located record with the mismatching field (and everything after it) as it was:
the bind-point field is never replaced, and the space field is replaced only
when it passed its own guard. -/
theorem previous_value_guard (Name : Str) (B : BindInfo) (before after : TResourceBindingMap)
    (st0 : PatchState) (ExtResInfo : TResourceMapExtendedInfo) (Ext : ResourceExtendedInfo)
    (DXIL head idLit mid sp bp tail : Str) (vs : Int)
    (hbefore : patchNamedRecords before st0 = .ok ⟨ExtResInfo, DXIL⟩)
    (hExt : ExtResInfo[B.UID]? = some Ext)
    (hrec : NamedRecord DXIL Name head idLit mid sp bp tail)
    (hsp : stoi sp = .ok vs)
    (hmis : toUint32 vs ≠ Ext.SrcSpace ∨
      ∃ vb, stoi bp = .ok vb ∧ toUint32 vb ≠ Ext.SrcBindPoint) :
    PatchDXIL (before ++ (Name, B) :: after) st0 =
      .ok (false, ⟨setRecordId ExtResInfo B.UID (digitsValue idLit),
        patchedNamedText Name head idLit mid
          (if toUint32 vs = Ext.SrcSpace then to_string B.Space else sp) bp tail⟩) := by
  apply PatchDXIL_of_named_thrown
  rw [patchNamedRecords_append, hbefore]
  simp only [patchNamedRecords]
  rw [patchNamedRecord_located Name B ExtResInfo Ext hExt hrec]
  have e1 : DXIL = (recordPrefix head idLit mid ++ DxilName Name) ++ ", i32 ".toList ++ sp ++
      (", i32 ".toList ++ bp ++ tail) := by
    rw [hrec.text]; simp only [List.append_assoc]
  have hfe := fieldEnds_sep sp (bp ++ tail) hrec.space
  rw [← List.append_assoc] at hfe
  by_cases hs : toUint32 vs = Ext.SrcSpace
  · rcases hmis with hm | ⟨vb, hbp, hb⟩
    · exact absurd hs hm
    · have r1 := ReplaceRecord_ok (recordPrefix head idLit mid ++ DxilName Name) sp
        (", i32 ".toList ++ bp ++ tail) (to_string B.Space) vs Ext.SrcSpace hfe hsp hs
      rw [List.length_append, ← e1] at r1
      rw [r1]
      simp only
      have e2 : recordPrefix head idLit mid ++ DxilName Name ++ ", i32 ".toList ++ to_string B.Space ++
          (", i32 ".toList ++ bp ++ tail) =
          (recordPrefix head idLit mid ++ DxilName Name ++ ", i32 ".toList ++ to_string B.Space) ++
            ", i32 ".toList ++ bp ++ tail := by
        simp only [List.append_assoc]
      have r2 := ReplaceRecord_mismatch
        (recordPrefix head idLit mid ++ DxilName Name ++ ", i32 ".toList ++ to_string B.Space) bp tail
        (to_string B.BindPoint) vb Ext.SrcBindPoint hrec.bind hbp hb
      have hl : (recordPrefix head idLit mid ++ DxilName Name ++ ", i32 ".toList ++
          to_string B.Space).length =
          (recordPrefix head idLit mid).length + (DxilName Name).length + 6 +
            (to_string B.Space).length := by
        simp only [List.length_append, commaI32_length]
      rw [hl, ← e2] at r2
      rw [r2, if_pos hs]
      simp only [patchedNamedText, List.append_assoc]
  · have r1 := ReplaceRecord_mismatch (recordPrefix head idLit mid ++ DxilName Name) sp
      (", i32 ".toList ++ bp ++ tail) (to_string B.Space) vs Ext.SrcSpace hfe hsp hs
    rw [List.length_append, ← e1] at r1
    rw [r1, if_neg hs]
    simp only [patchedNamedText, hrec.text]

/-- Witness of C5, the double patch: remapping `g_Tex` from space 0, slot 3 to
space 2, slot 7 succeeds on the original text; the same remap applied to the
patched text finds `2` where it expects the source space `0` and returns
`false`, leaving the text as it was. -/
theorem previous_value_guard_witness :
    PatchDXIL [("g_Tex".toList, ⟨7, 2, 1, .SRV, 0⟩)]
      ⟨[⟨3, 0, 4294967295⟩], "!5 = !\x7bi32 0, %T* @g_Tex, !\x22g_Tex\x22, i32 0, i32 3, i32 1\x7d\n".toList⟩ =
      .ok (true, ⟨[⟨3, 0, 0⟩], "!5 = !\x7bi32 0, %T* @g_Tex, !\x22g_Tex\x22, i32 2, i32 7, i32 1\x7d\n".toList⟩) ∧
    NamedRecord "!5 = !\x7bi32 0, %T* @g_Tex, !\x22g_Tex\x22, i32 2, i32 7, i32 1\x7d\n".toList
      "g_Tex".toList "!5 ".toList "0".toList "%T* @g_Tex, ".toList "2".toList "7".toList
      ", i32 1\x7d\n".toList ∧
    stoi "2".toList = .ok 2 ∧ toUint32 2 ≠ 0 ∧
    PatchDXIL [("g_Tex".toList, ⟨7, 2, 1, .SRV, 0⟩)]
      ⟨[⟨3, 0, 4294967295⟩], "!5 = !\x7bi32 0, %T* @g_Tex, !\x22g_Tex\x22, i32 2, i32 7, i32 1\x7d\n".toList⟩ =
      .ok (false, ⟨[⟨3, 0, 0⟩], "!5 = !\x7bi32 0, %T* @g_Tex, !\x22g_Tex\x22, i32 2, i32 7, i32 1\x7d\n".toList⟩) :=
  have hrec : NamedRecord "!5 = !\x7bi32 0, %T* @g_Tex, !\x22g_Tex\x22, i32 2, i32 7, i32 1\x7d\n".toList
      "g_Tex".toList "!5 ".toList "0".toList "%T* @g_Tex, ".toList "2".toList "7".toList
      ", i32 1\x7d\n".toList :=
    ⟨by decide, by decide, by decide, by decide, by decide, by decide, by decide⟩
  ⟨by decide, hrec, by decide, by decide,
    (previous_value_guard "g_Tex".toList ⟨7, 2, 1, .SRV, 0⟩ [] [] _ [⟨3, 0, 4294967295⟩]
      ⟨3, 0, 4294967295⟩ _ _ _ _ _ _ _ 2 rfl (by decide) hrec (by decide)
      (Or.inl (by decide))).trans (by decide)⟩

/-! ## Applying a remap twice -/

theorem isPrefixOf_append_of_le (pat x b : Str) (h : pat.length ≤ x.length) :
    pat.isPrefixOf (x ++ b) = pat.isPrefixOf x := by
  rw [Bool.eq_iff_iff, List.isPrefixOf_iff_prefix, List.isPrefixOf_iff_prefix]
  constructor
  · intro hp
    exact List.prefix_of_prefix_length_le hp (List.prefix_append x b) h
  · intro hp
    exact hp.trans (List.prefix_append x b)

/-- Whether `pat` occurs at `j` depends only on the text up to `j + pat.length`. -/
theorem occursAt_append_of_le (pat a b : Str) (j : Nat) (h : j + pat.length ≤ a.length) :
    occursAt pat (a ++ b) j = occursAt pat a j := by
  unfold occursAt
  rw [List.drop_append_of_le_length (by omega), isPrefixOf_append_of_le _ _ _ (by simp; omega)]

theorem occursAt_congr_head (pat a b b' : Str) (j : Nat) (h : j + pat.length ≤ a.length) :
    occursAt pat (a ++ b) j = occursAt pat (a ++ b') j := by
  rw [occursAt_append_of_le _ _ _ _ h, occursAt_append_of_le _ _ _ _ h]

theorem setRecordId_getElem? (ExtResInfo : TResourceMapExtendedInfo) (UID RecordId : Nat)
    (Ext : ResourceExtendedInfo) (h : ExtResInfo[UID]? = some Ext) :
    (setRecordId ExtResInfo UID RecordId)[UID]? = some { Ext with RecordId := RecordId } := by
  unfold setRecordId
  rw [List.getElem?_modify_eq, h]
  rfl

theorem DxilName_length (Name : Str) : (DxilName Name).length = Name.length + 3 := by
  unfold DxilName
  simp only [List.length_append]
  have h1 : "!\x22".toList.length = 2 := rfl
  have h2 : "\x22".toList.length = 1 := rfl
  omega

/-- The fields of a located record may be exchanged for other complete fields:
the record stays located. -/
theorem NamedRecord.withFields {DXIL Name head idLit mid sp bp tail : Str}
    (h : NamedRecord DXIL Name head idLit mid sp bp tail) (sp' bp' : Str)
    (hsp : ∀ c ∈ sp', c ∈ NumberSymbols) (hbp : ∀ c ∈ bp', c ∈ NumberSymbols) :
    NamedRecord (patchedNamedText Name head idLit mid sp' bp' tail) Name head idLit mid sp' bp'
      tail := by
  have key : ∀ (pat : Str) (j : Nat), pat.length ≤ (DxilName Name).length + 6 →
      j ≤ (recordPrefix head idLit mid).length →
      occursAt pat (patchedNamedText Name head idLit mid sp' bp' tail) j = occursAt pat DXIL j := by
    intro pat j hp hj
    rw [h.text, patchedNamedText]
    have e : ∀ s b : Str, recordPrefix head idLit mid ++ DxilName Name ++ ", i32 ".toList ++ s ++
        ", i32 ".toList ++ b ++ tail =
        (recordPrefix head idLit mid ++ DxilName Name ++ ", i32 ".toList) ++
          (s ++ ", i32 ".toList ++ b ++ tail) := by
      intro s b; simp only [List.append_assoc]
    rw [e, e]
    apply occursAt_congr_head
    simp only [List.length_append, commaI32_length]
    omega
  refine ⟨rfl, ?_, ?_, h.idDigits, h.idFits, hsp, hbp, h.bind.2⟩
  · intro j hj
    rw [key _ _ (by omega) (by omega)]
    exact h.firstName j hj
  · intro j hj hj'
    rw [key _ _ (by rw [ResourceRecStart_length, DxilName_length]; omega) hj]
    exact h.lastStart j hj hj'

/-- The field check of `ReplaceRecord` on the decimal text of a desired value
`n` that is not the expected previous value: it throws. -/
theorem ReplaceRecord_desired_ne (a tail new : Str) (n expected : Nat)
    (h : FieldEnds (to_string n) tail) (hne : n ≠ expected) :
    ReplaceRecord (a ++ ", i32 ".toList ++ to_string n ++ tail) a.length new expected =
      .error .thrown := by
  by_cases hn : n ≤ 2147483647
  · have hv : stoi (to_string n) = .ok (n : Int) := by rw [stoi_to_string, if_pos hn]
    exact ReplaceRecord_mismatch a _ tail new n expected h hv
      (by rw [toUint32_natCast n (by omega)]; exact hne)
  · have hv : stoi (to_string n) = .error .thrown := by rw [stoi_to_string, if_neg hn]
    exact ReplaceRecord_unparsable a _ tail new expected h hv

/-- On the decimal text of a desired value, `ReplaceRecord` either throws or
succeeds; it succeeds only when the value is the expected previous one. -/
theorem ReplaceRecord_desired (a tail new : Str) (n expected : Nat)
    (h : FieldEnds (to_string n) tail) :
    ReplaceRecord (a ++ ", i32 ".toList ++ to_string n ++ tail) a.length new expected =
        .error .thrown ∨
      (n = expected ∧
        ReplaceRecord (a ++ ", i32 ".toList ++ to_string n ++ tail) a.length new expected =
          .ok (a ++ ", i32 ".toList ++ new ++ tail, a.length + 6 + new.length)) := by
  by_cases hn : n ≤ 2147483647
  · have hv : stoi (to_string n) = .ok (n : Int) := by rw [stoi_to_string, if_pos hn]
    by_cases he : n = expected
    · exact Or.inr ⟨he, ReplaceRecord_ok a _ tail new n expected h hv
        (by rw [toUint32_natCast n (by omega)]; exact he)⟩
    · exact Or.inl (ReplaceRecord_desired_ne a tail new n expected h he)
  · have hv : stoi (to_string n) = .error .thrown := by rw [stoi_to_string, if_neg hn]
    exact Or.inl (ReplaceRecord_unparsable a _ tail new expected h hv)

/-- Applying the same remap twice (companion of claim C5). After the named loop
body has patched the record of `(Name, B)`, whose desired space or bind point
differs from the recorded source one, `PatchDXIL` with the same entry on the
patched text returns `false`: the field that now holds the desired value fails
the previous-value guard (or does not fit `int`). -/
theorem named_patch_twice_fails (Name : Str) (B : BindInfo)
    (ExtResInfo : TResourceMapExtendedInfo) (Ext : ResourceExtendedInfo)
    (DXIL head idLit mid sp bp tail : Str)
    (hExt : ExtResInfo[B.UID]? = some Ext)
    (hrec : NamedRecord DXIL Name head idLit mid sp bp tail)
    (hne : B.Space ≠ Ext.SrcSpace ∨ B.BindPoint ≠ Ext.SrcBindPoint) :
    ∃ st, PatchDXIL [(Name, B)]
      ⟨setRecordId ExtResInfo B.UID (digitsValue idLit),
        patchedNamedText Name head idLit mid (to_string B.Space) (to_string B.BindPoint) tail⟩ =
      .ok (false, st) := by
  have hrec2 := hrec.withFields (to_string B.Space) (to_string B.BindPoint)
    (to_string_numberSymbols _) (to_string_numberSymbols _)
  have hExt2 := setRecordId_getElem? ExtResInfo B.UID (digitsValue idLit) Ext hExt
  have e1 : patchedNamedText Name head idLit mid (to_string B.Space) (to_string B.BindPoint) tail =
      (recordPrefix head idLit mid ++ DxilName Name) ++ ", i32 ".toList ++ to_string B.Space ++
      (", i32 ".toList ++ to_string B.BindPoint ++ tail) := by
    rw [patchedNamedText]; simp only [List.append_assoc]
  have hfe := fieldEnds_sep (to_string B.Space) (to_string B.BindPoint ++ tail)
    (to_string_numberSymbols _)
  rw [← List.append_assoc] at hfe
  have hloc := patchNamedRecord_located Name B _ _ hExt2 hrec2
  have hstep : ∃ st, patchNamedRecord (Name, B)
      ⟨setRecordId ExtResInfo B.UID (digitsValue idLit),
        patchedNamedText Name head idLit mid (to_string B.Space) (to_string B.BindPoint) tail⟩ =
      .error (.thrown, st) := by
    rcases ReplaceRecord_desired (recordPrefix head idLit mid ++ DxilName Name)
      (", i32 ".toList ++ to_string B.BindPoint ++ tail) (to_string B.Space) B.Space Ext.SrcSpace hfe
      with r1 | ⟨hs, r1⟩
    · rw [List.length_append, ← e1] at r1
      rw [r1] at hloc
      exact ⟨_, hloc⟩
    · rw [List.length_append, ← e1] at r1
      rw [r1] at hloc
      simp only at hloc
      have hb : B.BindPoint ≠ Ext.SrcBindPoint := by
        rcases hne with h | h
        · exact absurd hs h
        · exact h
      have r2 := ReplaceRecord_desired_ne
        (recordPrefix head idLit mid ++ DxilName Name ++ ", i32 ".toList ++ to_string B.Space) tail
        (to_string B.BindPoint) B.BindPoint Ext.SrcBindPoint hrec2.bind hb
      have hl : (recordPrefix head idLit mid ++ DxilName Name ++ ", i32 ".toList ++
          to_string B.Space).length =
          (recordPrefix head idLit mid).length + (DxilName Name).length + 6 +
            (to_string B.Space).length := by
        simp only [List.length_append, commaI32_length]
      have e2 : recordPrefix head idLit mid ++ DxilName Name ++ ", i32 ".toList ++ to_string B.Space ++
          ", i32 ".toList ++ to_string B.BindPoint ++ tail =
          recordPrefix head idLit mid ++ DxilName Name ++ ", i32 ".toList ++ to_string B.Space ++
          (", i32 ".toList ++ to_string B.BindPoint ++ tail) := by
        simp only [List.append_assoc]
      rw [hl, e2, ← e1] at r2
      rw [r2] at hloc
      exact ⟨_, hloc⟩
  obtain ⟨st, hst⟩ := hstep
  exact ⟨st, PatchDXIL_of_named_thrown _ _ _ (by simp only [patchNamedRecords, hst])⟩

/-! ## The positional pass: locating a record -/

theorem EmptyResDecl_length : EmptyResDecl.length = 6 := rfl

theorem emptyName_length : ", !\x22\x22".toList.length = 5 := rfl

theorem recordPrefix_length (head idLit mid : Str) :
    (recordPrefix head idLit mid).length = head.length + 4 + 4 + idLit.length + 2 + mid.length := by
  simp only [recordPrefix, List.length_append, ResourceRecStart_length, i32_length]
  rfl

theorem commaSpaceAt_comma (a b : Str) (n : Nat) (h : n = a.length) :
    commaSpaceAt (a ++ ", ".toList ++ b) n = .ok true := by
  subst h
  have : ", ".toList = [',', ' '] := rfl
  simp [commaSpaceAt, charAt, this]

/-- What the anonymous loop body reads on a located record, up to the search in
the resource map. -/
theorem AnonymousRecord.scanned {DXIL : Str} {pos : Nat} {head idLit ty sp bp tail : Str}
    (h : AnonymousRecord DXIL pos head idLit ty sp bp tail) (vs vb : Int)
    (hsp : stoi sp = .ok vs) (hbp : stoi bp = .ok vb) :
    pos < DXIL.length ∧
    find EmptyResDecl DXIL pos = some (recordPrefix head idLit ty).length ∧
    rfind ResourceRecStart DXIL (recordPrefix head idLit ty).length = some head.length ∧
    occursAt i32 DXIL (head.length + 4) = true ∧
    findFirstNotOf NumberSymbols DXIL (head.length + 4 + 4) = some (head.length + 4 + 4 + idLit.length) ∧
    atoi (DXIL.drop (head.length + 4 + 4)) = .ok (digitsValue idLit : Int) ∧
    commaSpaceAt DXIL (head.length + 4 + 4 + idLit.length) = .ok true ∧
    ReadRecord DXIL ((recordPrefix head idLit ty).length + 6 - 1) =
      .ok (.read (some ((recordPrefix head idLit ty).length + 5 + 6 + sp.length)) (toUint32 vs)) ∧
    ReadRecord DXIL ((recordPrefix head idLit ty).length + 5 + 6 + sp.length) =
      .ok (.read (fieldStop ((recordPrefix head idLit ty).length + 5 + 6 + sp.length + 2 + 4) bp tail)
        (toUint32 vb)) := by
  have hlen : (recordPrefix head idLit ty).length + 6 ≤ DXIL.length := by
    rw [h.text, anonymousText]
    simp only [List.length_append, emptyName_length, commaI32_length]; omega
  have hmark : occursAt EmptyResDecl DXIL (recordPrefix head idLit ty).length = true := by
    have e : DXIL = recordPrefix head idLit ty ++ EmptyResDecl ++
        (" i32 ".toList ++ sp ++ ", i32 ".toList ++ bp ++ tail) := by
      rw [h.text, anonymousText]
      have e1 : ", !\x22\x22".toList ++ ", i32 ".toList = EmptyResDecl ++ " i32 ".toList := rfl
      simp only [List.append_assoc]
      rw [← List.append_assoc (", !\x22\x22".toList), e1]
      simp only [List.append_assoc]
    rw [e]
    exact occursAt_at _ _ _ _ rfl
  have hstart : occursAt ResourceRecStart DXIL head.length = true := by
    rw [h.text, anonymousText, recordPrefix]
    simp only [List.append_assoc]
    rw [← List.append_assoc]
    exact occursAt_at _ _ _ _ rfl
  have hhead : head.length ≤ (recordPrefix head idLit ty).length := by
    rw [recordPrefix_length]; omega
  have hcomma : ", ".toList = ',' :: " ".toList := rfl
  refine ⟨?_, ?_, ?_, ?_, ?_, ?_, ?_, ?_, ?_⟩
  · have := h.start; omega
  · exact find_eq_some _ _ _ _ hmark (by omega) h.start (fun j hj hj' => h.firstMarker j hj' hj)
  · exact rfind_eq_some _ _ _ _ (by decide) hstart hhead (fun j h1 h2 => h.lastStart j h2 h1)
  · rw [h.text, anonymousText, recordPrefix]
    simp only [List.append_assoc]
    rw [← List.append_assoc, ← List.append_assoc]
    exact occursAt_at _ _ _ _ (by simp [ResourceRecStart_length])
  · rw [h.text, anonymousText, recordPrefix]
    simp only [List.append_assoc]
    rw [← List.append_assoc, ← List.append_assoc]
    unfold findFirstNotOf
    rw [drop_append_len _ _ _ (by simp [ResourceRecStart_length, i32_length])]
    rw [findFirstNotOfAux_run NumberSymbols idLit _
      (head.length + 4 + 4) (fun c hc => isDigit_mem_NumberSymbols c (h.idDigits.2 c hc))
      (by
        intro c hc
        rw [hcomma] at hc
        simp at hc
        subst hc
        decide), if_neg]
    rw [hcomma]; simp
  · rw [h.text, anonymousText, recordPrefix]
    simp only [List.append_assoc]
    rw [← List.append_assoc, ← List.append_assoc]
    rw [drop_append_len _ _ _ (by simp [ResourceRecStart_length, i32_length])]
    exact atoi_digits _ _ (digitsEnd_sep _ _ h.idDigits) h.idFits
  · rw [h.text, anonymousText, recordPrefix]
    simp only [List.append_assoc]
    rw [← List.append_assoc, ← List.append_assoc, ← List.append_assoc, ← List.append_assoc]
    exact commaSpaceAt_comma _ _ _
      (by simp only [List.length_append, ResourceRecStart_length, i32_length])
  · have e : DXIL = (recordPrefix head idLit ty ++ ", !\x22\x22".toList) ++ ", i32 ".toList ++ sp ++
        (", i32 ".toList ++ bp ++ tail) := by
      rw [h.text, anonymousText]; simp only [List.append_assoc]
    have hfe := fieldEnds_sep sp (bp ++ tail) h.space
    rw [← List.append_assoc] at hfe
    have r := ReadRecord_ok (recordPrefix head idLit ty ++ ", !\x22\x22".toList) sp
      (", i32 ".toList ++ bp ++ tail) vs hfe hsp
    rw [← e, List.length_append, emptyName_length] at r
    have hp : (recordPrefix head idLit ty).length + 6 - 1 = (recordPrefix head idLit ty).length + 5 := by
      omega
    rw [hp, r]
    have hne : ", i32 ".toList ++ bp ++ tail ≠ [] := by
      have : ", i32 ".toList = ',' :: " i32 ".toList := rfl
      rw [this]; simp
    simp only [fieldStop, if_neg hne]
  · have e : DXIL = (recordPrefix head idLit ty ++ ", !\x22\x22".toList ++ ", i32 ".toList ++ sp) ++
        ", i32 ".toList ++ bp ++ tail := by
      rw [h.text, anonymousText]
    have r := ReadRecord_ok (recordPrefix head idLit ty ++ ", !\x22\x22".toList ++ ", i32 ".toList ++ sp)
      bp tail vb h.bind hbp
    have hl : (recordPrefix head idLit ty ++ ", !\x22\x22".toList ++ ", i32 ".toList ++ sp).length =
        (recordPrefix head idLit ty).length + 5 + 6 + sp.length := by
      simp only [List.length_append, emptyName_length, commaI32_length]
    rw [← e, hl] at r
    exact r

theorem findBySource_found (ExtResInfo : TResourceMapExtendedInfo) (BindPoint Space : Nat)
    (ResType : ShaderResType) : ∀ (ResourceMap : TResourceBindingMap),
    ValidUIDs ResourceMap ExtResInfo →
    (∃ nb ∈ ResourceMap, HasSource ExtResInfo BindPoint Space ResType nb) →
    ∃ ResPair Ext, findBySource ExtResInfo BindPoint Space ResType ResourceMap =
        .ok (some (ResPair, Ext)) ∧
      ResPair ∈ ResourceMap ∧ ExtResInfo[ResPair.2.UID]? = some Ext ∧
      Ext.SrcBindPoint = BindPoint ∧ Ext.SrcSpace = Space ∧ ResPair.2.ResType = ResType
  | [], _, h => by
    obtain ⟨nb, hnb, _⟩ := h
    simp at hnb
  | nb :: rest, hv, h => by
    have hlt := hv nb (by simp)
    have hget : ExtResInfo[nb.2.UID]? = some ExtResInfo[nb.2.UID] := List.getElem?_eq_getElem hlt
    by_cases hm : ExtResInfo[nb.2.UID].SrcBindPoint = BindPoint ∧
        ExtResInfo[nb.2.UID].SrcSpace = Space ∧ nb.2.ResType = ResType
    · refine ⟨nb, ExtResInfo[nb.2.UID], ?_, by simp, hget, hm.1, hm.2.1, hm.2.2⟩
      simp only [findBySource, hget, if_pos hm]
    · have hrest : ∃ nb' ∈ rest, HasSource ExtResInfo BindPoint Space ResType nb' := by
        obtain ⟨nb', hmem, Ext, hE, h1, h2, h3⟩ := h
        rcases List.mem_cons.mp hmem with rfl | hmem'
        · rw [hget] at hE
          injection hE with hE
          subst hE
          exact absurd ⟨h1, h2, h3⟩ hm
        · exact ⟨nb', hmem', Ext, hE, h1, h2, h3⟩
      obtain ⟨ResPair, Ext, hf, hmem, hrest'⟩ :=
        findBySource_found ExtResInfo BindPoint Space ResType rest
          (fun x hx => hv x (by simp [hx])) hrest
      refine ⟨ResPair, Ext, ?_, by simp [hmem], hrest'⟩
      simp only [findBySource, hget, if_neg hm, hf]

theorem findBySource_none (ExtResInfo : TResourceMapExtendedInfo) (BindPoint Space : Nat)
    (ResType : ShaderResType) : ∀ (ResourceMap : TResourceBindingMap),
    ValidUIDs ResourceMap ExtResInfo →
    (∀ nb ∈ ResourceMap, ¬ HasSource ExtResInfo BindPoint Space ResType nb) →
    findBySource ExtResInfo BindPoint Space ResType ResourceMap = .ok none
  | [], _, _ => rfl
  | nb :: rest, hv, h => by
    have hlt := hv nb (by simp)
    have hget : ExtResInfo[nb.2.UID]? = some ExtResInfo[nb.2.UID] := List.getElem?_eq_getElem hlt
    have hm : ¬ (ExtResInfo[nb.2.UID].SrcBindPoint = BindPoint ∧
        ExtResInfo[nb.2.UID].SrcSpace = Space ∧ nb.2.ResType = ResType) := by
      intro hm
      exact h nb (by simp) ⟨_, hget, hm.1, hm.2.1, hm.2.2⟩
    simp only [findBySource, hget, if_neg hm]
    exact findBySource_none ExtResInfo BindPoint Space ResType rest
      (fun x hx => hv x (by simp [hx])) (fun x hx => h x (by simp [hx]))

/-- The anonymous loop body on a located, recognised record, reduced to the
search in the resource map and the two `ReplaceRecord` calls. -/
theorem patchAnonymousStep_located (ResourceMap : TResourceBindingMap)
    (ExtResInfo : TResourceMapExtendedInfo) {DXIL : Str} {pos : Nat}
    {head idLit ty sp bp tail : Str} (cls : ShaderResType) (vs vb : Int)
    (h : AnonymousRecord DXIL pos head idLit ty sp bp tail)
    (hcls : classifyResType ResourceMap DXIL (head.length + 4 + 4 + idLit.length + 2) = cls)
    (hrecog : cls ≠ .Count)
    (hsp : stoi sp = .ok vs) (hbp : stoi bp = .ok vb) :
    patchAnonymousStep ResourceMap ⟨ExtResInfo, DXIL⟩ pos =
      match findBySource ExtResInfo (toUint32 vb) (toUint32 vs) cls ResourceMap with
      | .error f => .error (f, ⟨ExtResInfo, DXIL⟩)
      | .ok none => .error (.thrown, ⟨ExtResInfo, DXIL⟩)
      | .ok (some (ResPair, Ext)) =>
        match ReplaceRecord DXIL ((recordPrefix head idLit ty).length + 5)
            (to_string ResPair.2.Space) Ext.SrcSpace with
        | .error f =>
          .error (f, ⟨setRecordId ExtResInfo ResPair.2.UID (digitsValue idLit), DXIL⟩)
        | .ok (DXIL, pos) =>
          match ReplaceRecord DXIL pos (to_string ResPair.2.BindPoint) Ext.SrcBindPoint with
          | .error f =>
            .error (f, ⟨setRecordId ExtResInfo ResPair.2.UID (digitsValue idLit), DXIL⟩)
          | .ok (DXIL, pos) =>
            .ok (some (⟨setRecordId ExtResInfo ResPair.2.UID (digitsValue idLit), DXIL⟩, pos)) := by
  obtain ⟨_, h1, h2, h3, h4, h5, h6, h7, h8⟩ := h.scanned vs vb hsp hbp
  have hid : toUint32 (digitsValue idLit : Int) = digitsValue idLit :=
    toUint32_natCast _ (by have := h.idFits; omega)
  have hp : (recordPrefix head idLit ty).length + 6 - 1 = (recordPrefix head idLit ty).length + 5 := by
    omega
  rw [hp] at h7
  simp only [patchAnonymousStep, h1, h2, ResourceRecStart_length, h3, if_true, i32_length, h4, h5,
    hid, h6, hcls, if_neg hrecog, EmptyResDecl_length, hp, h7, h8]
  try rfl

/-! ## The positional pass: type signatures -/

theorem not_prefix_append_cons (pat ty rest : Str) (c : Char) (hc : c ∉ pat) (h : ¬ pat <+: ty) :
    ¬ pat <+: ty ++ c :: rest := by
  intro hp
  by_cases hl : pat.length ≤ ty.length
  · exact h (List.prefix_of_prefix_length_le hp (List.prefix_append ty (c :: rest)) hl)
  · have h2 : ty ++ [c] <+: ty ++ c :: rest := by
      have : ty ++ c :: rest = (ty ++ [c]) ++ rest := by simp
      rw [this]
      exact List.prefix_append _ _
    have h3 : ty ++ [c] <+: pat :=
      List.prefix_of_prefix_length_le h2 hp (by simp; omega)
    exact hc (h3.subset (by simp))

theorem occursAt_of_starts (pat a ty rest : Str) (n : Nat) (hn : n = a.length) (h : pat <+: ty) :
    occursAt pat (a ++ ty ++ rest) n = true := by
  subst hn
  rw [occursAt, List.append_assoc, drop_append_len _ _ _ rfl, List.isPrefixOf_iff_prefix]
  exact h.trans (List.prefix_append ty rest)

theorem occursAt_of_not_starts (pat a ty rest : Str) (c : Char) (n : Nat) (hn : n = a.length)
    (hc : c ∉ pat) (h : ¬ pat <+: ty) :
    occursAt pat (a ++ ty ++ c :: rest) n = false := by
  subst hn
  rw [occursAt, List.append_assoc, drop_append_len _ _ _ rfl]
  cases hb : pat.isPrefixOf (ty ++ c :: rest) with
  | false => rfl
  | true =>
    rw [ List.isPrefixOf_iff_prefix] at hb
    exact absurd hb (not_prefix_append_cons pat ty rest c hc h)

theorem sampler_not_texture (ty : Str) (h : SamplerPart <+: ty) : ¬ TexturePart <+: ty := by
  obtain ⟨t, rfl⟩ := h
  intro h2
  have : TexturePart.isPrefixOf (SamplerPart ++ t) = true := List.isPrefixOf_iff_prefix.mpr h2
  revert this
  have e1 : TexturePart = '%' :: '\x22' :: "class.Texture".toList := rfl
  have e2 : SamplerPart = '%' :: 's' :: "truct.SamplerState* undef".toList := rfl
  rw [e1, e2]
  simp [List.isPrefixOf]

/-- The classification the positional pass computes for a recognised type
signature that is followed by a comma. -/
theorem classifyResType_recognised (ResourceMap : TResourceBindingMap) (a ty rest : Str)
    (cls : ShaderResType) (n : Nat) (hn : n = a.length) (h : RecognisedAs ResourceMap ty cls) :
    classifyResType ResourceMap (a ++ ty ++ ',' :: rest) n = cls := by
  have hct : ',' ∉ TexturePart := by decide
  have hcs : ',' ∉ SamplerPart := by decide
  cases h with
  | texture ht =>
    simp only [classifyResType, occursAt_of_starts _ a ty _ n hn ht, if_true]
  | sampler hs =>
    simp only [classifyResType, occursAt_of_not_starts _ a ty rest ',' n hn hct (sampler_not_texture ty hs),
      occursAt_of_starts _ a ty _ n hn hs, if_true]
    rfl
  | cbuffer nb hmem hty hcb hnt hns =>
    have hany : ResourceMap.any (fun NameAndBinding =>
        decide (NameAndBinding.2.ResType = .CBV) &&
          occursAt (CBName NameAndBinding.1) (a ++ ty ++ ',' :: rest) n) = true := by
      rw [List.any_eq_true]
      refine ⟨nb, hmem, ?_⟩
      rw [occursAt_of_starts _ a ty _ n hn hcb, hty]
      rfl
    simp only [classifyResType, occursAt_of_not_starts _ a ty rest ',' n hn hct hnt,
      occursAt_of_not_starts _ a ty rest ',' n hn hcs hns, hany, if_true]
    rfl

/-! ## The positional pass: patched and unresolved records -/

theorem AnonymousRecord.classify {DXIL : Str} {pos : Nat} {head idLit ty sp bp tail : Str}
    (h : AnonymousRecord DXIL pos head idLit ty sp bp tail) (ResourceMap : TResourceBindingMap)
    (cls : ShaderResType) (hty : RecognisedAs ResourceMap ty cls) :
    classifyResType ResourceMap DXIL (head.length + 4 + 4 + idLit.length + 2) = cls := by
  have e : DXIL = (head ++ ResourceRecStart ++ i32 ++ idLit ++ ", ".toList) ++ ty ++
      ',' :: (" !\x22\x22".toList ++ ", i32 ".toList ++ sp ++ ", i32 ".toList ++ bp ++ tail) := by
    rw [h.text, anonymousText, recordPrefix]
    have e1 : ", !\x22\x22".toList = ',' :: " !\x22\x22".toList := rfl
    rw [e1]
    simp only [List.append_assoc, List.cons_append]
  rw [e]
  apply classifyResType_recognised _ _ _ _ _ _ _ hty
  simp only [List.length_append, ResourceRecStart_length, i32_length]
  rfl

theorem recognised_ne_count {ResourceMap : TResourceBindingMap} {ty : Str} {cls : ShaderResType}
    (h : RecognisedAs ResourceMap ty cls) : cls ≠ .Count := by
  cases h <;> simp

theorem patchAnonymousRecords_step (ResourceMap : TResourceBindingMap) (fuel : Nat)
    (st : PatchState) (pos : Nat) (hpos : pos < st.DXIL.length) :
    patchAnonymousRecords ResourceMap (fuel + 1) st pos =
      match patchAnonymousStep ResourceMap st pos with
      | .error e => .error e
      | .ok none => .ok st
      | .ok (some (st, pos)) => patchAnonymousRecords ResourceMap fuel st pos := by
  rw [patchAnonymousRecords, if_pos hpos]
  try rfl

/-- Claim C4 (positional declaration patch). Let the scan of the second loop of
`PatchResourceDeclaration` locate, from `pos`, a stripped record whose type
signature is recognised as class `cls`, and let some entry of the map carry the
record's current (space, bind point, class) as its recorded source triple. Then
the iteration patches the record: for an entry `ResPair` of the map that carries
this triple (the first one in iteration order, so the entry itself when it is
the only one), the two fields now read `to_string ResPair.Space` and
`to_string ResPair.BindPoint`, all other text is as before, the record id is
stored in that entry's slot, and the loop goes on from the end of the new
bind-point field. No name is read: the name field of the record is empty. -/
theorem anonymous_declaration_patched (ResourceMap : TResourceBindingMap)
    (ExtResInfo : TResourceMapExtendedInfo) (DXIL : Str) (pos : Nat)
    (head idLit ty sp bp tail : Str) (cls : ShaderResType) (vs vb : Int) (fuel : Nat)
    (hrec : AnonymousRecord DXIL pos head idLit ty sp bp tail)
    (hty : RecognisedAs ResourceMap ty cls)
    (hsp : stoi sp = .ok vs) (hbp : stoi bp = .ok vb)
    (hvalid : ValidUIDs ResourceMap ExtResInfo)
    (hsome : ∃ nb ∈ ResourceMap, HasSource ExtResInfo (toUint32 vb) (toUint32 vs) cls nb) :
    ∃ ResPair ∈ ResourceMap, HasSource ExtResInfo (toUint32 vb) (toUint32 vs) cls ResPair ∧
      patchAnonymousRecords ResourceMap (fuel + 1) ⟨ExtResInfo, DXIL⟩ pos =
        patchAnonymousRecords ResourceMap fuel
          ⟨setRecordId ExtResInfo ResPair.2.UID (digitsValue idLit),
            anonymousText head idLit ty (to_string ResPair.2.Space) (to_string ResPair.2.BindPoint)
              tail⟩
          ((recordPrefix head idLit ty).length + 5 + 6 + (to_string ResPair.2.Space).length + 6 +
            (to_string ResPair.2.BindPoint).length) := by
  obtain ⟨ResPair, Ext, hf, hmem, hE, h1, h2, h3⟩ :=
    findBySource_found ExtResInfo (toUint32 vb) (toUint32 vs) cls ResourceMap hvalid hsome
  refine ⟨ResPair, hmem, ⟨Ext, hE, h1, h2, h3⟩, ?_⟩
  have hpos : pos < DXIL.length := (hrec.scanned vs vb hsp hbp).1
  rw [patchAnonymousRecords_step _ _ _ _ hpos,
    patchAnonymousStep_located ResourceMap ExtResInfo cls vs vb hrec
      (hrec.classify ResourceMap cls hty) (recognised_ne_count hty) hsp hbp, hf]
  simp only
  have e1 : DXIL = (recordPrefix head idLit ty ++ ", !\x22\x22".toList) ++ ", i32 ".toList ++ sp ++
      (", i32 ".toList ++ bp ++ tail) := by
    rw [hrec.text, anonymousText]; simp only [List.append_assoc]
  have hfe := fieldEnds_sep sp (bp ++ tail) hrec.space
  rw [← List.append_assoc] at hfe
  have r1 := ReplaceRecord_ok (recordPrefix head idLit ty ++ ", !\x22\x22".toList) sp
    (", i32 ".toList ++ bp ++ tail) (to_string ResPair.2.Space) vs Ext.SrcSpace hfe hsp h2.symm
  rw [List.length_append, emptyName_length, ← e1] at r1
  rw [r1]
  simp only
  have e2 : recordPrefix head idLit ty ++ ", !\x22\x22".toList ++ ", i32 ".toList ++
      to_string ResPair.2.Space ++ (", i32 ".toList ++ bp ++ tail) =
      (recordPrefix head idLit ty ++ ", !\x22\x22".toList ++ ", i32 ".toList ++
        to_string ResPair.2.Space) ++ ", i32 ".toList ++ bp ++ tail := by
    simp only [List.append_assoc]
  have r2 := ReplaceRecord_ok
    (recordPrefix head idLit ty ++ ", !\x22\x22".toList ++ ", i32 ".toList ++
      to_string ResPair.2.Space) bp tail
    (to_string ResPair.2.BindPoint) vb Ext.SrcBindPoint hrec.bind hbp h1.symm
  have hl : (recordPrefix head idLit ty ++ ", !\x22\x22".toList ++ ", i32 ".toList ++
      to_string ResPair.2.Space).length =
      (recordPrefix head idLit ty).length + 5 + 6 + (to_string ResPair.2.Space).length := by
    simp only [List.length_append, commaI32_length, emptyName_length]
  rw [hl, ← e2] at r2
  rw [r2]
  rfl

/-- Witness of C4: the stripped constant buffer `Constants` at space 0, slot 1
remapped to space 1, slot 0; the whole declaration pass returns the text with
`i32 1, i32 0` after the empty name. -/
theorem anonymous_declaration_patched_witness :
    AnonymousRecord "!5 = !\x7bi32 0, %Constants* undef, !\x22\x22, i32 0, i32 1, i32 1, i32 16, null\x7d\n".toList 0
      "!5 ".toList "0".toList "%Constants* undef".toList "0".toList "1".toList
      ", i32 1, i32 16, null\x7d\n".toList ∧
    RecognisedAs [("Constants".toList, ⟨0, 1, 1, .CBV, 0⟩)] "%Constants* undef".toList .CBV ∧
    ValidUIDs [("Constants".toList, ⟨0, 1, 1, .CBV, 0⟩)] [⟨1, 0, 4294967295⟩] ∧
    (∃ ResPair ∈ [("Constants".toList, (⟨0, 1, 1, .CBV, 0⟩ : BindInfo))],
      HasSource [⟨1, 0, 4294967295⟩] (toUint32 1) (toUint32 0) .CBV ResPair ∧
      patchAnonymousRecords [("Constants".toList, ⟨0, 1, 1, .CBV, 0⟩)] (80 + 1)
        ⟨[⟨1, 0, 4294967295⟩],
          "!5 = !\x7bi32 0, %Constants* undef, !\x22\x22, i32 0, i32 1, i32 1, i32 16, null\x7d\n".toList⟩ 0 =
        patchAnonymousRecords [("Constants".toList, ⟨0, 1, 1, .CBV, 0⟩)] 80
          ⟨setRecordId [⟨1, 0, 4294967295⟩] ResPair.2.UID (digitsValue "0".toList),
            anonymousText "!5 ".toList "0".toList "%Constants* undef".toList
              (to_string ResPair.2.Space) (to_string ResPair.2.BindPoint)
              ", i32 1, i32 16, null\x7d\n".toList⟩
          ((recordPrefix "!5 ".toList "0".toList "%Constants* undef".toList).length + 5 + 6 +
            (to_string ResPair.2.Space).length + 6 + (to_string ResPair.2.BindPoint).length)) ∧
    PatchResourceDeclaration [("Constants".toList, ⟨0, 1, 1, .CBV, 0⟩)]
      ⟨[⟨1, 0, 4294967295⟩],
        "!5 = !\x7bi32 0, %Constants* undef, !\x22\x22, i32 0, i32 1, i32 1, i32 16, null\x7d\n".toList⟩ =
      .ok ⟨[⟨1, 0, 0⟩],
        "!5 = !\x7bi32 0, %Constants* undef, !\x22\x22, i32 1, i32 0, i32 1, i32 16, null\x7d\n".toList⟩ :=
  have hrec : AnonymousRecord
      "!5 = !\x7bi32 0, %Constants* undef, !\x22\x22, i32 0, i32 1, i32 1, i32 16, null\x7d\n".toList 0
      "!5 ".toList "0".toList "%Constants* undef".toList "0".toList "1".toList
      ", i32 1, i32 16, null\x7d\n".toList :=
    ⟨by decide, by decide, by decide, by decide, by decide, by decide, by decide, by decide⟩
  have hty : RecognisedAs [("Constants".toList, ⟨0, 1, 1, .CBV, 0⟩)] "%Constants* undef".toList .CBV :=
    .cbuffer ("Constants".toList, ⟨0, 1, 1, .CBV, 0⟩) (by decide) rfl (by decide) (by decide)
      (by decide)
  ⟨hrec, hty, by decide,
    anonymous_declaration_patched _ [⟨1, 0, 4294967295⟩] _ 0 _ _ _ _ _ _ .CBV 0 1 80 hrec hty
      (by decide) (by decide) (by decide)
      ⟨("Constants".toList, ⟨0, 1, 1, .CBV, 0⟩), by decide, ⟨1, 0, 4294967295⟩, rfl, rfl, rfl, rfl⟩,
    by decide⟩

/-- Claim C8 (unresolved anonymous declaration). Let the scan of the second loop
locate, from `pos`, a stripped record whose type signature is recognised as
class `cls`. If no entry of the map carries the record's current (space, bind
point, class) as its recorded source triple, the iteration throws with the text
and the table untouched, so the two fields are not rewritten; when this happens
at the first marker of the text, after a named pass that ended in the state
`(ExtResInfo, DXIL)`, `PatchDXIL` returns `false` with that state. -/
theorem anonymous_declaration_unresolved (ResourceMap : TResourceBindingMap)
    (ExtResInfo : TResourceMapExtendedInfo) (DXIL : Str) (pos : Nat)
    (head idLit ty sp bp tail : Str) (cls : ShaderResType) (vs vb : Int) (fuel : Nat)
    (hrec : AnonymousRecord DXIL pos head idLit ty sp bp tail)
    (hty : RecognisedAs ResourceMap ty cls)
    (hsp : stoi sp = .ok vs) (hbp : stoi bp = .ok vb)
    (hvalid : ValidUIDs ResourceMap ExtResInfo)
    (hnone : ∀ nb ∈ ResourceMap, ¬ HasSource ExtResInfo (toUint32 vb) (toUint32 vs) cls nb) :
    patchAnonymousRecords ResourceMap (fuel + 1) ⟨ExtResInfo, DXIL⟩ pos =
      .error (.thrown, ⟨ExtResInfo, DXIL⟩) ∧
    ∀ st0, pos = 0 → patchNamedRecords ResourceMap st0 = .ok ⟨ExtResInfo, DXIL⟩ →
      PatchDXIL ResourceMap st0 = .ok (false, ⟨ExtResInfo, DXIL⟩) := by
  have hpos : pos < DXIL.length := (hrec.scanned vs vb hsp hbp).1
  have key : ∀ n, patchAnonymousRecords ResourceMap (n + 1) ⟨ExtResInfo, DXIL⟩ pos =
      .error (.thrown, ⟨ExtResInfo, DXIL⟩) := by
    intro n
    rw [patchAnonymousRecords_step _ _ _ _ hpos,
      patchAnonymousStep_located ResourceMap ExtResInfo cls vs vb hrec
        (hrec.classify ResourceMap cls hty) (recognised_ne_count hty) hsp hbp,
      findBySource_none ExtResInfo _ _ cls ResourceMap hvalid hnone]
  refine ⟨key fuel, ?_⟩
  intro st0 hp hnamed
  subst hp
  simp only [PatchDXIL, PatchResourceDeclaration, hnamed, key, catchAll]

/-- Witness of C8: the stripped constant buffer sits at space 0, slot 1, but the
only entry of the map was recorded at space 0, slot 5. -/
theorem anonymous_declaration_unresolved_witness :
    AnonymousRecord "!5 = !\x7bi32 0, %Constants* undef, !\x22\x22, i32 0, i32 1, i32 1, i32 16, null\x7d\n".toList 0
      "!5 ".toList "0".toList "%Constants* undef".toList "0".toList "1".toList
      ", i32 1, i32 16, null\x7d\n".toList ∧
    RecognisedAs [("Constants".toList, ⟨0, 1, 1, .CBV, 0⟩)] "%Constants* undef".toList .CBV ∧
    ValidUIDs [("Constants".toList, ⟨0, 1, 1, .CBV, 0⟩)] [⟨5, 0, 4294967295⟩] ∧
    PatchDXIL [("Constants".toList, ⟨0, 1, 1, .CBV, 0⟩)]
      ⟨[⟨5, 0, 4294967295⟩],
        "!5 = !\x7bi32 0, %Constants* undef, !\x22\x22, i32 0, i32 1, i32 1, i32 16, null\x7d\n".toList⟩ =
      .ok (false, ⟨[⟨5, 0, 4294967295⟩],
        "!5 = !\x7bi32 0, %Constants* undef, !\x22\x22, i32 0, i32 1, i32 1, i32 16, null\x7d\n".toList⟩) :=
  have hrec : AnonymousRecord
      "!5 = !\x7bi32 0, %Constants* undef, !\x22\x22, i32 0, i32 1, i32 1, i32 16, null\x7d\n".toList 0
      "!5 ".toList "0".toList "%Constants* undef".toList "0".toList "1".toList
      ", i32 1, i32 16, null\x7d\n".toList :=
    ⟨by decide, by decide, by decide, by decide, by decide, by decide, by decide, by decide⟩
  have hty : RecognisedAs [("Constants".toList, ⟨0, 1, 1, .CBV, 0⟩)] "%Constants* undef".toList .CBV :=
    .cbuffer ("Constants".toList, ⟨0, 1, 1, .CBV, 0⟩) (by decide) rfl (by decide) (by decide)
      (by decide)
  ⟨hrec, hty, by decide,
    (anonymous_declaration_unresolved _ [⟨5, 0, 4294967295⟩] _ 0 _ _ _ _ _ _ .CBV 0 1 0 hrec hty
      (by decide) (by decide) (by decide)
      (by
        intro nb hnb
        rcases List.mem_singleton.mp hnb with rfl
        rintro ⟨Ext, hE, h1, _⟩
        injection hE with hE
        subst hE
        exact absurd h1 (by decide))).2 _ rfl (by decide)⟩

/-! ## The handle pass: locating a call -/

theorem NextArgAux_run : ∀ (run rest : Str) (p : Nat), NoStop run →
    NextArgAux (run ++ ',' :: rest) p = (true, p + run.length)
  | [], rest, p, _ => by simp [NextArgAux]
  | c :: cs, rest, p, h => by
    have hc := h c (by simp)
    have ih := NextArgAux_run cs rest (p + 1) (fun x hx => h x (by simp [hx]))
    rw [List.cons_append, NextArgAux, if_neg hc.1, if_neg (by simp [hc.2.1, hc.2.2]), ih,
      List.length_cons]
    congr 1; omega

theorem NextArg_run (a run rest : Str) (n : Nat) (hn : n = a.length) (h : NoStop run) :
    NextArg (a ++ run ++ ',' :: rest) n = (true, n + run.length) := by
  rw [NextArg, List.append_assoc, drop_append_len _ _ _ hn, NextArgAux_run _ _ _ h]

theorem isDigit_noStop (s : Str) (h : ∀ c ∈ s, isDigit c = true) : NoStop s := by
  intro c hc
  have hd := h c hc
  refine ⟨?_, ?_, ?_⟩ <;> (rintro rfl; revert hd; decide)

theorem i8_length : i8.length = 3 := rfl

theorem readOperand_ok (a ty lit rest : Str) (n : Nat) (hn : n = a.length) (h : NoStop lit) :
    readOperand (a ++ ", ".toList ++ ty ++ lit ++ ',' :: rest) ty n =
      .ok (n + 2 + ty.length, n + 2 + ty.length + lit.length) := by
  have hc : commaSpaceAt (a ++ ", ".toList ++ ty ++ lit ++ ',' :: rest) n = .ok true := by
    have := commaSpaceAt_comma a (ty ++ lit ++ ',' :: rest) n hn
    simp only [List.append_assoc] at this ⊢
    exact this
  have ho : occursAt ty (a ++ ", ".toList ++ ty ++ lit ++ ',' :: rest) (n + 2) = true := by
    rw [List.append_assoc (a ++ ", ".toList ++ ty)]
    exact occursAt_at _ _ _ _ (by subst hn; simp only [List.length_append]; rfl)
  have hn2 : NextArg (a ++ ", ".toList ++ ty ++ lit ++ ',' :: rest) (n + 2 + ty.length) =
      (true, n + 2 + ty.length + lit.length) :=
    NextArg_run _ _ _ _ (by subst hn; simp only [List.length_append]; rfl) h
  simp only [readOperand, hc, ho, if_true, hn2]

theorem CallHandlePattern_length : CallHandlePattern.length = 45 := rfl

theorem substr_mid (a lit rest : Str) (n : Nat) (hn : n = a.length) :
    substr (a ++ lit ++ rest) n (some (n + lit.length)) = .ok lit := by
  subst hn
  unfold substr
  rw [if_pos (by simp only [List.length_append]; omega), List.append_assoc,
    drop_append_len _ _ _ rfl]
  simp

theorem replace_mid (a lit rest new : Str) (n : Nat) (hn : n = a.length) :
    replace (a ++ lit ++ rest) n (some (n + lit.length)) new = a ++ new ++ rest := by
  subst hn
  unfold replace
  simp only
  rw [Nat.max_eq_right (by omega), drop_append_len _ _ _ (by simp),
    List.append_assoc a lit rest, take_append_len _ _ _ rfl]

/-- What the loop body of `PatchResourceHandle` reads on a located call, up to
the replacement of the index. -/
theorem HandleSite.parsed {DXIL : Str} {pos : Nat} {pre op clsLit ridLit idx rest : Str}
    (h : HandleSite DXIL pos pre op clsLit ridLit idx rest) :
    pos < DXIL.length ∧
    find CallHandlePattern DXIL pos = some pre.length ∧
    occursAt i32 DXIL (pre.length + 45) = true ∧
    NextArg DXIL (pre.length + 45 + 4) = (true, pre.length + 45 + 4 + op.length) ∧
    readOperand DXIL i8 (pre.length + 45 + 4 + op.length) =
      .ok (pre.length + 45 + 4 + op.length + 2 + 3,
        pre.length + 45 + 4 + op.length + 2 + 3 + clsLit.length) ∧
    atoi (DXIL.drop (pre.length + 45 + 4 + op.length + 2 + 3)) = .ok (digitsValue clsLit : Int) ∧
    readOperand DXIL i32 (pre.length + 45 + 4 + op.length + 2 + 3 + clsLit.length) =
      .ok (pre.length + 45 + 4 + op.length + 2 + 3 + clsLit.length + 2 + 4,
        pre.length + 45 + 4 + op.length + 2 + 3 + clsLit.length + 2 + 4 + ridLit.length) ∧
    atoi (DXIL.drop (pre.length + 45 + 4 + op.length + 2 + 3 + clsLit.length + 2 + 4)) =
      .ok (digitsValue ridLit : Int) ∧
    readOperand DXIL i32
        (pre.length + 45 + 4 + op.length + 2 + 3 + clsLit.length + 2 + 4 + ridLit.length) =
      .ok (indexStart pre op clsLit ridLit, indexStart pre op clsLit ridLit + idx.length) ∧
    substr DXIL (indexStart pre op clsLit ridLit)
        (some (indexStart pre op clsLit ridLit + idx.length)) = .ok idx ∧
    DXIL = (pre ++ CallHandlePattern ++ i32 ++ op ++ ", ".toList ++ i8 ++ clsLit ++ ", ".toList ++
      i32 ++ ridLit ++ ", ".toList ++ i32) ++ idx ++ ',' :: rest := by
  have hc2 : ", ".toList.length = 2 := rfl
  have hcomma : ", ".toList = ',' :: " ".toList := rfl
  have hlen : pre.length + 45 ≤ DXIL.length := by
    rw [h.text, callText]
    simp only [List.length_append, CallHandlePattern_length]; omega
  have hmark : occursAt CallHandlePattern DXIL pre.length = true := by
    rw [h.text, callText]
    simp only [List.append_assoc]
    rw [← List.append_assoc]
    exact occursAt_at _ _ _ _ rfl
  have hidx : indexStart pre op clsLit ridLit =
      pre.length + 45 + 4 + op.length + 2 + 3 + clsLit.length + 2 + 4 + ridLit.length + 2 + 4 := by
    simp only [indexStart, List.length_append, CallHandlePattern_length, i32_length, i8_length, hc2]
  refine ⟨?_, ?_, ?_, ?_, ?_, ?_, ?_, ?_, ?_, ?_, ?_⟩
  · have := h.start; omega
  · exact find_eq_some _ _ _ _ hmark (by omega) h.start (fun j hj hj' => h.firstCall j hj' hj)
  · rw [h.text, callText]
    simp only [List.append_assoc]
    rw [← List.append_assoc, ← List.append_assoc]
    exact occursAt_at _ _ _ _ (by simp only [List.length_append, CallHandlePattern_length])
  · rw [h.text, callText, hcomma]
    simp only [List.append_assoc, List.cons_append]
    rw [← List.append_assoc, ← List.append_assoc, ← List.append_assoc]
    exact NextArg_run _ _ _ _
      (by simp only [List.length_append, CallHandlePattern_length, i32_length]) h.opcode
  · rw [h.text, callText]
    have e : pre ++ CallHandlePattern ++ i32 ++ op ++ ", ".toList ++ i8 ++ clsLit ++ ", ".toList ++
        i32 ++ ridLit ++ ", ".toList ++ i32 ++ idx ++ ',' :: rest =
        (pre ++ CallHandlePattern ++ i32 ++ op) ++ ", ".toList ++ i8 ++ clsLit ++
          ',' :: (" ".toList ++ i32 ++ ridLit ++ ", ".toList ++ i32 ++ idx ++ ',' :: rest) := by
      rw [hcomma]; simp only [List.append_assoc, List.cons_append]
    rw [e]
    have := readOperand_ok (pre ++ CallHandlePattern ++ i32 ++ op) i8 clsLit
      (" ".toList ++ i32 ++ ridLit ++ ", ".toList ++ i32 ++ idx ++ ',' :: rest)
      (pre.length + 45 + 4 + op.length)
      (by simp only [List.length_append, CallHandlePattern_length, i32_length])
      (isDigit_noStop _ h.clsDigits.2)
    rw [i8_length] at this
    exact this
  · rw [h.text, callText]
    have e : pre ++ CallHandlePattern ++ i32 ++ op ++ ", ".toList ++ i8 ++ clsLit ++ ", ".toList ++
        i32 ++ ridLit ++ ", ".toList ++ i32 ++ idx ++ ',' :: rest =
        (pre ++ CallHandlePattern ++ i32 ++ op ++ ", ".toList ++ i8) ++ (clsLit ++
          (", ".toList ++ (i32 ++ ridLit ++ ", ".toList ++ i32 ++ idx ++ ',' :: rest))) := by
      simp only [List.append_assoc]
    rw [e, drop_append_len _ _ _
      (by simp only [List.length_append, CallHandlePattern_length, i32_length, i8_length, hc2])]
    exact atoi_digits _ _ (digitsEnd_sep _ _ h.clsDigits) h.clsFits
  · rw [h.text, callText]
    have e : pre ++ CallHandlePattern ++ i32 ++ op ++ ", ".toList ++ i8 ++ clsLit ++ ", ".toList ++
        i32 ++ ridLit ++ ", ".toList ++ i32 ++ idx ++ ',' :: rest =
        (pre ++ CallHandlePattern ++ i32 ++ op ++ ", ".toList ++ i8 ++ clsLit) ++ ", ".toList ++
          i32 ++ ridLit ++ ',' :: (" ".toList ++ i32 ++ idx ++ ',' :: rest) := by
      rw [hcomma]; simp only [List.append_assoc, List.cons_append]
    rw [e]
    have := readOperand_ok (pre ++ CallHandlePattern ++ i32 ++ op ++ ", ".toList ++ i8 ++ clsLit)
      i32 ridLit (" ".toList ++ i32 ++ idx ++ ',' :: rest)
      (pre.length + 45 + 4 + op.length + 2 + 3 + clsLit.length)
      (by simp only [List.length_append, CallHandlePattern_length, i32_length, i8_length, hc2])
      (isDigit_noStop _ h.ridDigits.2)
    rw [i32_length] at this
    exact this
  · rw [h.text, callText]
    have e : pre ++ CallHandlePattern ++ i32 ++ op ++ ", ".toList ++ i8 ++ clsLit ++ ", ".toList ++
        i32 ++ ridLit ++ ", ".toList ++ i32 ++ idx ++ ',' :: rest =
        (pre ++ CallHandlePattern ++ i32 ++ op ++ ", ".toList ++ i8 ++ clsLit ++ ", ".toList ++
          i32) ++ (ridLit ++
          (", ".toList ++ (i32 ++ idx ++ ',' :: rest))) := by
      simp only [List.append_assoc]
    rw [e, drop_append_len _ _ _
      (by simp only [List.length_append, CallHandlePattern_length, i32_length, i8_length, hc2])]
    exact atoi_digits _ _ (digitsEnd_sep _ _ h.ridDigits) h.ridFits
  · rw [h.text, callText]
    have := readOperand_ok (pre ++ CallHandlePattern ++ i32 ++ op ++ ", ".toList ++ i8 ++ clsLit ++
      ", ".toList ++ i32 ++ ridLit) i32 idx rest
      (pre.length + 45 + 4 + op.length + 2 + 3 + clsLit.length + 2 + 4 + ridLit.length)
      (by simp only [List.length_append, CallHandlePattern_length, i32_length, i8_length, hc2])
      h.index.2
    rw [i32_length] at this
    rw [this, hidx]
  · rw [h.text, callText]
    exact substr_mid _ idx _ _ rfl
  · rw [h.text, callText]

/-- The loop body of `PatchResourceHandle` on a located call, reduced to the
patching of its index operand. -/
theorem patchHandleStep_site (ResourceMap : TResourceBindingMap)
    (ExtResInfo : TResourceMapExtendedInfo) {DXIL : Str} {pos : Nat}
    {pre op clsLit ridLit idx rest : Str}
    (h : HandleSite DXIL pos pre op clsLit ridLit idx rest) :
    patchHandleStep ResourceMap ExtResInfo DXIL pos =
      match (if idx.head? = some '%' then
          patchDynamicIndex ResourceMap ExtResInfo DXIL (digitsValue clsLit) (digitsValue ridLit)
            (indexStart pre op clsLit ridLit + idx.length) idx
        else
          ReplaceBindPoint ResourceMap ExtResInfo DXIL (digitsValue clsLit) (digitsValue ridLit)
            (indexStart pre op clsLit ridLit) (indexStart pre op clsLit ridLit + idx.length)) with
      | .error f => .error f
      | .ok DXIL => .ok (some (DXIL, indexStart pre op clsLit ridLit + idx.length)) := by
  obtain ⟨_, h1, h2, h3, h4, h5, h6, h7, h8, h9, _⟩ := h.parsed
  have hcls : toUint32 (digitsValue clsLit : Int) = digitsValue clsLit :=
    toUint32_natCast _ (by have := h.clsFits; omega)
  have hrid : toUint32 (digitsValue ridLit : Int) = digitsValue ridLit :=
    toUint32_natCast _ (by have := h.ridFits; omega)
  obtain ⟨c, cs, hidx⟩ := List.exists_cons_of_ne_nil h.index.1
  simp only [patchHandleStep, h1, CallHandlePattern_length, h2, if_true, i32_length, h3, h4, h5,
    hcls, h6, h7, hrid, h8, h9]
  subst hidx
  simp only [List.head?_cons, Option.some.injEq]
  try rfl

theorem findByRange_found (ExtResInfo : TResourceMapExtendedInfo) (RangeId : Nat)
    (ResType : ShaderResType) (SrcIndex : Nat) : ∀ (ResourceMap : TResourceBindingMap),
    ValidUIDs ResourceMap ExtResInfo →
    (∃ nb ∈ ResourceMap, Resolves ExtResInfo RangeId ResType SrcIndex nb) →
    ∃ ResPair Ext, findByRange ExtResInfo RangeId ResType SrcIndex ResourceMap =
        .ok (some (ResPair, Ext)) ∧
      ResPair ∈ ResourceMap ∧ ExtResInfo[ResPair.2.UID]? = some Ext ∧
      Ext.RecordId = RangeId ∧ ResPair.2.ResType = ResType ∧
      Ext.SrcBindPoint ≤ SrcIndex ∧
      SrcIndex < (Ext.SrcBindPoint + ResPair.2.ArraySize) % 4294967296
  | [], _, h => by
    obtain ⟨nb, hnb, _⟩ := h
    simp at hnb
  | nb :: rest, hv, h => by
    have hlt := hv nb (by simp)
    have hget : ExtResInfo[nb.2.UID]? = some ExtResInfo[nb.2.UID] := List.getElem?_eq_getElem hlt
    by_cases hm : ExtResInfo[nb.2.UID].RecordId = RangeId ∧ nb.2.ResType = ResType ∧
        ExtResInfo[nb.2.UID].SrcBindPoint ≤ SrcIndex ∧
        SrcIndex < (ExtResInfo[nb.2.UID].SrcBindPoint + nb.2.ArraySize) % 4294967296
    · refine ⟨nb, ExtResInfo[nb.2.UID], ?_, by simp, hget, hm.1, hm.2.1, hm.2.2.1, hm.2.2.2⟩
      simp only [findByRange, hget, if_pos hm]
    · have hrest : ∃ nb' ∈ rest, Resolves ExtResInfo RangeId ResType SrcIndex nb' := by
        obtain ⟨nb', hmem, Ext, hE, h1, h2, h3, h4⟩ := h
        rcases List.mem_cons.mp hmem with rfl | hmem'
        · exfalso
          rw [hget] at hE
          injection hE with hE
          subst hE
          exact hm ⟨h1, h2, h3, h4⟩
        · exact ⟨nb', hmem', Ext, hE, h1, h2, h3, h4⟩
      obtain ⟨ResPair, Ext, hf, hmem, hrest'⟩ :=
        findByRange_found ExtResInfo RangeId ResType SrcIndex rest
          (fun x hx => hv x (by simp [hx])) hrest
      refine ⟨ResPair, Ext, ?_, by simp [hmem], hrest'⟩
      simp only [findByRange, hget, if_neg hm, hf]

theorem findByRange_none (ExtResInfo : TResourceMapExtendedInfo) (RangeId : Nat)
    (ResType : ShaderResType) (SrcIndex : Nat) : ∀ (ResourceMap : TResourceBindingMap),
    ValidUIDs ResourceMap ExtResInfo →
    (∀ nb ∈ ResourceMap, ¬ Resolves ExtResInfo RangeId ResType SrcIndex nb) →
    findByRange ExtResInfo RangeId ResType SrcIndex ResourceMap = .ok none
  | [], _, _ => rfl
  | nb :: rest, hv, h => by
    have hlt := hv nb (by simp)
    have hget : ExtResInfo[nb.2.UID]? = some ExtResInfo[nb.2.UID] := List.getElem?_eq_getElem hlt
    have hm : ¬ (ExtResInfo[nb.2.UID].RecordId = RangeId ∧ nb.2.ResType = ResType ∧
        ExtResInfo[nb.2.UID].SrcBindPoint ≤ SrcIndex ∧
        SrcIndex < (ExtResInfo[nb.2.UID].SrcBindPoint + nb.2.ArraySize) % 4294967296) := by
      intro hm
      exact h nb (by simp) ⟨_, hget, hm.1, hm.2.1, hm.2.2.1, hm.2.2.2⟩
    simp only [findByRange, hget, if_neg hm]
    exact findByRange_none ExtResInfo RangeId ResType SrcIndex rest
      (fun x hx => hv x (by simp [hx])) (fun x hx => h x (by simp [hx]))

/-! ## The handle pass: constant index -/

/-- The lambda `ReplaceBindPoint` on an index text `lit` that parses to `v`,
when the search resolves it to `(ResPair, Ext)`. -/
theorem ReplaceBindPoint_found (ResourceMap : TResourceBindingMap)
    (ExtResInfo : TResourceMapExtendedInfo) (a lit rest : Str) (n ResClass RangeId : Nat)
    (ResType : ShaderResType) (v : Int) (ResPair : Str × BindInfo) (Ext : ResourceExtendedInfo)
    (hn : n = a.length) (hv : stoi lit = .ok v) (hcls : ResClassToType[ResClass]? = some ResType)
    (hf : findByRange ExtResInfo RangeId ResType (toUint32 v) ResourceMap =
      .ok (some (ResPair, Ext))) :
    ReplaceBindPoint ResourceMap ExtResInfo (a ++ lit ++ rest) ResClass RangeId n (n + lit.length) =
      .ok (a ++ to_string ((ResPair.2.BindPoint +
        (toUint32 v + 4294967296 - Ext.SrcBindPoint) % 4294967296) % 4294967296) ++ rest) := by
  simp only [ReplaceBindPoint, substr_mid a lit rest n hn, hv, hcls, hf,
    replace_mid a lit rest _ n hn]

/-- The lambda `ReplaceBindPoint` on an index text `lit` that parses to `v`,
when the search finds no entry: it throws. -/
theorem ReplaceBindPoint_not_found (ResourceMap : TResourceBindingMap)
    (ExtResInfo : TResourceMapExtendedInfo) (a lit rest : Str) (n ResClass RangeId : Nat)
    (ResType : ShaderResType) (v : Int)
    (hn : n = a.length) (hv : stoi lit = .ok v) (hcls : ResClassToType[ResClass]? = some ResType)
    (hf : findByRange ExtResInfo RangeId ResType (toUint32 v) ResourceMap = .ok none) :
    ReplaceBindPoint ResourceMap ExtResInfo (a ++ lit ++ rest) ResClass RangeId n (n + lit.length) =
      .error .thrown := by
  simp only [ReplaceBindPoint, substr_mid a lit rest n hn, hv, hcls, hf]

theorem patchHandles_step (ResourceMap : TResourceBindingMap) (fuel : Nat)
    (st : PatchState) (pos : Nat) (hpos : pos < st.DXIL.length) :
    patchHandles ResourceMap (fuel + 1) st pos =
      match patchHandleStep ResourceMap st.ExtResInfo st.DXIL pos with
      | .error f => .error (f, st)
      | .ok none => .ok st
      | .ok (some (DXIL, pos)) => patchHandles ResourceMap fuel ⟨st.ExtResInfo, DXIL⟩ pos := by
  rw [patchHandles, if_pos hpos]
  try rfl

theorem stoi_digits_nil (ds : Str) (h : ds ≠ [] ∧ ∀ c ∈ ds, isDigit c = true)
    (hfit : digitsValue ds ≤ 2147483647) : stoi ds = .ok (digitsValue ds : Int) := by
  have := stoi_digits ds [] ⟨h.1, h.2, by simp⟩ hfit
  rw [List.append_nil] at this
  exact this

/-- Claim C2 (constant-index handle patch). Let the scan of `PatchResourceHandle`
locate, from `pos`, a createHandle call whose index operand `idx` is a decimal
literal (digits, fitting `int`) and whose class operand names the type
`ResType`. If some entry of the map has the call's record id, that type, and a
source range `[SrcBindPoint, SrcBindPoint + ArraySize)` that holds the index,
then the iteration rewrites the literal: for an entry `ResPair` of the map with
these properties (the first one in iteration order, so the entry itself when it
is the only one) the operand now reads the decimal text of
`ResPair.BindPoint + (idx - SrcBindPoint)`, the opcode, class and record-id
operands and all other text are as before, and the loop goes on from the old
end of the index operand. The two sums are the 32-bit sums of the source: they
are the plain sums whenever the ranges lie inside the 32-bit slot space. -/
theorem constant_index_patched (ResourceMap : TResourceBindingMap)
    (ExtResInfo : TResourceMapExtendedInfo) (DXIL : Str) (pos : Nat)
    (pre op clsLit ridLit idx rest : Str) (ResType : ShaderResType) (fuel : Nat)
    (hsite : HandleSite DXIL pos pre op clsLit ridLit idx rest)
    (hidx : ∀ c ∈ idx, isDigit c = true) (hfit : digitsValue idx ≤ 2147483647)
    (hcls : ResClassToType[digitsValue clsLit]? = some ResType)
    (hvalid : ValidUIDs ResourceMap ExtResInfo)
    (hsome : ∃ nb ∈ ResourceMap,
      Resolves ExtResInfo (digitsValue ridLit) ResType (digitsValue idx) nb) :
    ∃ ResPair ∈ ResourceMap, ∃ Ext, ExtResInfo[ResPair.2.UID]? = some Ext ∧
      Ext.RecordId = digitsValue ridLit ∧ ResPair.2.ResType = ResType ∧
      Ext.SrcBindPoint ≤ digitsValue idx ∧
      digitsValue idx < (Ext.SrcBindPoint + ResPair.2.ArraySize) % 4294967296 ∧
      patchHandles ResourceMap (fuel + 1) ⟨ExtResInfo, DXIL⟩ pos =
        patchHandles ResourceMap fuel
          ⟨ExtResInfo, callText pre op clsLit ridLit
            (to_string
              ((ResPair.2.BindPoint + (digitsValue idx - Ext.SrcBindPoint)) % 4294967296)) rest⟩
          (indexStart pre op clsLit ridLit + idx.length) := by
  have hu : toUint32 (digitsValue idx : Int) = digitsValue idx :=
    toUint32_natCast _ (by omega)
  obtain ⟨ResPair, Ext, hf, hmem, hE, h1, h2, h3, h4⟩ :=
    findByRange_found ExtResInfo (digitsValue ridLit) ResType (digitsValue idx) ResourceMap hvalid
      hsome
  refine ⟨ResPair, hmem, Ext, hE, h1, h2, h3, h4, ?_⟩
  obtain ⟨hpos, _, _, _, _, _, _, _, _, _, htext⟩ := hsite.parsed
  have hhead : ¬ idx.head? = some '%' := by
    obtain ⟨c, cs, rfl⟩ := List.exists_cons_of_ne_nil hsite.index.1
    have hd := hidx c (by simp)
    simp only [List.head?_cons, Option.some.injEq]
    rintro rfl
    revert hd
    decide
  have hv := stoi_digits_nil idx ⟨hsite.index.1, hidx⟩ hfit
  rw [← hu] at hf
  have hrep := ReplaceBindPoint_found ResourceMap ExtResInfo _ idx (',' :: rest)
    (indexStart pre op clsLit ridLit) (digitsValue clsLit) (digitsValue ridLit) ResType _ ResPair Ext
    rfl hv hcls hf
  rw [← htext] at hrep
  rw [patchHandles_step _ _ _ _ hpos, patchHandleStep_site ResourceMap ExtResInfo hsite,
    if_neg hhead, hrep]
  simp only
  have hoff : (toUint32 (digitsValue idx : Int) + 4294967296 - Ext.SrcBindPoint) % 4294967296 =
      digitsValue idx - Ext.SrcBindPoint := by
    rw [hu]
    omega
  rw [hoff]
  rfl

/-- Witness of C2: a sampler array recorded at slots 5..12 (record id 0) is
remapped to base slot 20; the call that asks for index 7 (element 2) is
rewritten to index 22, and `PatchDXIL` returns `true` with that text. -/
theorem constant_index_patched_witness :
    HandleSite
      "  %3 = call %dx.types.Handle @dx.op.createHandle(i32 57, i8 3, i32 0, i32 7, i1 false)\n".toList
      0 "  %3".toList "57".toList "3".toList "0".toList "7".toList " i1 false)\n".toList ∧
    ValidUIDs [("g_Samplers".toList, ⟨20, 0, 8, .Sampler, 0⟩)] [⟨5, 0, 0⟩] ∧
    (∃ ResPair ∈ [("g_Samplers".toList, (⟨20, 0, 8, .Sampler, 0⟩ : BindInfo))],
      ∃ Ext, [(⟨5, 0, 0⟩ : ResourceExtendedInfo)][ResPair.2.UID]? = some Ext ∧
      Ext.RecordId = digitsValue "0".toList ∧ ResPair.2.ResType = .Sampler ∧
      Ext.SrcBindPoint ≤ digitsValue "7".toList ∧
      digitsValue "7".toList < (Ext.SrcBindPoint + ResPair.2.ArraySize) % 4294967296 ∧
      patchHandles [("g_Samplers".toList, ⟨20, 0, 8, .Sampler, 0⟩)] (90 + 1)
        ⟨[⟨5, 0, 0⟩],
          "  %3 = call %dx.types.Handle @dx.op.createHandle(i32 57, i8 3, i32 0, i32 7, i1 false)\n".toList⟩ 0 =
        patchHandles [("g_Samplers".toList, ⟨20, 0, 8, .Sampler, 0⟩)] 90
          ⟨[⟨5, 0, 0⟩], callText "  %3".toList "57".toList "3".toList "0".toList
            (to_string
              ((ResPair.2.BindPoint + (digitsValue "7".toList - Ext.SrcBindPoint)) % 4294967296))
            " i1 false)\n".toList⟩
          (indexStart "  %3".toList "57".toList "3".toList "0".toList + "7".toList.length)) ∧
    PatchDXIL [("g_Samplers".toList, ⟨20, 0, 8, .Sampler, 0⟩)]
      ⟨[⟨5, 0, 0⟩],
        "  %3 = call %dx.types.Handle @dx.op.createHandle(i32 57, i8 3, i32 0, i32 7, i1 false)\n".toList⟩ =
      .ok (true, ⟨[⟨5, 0, 0⟩],
        "  %3 = call %dx.types.Handle @dx.op.createHandle(i32 57, i8 3, i32 0, i32 22, i1 false)\n".toList⟩) :=
  have hsite : HandleSite
      "  %3 = call %dx.types.Handle @dx.op.createHandle(i32 57, i8 3, i32 0, i32 7, i1 false)\n".toList
      0 "  %3".toList "57".toList "3".toList "0".toList "7".toList " i1 false)\n".toList :=
    ⟨by decide, by decide, by decide, by decide, by decide, by decide, by decide, by decide,
      by decide⟩
  ⟨hsite, by decide,
    constant_index_patched _ [⟨5, 0, 0⟩] _ 0 _ _ _ _ _ _ .Sampler 90 hsite (by decide) (by decide)
      (by decide) (by decide)
      ⟨("g_Samplers".toList, ⟨20, 0, 8, .Sampler, 0⟩), by decide, ⟨5, 0, 0⟩, rfl, by decide, rfl,
        by decide, by decide⟩,
    by decide⟩

/-! ## The handle pass: the used index and unresolved calls -/

theorem IndexDecl_ne_nil (idx : Str) : IndexDecl idx ≠ [] := by
  unfold IndexDecl
  have : " = add i32 ".toList = ' ' :: "= add i32 ".toList := rfl
  rw [this]
  simp

theorem rfind_decl (DXIL idx a tail : Str) (stop : Nat)
    (htext : DXIL = a ++ IndexDecl idx ++ tail) (hle : a.length ≤ stop)
    (hlast : ∀ j, j ≤ stop → a.length < j → occursAt (IndexDecl idx) DXIL j = false) :
    rfind (IndexDecl idx) DXIL stop = some a.length := by
  apply rfind_eq_some _ _ _ _ (IndexDecl_ne_nil idx) _ hle (fun j h1 h2 => hlast j h2 h1)
  rw [htext]
  exact occursAt_at _ _ _ _ rfl

theorem charAt_at (a : Str) (c : Char) (b : Str) (n : Nat) (hn : n = a.length) :
    charAt (a ++ c :: b) n = .ok c := by
  subst hn
  simp [charAt]

/-- The "dynamic bind point" branch when the addition has its constant first:
it calls `ReplaceBindPoint` on the constant. -/
theorem patchDynamicIndex_constantFirst (ResourceMap : TResourceBindingMap)
    (ExtResInfo : TResourceMapExtendedInfo) (DXIL idx a C more : Str)
    (ResClass RangeId IndexEndPos : Nat)
    (htext : DXIL = a ++ IndexDecl idx ++ C ++ ',' :: more) (hle : a.length ≤ IndexEndPos)
    (hlast : ∀ j, j ≤ IndexEndPos → a.length < j → occursAt (IndexDecl idx) DXIL j = false)
    (hC : C.head? ≠ some '%') (hstop : NoStop C) :
    patchDynamicIndex ResourceMap ExtResInfo DXIL ResClass RangeId IndexEndPos idx =
      ReplaceBindPoint ResourceMap ExtResInfo DXIL ResClass RangeId
        (a.length + (IndexDecl idx).length) (a.length + (IndexDecl idx).length + C.length) := by
  have hr := rfind_decl DXIL idx a (C ++ ',' :: more) IndexEndPos
    (by rw [htext]; simp only [List.append_assoc]) hle hlast
  have hnext : NextArg DXIL (a.length + (IndexDecl idx).length) =
      (true, a.length + (IndexDecl idx).length + C.length) := by
    rw [htext]
    exact NextArg_run _ _ _ _ (by simp only [List.length_append]) hstop
  have hch : ∃ c, charAt DXIL (a.length + (IndexDecl idx).length) = .ok c ∧ c ≠ '%' := by
    cases C with
    | nil =>
      refine ⟨',', ?_, by decide⟩
      rw [htext, List.append_nil]
      exact charAt_at _ _ _ _ (by simp only [List.length_append])
    | cons c cs =>
      refine ⟨c, ?_, ?_⟩
      · rw [htext]
        have : a ++ IndexDecl idx ++ c :: cs ++ ',' :: more =
            (a ++ IndexDecl idx) ++ c :: (cs ++ ',' :: more) := by simp
        rw [this]
        exact charAt_at _ _ _ _ (by simp only [List.length_append])
      · intro hc
        subst hc
        simp at hC
  obtain ⟨c, hc1, hc2⟩ := hch
  have hdecl : IndexDecl idx = idx ++ " = add i32 ".toList := rfl
  simp only [patchDynamicIndex, ← hdecl, hr, hc1, if_neg hc2, hnext]

/-- The "dynamic bind point" branch when the addition has its variable first and
the constant is followed by a comma: it calls `ReplaceBindPoint` on the
constant. -/
theorem patchDynamicIndex_variableFirst (ResourceMap : TResourceBindingMap)
    (ExtResInfo : TResourceMapExtendedInfo) (DXIL idx a v C more : Str) (x : Char)
    (ResClass RangeId IndexEndPos : Nat)
    (htext : DXIL = a ++ IndexDecl idx ++ '%' :: v ++ ',' :: x :: C ++ ',' :: more)
    (hle : a.length ≤ IndexEndPos)
    (hlast : ∀ j, j ≤ IndexEndPos → a.length < j → occursAt (IndexDecl idx) DXIL j = false)
    (hv : NoStop v) (hC : ∃ d ds, C = d :: ds ∧ isDigit d = true) (hstop : NoStop C) :
    patchDynamicIndex ResourceMap ExtResInfo DXIL ResClass RangeId IndexEndPos idx =
      ReplaceBindPoint ResourceMap ExtResInfo DXIL ResClass RangeId
        (a.length + (IndexDecl idx).length + 1 + v.length + 2)
        (a.length + (IndexDecl idx).length + 1 + v.length + 2 + C.length) := by
  have hr := rfind_decl DXIL idx a ('%' :: v ++ ',' :: x :: C ++ ',' :: more) IndexEndPos
    (by rw [htext]; simp only [List.append_assoc]) hle hlast
  have hc1 : charAt DXIL (a.length + (IndexDecl idx).length) = .ok '%' := by
    rw [htext]
    have : a ++ IndexDecl idx ++ '%' :: v ++ ',' :: x :: C ++ ',' :: more =
        (a ++ IndexDecl idx) ++ '%' :: (v ++ ',' :: x :: C ++ ',' :: more) := by simp
    rw [this]
    exact charAt_at _ _ _ _ (by simp only [List.length_append])
  have hv' : NoStop ('%' :: v) := by
    intro c hc
    rcases List.mem_cons.mp hc with rfl | hc
    · decide
    · exact hv c hc
  have hn1 : NextArg DXIL (a.length + (IndexDecl idx).length) =
      (true, a.length + (IndexDecl idx).length + ('%' :: v).length) := by
    rw [htext]
    have : a ++ IndexDecl idx ++ '%' :: v ++ ',' :: x :: C ++ ',' :: more =
        (a ++ IndexDecl idx) ++ ('%' :: v) ++ ',' :: (x :: C ++ ',' :: more) := by simp
    rw [this]
    exact NextArg_run _ _ _ _ (by simp only [List.length_append]) hv'
  obtain ⟨d, ds, hCd, hd⟩ := hC
  have hpos2 : a.length + (IndexDecl idx).length + ('%' :: v).length + 2 =
      a.length + (IndexDecl idx).length + 1 + v.length + 2 := by
    simp only [List.length_cons]; omega
  have hc2 : charAt DXIL (a.length + (IndexDecl idx).length + 1 + v.length + 2) = .ok d := by
    rw [htext, hCd]
    have : a ++ IndexDecl idx ++ '%' :: v ++ ',' :: x :: d :: ds ++ ',' :: more =
        (a ++ IndexDecl idx ++ '%' :: v ++ [',', x]) ++ d :: (ds ++ ',' :: more) := by simp
    rw [this]
    exact charAt_at _ _ _ _ (by simp only [List.length_append, List.length_cons, List.length_nil]; omega)
  have hn2 : NextArg DXIL (a.length + (IndexDecl idx).length + 1 + v.length + 2) =
      (true, a.length + (IndexDecl idx).length + 1 + v.length + 2 + C.length) := by
    rw [htext]
    have : a ++ IndexDecl idx ++ '%' :: v ++ ',' :: x :: C ++ ',' :: more =
        (a ++ IndexDecl idx ++ '%' :: v ++ [',', x]) ++ C ++ ',' :: more := by simp
    rw [this]
    exact NextArg_run _ _ _ _
      (by simp only [List.length_append, List.length_cons, List.length_nil]; omega) hstop
  have hdecl : IndexDecl idx = idx ++ " = add i32 ".toList := rfl
  simp only [patchDynamicIndex, ← hdecl, hr, hc1, if_true, hn1, hpos2, hc2, hd, hn2]

/-- The loop body of `PatchResourceHandle` on a located call, reduced to the
call of `ReplaceBindPoint` on the used index. -/
theorem patchHandleStep_usedIndex (ResourceMap : TResourceBindingMap)
    (ExtResInfo : TResourceMapExtendedInfo) {DXIL : Str} {pos : Nat}
    {pre op clsLit ridLit idx rest used : Str} {ArgStart : Nat}
    (h : HandleSite DXIL pos pre op clsLit ridLit idx rest)
    (hu : UsedIndex DXIL idx (indexStart pre op clsLit ridLit) used ArgStart) :
    patchHandleStep ResourceMap ExtResInfo DXIL pos =
      match ReplaceBindPoint ResourceMap ExtResInfo DXIL (digitsValue clsLit) (digitsValue ridLit)
          ArgStart (ArgStart + used.length) with
      | .error f => .error f
      | .ok DXIL => .ok (some (DXIL, indexStart pre op clsLit ridLit + idx.length)) := by
  rw [patchHandleStep_site ResourceMap ExtResInfo h]
  cases hu with
  | literal hh hused hstart =>
    subst hused hstart
    rw [if_neg hh]
    try rfl
  | addConstantFirst a more hh htext hle hlast hC hstop hstart =>
    subst hstart
    rw [if_pos hh, patchDynamicIndex_constantFirst ResourceMap ExtResInfo DXIL idx a used more _ _ _
      htext hle hlast hC hstop]
    try rfl
  | addVariableFirst a v more x hh htext hle hlast hv hC hstop hstart =>
    subst hstart
    rw [if_pos hh, patchDynamicIndex_variableFirst ResourceMap ExtResInfo DXIL idx a v used more x
      _ _ _ htext hle hlast hv hC hstop]
    try rfl

/-- The used index is a piece of the text, at `ArgStart`. -/
theorem UsedIndex.text {DXIL : Str} {pos : Nat} {pre op clsLit ridLit idx rest used : Str}
    {ArgStart : Nat} (h : HandleSite DXIL pos pre op clsLit ridLit idx rest)
    (hu : UsedIndex DXIL idx (indexStart pre op clsLit ridLit) used ArgStart) :
    ∃ a tail, DXIL = a ++ used ++ tail ∧ ArgStart = a.length := by
  cases hu with
  | literal _ hused hstart =>
    subst hused hstart
    exact ⟨_, _, h.parsed.2.2.2.2.2.2.2.2.2.2, rfl⟩
  | addConstantFirst a more _ htext _ _ _ _ hstart =>
    exact ⟨a ++ IndexDecl idx, ',' :: more, htext, by rw [hstart]; simp only [List.length_append]⟩
  | addVariableFirst a v more x _ htext _ _ _ _ _ hstart =>
    refine ⟨a ++ IndexDecl idx ++ '%' :: v ++ [',', x], ',' :: more, ?_, ?_⟩
    · rw [htext]; simp
    · rw [hstart]; simp only [List.length_append, List.length_cons, List.length_nil]; omega

theorem PatchDXIL_of_handle_thrown (ResourceMap : TResourceBindingMap) (st0 st st1 : PatchState)
    (hdecl : PatchResourceDeclaration ResourceMap st0 = .ok st)
    (h : patchHandles ResourceMap (st.DXIL.length + 1) st 0 = .error (.thrown, st1)) :
    PatchDXIL ResourceMap st0 = .ok (false, st1) := by
  simp only [PatchDXIL, hdecl, PatchResourceHandle, h, catchAll]

/-- Claim C6 (unresolved handle site). Let the scan of `PatchResourceHandle`
locate, from `pos`, a createHandle call whose class operand names the type
`ResType`, and let `used` be the index text the loop body resolves: the literal
index operand, or the constant of the addition that feeds a temporary. If `used`
parses to a value that lies in the source range
`[SrcBindPoint, SrcBindPoint + ArraySize)` of no entry of the map with the
call's record id and type, the iteration throws with the text untouched, so the
index is not rewritten; when this happens at the first call of the text, after a
declaration pass that ended in the state `(ExtResInfo, DXIL)`, `PatchDXIL`
returns `false` with that state. -/
theorem unresolved_handle_site (ResourceMap : TResourceBindingMap)
    (ExtResInfo : TResourceMapExtendedInfo) (DXIL : Str) (pos : Nat)
    (pre op clsLit ridLit idx rest used : Str) (ArgStart : Nat) (ResType : ShaderResType)
    (v : Int) (fuel : Nat)
    (hsite : HandleSite DXIL pos pre op clsLit ridLit idx rest)
    (hused : UsedIndex DXIL idx (indexStart pre op clsLit ridLit) used ArgStart)
    (hv : stoi used = .ok v)
    (hcls : ResClassToType[digitsValue clsLit]? = some ResType)
    (hvalid : ValidUIDs ResourceMap ExtResInfo)
    (hnone : ∀ nb ∈ ResourceMap,
      ¬ Resolves ExtResInfo (digitsValue ridLit) ResType (toUint32 v) nb) :
    patchHandles ResourceMap (fuel + 1) ⟨ExtResInfo, DXIL⟩ pos =
      .error (.thrown, ⟨ExtResInfo, DXIL⟩) ∧
    ∀ st0, pos = 0 → PatchResourceDeclaration ResourceMap st0 = .ok ⟨ExtResInfo, DXIL⟩ →
      PatchDXIL ResourceMap st0 = .ok (false, ⟨ExtResInfo, DXIL⟩) := by
  have hpos : pos < DXIL.length := hsite.parsed.1
  obtain ⟨a, tail, htext, hstart⟩ := hused.text hsite
  have hrep := ReplaceBindPoint_not_found ResourceMap ExtResInfo a used tail ArgStart
    (digitsValue clsLit) (digitsValue ridLit) ResType v hstart hv hcls
    (findByRange_none ExtResInfo _ ResType _ ResourceMap hvalid hnone)
  rw [← htext] at hrep
  have key : ∀ n, patchHandles ResourceMap (n + 1) ⟨ExtResInfo, DXIL⟩ pos =
      .error (.thrown, ⟨ExtResInfo, DXIL⟩) := by
    intro n
    rw [patchHandles_step _ _ _ _ hpos]
    simp only [patchHandleStep_usedIndex ResourceMap ExtResInfo hsite hused, hrep]
  refine ⟨key fuel, ?_⟩
  intro st0 hp hdecl
  subst hp
  exact PatchDXIL_of_handle_thrown _ _ _ _ hdecl (key _)

/-- Witness of C6: a sampler array recorded at slots 5..12 (record id 0) and a
call that asks for index 13, outside the array. -/
theorem unresolved_handle_site_witness :
    HandleSite
      "  %3 = call %dx.types.Handle @dx.op.createHandle(i32 57, i8 3, i32 0, i32 13, i1 false)\n".toList
      0 "  %3".toList "57".toList "3".toList "0".toList "13".toList " i1 false)\n".toList ∧
    stoi "13".toList = .ok 13 ∧
    ValidUIDs [("g_Samplers".toList, ⟨20, 0, 8, .Sampler, 0⟩)] [⟨5, 0, 0⟩] ∧
    PatchDXIL [("g_Samplers".toList, ⟨20, 0, 8, .Sampler, 0⟩)]
      ⟨[⟨5, 0, 0⟩],
        "  %3 = call %dx.types.Handle @dx.op.createHandle(i32 57, i8 3, i32 0, i32 13, i1 false)\n".toList⟩ =
      .ok (false, ⟨[⟨5, 0, 0⟩],
        "  %3 = call %dx.types.Handle @dx.op.createHandle(i32 57, i8 3, i32 0, i32 13, i1 false)\n".toList⟩) :=
  have hsite : HandleSite
      "  %3 = call %dx.types.Handle @dx.op.createHandle(i32 57, i8 3, i32 0, i32 13, i1 false)\n".toList
      0 "  %3".toList "57".toList "3".toList "0".toList "13".toList " i1 false)\n".toList :=
    ⟨by decide, by decide, by decide, by decide, by decide, by decide, by decide, by decide,
      by decide⟩
  ⟨hsite, by decide, by decide,
    (unresolved_handle_site _ [⟨5, 0, 0⟩] _ 0 _ _ _ _ _ _ "13".toList _ .Sampler 13 0 hsite
      (.literal (by decide) rfl rfl) (by decide) (by decide) (by decide)
      (by
        intro nb hnb
        rcases List.mem_singleton.mp hnb with rfl
        rintro ⟨Ext, hE, _, _, _, h4⟩
        injection hE with hE
        subst hE
        revert h4
        decide)).2 _ rfl (by decide)⟩

/-! ## The handle pass: variable-first additions -/

theorem NextArgAux_newline : ∀ (run rest : Str) (p : Nat), NoStop run →
    NextArgAux (run ++ '\n' :: rest) p = (false, p + run.length)
  | [], rest, p, _ => by simp [NextArgAux]
  | c :: cs, rest, p, h => by
    have hc := h c (by simp)
    have ih := NextArgAux_newline cs rest (p + 1) (fun x hx => h x (by simp [hx]))
    rw [List.cons_append, NextArgAux, if_neg hc.1, if_neg (by simp [hc.2.1, hc.2.2]), ih,
      List.length_cons]
    congr 1; omega

theorem NextArg_newline (a run rest : Str) (n : Nat) (hn : n = a.length) (h : NoStop run) :
    NextArg (a ++ run ++ '\n' :: rest) n = (false, n + run.length) := by
  rw [NextArg, List.append_assoc, drop_append_len _ _ _ hn, NextArgAux_newline _ _ _ h]

/-- The variable-first form with the constant ending the line (companion of
claim C3). When the addition that defines the temporary `idx` reads
`idx = add i32 %v,xC` followed by a line break, with no comma in between, the
"dynamic bind point" branch throws whatever the binding map holds: the second
`NextArg` runs into the line break and returns `false`. -/
theorem patchDynamicIndex_variableFirst_newline (ResourceMap : TResourceBindingMap)
    (ExtResInfo : TResourceMapExtendedInfo) (DXIL idx a v C more : Str) (x : Char)
    (ResClass RangeId IndexEndPos : Nat)
    (htext : DXIL = a ++ IndexDecl idx ++ '%' :: v ++ ',' :: x :: C ++ '\n' :: more)
    (hle : a.length ≤ IndexEndPos)
    (hlast : ∀ j, j ≤ IndexEndPos → a.length < j → occursAt (IndexDecl idx) DXIL j = false)
    (hv : NoStop v) (hstop : NoStop C) :
    patchDynamicIndex ResourceMap ExtResInfo DXIL ResClass RangeId IndexEndPos idx =
      .error .thrown := by
  have hr := rfind_decl DXIL idx a ('%' :: v ++ ',' :: x :: C ++ '\n' :: more) IndexEndPos
    (by rw [htext]; simp only [List.append_assoc]) hle hlast
  have hc1 : charAt DXIL (a.length + (IndexDecl idx).length) = .ok '%' := by
    rw [htext]
    have : a ++ IndexDecl idx ++ '%' :: v ++ ',' :: x :: C ++ '\n' :: more =
        (a ++ IndexDecl idx) ++ '%' :: (v ++ ',' :: x :: C ++ '\n' :: more) := by simp
    rw [this]
    exact charAt_at _ _ _ _ (by simp only [List.length_append])
  have hv' : NoStop ('%' :: v) := by
    intro c hc
    rcases List.mem_cons.mp hc with rfl | hc
    · decide
    · exact hv c hc
  have hn1 : NextArg DXIL (a.length + (IndexDecl idx).length) =
      (true, a.length + (IndexDecl idx).length + ('%' :: v).length) := by
    rw [htext]
    have : a ++ IndexDecl idx ++ '%' :: v ++ ',' :: x :: C ++ '\n' :: more =
        (a ++ IndexDecl idx) ++ ('%' :: v) ++ ',' :: (x :: C ++ '\n' :: more) := by simp
    rw [this]
    exact NextArg_run _ _ _ _ (by simp only [List.length_append]) hv'
  have hpos2 : a.length + (IndexDecl idx).length + ('%' :: v).length + 2 =
      a.length + (IndexDecl idx).length + 1 + v.length + 2 := by
    simp only [List.length_cons]; omega
  have hn2 : NextArg DXIL (a.length + (IndexDecl idx).length + 1 + v.length + 2) =
      (false, a.length + (IndexDecl idx).length + 1 + v.length + 2 + C.length) := by
    rw [htext]
    have : a ++ IndexDecl idx ++ '%' :: v ++ ',' :: x :: C ++ '\n' :: more =
        (a ++ IndexDecl idx ++ '%' :: v ++ [',', x]) ++ C ++ '\n' :: more := by simp
    rw [this]
    exact NextArg_newline _ _ _ _
      (by simp only [List.length_append, List.length_cons, List.length_nil]; omega) hstop
  have hch : ∃ d, charAt DXIL (a.length + (IndexDecl idx).length + 1 + v.length + 2) = .ok d := by
    have hlen : a.length + (IndexDecl idx).length + 1 + v.length + 2 ≤ DXIL.length := by
      rw [htext]
      simp only [List.length_append, List.length_cons]; omega
    exact ⟨_, by rw [charAt, if_pos hlen]⟩
  obtain ⟨d, hd⟩ := hch
  have hdecl : IndexDecl idx = idx ++ " = add i32 ".toList := rfl
  simp only [patchDynamicIndex, ← hdecl, hr, hc1, if_true, hn1, hpos2, hd, hn2]
  split <;> rfl

/-- Claim C3 at its own example. A sampler array recorded at slots 5..12 (record
id 0) is remapped to base slot 20, and the index of the call is the temporary
`%22` defined by `%22 = add i32 %17, 5` at the end of a line. `PatchDXIL`
returns `false` and leaves the text as it was: the constant is not rewritten to
20. With the operands in the other order, `%22 = add i32 5, %17`, the same call
is patched and the constant reads 20. -/
theorem dynamic_index_variable_first_throws :
    PatchDXIL [("g_Samplers".toList, ⟨20, 0, 8, .Sampler, 0⟩)]
      ⟨[⟨5, 0, 0⟩],
        "  %22 = add i32 %17, 5\n  %23 = call %dx.types.Handle @dx.op.createHandle(i32 57, i8 3, i32 0, i32 %22, i1 false)\n".toList⟩ =
      .ok (false, ⟨[⟨5, 0, 0⟩],
        "  %22 = add i32 %17, 5\n  %23 = call %dx.types.Handle @dx.op.createHandle(i32 57, i8 3, i32 0, i32 %22, i1 false)\n".toList⟩) ∧
    PatchDXIL [("g_Samplers".toList, ⟨20, 0, 8, .Sampler, 0⟩)]
      ⟨[⟨5, 0, 0⟩],
        "  %22 = add i32 5, %17\n  %23 = call %dx.types.Handle @dx.op.createHandle(i32 57, i8 3, i32 0, i32 %22, i1 false)\n".toList⟩ =
      .ok (true, ⟨[⟨5, 0, 0⟩],
        "  %22 = add i32 20, %17\n  %23 = call %dx.types.Handle @dx.op.createHandle(i32 57, i8 3, i32 0, i32 %22, i1 false)\n".toList⟩) :=
  ⟨by decide, by decide⟩

/-! ## The container sniffer -/

theorem littleEndian_lt : ∀ (bs : List Nat), littleEndian bs < 256 ^ bs.length
  | [] => by simp [littleEndian]
  | b :: bs => by
    have ih := littleEndian_lt bs
    have hb : b % 256 < 256 := Nat.mod_lt _ (by decide)
    simp only [littleEndian, List.length_cons, Nat.pow_succ]
    omega

theorem field_lt (buf : List Nat) (off : Nat) : field buf off 4 < 4294967296 := by
  have h := littleEndian_lt ((buf.drop off).take 4)
  have hl : ((buf.drop off).take 4).length ≤ 4 := by simp [List.length_take]
  have : 256 ^ ((buf.drop off).take 4).length ≤ 256 ^ 4 := Nat.pow_le_pow_right (by decide) hl
  unfold field
  have e : (256 : Nat) ^ 4 = 4294967296 := by norm_num
  omega

theorem load_eq (buf : List Nat) (off width : Nat) (h : off + width ≤ buf.length) :
    load buf off width = .ok (field buf off width) := by
  rw [load, if_pos h]
  rfl

/-- The scan of the parts from part `part`, when the rest of the table lies
inside the buffer: it never reads out of range, and it returns `true` exactly
when some part from `part` on carries the DXIL fourCC and all parts from `part`
up to it fit in the buffer. -/
theorem scanParts_spec (L : ContainerLayout) (buf : List Nat) (hL : L.WellFormed) :
    ∀ (remaining part : Nat),
      L.sizeofContainerHeader + 4 * (part + remaining) ≤ buf.length →
      ∃ b, scanParts L buf L.sizeofContainerHeader remaining part = .ok b ∧
        (b = true ↔ ∃ k, part ≤ k ∧ k < part + remaining ∧
          field buf (partOffset L buf k + L.offsetofPartFourCC) 4 = L.DFCC_DXIL ∧
          ∀ j, part ≤ j → j ≤ k → partOffset L buf j + L.sizeofPartHeader ≤ buf.length)
  | 0, part, _ => by
    refine ⟨false, rfl, ?_⟩
    simp only [Bool.false_eq_true, false_iff, not_exists]
    intro k hk
    omega
  | remaining + 1, part, hfit => by
    have hload : load buf (L.sizeofContainerHeader + 4 * part) 4 =
        .ok (partOffset L buf part) := load_eq _ _ _ (by omega)
    by_cases hpart : partOffset L buf part + L.sizeofPartHeader > buf.length
    · refine ⟨false, ?_, ?_⟩
      · simp only [scanParts, hload, if_pos hpart]
      · simp only [Bool.false_eq_true, false_iff, not_exists]
        intro k hk
        have := hk.2.2.2 part (Nat.le_refl _) hk.1
        omega
    · have hcc : load buf (partOffset L buf part + L.offsetofPartFourCC) 4 =
          .ok (field buf (partOffset L buf part + L.offsetofPartFourCC) 4) :=
        load_eq _ _ _ (by have := hL.2.2.2; omega)
      by_cases hdxil : field buf (partOffset L buf part + L.offsetofPartFourCC) 4 = L.DFCC_DXIL
      · refine ⟨true, ?_, ?_⟩
        · simp only [scanParts, hload, if_neg hpart, hcc, if_pos hdxil]
        · simp only [true_iff]
          refine ⟨part, Nat.le_refl _, by omega, hdxil, ?_⟩
          intro j h1 h2
          have : j = part := by omega
          subst this
          omega
      · obtain ⟨b, hb, hiff⟩ := scanParts_spec L buf hL remaining (part + 1) (by omega)
        refine ⟨b, ?_, ?_⟩
        · simp only [scanParts, hload, if_neg hpart, hcc, if_neg hdxil, hb]
        · rw [hiff]
          constructor
          · rintro ⟨k, h1, h2, h3, h4⟩
            refine ⟨k, by omega, by omega, h3, ?_⟩
            intro j hj1 hj2
            by_cases hj : j = part
            · subst hj; omega
            · exact h4 j (by omega) hj2
          · rintro ⟨k, h1, h2, h3, h4⟩
            have hk : k ≠ part := by
              rintro rfl
              exact hdxil h3
            exact ⟨k, by omega, by omega, h3, fun j hj1 hj2 => h4 j (by omega) hj2⟩

/-- The function `IsDXILBytecode` never reads out of range, and it returns
`true` exactly when the header is valid and the scan of the parts succeeds. -/
theorem IsDXILBytecode_spec (L : ContainerLayout) (buf : List Nat) (hL : L.WellFormed) :
    ∃ b, IsDXILBytecode L buf = .ok b ∧
      (b = true ↔ ValidHeader L buf ∧
        ∃ k, k < partCount L buf ∧
          field buf (partOffset L buf k + L.offsetofPartFourCC) 4 = L.DFCC_DXIL ∧
          ∀ j, j ≤ k → partOffset L buf j + L.sizeofPartHeader ≤ buf.length) := by
  unfold ValidHeader
  by_cases h1 : L.sizeofContainerHeader > buf.length
  · refine ⟨false, by simp only [IsDXILBytecode, if_pos h1], ?_⟩
    simp only [Bool.false_eq_true, false_iff]
    intro h
    omega
  · have hl1 : load buf L.offsetofHeaderFourCC 4 = .ok (field buf L.offsetofHeaderFourCC 4) :=
      load_eq _ _ _ (by have := hL.1; omega)
    by_cases h2 : field buf L.offsetofHeaderFourCC 4 ≠ L.DFCC_Container
    · refine ⟨false, by simp only [IsDXILBytecode, if_neg h1, hl1, if_pos h2], ?_⟩
      simp only [Bool.false_eq_true, false_iff]
      intro h
      exact h2 h.1.2.1
    · have hl2 : load buf L.offsetofVersionMajor 2 = .ok (field buf L.offsetofVersionMajor 2) :=
        load_eq _ _ _ (by have := hL.2.1; omega)
      by_cases h3 : field buf L.offsetofVersionMajor 2 ≠ L.DxilContainerVersionMajor
      · refine ⟨false, by simp only [IsDXILBytecode, if_neg h1, hl1, if_neg h2, hl2, if_pos h3], ?_⟩
        simp only [Bool.false_eq_true, false_iff]
        intro h
        exact h3 h.1.2.2.1
      · have hl3 : load buf L.offsetofPartCount 4 = .ok (partCount L buf) :=
          load_eq _ _ _ (by have := hL.2.2.1; omega)
        have hpc : partCount L buf < 4294967296 := field_lt _ _
        have hmod : (4 * partCount L buf) % 18446744073709551616 = 4 * partCount L buf :=
          Nat.mod_eq_of_lt (by omega)
        by_cases h4 : L.sizeofContainerHeader + 4 * partCount L buf > buf.length
        · refine ⟨false, ?_, ?_⟩
          · simp only [IsDXILBytecode, if_neg h1, hl1, if_neg h2, hl2, if_neg h3, hl3, hmod,
              if_pos h4]
          · simp only [Bool.false_eq_true, false_iff]
            intro h
            have := h.1.2.2.2
            omega
        · obtain ⟨b, hb, hiff⟩ := scanParts_spec L buf hL (partCount L buf) 0 (by omega)
          refine ⟨b, ?_, ?_⟩
          · simp only [IsDXILBytecode, if_neg h1, hl1, if_neg h2, hl2, if_neg h3, hl3, hmod,
              if_neg h4, hb]
          · rw [hiff]
            constructor
            · rintro ⟨k, _, hk2, hk3, hk4⟩
              exact ⟨⟨by omega, not_not.mp h2, not_not.mp h3, by omega⟩, k, by omega, hk3,
                fun j hj => hk4 j (Nat.zero_le _) hj⟩
            · rintro ⟨_, k, hk1, hk2, hk3⟩
              exact ⟨k, Nat.zero_le _, by omega, hk2, fun j _ hj => hk3 j hj⟩

/-- Claim C9 (container sniffer characterisation). For every buffer,
`IsDXILBytecode` returns `true` if and only if (a) the buffer is at least as
large as the container header, (b) the header fourCC is the container magic,
(c) the header major version is the supported one, (d) the table of `PartCount`
32-bit offsets fits in the buffer after the header, and (e) some part
`k < PartCount` carries the DXIL fourCC while every part `j ≤ k` has its part
header inside the buffer; in every other case it returns `false` (so also when
`PartCount = 0`). Conditions (a) to (d) are `ValidHeader`, condition (e) is
`HasReachableDxilPart`; later parts do not occur in them. -/
theorem container_sniffer_characterisation (L : ContainerLayout) (buf : List Nat)
    (hL : L.WellFormed) :
    (IsDXILBytecode L buf = .ok true ↔ ValidHeader L buf ∧ HasReachableDxilPart L buf) ∧
    (IsDXILBytecode L buf = .ok false ↔ ¬ (ValidHeader L buf ∧ HasReachableDxilPart L buf)) ∧
    (partCount L buf = 0 → IsDXILBytecode L buf = .ok false) := by
  obtain ⟨b, hb, hiff⟩ := IsDXILBytecode_spec L buf hL
  have hiff' : b = true ↔ ValidHeader L buf ∧ HasReachableDxilPart L buf := hiff
  have h1 : IsDXILBytecode L buf = .ok true ↔ ValidHeader L buf ∧ HasReachableDxilPart L buf := by
    rw [hb, ← hiff']
    constructor
    · intro h; injection h
    · intro h; rw [h]
  have h2 : IsDXILBytecode L buf = .ok false ↔
      ¬ (ValidHeader L buf ∧ HasReachableDxilPart L buf) := by
    rw [hb, ← hiff']
    constructor
    · intro h; injection h with h; rw [h]; decide
    · intro h
      cases b with
      | false => rfl
      | true => exact absurd rfl h
  refine ⟨h1, h2, ?_⟩
  intro h0
  rw [h2]
  rintro ⟨_, k, hk, _⟩
  omega

/-- Witness of C9: a 32-byte DXBC header with version 1 and one part, the
offset 36 of that part, and a part header that starts with "DXIL". -/
theorem container_sniffer_characterisation_witness :
    dxcLayout.WellFormed ∧
    IsDXILBytecode dxcLayout
      [0x44, 0x58, 0x42, 0x43, 0, 0, 0, 0, 0, 0, 0, 0, 0, 0, 0, 0, 0, 0, 0, 0, 1, 0, 0, 0,
        44, 0, 0, 0, 1, 0, 0, 0, 36, 0, 0, 0, 0x44, 0x58, 0x49, 0x4c, 0, 0, 0, 0] = .ok true :=
  ⟨by decide,
    (container_sniffer_characterisation dxcLayout _ (by decide)).1.mpr
      ⟨by decide, 0, by decide, by decide, by decide⟩⟩

/-- Claim C10 (container sniffer bounds safety). For every buffer,
`IsDXILBytecode` returns a result without any load outside the buffer: every
header field, part offset and part fourCC it reads lies inside `[0, Size)` (a
load outside would be the fault `undefinedBehaviour`). And when the scan reaches
a part `k` whose part header would extend past the end of the buffer (the
header is valid, the parts before `k` fit and do not carry the DXIL fourCC),
the function returns `false`. -/
theorem container_sniffer_in_bounds (L : ContainerLayout) (buf : List Nat) (hL : L.WellFormed) :
    (∃ b, IsDXILBytecode L buf = .ok b) ∧
    ∀ k, ValidHeader L buf → k < partCount L buf →
      (∀ j, j < k → partOffset L buf j + L.sizeofPartHeader ≤ buf.length ∧
        field buf (partOffset L buf j + L.offsetofPartFourCC) 4 ≠ L.DFCC_DXIL) →
      partOffset L buf k + L.sizeofPartHeader > buf.length →
      IsDXILBytecode L buf = .ok false := by
  obtain ⟨b, hb, hiff⟩ := IsDXILBytecode_spec L buf hL
  refine ⟨⟨b, hb⟩, ?_⟩
  intro k _ _ hbefore hk
  cases b with
  | false => exact hb
  | true =>
    exfalso
    obtain ⟨_, k', _, hdx, hfit⟩ := hiff.mp rfl
    by_cases hlt : k' < k
    · exact (hbefore k' hlt).2 hdx
    · have := hfit k (by omega)
      omega

/-- Witness of C10: a valid header with one part whose offset 40 leaves only 4
of the 8 bytes of a part header inside the 44-byte buffer. -/
theorem container_sniffer_in_bounds_witness :
    dxcLayout.WellFormed ∧
    IsDXILBytecode dxcLayout
      [0x44, 0x58, 0x42, 0x43, 0, 0, 0, 0, 0, 0, 0, 0, 0, 0, 0, 0, 0, 0, 0, 0, 1, 0, 0, 0,
        44, 0, 0, 0, 1, 0, 0, 0, 40, 0, 0, 0, 0, 0, 0, 0, 0x44, 0x58, 0x49, 0x4c] = .ok false :=
  ⟨by decide,
    (container_sniffer_in_bounds dxcLayout _ (by decide)).2 0 (by decide) (by decide)
      (by decide) (by decide)⟩

/-! ## Stage ordering and the offset range -/

theorem stoi_error (s : Str) (f : Fault) (h : stoi s = .error f) : f = .thrown := by
  unfold stoi at h
  split at h
  · cases h; rfl
  · split at h
    · cases h
    · cases h; rfl

/-- C13 (stage ordering and short-circuit). `PatchDXIL` returns `true` exactly
when `PatchResourceDeclaration` completes and `PatchResourceHandle`, run on the
state the declaration pass produced, completes too; it returns `false` exactly
when one of them throws: a throw of the declaration pass ends the call with the
state of that throw (the handle pass is not run), a throw of the handle pass
with the state of that one. No exception leaves `PatchDXIL`, and a failure of
`std::stoi` to parse a number is always an exception. -/
theorem stage_ordering (ResourceMap : TResourceBindingMap) (st : PatchState) :
    (∀ st2, PatchDXIL ResourceMap st = .ok (true, st2) ↔
      ∃ st1, PatchResourceDeclaration ResourceMap st = .ok st1 ∧
        PatchResourceHandle ResourceMap st1 = .ok st2) ∧
    (∀ st2, PatchDXIL ResourceMap st = .ok (false, st2) ↔
      (PatchResourceDeclaration ResourceMap st = .error (.thrown, st2) ∨
        ∃ st1, PatchResourceDeclaration ResourceMap st = .ok st1 ∧
          PatchResourceHandle ResourceMap st1 = .error (.thrown, st2))) ∧
    (∀ st2, PatchDXIL ResourceMap st ≠ .error (.thrown, st2)) ∧
    (∀ s f, stoi s = .error f → f = .thrown) := by
  refine ⟨?_, ?_, ?_, stoi_error⟩
  · intro st2
    unfold PatchDXIL
    cases hd : PatchResourceDeclaration ResourceMap st with
    | error e =>
      obtain ⟨f, s⟩ := e
      cases f <;> simp [catchAll]
    | ok st1 =>
      cases hh : PatchResourceHandle ResourceMap st1 with
      | error e =>
        obtain ⟨f, s⟩ := e
        cases f <;> simp [catchAll, hh]
      | ok s => simp [catchAll, hh]
  · intro st2
    unfold PatchDXIL
    cases hd : PatchResourceDeclaration ResourceMap st with
    | error e =>
      obtain ⟨f, s⟩ := e
      cases f <;> simp [catchAll]
    | ok st1 =>
      cases hh : PatchResourceHandle ResourceMap st1 with
      | error e =>
        obtain ⟨f, s⟩ := e
        cases f <;> simp [catchAll, hh]
      | ok s => simp [catchAll, hh]
  · intro st2
    unfold PatchDXIL
    cases hd : PatchResourceDeclaration ResourceMap st with
    | error e =>
      obtain ⟨f, s⟩ := e
      cases f <;> simp [catchAll]
    | ok st1 =>
      cases hh : PatchResourceHandle ResourceMap st1 with
      | error e =>
        obtain ⟨f, s⟩ := e
        cases f <;> simp [catchAll, hh]
      | ok s => simp [catchAll, hh]

theorem findByRange_some (ExtResInfo : TResourceMapExtendedInfo) (RangeId : Nat)
    (ResType : ShaderResType) (SrcIndex : Nat) (ResPair : Str × BindInfo)
    (Ext : ResourceExtendedInfo) : ∀ (ResourceMap : TResourceBindingMap),
    findByRange ExtResInfo RangeId ResType SrcIndex ResourceMap = .ok (some (ResPair, Ext)) →
    ResPair ∈ ResourceMap ∧ ExtResInfo[ResPair.2.UID]? = some Ext ∧
      Ext.RecordId = RangeId ∧ ResPair.2.ResType = ResType ∧
      Ext.SrcBindPoint ≤ SrcIndex ∧
      SrcIndex < (Ext.SrcBindPoint + ResPair.2.ArraySize) % 4294967296
  | [], h => by simp [findByRange] at h
  | nb :: rest, h => by
    unfold findByRange at h
    split at h
    · cases h
    · rename_i E hE
      split at h
      · rename_i hc
        simp only [Except.ok.injEq, Option.some.injEq, Prod.mk.injEq] at h
        obtain ⟨h1, h2⟩ := h
        subst h1; subst h2
        exact ⟨List.mem_cons_self _ _, hE, hc⟩
      · obtain ⟨hm, hr⟩ := findByRange_some ExtResInfo RangeId ResType SrcIndex ResPair Ext rest h
        exact ⟨List.mem_cons_of_mem _ hm, hr⟩

theorem toUint32_lt (v : Int) : toUint32 v < 4294967296 := by
  unfold toUint32
  have h1 : 0 ≤ v % 4294967296 := Int.emod_nonneg v (by decide)
  have h2 : v % 4294967296 < 4294967296 := Int.emod_lt_of_pos v (by decide)
  omega

/-- C17 (offset range). When the search of `ReplaceBindPoint` resolves the used
index, the 32-bit value `toUint32 v` of the parsed operand, to an entry with a
32-bit array size, the sum `SrcBindPoint + ArraySize` of that entry does not
exceed `2^32 - 1` (an entry whose sum wraps is never matched), the 32-bit
subtraction `usedIndex - SrcBindPoint` that `ReplaceBindPoint` computes does not
wrap, and the offset is below the array size. -/
theorem offset_in_range (ExtResInfo : TResourceMapExtendedInfo) (RangeId : Nat)
    (ResType : ShaderResType) (v : Int) (ResourceMap : TResourceBindingMap)
    (ResPair : Str × BindInfo) (Ext : ResourceExtendedInfo)
    (hsize : ResPair.2.ArraySize < 4294967296)
    (hfind : findByRange ExtResInfo RangeId ResType (toUint32 v) ResourceMap =
      .ok (some (ResPair, Ext))) :
    Ext.SrcBindPoint + ResPair.2.ArraySize ≤ 4294967295 ∧
    Ext.SrcBindPoint ≤ toUint32 v ∧
    (toUint32 v + 4294967296 - Ext.SrcBindPoint) % 4294967296 = toUint32 v - Ext.SrcBindPoint ∧
    (toUint32 v + 4294967296 - Ext.SrcBindPoint) % 4294967296 < ResPair.2.ArraySize := by
  obtain ⟨_, _, _, _, hle, hlt⟩ :=
    findByRange_some ExtResInfo RangeId ResType (toUint32 v) ResPair Ext ResourceMap hfind
  have hidx := toUint32_lt v
  omega

/-- Witness of C17: the index 6 in the range of four slots recorded at slot 5;
an earlier entry of the same record id whose range of `2^32 - 1` slots from
slot 5 wraps is passed over. -/
theorem offset_in_range_witness :
    findByRange [⟨5, 0, 0⟩, ⟨5, 0, 0⟩] 0 .SRV (toUint32 6)
        [("g_Wrap".toList, ⟨9, 0, 4294967295, .SRV, 0⟩), ("g_Tex".toList, ⟨7, 0, 4, .SRV, 1⟩)] =
      .ok (some (("g_Tex".toList, ⟨7, 0, 4, .SRV, 1⟩), ⟨5, 0, 0⟩)) ∧
    5 + 4 ≤ 4294967295 ∧ 5 ≤ toUint32 6 ∧
    (toUint32 6 + 4294967296 - 5) % 4294967296 = toUint32 6 - 5 ∧
    (toUint32 6 + 4294967296 - 5) % 4294967296 < 4 :=
  ⟨by decide,
    offset_in_range [⟨5, 0, 0⟩, ⟨5, 0, 0⟩] 0 .SRV 6
      [("g_Wrap".toList, ⟨9, 0, 4294967295, .SRV, 0⟩), ("g_Tex".toList, ⟨7, 0, 4, .SRV, 1⟩)]
      ("g_Tex".toList, ⟨7, 0, 4, .SRV, 1⟩) ⟨5, 0, 0⟩ (by decide) (by decide)⟩

/-! ## The positional pass before any source is recorded -/

/-- Counterexample to C18 as stated: the only entry of the map still holds the
unset sentinel in both source fields, the text holds a recognised stripped
texture declaration whose space and bind-point fields are the literal `-1`, and
`PatchResourceDeclaration` succeeds: the literal parses to `2^32 - 1`, the
sentinel itself, so the entry matches and the record is patched to space 0,
slot 3. -/
theorem unset_source_counterexample :
    (∀ Ext ∈ [(⟨4294967295, 4294967295, 4294967295⟩ : ResourceExtendedInfo)],
      Ext.SrcBindPoint = 4294967295 ∧ Ext.SrcSpace = 4294967295) ∧
    AnonymousRecord
      "!5 = !\x7bi32 0, %\x22class.Texture2D<vector<float, 4> >\x22* undef, !\x22\x22, i32 -1, i32 -1, i32 1, i32 2, i32 0, !6\x7d\n".toList
      0 "!5 ".toList "0".toList "%\x22class.Texture2D<vector<float, 4> >\x22* undef".toList
      "-1".toList "-1".toList ", i32 1, i32 2, i32 0, !6\x7d\n".toList ∧
    RecognisedAs [("g_Tex".toList, ⟨3, 0, 1, .SRV, 0⟩)]
      "%\x22class.Texture2D<vector<float, 4> >\x22* undef".toList .SRV ∧
    PatchResourceDeclaration [("g_Tex".toList, ⟨3, 0, 1, .SRV, 0⟩)]
      ⟨[⟨4294967295, 4294967295, 4294967295⟩],
        "!5 = !\x7bi32 0, %\x22class.Texture2D<vector<float, 4> >\x22* undef, !\x22\x22, i32 -1, i32 -1, i32 1, i32 2, i32 0, !6\x7d\n".toList⟩ =
      .ok ⟨[⟨4294967295, 4294967295, 0⟩],
        "!5 = !\x7bi32 0, %\x22class.Texture2D<vector<float, 4> >\x22* undef, !\x22\x22, i32 0, i32 3, i32 1, i32 2, i32 0, !6\x7d\n".toList⟩ :=
  ⟨by decide,
    ⟨by decide, by decide, by decide, by decide, by decide, by decide, by decide, by decide⟩,
    .texture (by decide), by decide⟩

/-- C18 (ordering dependency of the positional strategy), as amended. Let every
slot of the extended-info table still hold the unset sentinel `2^32 - 1` as
source space and source bind point, and let the scan of the second loop locate a
stripped record recognised as class `cls`. Unless both fields of the record
read the sentinel value and the map has an entry of class `cls`, no entry
matches the record, the iteration throws with text and table untouched, and
`PatchResourceDeclaration` fails when this is the first marker after the named
pass. -/
theorem unset_source_unresolved (ResourceMap : TResourceBindingMap)
    (ExtResInfo : TResourceMapExtendedInfo) (DXIL : Str) (pos : Nat)
    (head idLit ty sp bp tail : Str) (cls : ShaderResType) (vs vb : Int) (fuel : Nat)
    (hrec : AnonymousRecord DXIL pos head idLit ty sp bp tail)
    (hty : RecognisedAs ResourceMap ty cls)
    (hsp : stoi sp = .ok vs) (hbp : stoi bp = .ok vb)
    (hvalid : ValidUIDs ResourceMap ExtResInfo)
    (hunset : ∀ Ext ∈ ExtResInfo, Ext.SrcBindPoint = 4294967295 ∧ Ext.SrcSpace = 4294967295)
    (hne : ¬ (toUint32 vs = 4294967295 ∧ toUint32 vb = 4294967295 ∧
      ∃ nb ∈ ResourceMap, nb.2.ResType = cls)) :
    (∀ nb ∈ ResourceMap, ¬ HasSource ExtResInfo (toUint32 vb) (toUint32 vs) cls nb) ∧
    patchAnonymousRecords ResourceMap (fuel + 1) ⟨ExtResInfo, DXIL⟩ pos =
      .error (.thrown, ⟨ExtResInfo, DXIL⟩) ∧
    ∀ st0, pos = 0 → patchNamedRecords ResourceMap st0 = .ok ⟨ExtResInfo, DXIL⟩ →
      PatchResourceDeclaration ResourceMap st0 = .error (.thrown, ⟨ExtResInfo, DXIL⟩) ∧
      PatchDXIL ResourceMap st0 = .ok (false, ⟨ExtResInfo, DXIL⟩) := by
  have hnone : ∀ nb ∈ ResourceMap, ¬ HasSource ExtResInfo (toUint32 vb) (toUint32 vs) cls nb := by
    rintro nb hnb ⟨Ext, hE, h1, h2, h3⟩
    have hmem : Ext ∈ ExtResInfo := List.getElem?_mem hE
    obtain ⟨u1, u2⟩ := hunset Ext hmem
    exact hne ⟨by omega, by omega, nb, hnb, h3⟩
  have hpos : pos < DXIL.length := (hrec.scanned vs vb hsp hbp).1
  have key : ∀ n, patchAnonymousRecords ResourceMap (n + 1) ⟨ExtResInfo, DXIL⟩ pos =
      .error (.thrown, ⟨ExtResInfo, DXIL⟩) := by
    intro n
    rw [patchAnonymousRecords_step _ _ _ _ hpos,
      patchAnonymousStep_located ResourceMap ExtResInfo cls vs vb hrec
        (hrec.classify ResourceMap cls hty) (recognised_ne_count hty) hsp hbp,
      findBySource_none ExtResInfo _ _ cls ResourceMap hvalid hnone]
  refine ⟨hnone, key fuel, ?_⟩
  intro st0 hp hnamed
  subst hp
  simp only [PatchDXIL, PatchResourceDeclaration, hnamed, key, catchAll, and_self]

/-- Witness of C18 as amended: the stripped constant buffer sits at space 0,
slot 1 and the only entry of the map still holds the unset sentinel. -/
theorem unset_source_unresolved_witness :
    AnonymousRecord "!5 = !\x7bi32 0, %Constants* undef, !\x22\x22, i32 0, i32 1, i32 1, i32 16, null\x7d\n".toList 0
      "!5 ".toList "0".toList "%Constants* undef".toList "0".toList "1".toList
      ", i32 1, i32 16, null\x7d\n".toList ∧
    RecognisedAs [("Constants".toList, ⟨0, 1, 1, .CBV, 0⟩)] "%Constants* undef".toList .CBV ∧
    ValidUIDs [("Constants".toList, ⟨0, 1, 1, .CBV, 0⟩)] [⟨4294967295, 4294967295, 4294967295⟩] ∧
    PatchResourceDeclaration [("Constants".toList, ⟨0, 1, 1, .CBV, 0⟩)]
      ⟨[⟨4294967295, 4294967295, 4294967295⟩],
        "!5 = !\x7bi32 0, %Constants* undef, !\x22\x22, i32 0, i32 1, i32 1, i32 16, null\x7d\n".toList⟩ =
      .error (.thrown, ⟨[⟨4294967295, 4294967295, 4294967295⟩],
        "!5 = !\x7bi32 0, %Constants* undef, !\x22\x22, i32 0, i32 1, i32 1, i32 16, null\x7d\n".toList⟩) :=
  have hrec : AnonymousRecord
      "!5 = !\x7bi32 0, %Constants* undef, !\x22\x22, i32 0, i32 1, i32 1, i32 16, null\x7d\n".toList 0
      "!5 ".toList "0".toList "%Constants* undef".toList "0".toList "1".toList
      ", i32 1, i32 16, null\x7d\n".toList :=
    ⟨by decide, by decide, by decide, by decide, by decide, by decide, by decide, by decide⟩
  have hty : RecognisedAs [("Constants".toList, ⟨0, 1, 1, .CBV, 0⟩)] "%Constants* undef".toList .CBV :=
    .cbuffer ("Constants".toList, ⟨0, 1, 1, .CBV, 0⟩) (by decide) rfl (by decide) (by decide)
      (by decide)
  ⟨hrec, hty, by decide,
    ((unset_source_unresolved _ [⟨4294967295, 4294967295, 4294967295⟩] _ 0 _ _ _ _ _ _ .CBV 0 1 0
      hrec hty (by decide) (by decide) (by decide) (by decide)
      (by rintro ⟨h, _⟩; exact absurd h (by decide))).2.2 _ rfl (by decide)).1⟩

/-! ## The positional pass: candidates that are not resources -/

theorem occursAt_of_not_prefix (pat a b : Str) (n : Nat) (hn : n = a.length) (h : ¬ pat <+: b) :
    occursAt pat (a ++ b) n = false := by
  subst hn
  rw [occursAt, drop_append_len _ _ _ rfl]
  cases hb : pat.isPrefixOf b with
  | false => rfl
  | true => exact absurd (List.isPrefixOf_iff_prefix.mp hb) h

/-- The anonymous loop body on a candidate that is not a resource declaration:
nothing is written and the scan goes on from the closing comma of the marker. -/
theorem patchAnonymousStep_skipped (ResourceMap : TResourceBindingMap)
    (ExtResInfo : TResourceMapExtendedInfo) {DXIL : Str} {pos m : Nat}
    (h : SkippedCandidate ResourceMap DXIL pos m) :
    pos < DXIL.length ∧
    occursAt EmptyResDecl DXIL m = true ∧
    patchAnonymousStep ResourceMap ⟨ExtResInfo, DXIL⟩ pos =
      .ok (some (⟨ExtResInfo, DXIL⟩, m + 5)) := by
  cases h with
  | notRecord head body rest htext hm hpos hfirst hlast hnot =>
    have hmark : occursAt EmptyResDecl DXIL m = true := by
      rw [htext]; exact occursAt_at _ _ _ _ hm
    have hlen : m + 6 ≤ DXIL.length := by
      rw [htext, hm]; simp only [List.length_append, EmptyResDecl_length]; omega
    have hstart : occursAt ResourceRecStart DXIL head.length = true := by
      rw [htext]
      simp only [List.append_assoc]
      rw [← List.append_assoc]
      exact occursAt_at _ _ _ _ rfl
    have hhead : head.length ≤ m := by
      rw [hm]; simp only [List.length_append]; omega
    have h1 : find EmptyResDecl DXIL pos = some m :=
      find_eq_some _ _ _ _ hmark (by omega) hpos (fun j hj hj' => hfirst j hj' hj)
    have h2 : rfind ResourceRecStart DXIL m = some head.length :=
      rfind_eq_some _ _ _ _ (by decide) hstart hhead (fun j h1 h2 => hlast j h2 h1)
    have h3 : occursAt i32 DXIL (head.length + 4) = false := by
      rw [htext]
      simp only [List.append_assoc]
      rw [← List.append_assoc]
      apply occursAt_of_not_prefix _ _ _ _ (by simp [ResourceRecStart_length])
      simpa only [List.append_assoc] using hnot
    refine ⟨by omega, hmark, ?_⟩
    simp only [patchAnonymousStep, h1, h2, ResourceRecStart_length, h3, EmptyResDecl_length]
    rfl
  | unrecognised head idLit ty rest htext hm hpos hfirst hlast hid hfit hnt hns hncb =>
    have hmark : occursAt EmptyResDecl DXIL m = true := by
      rw [htext]; exact occursAt_at _ _ _ _ hm
    have hlen : m + 6 ≤ DXIL.length := by
      rw [htext, hm]; simp only [List.length_append, EmptyResDecl_length]; omega
    have hstart : occursAt ResourceRecStart DXIL head.length = true := by
      rw [htext, recordPrefix]
      simp only [List.append_assoc]
      rw [← List.append_assoc]
      exact occursAt_at _ _ _ _ rfl
    have hhead : head.length ≤ m := by
      rw [hm, recordPrefix_length]; omega
    have hcomma : ", ".toList = ',' :: " ".toList := rfl
    have h1 : find EmptyResDecl DXIL pos = some m :=
      find_eq_some _ _ _ _ hmark (by omega) hpos (fun j hj hj' => hfirst j hj' hj)
    have h2 : rfind ResourceRecStart DXIL m = some head.length :=
      rfind_eq_some _ _ _ _ (by decide) hstart hhead (fun j h1 h2 => hlast j h2 h1)
    have h3 : occursAt i32 DXIL (head.length + 4) = true := by
      rw [htext, recordPrefix]
      simp only [List.append_assoc]
      rw [← List.append_assoc, ← List.append_assoc]
      exact occursAt_at _ _ _ _ (by simp [ResourceRecStart_length])
    have h4 : findFirstNotOf NumberSymbols DXIL (head.length + 4 + 4) =
        some (head.length + 4 + 4 + idLit.length) := by
      rw [htext, recordPrefix]
      simp only [List.append_assoc]
      rw [← List.append_assoc, ← List.append_assoc]
      unfold findFirstNotOf
      rw [drop_append_len _ _ _ (by simp [ResourceRecStart_length, i32_length])]
      rw [findFirstNotOfAux_run NumberSymbols idLit _
        (head.length + 4 + 4) (fun c hc => isDigit_mem_NumberSymbols c (hid.2 c hc))
        (by
          intro c hc
          rw [hcomma] at hc
          simp at hc
          subst hc
          decide), if_neg]
      rw [hcomma]; simp
    have h5 : atoi (DXIL.drop (head.length + 4 + 4)) = .ok (digitsValue idLit : Int) := by
      rw [htext, recordPrefix]
      simp only [List.append_assoc]
      rw [← List.append_assoc, ← List.append_assoc]
      rw [drop_append_len _ _ _ (by simp [ResourceRecStart_length, i32_length])]
      exact atoi_digits _ _ (digitsEnd_sep _ _ hid) hfit
    have h6 : commaSpaceAt DXIL (head.length + 4 + 4 + idLit.length) = .ok true := by
      rw [htext, recordPrefix]
      simp only [List.append_assoc]
      rw [← List.append_assoc, ← List.append_assoc, ← List.append_assoc, ← List.append_assoc]
      exact commaSpaceAt_comma _ _ _
        (by simp only [List.length_append, ResourceRecStart_length, i32_length])
    have e : DXIL = (head ++ ResourceRecStart ++ i32 ++ idLit ++ ", ".toList) ++
        (ty ++ EmptyResDecl ++ rest) := by
      rw [htext, recordPrefix]; simp only [List.append_assoc]
    have hl : head.length + 4 + 4 + idLit.length + 2 =
        (head ++ ResourceRecStart ++ i32 ++ idLit ++ ", ".toList).length := by
      simp only [List.length_append, ResourceRecStart_length, i32_length]; rfl
    have h7 : classifyResType ResourceMap DXIL (head.length + 4 + 4 + idLit.length + 2) = .Count := by
      have hany : ResourceMap.any (fun NameAndBinding =>
          decide (NameAndBinding.2.ResType = .CBV) &&
            occursAt (CBName NameAndBinding.1) DXIL (head.length + 4 + 4 + idLit.length + 2)) =
          false := by
        rw [List.any_eq_false]
        intro nb hnb
        by_cases hc : nb.2.ResType = .CBV
        · have := occursAt_of_not_prefix (CBName nb.1) _ _ _ hl (hncb nb hnb hc)
          rw [← e] at this
          simp [this]
        · simp [hc]
      have t1 := occursAt_of_not_prefix TexturePart _ _ _ hl hnt
      have t2 := occursAt_of_not_prefix SamplerPart _ _ _ hl hns
      rw [← e] at t1 t2
      simp only [classifyResType, t1, t2, hany]
      rfl
    have hid32 : toUint32 (digitsValue idLit : Int) = digitsValue idLit :=
      toUint32_natCast _ (by omega)
    refine ⟨by omega, hmark, ?_⟩
    simp only [patchAnonymousStep, h1, h2, ResourceRecStart_length, h3, if_true, i32_length, h4, h5,
      h6, h7, EmptyResDecl_length]
    rfl

/-- No marker `, !"",` starts inside another one, its closing comma apart. -/
theorem marker_no_overlap (DXIL : Str) (m j : Nat) (hm : occursAt EmptyResDecl DXIL m = true)
    (hj : occursAt EmptyResDecl DXIL j = true) (hlt : m < j) : m + 5 ≤ j := by
  by_contra hcon
  unfold occursAt at hm hj
  rw [ List.isPrefixOf_iff_prefix] at hm hj
  obtain ⟨t, ht⟩ := hm
  obtain ⟨k, hk⟩ : ∃ k, j = m + k := ⟨j - m, by omega⟩
  subst hk
  rw [← List.drop_drop, ← ht] at hj
  have hk4 : k = 1 ∨ k = 2 ∨ k = 3 ∨ k = 4 := by omega
  have e : EmptyResDecl = [',', ' ', '!', '\x22', '\x22', ','] := rfl
  rw [e] at hj
  rcases hk4 with rfl | rfl | rfl | rfl <;>
    · obtain ⟨u, hu⟩ := hj
      simp at hu

theorem anonymous_record_step (ResourceMap : TResourceBindingMap)
    (ExtResInfo : TResourceMapExtendedInfo) (DXIL : Str) (pos : Nat)
    (head idLit ty sp bp tail : Str) (cls : ShaderResType) (vs vb : Int) (fuel : Nat)
    (hrec : AnonymousRecord DXIL pos head idLit ty sp bp tail)
    (hty : RecognisedAs ResourceMap ty cls)
    (hsp : stoi sp = .ok vs) (hbp : stoi bp = .ok vb)
    (hvalid : ValidUIDs ResourceMap ExtResInfo)
    (hsome : ∃ nb ∈ ResourceMap, HasSource ExtResInfo (toUint32 vb) (toUint32 vs) cls nb) :
    ∃ ResPair ∈ ResourceMap, HasSource ExtResInfo (toUint32 vb) (toUint32 vs) cls ResPair ∧
      patchAnonymousRecords ResourceMap (fuel + 1) ⟨ExtResInfo, DXIL⟩ pos =
        patchAnonymousRecords ResourceMap fuel
          ⟨setRecordId ExtResInfo ResPair.2.UID (digitsValue idLit),
            anonymousText head idLit ty (to_string ResPair.2.Space) (to_string ResPair.2.BindPoint)
              tail⟩
          ((recordPrefix head idLit ty).length + 5 + 6 + (to_string ResPair.2.Space).length + 6 +
            (to_string ResPair.2.BindPoint).length) := by
  obtain ⟨ResPair, Ext, hf, hmem, hE, h1, h2, h3⟩ :=
    findBySource_found ExtResInfo (toUint32 vb) (toUint32 vs) cls ResourceMap hvalid hsome
  refine ⟨ResPair, hmem, ⟨Ext, hE, h1, h2, h3⟩, ?_⟩
  have hpos : pos < DXIL.length := (hrec.scanned vs vb hsp hbp).1
  rw [patchAnonymousRecords_step _ _ _ _ hpos,
    patchAnonymousStep_located ResourceMap ExtResInfo cls vs vb hrec
      (hrec.classify ResourceMap cls hty) (recognised_ne_count hty) hsp hbp, hf]
  simp only
  have e1 : DXIL = (recordPrefix head idLit ty ++ ", !\x22\x22".toList) ++ ", i32 ".toList ++ sp ++
      (", i32 ".toList ++ bp ++ tail) := by
    rw [hrec.text, anonymousText]; simp only [List.append_assoc]
  have hfe := fieldEnds_sep sp (bp ++ tail) hrec.space
  rw [← List.append_assoc] at hfe
  have r1 := ReplaceRecord_ok (recordPrefix head idLit ty ++ ", !\x22\x22".toList) sp
    (", i32 ".toList ++ bp ++ tail) (to_string ResPair.2.Space) vs Ext.SrcSpace hfe hsp h2.symm
  rw [List.length_append, emptyName_length, ← e1] at r1
  rw [r1]
  simp only
  have e2 : recordPrefix head idLit ty ++ ", !\x22\x22".toList ++ ", i32 ".toList ++
      to_string ResPair.2.Space ++ (", i32 ".toList ++ bp ++ tail) =
      (recordPrefix head idLit ty ++ ", !\x22\x22".toList ++ ", i32 ".toList ++
        to_string ResPair.2.Space) ++ ", i32 ".toList ++ bp ++ tail := by
    simp only [List.append_assoc]
  have r2 := ReplaceRecord_ok
    (recordPrefix head idLit ty ++ ", !\x22\x22".toList ++ ", i32 ".toList ++
      to_string ResPair.2.Space) bp tail
    (to_string ResPair.2.BindPoint) vb Ext.SrcBindPoint hrec.bind hbp h1.symm
  have hl : (recordPrefix head idLit ty ++ ", !\x22\x22".toList ++ ", i32 ".toList ++
      to_string ResPair.2.Space).length =
      (recordPrefix head idLit ty).length + 5 + 6 + (to_string ResPair.2.Space).length := by
    simp only [List.length_append, commaI32_length, emptyName_length]
  rw [hl, ← e2] at r2
  rw [r2]
  try rfl

/-- C19 (non-resource candidates are skipped). Let the marker `, !"",` at `m` be
the first one at or after `pos`, and let it belong to a candidate that is not a
resource declaration: its record does not begin with `i32 ` after `= !{`, or
its type signature is none of the recognised shapes. Then the iteration of the
positional pass raises no error and writes nothing, and the scan goes on from
`m + 5`, the closing comma of the marker (the position `BindingRecordStart`).
No marker that starts after `m` starts before `m + 5`, so none is passed over:
the next recognised stripped declaration after the candidate, when some entry
carries its source triple, is patched by the iteration that follows. -/
theorem non_resource_candidate_skipped (ResourceMap : TResourceBindingMap)
    (ExtResInfo : TResourceMapExtendedInfo) (DXIL : Str) (pos m fuel : Nat)
    (hcand : SkippedCandidate ResourceMap DXIL pos m) :
    patchAnonymousRecords ResourceMap (fuel + 1) ⟨ExtResInfo, DXIL⟩ pos =
      patchAnonymousRecords ResourceMap fuel ⟨ExtResInfo, DXIL⟩ (m + 5) ∧
    (∀ j, m < j → occursAt EmptyResDecl DXIL j = true → m + 5 ≤ j) ∧
    ∀ (head idLit ty sp bp tail : Str) (cls : ShaderResType) (vs vb : Int),
      AnonymousRecord DXIL (m + 1) head idLit ty sp bp tail →
      RecognisedAs ResourceMap ty cls →
      stoi sp = .ok vs → stoi bp = .ok vb →
      ValidUIDs ResourceMap ExtResInfo →
      (∃ nb ∈ ResourceMap, HasSource ExtResInfo (toUint32 vb) (toUint32 vs) cls nb) →
      ∃ ResPair ∈ ResourceMap, HasSource ExtResInfo (toUint32 vb) (toUint32 vs) cls ResPair ∧
        patchAnonymousRecords ResourceMap (fuel + 2) ⟨ExtResInfo, DXIL⟩ pos =
          patchAnonymousRecords ResourceMap fuel
            ⟨setRecordId ExtResInfo ResPair.2.UID (digitsValue idLit),
              anonymousText head idLit ty (to_string ResPair.2.Space)
                (to_string ResPair.2.BindPoint) tail⟩
            ((recordPrefix head idLit ty).length + 5 + 6 + (to_string ResPair.2.Space).length + 6 +
              (to_string ResPair.2.BindPoint).length) := by
  obtain ⟨hpos, hmark, hstep⟩ := patchAnonymousStep_skipped ResourceMap ExtResInfo hcand
  have hskip : ∀ n, patchAnonymousRecords ResourceMap (n + 1) ⟨ExtResInfo, DXIL⟩ pos =
      patchAnonymousRecords ResourceMap n ⟨ExtResInfo, DXIL⟩ (m + 5) := by
    intro n
    rw [patchAnonymousRecords_step _ _ _ _ hpos, hstep]
  have hover : ∀ j, m < j → occursAt EmptyResDecl DXIL j = true → m + 5 ≤ j :=
    fun j hlt hj => marker_no_overlap DXIL m j hmark hj hlt
  refine ⟨hskip fuel, hover, ?_⟩
  intro head idLit ty sp bp tail cls vs vb hrec hty hsp hbp hvalid hsome
  have hnext : occursAt EmptyResDecl DXIL (recordPrefix head idLit ty).length = true := by
    have e : DXIL = recordPrefix head idLit ty ++ EmptyResDecl ++
        (" i32 ".toList ++ sp ++ ", i32 ".toList ++ bp ++ tail) := by
      rw [hrec.text, anonymousText]
      have e1 : ", !\x22\x22".toList ++ ", i32 ".toList = EmptyResDecl ++ " i32 ".toList := rfl
      simp only [List.append_assoc]
      rw [← List.append_assoc (", !\x22\x22".toList), e1]
      simp only [List.append_assoc]
    rw [e]
    exact occursAt_at _ _ _ _ rfl
  have hrec5 : AnonymousRecord DXIL (m + 5) head idLit ty sp bp tail :=
    ⟨hrec.text, hover _ (by have := hrec.start; omega) hnext,
      fun j hj hle => hrec.firstMarker j hj (by omega), hrec.lastStart, hrec.idDigits, hrec.idFits,
      hrec.space, hrec.bind⟩
  obtain ⟨ResPair, hmem, hsrc, hrun⟩ :=
    anonymous_record_step ResourceMap ExtResInfo DXIL (m + 5) head idLit ty sp bp tail cls vs vb
      fuel hrec5 hty hsp hbp hvalid hsome
  exact ⟨ResPair, hmem, hsrc, by rw [hskip (fuel + 1), hrun]⟩

set_option maxRecDepth 4000 in
/-- Witness of C19: a stripped read-write texture (a type signature the pass does
not recognise) is followed by the stripped constant buffer `Constants`; the
first record is left as it is and the second one is patched from space 0,
slot 1 to space 1, slot 0. -/
theorem non_resource_candidate_skipped_witness :
    SkippedCandidate [("Constants".toList, ⟨0, 1, 1, .CBV, 0⟩)]
      "!4 = !\x7bi32 0, %\x22class.RWTexture2D<float>\x22* undef, !\x22\x22, i32 0, i32 1, i32 1, i32 2, null\x7d\n!5 = !\x7bi32 0, %Constants* undef, !\x22\x22, i32 0, i32 1, i32 1, i32 16, null\x7d\n".toList
      0 48 ∧
    patchAnonymousRecords [("Constants".toList, ⟨0, 1, 1, .CBV, 0⟩)] (170 + 1)
      ⟨[⟨1, 0, 4294967295⟩],
        "!4 = !\x7bi32 0, %\x22class.RWTexture2D<float>\x22* undef, !\x22\x22, i32 0, i32 1, i32 1, i32 2, null\x7d\n!5 = !\x7bi32 0, %Constants* undef, !\x22\x22, i32 0, i32 1, i32 1, i32 16, null\x7d\n".toList⟩
      0 =
    patchAnonymousRecords [("Constants".toList, ⟨0, 1, 1, .CBV, 0⟩)] 170
      ⟨[⟨1, 0, 4294967295⟩],
        "!4 = !\x7bi32 0, %\x22class.RWTexture2D<float>\x22* undef, !\x22\x22, i32 0, i32 1, i32 1, i32 2, null\x7d\n!5 = !\x7bi32 0, %Constants* undef, !\x22\x22, i32 0, i32 1, i32 1, i32 16, null\x7d\n".toList⟩
      (48 + 5) ∧
    PatchResourceDeclaration [("Constants".toList, ⟨0, 1, 1, .CBV, 0⟩)]
      ⟨[⟨1, 0, 4294967295⟩],
        "!4 = !\x7bi32 0, %\x22class.RWTexture2D<float>\x22* undef, !\x22\x22, i32 0, i32 1, i32 1, i32 2, null\x7d\n!5 = !\x7bi32 0, %Constants* undef, !\x22\x22, i32 0, i32 1, i32 1, i32 16, null\x7d\n".toList⟩ =
      .ok ⟨[⟨1, 0, 0⟩],
        "!4 = !\x7bi32 0, %\x22class.RWTexture2D<float>\x22* undef, !\x22\x22, i32 0, i32 1, i32 1, i32 2, null\x7d\n!5 = !\x7bi32 0, %Constants* undef, !\x22\x22, i32 1, i32 0, i32 1, i32 16, null\x7d\n".toList⟩ :=
  have hcand : SkippedCandidate [("Constants".toList, ⟨0, 1, 1, .CBV, 0⟩)]
      "!4 = !\x7bi32 0, %\x22class.RWTexture2D<float>\x22* undef, !\x22\x22, i32 0, i32 1, i32 1, i32 2, null\x7d\n!5 = !\x7bi32 0, %Constants* undef, !\x22\x22, i32 0, i32 1, i32 1, i32 16, null\x7d\n".toList
      0 48 :=
    .unrecognised "!4 ".toList "0".toList "%\x22class.RWTexture2D<float>\x22* undef".toList
      " i32 0, i32 1, i32 1, i32 2, null\x7d\n!5 = !\x7bi32 0, %Constants* undef, !\x22\x22, i32 0, i32 1, i32 1, i32 16, null\x7d\n".toList
      (by decide) (by decide) (by decide) (by decide) (by decide) (by decide) (by decide)
      (by decide) (by decide) (by decide)
  ⟨hcand, (non_resource_candidate_skipped _ [⟨1, 0, 4294967295⟩] _ 0 48 170 hcand).1, by decide⟩

/-! ## The handle pass: dynamic indices, frame and unsupported shapes -/

theorem rfindAux_eq_none (pat s : Str) : ∀ (k : Nat),
    (∀ j, j ≤ k → occursAt pat s j = false) → rfindAux pat s k = none
  | 0, h => by simp [rfindAux, h 0 (Nat.le_refl 0)]
  | k + 1, h => by
    rw [rfindAux, h (k + 1) (Nat.le_refl _)]
    simp only [Bool.false_eq_true, if_false]
    exact rfindAux_eq_none pat s k (fun j hj => h j (by omega))

theorem rfind_eq_none (pat s : Str) (pos : Nat)
    (h : ∀ j, j ≤ pos → occursAt pat s j = false) : rfind pat s pos = none := by
  unfold rfind
  split
  · exact rfindAux_eq_none pat s _ (fun j hj => h j (by omega))
  · rfl

/-- What a successful `ReplaceBindPoint` did: the index text parses, the class
names a type, the search found an entry, and the text differs in the index
only. -/
theorem ReplaceBindPoint_ok_inv (ResourceMap : TResourceBindingMap)
    (ExtResInfo : TResourceMapExtendedInfo) (a lit rest : Str) (n ResClass RangeId : Nat)
    (D : Str) (hn : n = a.length)
    (h : ReplaceBindPoint ResourceMap ExtResInfo (a ++ lit ++ rest) ResClass RangeId n
      (n + lit.length) = .ok D) :
    ∃ v ResType ResPair Ext, stoi lit = .ok v ∧ ResClassToType[ResClass]? = some ResType ∧
      findByRange ExtResInfo RangeId ResType (toUint32 v) ResourceMap = .ok (some (ResPair, Ext)) ∧
      D = a ++ to_string ((ResPair.2.BindPoint +
        (toUint32 v + 4294967296 - Ext.SrcBindPoint) % 4294967296) % 4294967296) ++ rest := by
  unfold ReplaceBindPoint at h
  rw [substr_mid a lit rest n hn] at h
  simp only at h
  cases hv : stoi lit with
  | error f => rw [hv] at h; simp at h
  | ok v =>
    rw [hv] at h
    simp only at h
    cases hc : ResClassToType[ResClass]? with
    | none => rw [hc] at h; simp at h
    | some ResType =>
      rw [hc] at h
      simp only at h
      cases hf : findByRange ExtResInfo RangeId ResType (toUint32 v) ResourceMap with
      | error f => rw [hf] at h; simp at h
      | ok o =>
        cases o with
        | none => rw [hf] at h; simp at h
        | some p =>
          obtain ⟨ResPair, Ext⟩ := p
          rw [hf] at h
          simp only [Except.ok.injEq] at h
          rw [replace_mid a lit rest _ n hn] at h
          exact ⟨v, ResType, ResPair, Ext, rfl, rfl, hf, h.symm⟩

theorem ReplaceBindPoint_unparsable (ResourceMap : TResourceBindingMap)
    (ExtResInfo : TResourceMapExtendedInfo) (a lit rest : Str) (n ResClass RangeId : Nat)
    (hn : n = a.length) (hv : stoi lit = .error .thrown) :
    ReplaceBindPoint ResourceMap ExtResInfo (a ++ lit ++ rest) ResClass RangeId n (n + lit.length) =
      .error .thrown := by
  simp only [ReplaceBindPoint, substr_mid a lit rest n hn, hv]

theorem patchDynamicIndex_unsupported (ResourceMap : TResourceBindingMap)
    (ExtResInfo : TResourceMapExtendedInfo) (DXIL idx : Str) (ResClass RangeId IndexEndPos : Nat)
    (h : UnsupportedIndex DXIL idx IndexEndPos) :
    patchDynamicIndex ResourceMap ExtResInfo DXIL ResClass RangeId IndexEndPos idx =
      .error .thrown := by
  have hdecl : IndexDecl idx = idx ++ " = add i32 ".toList := rfl
  cases h with
  | noDefinition hno =>
    simp only [patchDynamicIndex, ← hdecl, rfind_eq_none _ _ _ hno]
  | secondNotConstant a v more x y htext hle hlast hv hy =>
    have hr := rfind_decl DXIL idx a ('%' :: v ++ ',' :: x :: y :: more) IndexEndPos
      (by rw [htext]; simp only [List.append_assoc]) hle hlast
    have hc1 : charAt DXIL (a.length + (IndexDecl idx).length) = .ok '%' := by
      rw [htext]
      have : a ++ IndexDecl idx ++ '%' :: v ++ ',' :: x :: y :: more =
          (a ++ IndexDecl idx) ++ '%' :: (v ++ ',' :: x :: y :: more) := by simp
      rw [this]
      exact charAt_at _ _ _ _ (by simp only [List.length_append])
    have hv' : NoStop ('%' :: v) := by
      intro c hc
      rcases List.mem_cons.mp hc with rfl | hc
      · decide
      · exact hv c hc
    have hn1 : NextArg DXIL (a.length + (IndexDecl idx).length) =
        (true, a.length + (IndexDecl idx).length + ('%' :: v).length) := by
      rw [htext]
      have : a ++ IndexDecl idx ++ '%' :: v ++ ',' :: x :: y :: more =
          (a ++ IndexDecl idx) ++ ('%' :: v) ++ ',' :: (x :: y :: more) := by simp
      rw [this]
      exact NextArg_run _ _ _ _ (by simp only [List.length_append]) hv'
    have hpos2 : a.length + (IndexDecl idx).length + ('%' :: v).length + 2 =
        a.length + (IndexDecl idx).length + 1 + v.length + 2 := by
      simp only [List.length_cons]; omega
    have hc2 : charAt DXIL (a.length + (IndexDecl idx).length + 1 + v.length + 2) = .ok y := by
      rw [htext]
      have : a ++ IndexDecl idx ++ '%' :: v ++ ',' :: x :: y :: more =
          (a ++ IndexDecl idx ++ '%' :: v ++ [',', x]) ++ y :: more := by simp
      rw [this]
      exact charAt_at _ _ _ _
        (by simp only [List.length_append, List.length_cons, List.length_nil]; omega)
    simp only [patchDynamicIndex, ← hdecl, hr, hc1, if_true, hn1, hpos2, hc2, hy]
    rfl
  | firstNotInteger a C more htext hle hlast hC hstop hbad =>
    rw [patchDynamicIndex_constantFirst ResourceMap ExtResInfo DXIL idx a C more _ _ _ htext hle
      hlast hC hstop]
    have e : DXIL = (a ++ IndexDecl idx) ++ C ++ ',' :: more := htext
    rw [e]
    exact ReplaceBindPoint_unparsable _ _ _ _ _ _ _ _ (by simp only [List.length_append]) hbad

/-- C16 (unsupported dynamic index shapes fail). Let the scan of
`PatchResourceHandle` locate, from `pos`, a createHandle call whose index
operand is a temporary `%t`. If no `%t = add i32 ` starts at or before the end
of the operand, or the last such definition adds a variable and an operand
that does not start with a digit (a second variable, for one), or its first
operand is not a variable and `std::stoi` finds no number in it, then the
iteration throws with text and table untouched: nothing is rewritten. When
this is the first call of the text, after a declaration pass that ended in the
state `(ExtResInfo, DXIL)`, `PatchDXIL` returns `false` with that state. -/
theorem unsupported_dynamic_index (ResourceMap : TResourceBindingMap)
    (ExtResInfo : TResourceMapExtendedInfo) (DXIL : Str) (pos : Nat)
    (pre op clsLit ridLit idx rest : Str) (fuel : Nat)
    (hsite : HandleSite DXIL pos pre op clsLit ridLit idx rest)
    (hdyn : idx.head? = some '%')
    (hbad : UnsupportedIndex DXIL idx (indexStart pre op clsLit ridLit + idx.length)) :
    patchHandles ResourceMap (fuel + 1) ⟨ExtResInfo, DXIL⟩ pos =
      .error (.thrown, ⟨ExtResInfo, DXIL⟩) ∧
    ∀ st0, pos = 0 → PatchResourceDeclaration ResourceMap st0 = .ok ⟨ExtResInfo, DXIL⟩ →
      PatchDXIL ResourceMap st0 = .ok (false, ⟨ExtResInfo, DXIL⟩) := by
  have hpos : pos < DXIL.length := hsite.parsed.1
  have key : ∀ n, patchHandles ResourceMap (n + 1) ⟨ExtResInfo, DXIL⟩ pos =
      .error (.thrown, ⟨ExtResInfo, DXIL⟩) := by
    intro n
    rw [patchHandles_step _ _ _ _ hpos]
    simp only [patchHandleStep_site ResourceMap ExtResInfo hsite, if_pos hdyn,
      patchDynamicIndex_unsupported ResourceMap ExtResInfo DXIL idx _ _ _ hbad]
  refine ⟨key fuel, ?_⟩
  intro st0 hp hdecl
  subst hp
  exact PatchDXIL_of_handle_thrown _ _ _ _ hdecl (key _)

/-- C14 (dynamic-index frame). Let the scan of `PatchResourceHandle` locate a
createHandle call whose index operand is a temporary `%t`, defined by an
addition of a variable and the constant `used` that starts at `ArgStart`. When
the iteration patches the call, the new text is the old one with `used`
replaced by a decimal number: the text before `ArgStart`, which holds the
definition `%t = add i32 ` (and the variable when it comes first), and the text
after the constant are those of the input. -/
theorem dynamic_index_frame (ResourceMap : TResourceBindingMap)
    (ExtResInfo : TResourceMapExtendedInfo) (DXIL : Str) (pos : Nat)
    (pre op clsLit ridLit idx rest used : Str) (ArgStart : Nat) (DXIL' : Str) (pos' : Nat)
    (hsite : HandleSite DXIL pos pre op clsLit ridLit idx rest)
    (hdyn : idx.head? = some '%')
    (hused : UsedIndex DXIL idx (indexStart pre op clsLit ridLit) used ArgStart)
    (hstep : patchHandleStep ResourceMap ExtResInfo DXIL pos = .ok (some (DXIL', pos'))) :
    DXIL = DXIL.take ArgStart ++ used ++ DXIL.drop (ArgStart + used.length) ∧
    (∃ n, DXIL' = DXIL.take ArgStart ++ to_string n ++ DXIL.drop (ArgStart + used.length)) ∧
    IndexDecl idx <:+: DXIL.take ArgStart := by
  obtain ⟨a, tail, htext, hstart⟩ := hused.text hsite
  have htake : DXIL.take ArgStart = a := by
    rw [htext, List.append_assoc]; exact take_append_len _ _ _ hstart
  have hdrop : DXIL.drop (ArgStart + used.length) = tail := by
    rw [htext]; exact drop_append_len _ _ _ (by rw [hstart]; simp only [List.length_append])
  rw [htake, hdrop]
  rw [patchHandleStep_usedIndex ResourceMap ExtResInfo hsite hused] at hstep
  cases hrep : ReplaceBindPoint ResourceMap ExtResInfo DXIL (digitsValue clsLit)
      (digitsValue ridLit) ArgStart (ArgStart + used.length) with
  | error f => rw [hrep] at hstep; simp at hstep
  | ok D =>
    rw [hrep] at hstep
    simp only [Except.ok.injEq, Option.some.injEq, Prod.mk.injEq] at hstep
    rw [htext] at hrep
    obtain ⟨v, ResType, ResPair, Ext, _, _, _, hD⟩ :=
      ReplaceBindPoint_ok_inv ResourceMap ExtResInfo a used tail ArgStart _ _ D hstart hrep
    refine ⟨htext, ⟨_, by rw [← hstep.1, hD]⟩, ?_⟩
    cases hused with
    | literal hh _ _ => exact absurd hdyn hh
    | addConstantFirst a0 more _ ht _ _ _ _ hs =>
      have : a = a0 ++ IndexDecl idx := by
        rw [← htake, ht]
        simp only [List.append_assoc]
        rw [← List.append_assoc]
        exact take_append_len _ _ _ (by rw [hs]; simp only [List.length_append])
      rw [this]
      exact ⟨a0, [], by simp⟩
    | addVariableFirst a0 v more x _ ht _ _ _ _ _ hs =>
      have : a = a0 ++ IndexDecl idx ++ ('%' :: v ++ [',', x]) := by
        rw [← htake, ht]
        have e : a0 ++ IndexDecl idx ++ '%' :: v ++ ',' :: x :: used ++ ',' :: more =
            (a0 ++ IndexDecl idx ++ ('%' :: v ++ [',', x])) ++ (used ++ ',' :: more) := by simp
        rw [e]
        exact take_append_len _ _ _
          (by rw [hs]; simp only [List.length_append, List.length_cons, List.length_nil]; omega)
      rw [this]
      exact ⟨a0, '%' :: v ++ [',', x], by simp⟩

/-- Witness of C16: the temporary `%t` is the sum of two variables. -/
theorem unsupported_dynamic_index_witness :
    HandleSite
      "  %t = add i32 %a, %b\n  %1 = call %dx.types.Handle @dx.op.createHandle(i32 57, i8 0, i32 0, i32 %t, i1 false)\n".toList
      0 "  %t = add i32 %a, %b\n  %1".toList "57".toList "0".toList "0".toList "%t".toList " i1 false)\n".toList ∧
    PatchDXIL [("g_Tex".toList, ⟨7, 0, 8, .SRV, 0⟩)]
      ⟨[⟨3, 0, 0⟩],
        "  %t = add i32 %a, %b\n  %1 = call %dx.types.Handle @dx.op.createHandle(i32 57, i8 0, i32 0, i32 %t, i1 false)\n".toList⟩ =
      .ok (false, ⟨[⟨3, 0, 0⟩],
        "  %t = add i32 %a, %b\n  %1 = call %dx.types.Handle @dx.op.createHandle(i32 57, i8 0, i32 0, i32 %t, i1 false)\n".toList⟩) :=
  have hsite : HandleSite
      "  %t = add i32 %a, %b\n  %1 = call %dx.types.Handle @dx.op.createHandle(i32 57, i8 0, i32 0, i32 %t, i1 false)\n".toList
      0 "  %t = add i32 %a, %b\n  %1".toList "57".toList "0".toList "0".toList "%t".toList " i1 false)\n".toList :=
    ⟨by decide, by decide, by decide, by decide, by decide, by decide, by decide, by decide,
      by decide⟩
  ⟨hsite,
    (unsupported_dynamic_index [("g_Tex".toList, ⟨7, 0, 8, .SRV, 0⟩)] [⟨3, 0, 0⟩] _ 0 _ _ _ _ _ _ 0
      hsite (by decide)
      (.secondNotConstant "  ".toList "a".toList
        "b\n  %1 = call %dx.types.Handle @dx.op.createHandle(i32 57, i8 0, i32 0, i32 %t, i1 false)\n".toList
        ' ' '%' (by decide) (by decide) (by decide) (by decide) (by decide))).2 _ rfl (by decide)⟩

/-- Witness of C14: the temporary `%t` is `5 + %v`, the texture array recorded at
slots 3..10 (record id 0) is remapped to base slot 7, and the constant becomes
9; nothing else changes. -/
theorem dynamic_index_frame_witness :
    HandleSite
      "  %t = add i32 5, %v\n  %1 = call %dx.types.Handle @dx.op.createHandle(i32 57, i8 0, i32 0, i32 %t, i1 false)\n".toList
      0 "  %t = add i32 5, %v\n  %1".toList "57".toList "0".toList "0".toList "%t".toList " i1 false)\n".toList ∧
    patchHandleStep [("g_Tex".toList, ⟨7, 0, 8, .SRV, 0⟩)] [⟨3, 0, 0⟩]
      "  %t = add i32 5, %v\n  %1 = call %dx.types.Handle @dx.op.createHandle(i32 57, i8 0, i32 0, i32 %t, i1 false)\n".toList 0 =
      .ok (some ("  %t = add i32 9, %v\n  %1 = call %dx.types.Handle @dx.op.createHandle(i32 57, i8 0, i32 0, i32 %t, i1 false)\n".toList, 97)) ∧
    "  %t = add i32 5, %v\n  %1 = call %dx.types.Handle @dx.op.createHandle(i32 57, i8 0, i32 0, i32 %t, i1 false)\n".toList =
      ("  %t = add i32 5, %v\n  %1 = call %dx.types.Handle @dx.op.createHandle(i32 57, i8 0, i32 0, i32 %t, i1 false)\n".toList).take 15 ++ "5".toList ++
      ("  %t = add i32 5, %v\n  %1 = call %dx.types.Handle @dx.op.createHandle(i32 57, i8 0, i32 0, i32 %t, i1 false)\n".toList).drop (15 + "5".toList.length) ∧
    (∃ n, "  %t = add i32 9, %v\n  %1 = call %dx.types.Handle @dx.op.createHandle(i32 57, i8 0, i32 0, i32 %t, i1 false)\n".toList =
      ("  %t = add i32 5, %v\n  %1 = call %dx.types.Handle @dx.op.createHandle(i32 57, i8 0, i32 0, i32 %t, i1 false)\n".toList).take 15 ++ to_string n ++
      ("  %t = add i32 5, %v\n  %1 = call %dx.types.Handle @dx.op.createHandle(i32 57, i8 0, i32 0, i32 %t, i1 false)\n".toList).drop (15 + "5".toList.length)) ∧
    IndexDecl "%t".toList <:+:
      ("  %t = add i32 5, %v\n  %1 = call %dx.types.Handle @dx.op.createHandle(i32 57, i8 0, i32 0, i32 %t, i1 false)\n".toList).take 15 :=
  have hsite : HandleSite
      "  %t = add i32 5, %v\n  %1 = call %dx.types.Handle @dx.op.createHandle(i32 57, i8 0, i32 0, i32 %t, i1 false)\n".toList
      0 "  %t = add i32 5, %v\n  %1".toList "57".toList "0".toList "0".toList "%t".toList " i1 false)\n".toList :=
    ⟨by decide, by decide, by decide, by decide, by decide, by decide, by decide, by decide,
      by decide⟩
  ⟨hsite, by decide,
    dynamic_index_frame [("g_Tex".toList, ⟨7, 0, 8, .SRV, 0⟩)] [⟨3, 0, 0⟩] _ 0 _ _ _ _ _ _
      "5".toList 15 _ 97 hsite (by decide)
      (.addConstantFirst "  ".toList
        " %v\n  %1 = call %dx.types.Handle @dx.op.createHandle(i32 57, i8 0, i32 0, i32 %t, i1 false)\n".toList
        (by decide) (by decide) (by decide) (by decide) (by decide) (by decide) (by decide))
      (by decide)⟩

/-! ## What a successful step did -/

theorem commaSpaceAt_true_inv (DXIL : Str) (pos : Nat) (h : commaSpaceAt DXIL pos = .ok true) :
    ∃ r, DXIL.drop pos = ',' :: ' ' :: r := by
  unfold commaSpaceAt charAt at h
  by_cases hp : pos ≤ DXIL.length
  · rw [if_pos hp] at h
    simp only at h
    cases hd : DXIL.drop pos with
    | nil =>
      rw [hd] at h
      simp at h
    | cons c cs =>
      rw [hd] at h
      simp only [List.headD_cons] at h
      by_cases hc : c = ','
      · subst hc
        rw [if_pos rfl] at h
        have hd1 : DXIL.drop (pos + 1) = cs := by
          rw [← List.drop_drop, hd]; rfl
        by_cases hp1 : pos + 1 ≤ DXIL.length
        · rw [if_pos hp1, hd1] at h
          simp only [Except.ok.injEq, decide_eq_true_eq] at h
          cases cs with
          | nil => simp at h
          | cons d ds =>
            simp only [List.headD_cons] at h
            subst h
            exact ⟨ds, rfl⟩
        · rw [if_neg hp1] at h
          simp at h
      · rw [if_neg hc] at h
        simp at h
  · rw [if_neg hp] at h
    simp at h

theorem occursAt_inv (pat s : Str) (p : Nat) (h : occursAt pat s p = true) :
    ∃ r, s.drop p = pat ++ r := by
  unfold occursAt at h
  rw [ List.isPrefixOf_iff_prefix] at h
  obtain ⟨r, hr⟩ := h
  exact ⟨r, hr.symm⟩

theorem span_numberSymbols : ∀ (s : Str), ∃ lit tail, s = lit ++ tail ∧ FieldEnds lit tail
  | [] => ⟨[], [], rfl, by simp [FieldEnds]⟩
  | c :: cs => by
    by_cases hc : c ∈ NumberSymbols
    · obtain ⟨lit, tail, hs, h1, h2⟩ := span_numberSymbols cs
      refine ⟨c :: lit, tail, by rw [hs]; rfl, ?_, h2⟩
      intro x hx
      rcases List.mem_cons.mp hx with rfl | hx
      · exact hc
      · exact h1 x hx
    · refine ⟨[], c :: cs, rfl, by simp, ?_⟩
      intro x hx
      simp only [List.head?_cons, Option.some.injEq] at hx
      subst hx
      exact hc

/-- What a successful `ReplaceRecord` did: the text at `pos` reads `, i32 `, a
complete field `lit` whose value is the expected one, and the rest; the new
text has `NewValue` in place of `lit`. -/
theorem ReplaceRecord_ok_inv (DXIL : Str) (pos : Nat) (new : Str) (expected : Nat) (D : Str)
    (p : Nat) (h : ReplaceRecord DXIL pos new expected = .ok (D, p)) :
    ∃ a lit tail v, DXIL = a ++ ", i32 ".toList ++ lit ++ tail ∧ a.length = pos ∧
      FieldEnds lit tail ∧ stoi lit = .ok v ∧ toUint32 v = expected ∧
      D = a ++ ", i32 ".toList ++ new ++ tail ∧ p = pos + 6 + new.length := by
  have hc : commaSpaceAt DXIL pos = .ok true := by
    unfold ReplaceRecord at h
    cases hcs : commaSpaceAt DXIL pos with
    | error f => rw [hcs] at h; simp at h
    | ok b =>
      cases b with
      | false => rw [hcs] at h; simp at h
      | true => rfl
  have ho : occursAt i32 DXIL (pos + 2) = true := by
    unfold ReplaceRecord at h
    rw [hc] at h
    simp only at h
    cases hoc : occursAt i32 DXIL (pos + 2) with
    | false => rw [hoc] at h; simp at h
    | true => rfl
  obtain ⟨r, hr⟩ := commaSpaceAt_true_inv DXIL pos hc
  obtain ⟨r', hr'⟩ := occursAt_inv _ _ _ ho
  have hr2 : r = i32 ++ r' := by
    rw [← hr', ← List.drop_drop, hr]; rfl
  obtain ⟨lit, tail, hs, hfe⟩ := span_numberSymbols r'
  have hlt : pos < DXIL.length := by
    by_contra hcon
    rw [List.drop_eq_nil_of_le (by omega)] at hr
    cases hr
  have hlen : (DXIL.take pos).length = pos := by
    rw [List.length_take]; omega
  have e : DXIL = DXIL.take pos ++ ", i32 ".toList ++ lit ++ tail := by
    conv_lhs => rw [← List.take_append_drop pos DXIL, hr, hr2, hs]
    have : ", i32 ".toList = ',' :: ' ' :: i32 := rfl
    rw [this]
    simp
  refine ⟨DXIL.take pos, lit, tail, ?_⟩
  cases hv : stoi lit with
  | error f =>
    have hf := stoi_error lit f hv
    subst hf
    have key := ReplaceRecord_unparsable (DXIL.take pos) lit tail new expected hfe hv
    rw [← e, hlen] at key
    rw [key] at h
    cases h
  | ok v =>
    by_cases he : toUint32 v = expected
    · have key := ReplaceRecord_ok (DXIL.take pos) lit tail new v expected hfe hv he
      rw [← e, hlen] at key
      rw [key] at h
      simp only [Except.ok.injEq, Prod.mk.injEq] at h
      exact ⟨v, e, hlen, hfe, rfl, he, h.1.symm, h.2.symm⟩
    · have key := ReplaceRecord_mismatch (DXIL.take pos) lit tail new v expected hfe hv he
      rw [← e, hlen] at key
      rw [key] at h
      cases h

theorem NextArgAux_true_inv : ∀ (xs : Str) (p e : Nat), NextArgAux xs p = (true, e) →
    ∃ lit tail, xs = lit ++ ',' :: tail ∧ e = p + lit.length ∧ NoStop lit
  | [], p, e, h => by simp [NextArgAux] at h
  | c :: cs, p, e, h => by
    unfold NextArgAux at h
    by_cases hc : c = ','
    · rw [if_pos hc] at h
      simp only [Prod.mk.injEq, true_and] at h
      subst hc
      exact ⟨[], cs, rfl, by simp [h], by intro x hx; simp at hx⟩
    · rw [if_neg hc] at h
      by_cases hc2 : c = ')' ∨ c = '\n'
      · rw [if_pos hc2] at h
        simp at h
      · rw [if_neg hc2] at h
        obtain ⟨lit, tail, hs, he, hn⟩ := NextArgAux_true_inv cs (p + 1) e h
        refine ⟨c :: lit, tail, by rw [hs]; rfl, by rw [he, List.length_cons]; omega, ?_⟩
        intro x hx
        rcases List.mem_cons.mp hx with rfl | hx
        · exact ⟨hc, fun h1 => hc2 (Or.inl h1), fun h2 => hc2 (Or.inr h2)⟩
        · exact hn x hx

/-- What a successful `NextArg` scanned: an operand text without stop characters
that ends at a comma. -/
theorem NextArg_true_inv (DXIL : Str) (s e : Nat) (h : NextArg DXIL s = (true, e)) :
    ∃ a lit tail, DXIL = a ++ lit ++ ',' :: tail ∧ a.length = s ∧ e = s + lit.length ∧
      NoStop lit := by
  unfold NextArg at h
  obtain ⟨lit, tail, hs, he, hn⟩ := NextArgAux_true_inv _ _ _ h
  have hlt : s < DXIL.length := by
    by_contra hcon
    rw [List.drop_eq_nil_of_le (by omega)] at hs
    cases lit <;> cases hs
  refine ⟨DXIL.take s, lit, tail, ?_, by rw [List.length_take]; omega, he, hn⟩
  conv_lhs => rw [← List.take_append_drop s DXIL, hs]
  simp

theorem readOperand_ok_inv (DXIL ty : Str) (pos s e : Nat)
    (h : readOperand DXIL ty pos = .ok (s, e)) : NextArg DXIL s = (true, e) := by
  unfold readOperand at h
  split at h
  · cases h
  · cases h
  · simp only at h
    split at h
    · split at h
      · cases h
      · rename_i stop hn
        simp only [Except.ok.injEq, Prod.mk.injEq] at h
        rw [← h.1, ← h.2]
        exact hn
    · cases h

theorem patchDynamicIndex_ok_inv (ResourceMap : TResourceBindingMap)
    (ExtResInfo : TResourceMapExtendedInfo) (DXIL : Str) (ResClass RangeId IndexEndPos : Nat)
    (SrcIndexStr D : Str)
    (h : patchDynamicIndex ResourceMap ExtResInfo DXIL ResClass RangeId IndexEndPos SrcIndexStr =
      .ok D) :
    ∃ s e, NextArg DXIL s = (true, e) ∧
      ReplaceBindPoint ResourceMap ExtResInfo DXIL ResClass RangeId s e = .ok D := by
  unfold patchDynamicIndex at h
  (try simp only at h)
  split at h
  · cases h
  · split at h
    · cases h
    · split at h
      · split at h
        · cases h
        · rename_i pos1 hn1
          split at h
          · cases h
          · split at h
            · split at h
              · cases h
              · rename_i ArgEnd hn2
                exact ⟨_, _, hn2, h⟩
            · cases h
      · split at h
        · cases h
        · rename_i ArgEnd hn
          exact ⟨_, _, hn, h⟩

/-- What a successful iteration of the handle loop did: it called
`ReplaceBindPoint` on an operand that `NextArg` had scanned. -/
theorem patchHandleStep_ok_inv (ResourceMap : TResourceBindingMap)
    (ExtResInfo : TResourceMapExtendedInfo) (DXIL : Str) (pos : Nat) (D : Str) (p : Nat)
    (h : patchHandleStep ResourceMap ExtResInfo DXIL pos = .ok (some (D, p))) :
    ∃ cls rid s e, NextArg DXIL s = (true, e) ∧
      ReplaceBindPoint ResourceMap ExtResInfo DXIL cls rid s e = .ok D := by
  unfold patchHandleStep at h
  split at h
  · cases h
  · (try simp only at h)
    split at h
    · split at h
      · cases h
      · split at h
        · cases h
        · split at h
          · cases h
          · split at h
            · cases h
            · split at h
              · cases h
              · split at h
                · cases h
                · rename_i IndexStartPos IndexEndPos hro
                  split at h
                  · cases h
                  · cases h
                  · rename_i c cs hsub
                    split at h
                    · cases h
                    · rename_i D' hp
                      simp only [Except.ok.injEq, Option.some.injEq, Prod.mk.injEq] at h
                      obtain ⟨hD, _⟩ := h
                      subst hD
                      by_cases hc : c = '%'
                      · rw [if_pos hc] at hp
                        obtain ⟨s, e, h1, h2⟩ := patchDynamicIndex_ok_inv _ _ _ _ _ _ _ _ hp
                        exact ⟨_, _, s, e, h1, h2⟩
                      · rw [if_neg hc] at hp
                        exact ⟨_, _, _, _, readOperand_ok_inv _ _ _ _ _ hro, hp⟩
    · cases h

theorem findBySource_some (ExtResInfo : TResourceMapExtendedInfo) (BindPoint Space : Nat)
    (ResType : ShaderResType) (ResPair : Str × BindInfo) (Ext : ResourceExtendedInfo) :
    ∀ (ResourceMap : TResourceBindingMap),
    findBySource ExtResInfo BindPoint Space ResType ResourceMap = .ok (some (ResPair, Ext)) →
    ResPair ∈ ResourceMap ∧ ExtResInfo[ResPair.2.UID]? = some Ext ∧
      Ext.SrcBindPoint = BindPoint ∧ Ext.SrcSpace = Space ∧ ResPair.2.ResType = ResType
  | [], h => by simp [findBySource] at h
  | nb :: rest, h => by
    unfold findBySource at h
    split at h
    · cases h
    · rename_i E hE
      split at h
      · rename_i hc
        simp only [Except.ok.injEq, Option.some.injEq, Prod.mk.injEq] at h
        obtain ⟨h1, h2⟩ := h
        subst h1; subst h2
        exact ⟨List.mem_cons_self _ _, hE, hc⟩
      · obtain ⟨hm, hr⟩ := findBySource_some ExtResInfo BindPoint Space ResType ResPair Ext rest h
        exact ⟨List.mem_cons_of_mem _ hm, hr⟩

/-- What two successive successful `ReplaceRecord` calls did. -/
theorem ReplaceRecord_twice_inv (DXIL : Str) (pos : Nat) (n1 n2 : Str) (e1 e2 : Nat)
    (D1 D2 : Str) (p1 p2 : Nat)
    (h1 : ReplaceRecord DXIL pos n1 e1 = .ok (D1, p1))
    (h2 : ReplaceRecord D1 p1 n2 e2 = .ok (D2, p2)) :
    ∃ a sp bp tail vs vb,
      DXIL = a ++ ", i32 ".toList ++ sp ++ ", i32 ".toList ++ bp ++ tail ∧ a.length = pos ∧
      (∀ c ∈ sp, c ∈ NumberSymbols) ∧ FieldEnds bp tail ∧
      stoi sp = .ok vs ∧ toUint32 vs = e1 ∧ stoi bp = .ok vb ∧ toUint32 vb = e2 ∧
      D2 = a ++ ", i32 ".toList ++ n1 ++ ", i32 ".toList ++ n2 ++ tail ∧
      p2 = pos + 6 + n1.length + 6 + n2.length := by
  obtain ⟨a, sp, t1, vs, ht, hl, hfe1, hvs, hes, hD1, hp1⟩ :=
    ReplaceRecord_ok_inv DXIL pos n1 e1 D1 p1 h1
  obtain ⟨a2, bp, t2, vb, ht2, hl2, hfe2, hvb, heb, hD2, hp2⟩ :=
    ReplaceRecord_ok_inv D1 p1 n2 e2 D2 p2 h2
  have heq : (a ++ ", i32 ".toList ++ n1) ++ t1 = a2 ++ (", i32 ".toList ++ bp ++ t2) := by
    rw [← hD1, ht2]; simp only [List.append_assoc]
  have hlen : (a ++ ", i32 ".toList ++ n1).length = a2.length := by
    rw [hl2, hp1]; simp only [List.length_append, commaI32_length, hl]
  obtain ⟨ha2, ht1⟩ := List.append_inj heq hlen
  refine ⟨a, sp, bp, t2, vs, vb, ?_, hl, hfe1.1, hfe2, hvs, hes, hvb, heb, ?_, ?_⟩
  · rw [ht, ht1]; simp only [List.append_assoc]
  · rw [hD2, ← ha2]
  · rw [hp2, hp1]

theorem filter_numberSymbols (s : Str) (h : ∀ c ∈ s, c ∈ NumberSymbols) :
    s.filter (fun c => decide (c ∉ NumberSymbols)) = [] := by
  rw [List.filter_eq_nil_iff]
  intro c hc
  simp [h c hc]

theorem count_eq_of_filter_eq (T T' : Str) (c : Char) (hc : c ∉ NumberSymbols)
    (h : T'.filter (fun c => decide (c ∉ NumberSymbols)) =
      T.filter (fun c => decide (c ∉ NumberSymbols))) : T'.count c = T.count c := by
  have key : ∀ l : Str, (l.filter (fun c => decide (c ∉ NumberSymbols))).count c = l.count c := by
    intro l
    rw [List.count_filter]
    simpa using hc
  rw [← key T', ← key T, h]

/-! ## The identity remap -/

theorem IdentityRemap.setRecordId {ResourceMap : TResourceBindingMap}
    {ExtResInfo : TResourceMapExtendedInfo} (h : IdentityRemap ResourceMap ExtResInfo)
    (UID RecordId : Nat) : IdentityRemap ResourceMap (setRecordId ExtResInfo UID RecordId) := by
  intro nb hnb Ext hE
  unfold Diligent.setRecordId at hE
  rw [List.getElem?_modify] at hE
  cases hg : ExtResInfo[nb.2.UID]? with
  | none => rw [hg] at hE; simp at hE
  | some E0 =>
    rw [hg] at hE
    simp only [Option.map_eq_map, Option.map_some', Option.some.injEq] at hE
    have := h nb hnb E0 hg
    by_cases hu : UID = nb.2.UID
    · rw [if_pos hu] at hE
      rw [← hE]
      exact this
    · rw [if_neg hu] at hE
      rw [← hE]
      exact this

theorem occursAt_append_right (pat a b : Str) (k : Nat) :
    occursAt pat (a ++ b) (a.length + k) = occursAt pat b k := by
  unfold occursAt
  rw [List.drop_append]

theorem pattern_head (s : Str) (j : Nat) (h : occursAt CallHandlePattern s j = true) :
    ∃ r, s.drop j = ' ' :: '=' :: r := by
  obtain ⟨r, hr⟩ := occursAt_inv _ _ _ h
  have e : CallHandlePattern = ' ' :: '=' :: " call %dx.types.Handle @dx.op.createHandle(".toList :=
    rfl
  rw [e] at hr
  exact ⟨_, hr⟩

/-- No call pattern starts inside a text without `=` that ends with `)`. -/
theorem zone_no_call (A Z R : Str) (j : Nat) (hZ : ∀ c ∈ Z, c ≠ '=') (h1 : A.length ≤ j)
    (h2 : j ≤ A.length + Z.length) :
    occursAt CallHandlePattern (A ++ Z ++ ')' :: R) j = false := by
  cases hocc : occursAt CallHandlePattern (A ++ Z ++ ')' :: R) j with
  | false => rfl
  | true =>
    exfalso
    obtain ⟨r, hr⟩ := pattern_head _ _ hocc
    obtain ⟨k, rfl⟩ : ∃ k, j = A.length + k := ⟨j - A.length, by omega⟩
    rw [List.append_assoc, List.drop_append] at hr
    by_cases hk : k = Z.length
    · rw [hk, drop_append_len _ _ _ rfl] at hr
      injection hr with h _
      exact absurd h (by decide)
    · have hlt : k < Z.length := by omega
      rw [List.drop_append_of_le_length (by omega)] at hr
      cases hd : Z.drop k with
      | nil =>
        have := List.drop_eq_nil_iff.mp hd
        omega
      | cons z zs =>
        rw [hd] at hr
        cases zs with
        | nil =>
          simp only [List.cons_append, List.nil_append, List.cons.injEq] at hr
          exact absurd hr.2.1 (by decide)
        | cons z2 zs2 =>
          simp only [List.cons_append, List.cons.injEq] at hr
          have hm : z2 ∈ Z := List.mem_of_mem_drop (n := k) (by rw [hd]; simp)
          exact hZ z2 hm hr.2.1

theorem flagText_no_eq (c : CallSite) : ∀ ch ∈ ", i1 ".toList ++ flagText c, ch ≠ '=' := by
  unfold flagText
  cases c.nonUniform <;> decide

theorem flagText_length (c : CallSite) : 4 ≤ (flagText c).length := by
  unfold flagText
  cases c.nonUniform <;> decide

theorem isDigit_ne_eq (s : Str) (h : ∀ c ∈ s, isDigit c = true) : ∀ c ∈ s, c ≠ '=' := by
  intro c hc he
  subst he
  exact absurd (h _ hc) (by decide)

theorem callText_site (A R : Str) (c : CallSite) :
    callText (A ++ c.gap) c.op c.clsLit c.ridLit c.idx
        (" i1 ".toList ++ flagText c ++ ")".toList ++ R) =
      A ++ (callSiteText c ++ R) := by
  have e : ", i1 ".toList = ',' :: " i1 ".toList := rfl
  simp only [callText, callSiteText, e, List.append_assoc, List.cons_append]

theorem site_zone (A R : Str) (c : CallSite) :
    A ++ (callSiteText c ++ R) =
      ((A ++ c.gap) ++ CallHandlePattern ++ i32 ++ c.op ++ ", ".toList ++ i8 ++ c.clsLit ++
        ", ".toList ++ i32 ++ c.ridLit ++ ", ".toList ++ i32) ++
      (c.idx ++ (", i1 ".toList ++ flagText c)) ++ ')' :: R := by
  have e : ")".toList = [')'] := rfl
  simp only [callSiteText, e, List.append_assoc, List.cons_append, List.nil_append]

theorem site_length (A : Str) (c : CallSite) :
    (A ++ callSiteText c).length =
      indexStart (A ++ c.gap) c.op c.clsLit c.ridLit + c.idx.length + 5 + (flagText c).length + 1 := by
  simp only [callSiteText, indexStart, List.length_append]
  have e1 : ", i1 ".toList.length = 5 := rfl
  have e2 : ")".toList.length = 1 := rfl
  rw [e1, e2]
  omega

theorem programText_length : ∀ (calls : List CallSite) (trailer : Str),
    calls.length ≤ (programText calls trailer).length
  | [], _ => by simp
  | c :: cs, trailer => by
    have ih := programText_length cs trailer
    have : 1 ≤ (callSiteText c).length := by
      simp only [callSiteText, List.length_append, CallHandlePattern_length]; omega
    simp only [programText, List.length_append, List.length_cons]
    omega

theorem constant_index_step (ResourceMap : TResourceBindingMap)
    (ExtResInfo : TResourceMapExtendedInfo) (DXIL : Str) (pos : Nat)
    (pre op clsLit ridLit idx rest : Str) (ResType : ShaderResType) (fuel : Nat)
    (hsite : HandleSite DXIL pos pre op clsLit ridLit idx rest)
    (hidx : ∀ c ∈ idx, isDigit c = true) (hfit : digitsValue idx ≤ 2147483647)
    (hcls : ResClassToType[digitsValue clsLit]? = some ResType)
    (hvalid : ValidUIDs ResourceMap ExtResInfo)
    (hsome : ∃ nb ∈ ResourceMap,
      Resolves ExtResInfo (digitsValue ridLit) ResType (digitsValue idx) nb) :
    ∃ ResPair ∈ ResourceMap, ∃ Ext, ExtResInfo[ResPair.2.UID]? = some Ext ∧
      Ext.RecordId = digitsValue ridLit ∧ ResPair.2.ResType = ResType ∧
      Ext.SrcBindPoint ≤ digitsValue idx ∧
      digitsValue idx < (Ext.SrcBindPoint + ResPair.2.ArraySize) % 4294967296 ∧
      patchHandles ResourceMap (fuel + 1) ⟨ExtResInfo, DXIL⟩ pos =
        patchHandles ResourceMap fuel
          ⟨ExtResInfo, callText pre op clsLit ridLit
            (to_string
              ((ResPair.2.BindPoint + (digitsValue idx - Ext.SrcBindPoint)) % 4294967296)) rest⟩
          (indexStart pre op clsLit ridLit + idx.length) := by
  have hu : toUint32 (digitsValue idx : Int) = digitsValue idx :=
    toUint32_natCast _ (by omega)
  obtain ⟨ResPair, Ext, hf, hmem, hE, h1, h2, h3, h4⟩ :=
    findByRange_found ExtResInfo (digitsValue ridLit) ResType (digitsValue idx) ResourceMap hvalid
      hsome
  refine ⟨ResPair, hmem, Ext, hE, h1, h2, h3, h4, ?_⟩
  obtain ⟨hpos, _, _, _, _, _, _, _, _, _, htext⟩ := hsite.parsed
  have hhead : ¬ idx.head? = some '%' := by
    obtain ⟨c, cs, rfl⟩ := List.exists_cons_of_ne_nil hsite.index.1
    have hd := hidx c (by simp)
    simp only [List.head?_cons, Option.some.injEq]
    rintro rfl
    revert hd
    decide
  have hv := stoi_digits_nil idx ⟨hsite.index.1, hidx⟩ hfit
  rw [← hu] at hf
  have hrep := ReplaceBindPoint_found ResourceMap ExtResInfo _ idx (',' :: rest)
    (indexStart pre op clsLit ridLit) (digitsValue clsLit) (digitsValue ridLit) ResType _ ResPair Ext
    rfl hv hcls hf
  rw [← htext] at hrep
  rw [patchHandles_step _ _ _ _ hpos, patchHandleStep_site ResourceMap ExtResInfo hsite,
    if_neg hhead, hrep]
  simp only
  have hoff : (toUint32 (digitsValue idx : Int) + 4294967296 - Ext.SrcBindPoint) % 4294967296 =
      digitsValue idx - Ext.SrcBindPoint := by
    rw [hu]
    omega
  rw [hoff]
  try rfl

theorem to_string_ne_nil (n : Nat) : to_string n ≠ [] := (to_string_digitsEnd n).1

/-- The handle loop on a text made of well-formed, resolvable calls with
constant indices, entered at a position in the part `A` already dealt with from
which no call pattern starts before the end of `A`: every call is rewritten. -/
theorem patchHandles_sites (ResourceMap : TResourceBindingMap)
    (ExtResInfo : TResourceMapExtendedInfo) (trailer : Str)
    (htr : ¬ CallHandlePattern <:+: trailer) (hvalid : ValidUIDs ResourceMap ExtResInfo) :
    ∀ (calls : List CallSite) (A : Str) (pos fuel : Nat),
    (∀ c ∈ calls, c.WellFormed) → (∀ c ∈ calls, Resolvable ResourceMap ExtResInfo c) →
    calls.length < fuel → pos ≤ A.length →
    (∀ j, pos ≤ j → j < A.length →
      occursAt CallHandlePattern (A ++ programText calls trailer) j = false) →
    ∃ calls', List.Forall₂ (Rewritten ResourceMap ExtResInfo) calls calls' ∧
      patchHandles ResourceMap fuel ⟨ExtResInfo, A ++ programText calls trailer⟩ pos =
        .ok ⟨ExtResInfo, A ++ programText calls' trailer⟩
  | [], A, pos, fuel, _, _, hfuel, hpos, hno => by
    refine ⟨[], .nil, ?_⟩
    obtain ⟨f, rfl⟩ : ∃ f, fuel = f + 1 := ⟨fuel - 1, by simp at hfuel; omega⟩
    simp only [programText] at hno ⊢
    by_cases hlt : pos < (A ++ trailer).length
    · rw [patchHandles_step _ _ _ _ hlt]
      have hfind : find CallHandlePattern (A ++ trailer) pos = none := by
        apply find_eq_none
        intro j hj _
        by_cases hjA : j < A.length
        · exact hno j hj hjA
        · obtain ⟨k, rfl⟩ : ∃ k, j = A.length + k := ⟨j - A.length, by omega⟩
          rw [occursAt_append_right]
          cases hocc : occursAt CallHandlePattern trailer k with
          | false => rfl
          | true => exact absurd (occursAt_isInfix _ _ _ hocc) htr
      simp only [patchHandleStep, hfind]
    · rw [patchHandles, if_neg hlt]
  | c :: rest, A, pos, fuel, hwf, hres, hfuel, hpos, hno => by
    obtain ⟨f, rfl⟩ : ∃ f, fuel = f + 1 := ⟨fuel - 1, by simp at hfuel; omega⟩
    have hc := hwf c (by simp)
    obtain ⟨ResType, hcls, hsome⟩ := hres c (by simp)
    have htext : A ++ programText (c :: rest) trailer =
        callText (A ++ c.gap) c.op c.clsLit c.ridLit c.idx
          (" i1 ".toList ++ flagText c ++ ")".toList ++ programText rest trailer) := by
      rw [callText_site]; rfl
    have hsite : HandleSite (A ++ programText (c :: rest) trailer) pos (A ++ c.gap) c.op c.clsLit
        c.ridLit c.idx (" i1 ".toList ++ flagText c ++ ")".toList ++ programText rest trailer) := by
      refine ⟨htext, by rw [List.length_append]; omega, ?_, hc.opcode, hc.clsDigits, hc.clsFits,
        hc.ridDigits, hc.ridFits, hc.idxDigits.1, isDigit_noStop _ hc.idxDigits.2⟩
      intro j hj hpj
      by_cases hjA : j < A.length
      · exact hno j hpj hjA
      · obtain ⟨k, rfl⟩ : ∃ k, j = A.length + k := ⟨j - A.length, by omega⟩
        rw [List.length_append] at hj
        rw [occursAt_append_right]
        have e : programText (c :: rest) trailer = (c.gap ++ CallHandlePattern) ++
            (i32 ++ c.op ++ ", ".toList ++ i8 ++ c.clsLit ++ ", ".toList ++ i32 ++ c.ridLit ++
              ", ".toList ++ i32 ++ c.idx ++ ", i1 ".toList ++ flagText c ++ ")".toList ++
              programText rest trailer) := by
          simp only [programText, callSiteText, List.append_assoc]
        rw [e, occursAt_append_of_le _ _ _ _ (by rw [List.length_append]; omega)]
        exact hc.gap k (by omega)
    obtain ⟨ResPair, hmem, Ext, hE, h1, h2, h3, h4, hstep⟩ :=
      constant_index_step ResourceMap ExtResInfo _ pos _ _ _ _ _ _ ResType f hsite hc.idxDigits.2
        hc.idxFits hcls hvalid hsome
    let c' : CallSite := { c with
      idx := (to_string
        ((ResPair.2.BindPoint + (digitsValue c.idx - Ext.SrcBindPoint)) % 4294967296)) }
    have hrw : Rewritten ResourceMap ExtResInfo c c' :=
      ⟨ResType, hcls, ResPair, hmem, Ext, hE, h1, h2, h3, h4, rfl⟩
    have htext' : callText (A ++ c.gap) c.op c.clsLit c.ridLit
        (to_string ((ResPair.2.BindPoint + (digitsValue c.idx - Ext.SrcBindPoint)) % 4294967296))
        (" i1 ".toList ++ flagText c ++ ")".toList ++ programText rest trailer) =
        (A ++ callSiteText c') ++ programText rest trailer := by
      exact (callText_site A (programText rest trailer) c').trans (List.append_assoc _ _ _).symm
    rw [htext'] at hstep
    have hlen' := site_length A c'
    have hidx' : 1 ≤ c'.idx.length := by
      have := to_string_ne_nil
        ((ResPair.2.BindPoint + (digitsValue c.idx - Ext.SrcBindPoint)) % 4294967296)
      exact List.length_pos.mpr this
    have hflag := flagText_length c'
    have hshort := hc.idxShort
    have hpos' : indexStart (A ++ c.gap) c.op c.clsLit c.ridLit + c.idx.length ≤
        (A ++ callSiteText c').length := by
      rw [hlen']
      have : indexStart (A ++ c'.gap) c'.op c'.clsLit c'.ridLit =
          indexStart (A ++ c.gap) c.op c.clsLit c.ridLit := rfl
      omega
    have hno' : ∀ j, indexStart (A ++ c.gap) c.op c.clsLit c.ridLit + c.idx.length ≤ j →
        j < (A ++ callSiteText c').length →
        occursAt CallHandlePattern ((A ++ callSiteText c') ++ programText rest trailer) j =
          false := by
      intro j hj1 hj2
      rw [List.append_assoc, site_zone A (programText rest trailer) c']
      have hidxpos : 1 ≤ c.idx.length := List.length_pos.mpr hc.idxDigits.1
      apply zone_no_call
      · intro ch hch
        rcases List.mem_append.mp hch with h | h
        · exact isDigit_ne_eq _ (fun x hx => (to_string_digitsEnd _).2.1 x hx) ch h
        · exact flagText_no_eq c' ch h
      · have : indexStart (A ++ c'.gap) c'.op c'.clsLit c'.ridLit =
            indexStart (A ++ c.gap) c.op c.clsLit c.ridLit := rfl
        unfold indexStart at this hj1
        omega
      · rw [hlen'] at hj2
        unfold indexStart at hj2
        simp only [List.length_append] at hj2 ⊢
        have e1 : ", i1 ".toList.length = 5 := rfl
        rw [e1]
        omega
    obtain ⟨rest', hall, hrun⟩ :=
      patchHandles_sites ResourceMap ExtResInfo trailer htr hvalid rest (A ++ callSiteText c')
        (indexStart (A ++ c.gap) c.op c.clsLit c.ridLit + c.idx.length) f
        (fun x hx => hwf x (by simp [hx])) (fun x hx => hres x (by simp [hx]))
        (by simp only [List.length_cons] at hfuel; omega) hpos' hno'
    refine ⟨c' :: rest', .cons hrw hall, ?_⟩
    rw [hstep, hrun]
    simp only [programText, List.append_assoc]

set_option maxRecDepth 8000 in
/-- Why the index literal of a well-formed call is bounded in length. In a text
no disassembler prints, two calls ask for slot 5 of the texture recorded at
slot 5 (record id 0) and remapped to slot 7, and the index of the first one is
written with leading zeros, 25 digits in all. `PatchResourceHandle` rewrites the
first index to `7` and leaves the second call as it is: the loop resumes at the
old end of the first index, which lies beyond the start of the second call in
the shortened text. -/
theorem padded_literal_skips_call :
    Resolvable [("g_Tex".toList, ⟨7, 0, 1, .SRV, 0⟩)] [⟨5, 0, 0⟩]
      ⟨"  %1".toList, "57".toList, "0".toList, "0".toList, "0000000000000000000000005".toList, false⟩ ∧
    Resolvable [("g_Tex".toList, ⟨7, 0, 1, .SRV, 0⟩)] [⟨5, 0, 0⟩]
      ⟨"\n  %2".toList, "57".toList, "0".toList, "0".toList, "5".toList, false⟩ ∧
    Rewritten [("g_Tex".toList, ⟨7, 0, 1, .SRV, 0⟩)] [⟨5, 0, 0⟩]
      ⟨"\n  %2".toList, "57".toList, "0".toList, "0".toList, "5".toList, false⟩
      ⟨"\n  %2".toList, "57".toList, "0".toList, "0".toList, "7".toList, false⟩ ∧
    PatchResourceHandle [("g_Tex".toList, ⟨7, 0, 1, .SRV, 0⟩)]
      ⟨[⟨5, 0, 0⟩], programText
        [⟨"  %1".toList, "57".toList, "0".toList, "0".toList, "0000000000000000000000005".toList, false⟩,
          ⟨"\n  %2".toList, "57".toList, "0".toList, "0".toList, "5".toList, false⟩]
        "\n".toList⟩ =
      .ok ⟨[⟨5, 0, 0⟩], programText
        [⟨"  %1".toList, "57".toList, "0".toList, "0".toList, "7".toList, false⟩,
          ⟨"\n  %2".toList, "57".toList, "0".toList, "0".toList, "5".toList, false⟩]
        "\n".toList⟩ :=
  ⟨⟨.SRV, by decide, _, List.mem_singleton.mpr rfl, ⟨5, 0, 0⟩, by decide, by decide, by decide,
      by decide, by decide⟩,
    ⟨.SRV, by decide, _, List.mem_singleton.mpr rfl, ⟨5, 0, 0⟩, by decide, by decide, by decide,
      by decide, by decide⟩,
    ⟨.SRV, by decide, _, List.mem_singleton.mpr rfl, ⟨5, 0, 0⟩, by decide, by decide, by decide,
      by decide, by decide, by decide⟩,
    by decide⟩

/-- C20 (every site patched exactly once). Let the text be a sequence of
createHandle calls followed by a trailer without call pattern, each call well
formed as the disassembler prints it (no call pattern in the text before its
own, class and range id runs of digits that fit `int`, the constant index a run
of at most 11 digits that fits `int`) and resolved by some entry of the map.
Then `PatchResourceHandle` succeeds, and the text it leaves is the same
sequence of calls in which the index of every call, and nothing else, is
rewritten, once, to the decimal text of `BindPoint + (idx - SrcBindPoint)` for
an entry that resolves that call, whether the new literal is longer or shorter
than the old one. -/
theorem every_site_patched (ResourceMap : TResourceBindingMap)
    (ExtResInfo : TResourceMapExtendedInfo) (calls : List CallSite) (trailer : Str)
    (hwf : ∀ c ∈ calls, c.WellFormed)
    (hres : ∀ c ∈ calls, Resolvable ResourceMap ExtResInfo c)
    (htr : ¬ CallHandlePattern <:+: trailer)
    (hvalid : ValidUIDs ResourceMap ExtResInfo) :
    ∃ calls', List.Forall₂ (Rewritten ResourceMap ExtResInfo) calls calls' ∧
      PatchResourceHandle ResourceMap ⟨ExtResInfo, programText calls trailer⟩ =
        .ok ⟨ExtResInfo, programText calls' trailer⟩ := by
  obtain ⟨calls', hall, hrun⟩ :=
    patchHandles_sites ResourceMap ExtResInfo trailer htr hvalid calls [] 0
      ((programText calls trailer).length + 1) hwf hres
      (by have := programText_length calls trailer; omega) (Nat.le_refl _)
      (fun j _ hj => absurd hj (by simp))
  exact ⟨calls', hall, by simpa [PatchResourceHandle] using hrun⟩

set_option maxRecDepth 8000 in
/-- Witness of C20: the first index shrinks from ten digits to one,
the second one grows from one digit to four; both calls are rewritten. -/
theorem every_site_patched_witness :
    CallSite.WellFormed
      ⟨"  %1".toList, "57".toList, "0".toList, "0".toList, "2000000000".toList, true⟩ ∧
    CallSite.WellFormed
      ⟨"\n  %2".toList, "57".toList, "0".toList, "1".toList, "3".toList, false⟩ ∧
    (∃ calls', List.Forall₂ (Rewritten [("g_Tex".toList, ⟨7, 0, 1, .SRV, 0⟩), ("g_Buf".toList, ⟨1000, 0, 4, .SRV, 1⟩)] [⟨2000000000, 0, 0⟩, ⟨2, 0, 1⟩])
        [⟨"  %1".toList, "57".toList, "0".toList, "0".toList, "2000000000".toList, true⟩,
          ⟨"\n  %2".toList, "57".toList, "0".toList, "1".toList, "3".toList, false⟩]
        calls' ∧
      PatchResourceHandle [("g_Tex".toList, ⟨7, 0, 1, .SRV, 0⟩), ("g_Buf".toList, ⟨1000, 0, 4, .SRV, 1⟩)]
        ⟨[⟨2000000000, 0, 0⟩, ⟨2, 0, 1⟩], programText
          [⟨"  %1".toList, "57".toList, "0".toList, "0".toList, "2000000000".toList, true⟩,
            ⟨"\n  %2".toList, "57".toList, "0".toList, "1".toList, "3".toList, false⟩]
          "\n".toList⟩ =
        .ok ⟨[⟨2000000000, 0, 0⟩, ⟨2, 0, 1⟩], programText calls' "\n".toList⟩) ∧
    PatchResourceHandle [("g_Tex".toList, ⟨7, 0, 1, .SRV, 0⟩), ("g_Buf".toList, ⟨1000, 0, 4, .SRV, 1⟩)]
      ⟨[⟨2000000000, 0, 0⟩, ⟨2, 0, 1⟩], programText
        [⟨"  %1".toList, "57".toList, "0".toList, "0".toList, "2000000000".toList, true⟩,
          ⟨"\n  %2".toList, "57".toList, "0".toList, "1".toList, "3".toList, false⟩]
        "\n".toList⟩ =
      .ok ⟨[⟨2000000000, 0, 0⟩, ⟨2, 0, 1⟩], programText
        [⟨"  %1".toList, "57".toList, "0".toList, "0".toList, "7".toList, true⟩,
          ⟨"\n  %2".toList, "57".toList, "0".toList, "1".toList, "1001".toList, false⟩]
        "\n".toList⟩ :=
  have h1 : CallSite.WellFormed
      ⟨"  %1".toList, "57".toList, "0".toList, "0".toList, "2000000000".toList, true⟩ :=
    ⟨by decide, by decide, by decide, by decide, by decide, by decide, by decide, by decide,
      by decide⟩
  have h2 : CallSite.WellFormed
      ⟨"\n  %2".toList, "57".toList, "0".toList, "1".toList, "3".toList, false⟩ :=
    ⟨by decide, by decide, by decide, by decide, by decide, by decide, by decide, by decide,
      by decide⟩
  ⟨h1, h2,
    every_site_patched [("g_Tex".toList, ⟨7, 0, 1, .SRV, 0⟩), ("g_Buf".toList, ⟨1000, 0, 4, .SRV, 1⟩)] [⟨2000000000, 0, 0⟩, ⟨2, 0, 1⟩] _ _
      (by
        intro c hc
        rcases List.mem_cons.mp hc with rfl | hc
        · exact h1
        · rcases List.mem_singleton.mp hc with rfl
          exact h2)
      (by
        intro c hc
        rcases List.mem_cons.mp hc with rfl | hc
        · exact ⟨.SRV, by decide, ("g_Tex".toList, ⟨7, 0, 1, .SRV, 0⟩), by decide,
            ⟨2000000000, 0, 0⟩, by decide, by decide, by decide, by decide, by decide⟩
        · rcases List.mem_singleton.mp hc with rfl
          exact ⟨.SRV, by decide, ("g_Buf".toList, ⟨1000, 0, 4, .SRV, 1⟩), by decide,
            ⟨2, 0, 1⟩, by decide, by decide, by decide, by decide, by decide⟩)
      (by decide) (by decide),
    by decide⟩

/-! ## Length of a decimal text, one named record, paired lists -/

theorem decimalRev_length_le : ∀ (fuel n k : Nat), n < 10 ^ (k + 1) →
    (decimalRev fuel n).length ≤ k + 1
  | 0, _, _, _ => by simp [decimalRev]
  | fuel + 1, n, k, h => by
    unfold decimalRev
    split
    · simp
    · rename_i hn
      cases k with
      | zero => simp at h; omega
      | succ k =>
        have h2 : n / 10 < 10 ^ (k + 1) := by
          rw [Nat.div_lt_iff_lt_mul (by decide)]
          rw [pow_succ] at h
          exact h
        have := decimalRev_length_le fuel (n / 10) k h2
        simp only [List.length_cons]
        omega

theorem to_string_length_le (n : Nat) (h : n < 4294967296) : (to_string n).length ≤ 10 := by
  unfold to_string
  rw [List.length_reverse]
  exact decimalRev_length_le _ n 9 (by omega)

theorem named_record_step (Name : Str) (B : BindInfo)
    (ExtResInfo : TResourceMapExtendedInfo) (Ext : ResourceExtendedInfo)
    (DXIL head idLit mid sp bp tail : Str) (vs vb : Int)
    (hExt : ExtResInfo[B.UID]? = some Ext)
    (hrec : NamedRecord DXIL Name head idLit mid sp bp tail)
    (hsp : stoi sp = .ok vs) (hspv : toUint32 vs = Ext.SrcSpace)
    (hbp : stoi bp = .ok vb) (hbpv : toUint32 vb = Ext.SrcBindPoint) :
    patchNamedRecord (Name, B) ⟨ExtResInfo, DXIL⟩ =
      .ok ⟨setRecordId ExtResInfo B.UID (digitsValue idLit),
        patchedNamedText Name head idLit mid (to_string B.Space) (to_string B.BindPoint) tail⟩ := by
  rw [patchNamedRecord_located Name B ExtResInfo Ext hExt hrec]
  have e1 : DXIL = (recordPrefix head idLit mid ++ DxilName Name) ++ ", i32 ".toList ++ sp ++
      (", i32 ".toList ++ bp ++ tail) := by
    rw [hrec.text]; simp only [List.append_assoc]
  have r1 := ReplaceRecord_ok (recordPrefix head idLit mid ++ DxilName Name) sp
    (", i32 ".toList ++ bp ++ tail) (to_string B.Space) vs Ext.SrcSpace
    (by rw [List.append_assoc]; exact fieldEnds_sep sp _ hrec.space) hsp hspv
  rw [List.length_append] at r1
  rw [← e1] at r1
  rw [r1]
  simp only
  have e2 : recordPrefix head idLit mid ++ DxilName Name ++ ", i32 ".toList ++ to_string B.Space ++
      (", i32 ".toList ++ bp ++ tail) =
      (recordPrefix head idLit mid ++ DxilName Name ++ ", i32 ".toList ++ to_string B.Space) ++
        ", i32 ".toList ++ bp ++ tail := by
    simp only [List.append_assoc]
  have r2 := ReplaceRecord_ok
    (recordPrefix head idLit mid ++ DxilName Name ++ ", i32 ".toList ++ to_string B.Space) bp tail
    (to_string B.BindPoint) vb Ext.SrcBindPoint hrec.bind hbp hbpv
  have hl : (recordPrefix head idLit mid ++ DxilName Name ++ ", i32 ".toList ++
      to_string B.Space).length =
      (recordPrefix head idLit mid).length + (DxilName Name).length + 6 + (to_string B.Space).length := by
    simp only [List.length_append, commaI32_length]
  rw [hl, ← e2] at r2
  rw [r2]
  try rfl

theorem forall₂_partner_left {α β : Type} {R : α → β → Prop} :
    ∀ {l : List α} {l' : List β}, List.Forall₂ R l l' → ∀ b ∈ l', ∃ a ∈ l, R a b
  | _, _, .nil, b, h => by simp at h
  | _, _, .cons hab hrest, b, h => by
    rcases List.mem_cons.mp h with rfl | h
    · exact ⟨_, List.mem_cons_self _ _, hab⟩
    · obtain ⟨a, ha, hr⟩ := forall₂_partner_left hrest b h
      exact ⟨a, List.mem_cons_of_mem _ ha, hr⟩

/-! ## Shader model, shared temporaries and partial patches (C21, C27, C30) -/

/-- C30 (shader-model clamping). When the maximum model `MaxSM` has major
version at least 6, the model `Compile` goes on with lies between 6.0 and
`MaxSM` in the order by (major, minor): the unspecified model 0.0 becomes
`MaxSM`, any other model with major below 6 becomes 6.0, a model above `MaxSM`
becomes `MaxSM`, and a model between 6.0 and `MaxSM` is kept. -/
theorem shader_model_clamped (ShaderModel MaxSM : ShaderVersion) (hmax : 6 ≤ MaxSM.Major) :
    ShaderVersion.le ⟨6, 0⟩ (CompileShaderModel ShaderModel MaxSM) ∧
    (CompileShaderModel ShaderModel MaxSM).le MaxSM ∧
    (ShaderModel = ⟨0, 0⟩ → CompileShaderModel ShaderModel MaxSM = MaxSM) ∧
    (ShaderModel ≠ ⟨0, 0⟩ → ShaderModel.Major < 6 →
      CompileShaderModel ShaderModel MaxSM = ⟨6, 0⟩) ∧
    (6 ≤ ShaderModel.Major → ¬ ShaderModel.le MaxSM →
      CompileShaderModel ShaderModel MaxSM = MaxSM) ∧
    (ShaderVersion.le ⟨6, 0⟩ ShaderModel → ShaderModel.le MaxSM →
      CompileShaderModel ShaderModel MaxSM = ShaderModel) := by
  obtain ⟨M, m⟩ := ShaderModel
  obtain ⟨X, x⟩ := MaxSM
  simp only [ShaderVersion.le, CompileShaderModel, ShaderVersion.mk.injEq, ne_eq] at hmax ⊢
  by_cases h0 : M = 0 ∧ m = 0
  · simp only [if_pos h0, ShaderVersion.mk.injEq, true_and, le_refl, or_true, implies_true,
      and_true]
    and_intros <;> intros <;> omega
  · simp only [if_neg h0]
    by_cases h1 : M < 6
    · simp only [if_pos h1, ShaderVersion.mk.injEq, true_and, le_refl, or_true, implies_true,
        and_true]
      and_intros <;> intros <;> omega
    · simp only [if_neg h1]
      by_cases h2 : M > X ∨ M = X ∧ m > x
      · simp only [if_pos h2, ShaderVersion.mk.injEq, true_and, le_refl, or_true, implies_true,
          and_true]
        and_intros <;> intros <;> omega
      · simp only [if_neg h2, ShaderVersion.mk.injEq, true_and, le_refl, or_true, implies_true,
          and_true]
        and_intros <;> intros <;> omega

/-- Witness of C30: with shader model 6.6 as the maximum, the request for model
5.1 is served with model 6.0. -/
theorem shader_model_clamped_witness :
    6 ≤ (⟨6, 6⟩ : ShaderVersion).Major ∧
    CompileShaderModel ⟨5, 1⟩ ⟨6, 6⟩ = ⟨6, 0⟩ ∧
    ShaderVersion.le ⟨6, 0⟩ (CompileShaderModel ⟨5, 1⟩ ⟨6, 6⟩) ∧
    (CompileShaderModel ⟨5, 1⟩ ⟨6, 6⟩).le ⟨6, 6⟩ :=
  ⟨by decide, by decide, (shader_model_clamped ⟨5, 1⟩ ⟨6, 6⟩ (by decide)).1,
    (shader_model_clamped ⟨5, 1⟩ ⟨6, 6⟩ (by decide)).2.1⟩

set_option maxRecDepth 8000 in
/-- C21 (shared dynamic-index temporary). Two calls use the temporary `%t`, the
sum of the constant 0 and a variable; the texture array recorded at slots 0..7
(record id 0) is remapped to base slot 2. `PatchResourceHandle` returns without
error and the constant reads 4, not 2 = 2 + (0 - 0): it was rewritten once for
each call, the second time from the value the first rewrite left. With one call
only, the constant reads 2. -/
theorem shared_temporary_rewritten_twice :
    PatchResourceHandle [("g_Tex".toList, ⟨2, 0, 8, .SRV, 0⟩)]
      ⟨[⟨0, 0, 0⟩],
        "  %t = add i32 0, %v\n  %1 = call %dx.types.Handle @dx.op.createHandle(i32 57, i8 0, i32 0, i32 %t, i1 false)\n  %2 = call %dx.types.Handle @dx.op.createHandle(i32 57, i8 0, i32 0, i32 %t, i1 false)\n".toList⟩ =
      .ok ⟨[⟨0, 0, 0⟩],
        "  %t = add i32 4, %v\n  %1 = call %dx.types.Handle @dx.op.createHandle(i32 57, i8 0, i32 0, i32 %t, i1 false)\n  %2 = call %dx.types.Handle @dx.op.createHandle(i32 57, i8 0, i32 0, i32 %t, i1 false)\n".toList⟩ ∧
    to_string ((2 + (0 - 0)) % 4294967296) = "2".toList ∧
    PatchResourceHandle [("g_Tex".toList, ⟨2, 0, 8, .SRV, 0⟩)]
      ⟨[⟨0, 0, 0⟩],
        "  %t = add i32 0, %v\n  %1 = call %dx.types.Handle @dx.op.createHandle(i32 57, i8 0, i32 0, i32 %t, i1 false)\n".toList⟩ =
      .ok ⟨[⟨0, 0, 0⟩],
        "  %t = add i32 2, %v\n  %1 = call %dx.types.Handle @dx.op.createHandle(i32 57, i8 0, i32 0, i32 %t, i1 false)\n".toList⟩ :=
  ⟨by decide, by decide, by decide⟩

set_option maxRecDepth 8000 in
/-- C27 (`PatchDXIL` is not atomic). First input: the named texture sits at
space 0, slot 3 and its entry was recorded at space 0, slot 4; the space field
is rewritten to 2, then the guard of the bind point fails. Second input: the
declaration is patched to space 2, slot 7 and the call that follows asks for
index 9, which no entry resolves. Both times `PatchDXIL` returns `false` and
the text it leaves differs from the text it was given. -/
theorem patch_not_atomic :
    PatchDXIL [("g_Tex".toList, ⟨7, 2, 1, .SRV, 0⟩)]
      ⟨[⟨4, 0, 4294967295⟩],
        "!5 = !\x7bi32 0, %\x22class.Texture2D<float>\x22* @g_Tex, !\x22g_Tex\x22, i32 0, i32 3, i32 1, i32 2, !6\x7d\n".toList⟩ =
      .ok (false, ⟨[⟨4, 0, 0⟩],
        "!5 = !\x7bi32 0, %\x22class.Texture2D<float>\x22* @g_Tex, !\x22g_Tex\x22, i32 2, i32 3, i32 1, i32 2, !6\x7d\n".toList⟩) ∧
    "!5 = !\x7bi32 0, %\x22class.Texture2D<float>\x22* @g_Tex, !\x22g_Tex\x22, i32 2, i32 3, i32 1, i32 2, !6\x7d\n".toList ≠
      "!5 = !\x7bi32 0, %\x22class.Texture2D<float>\x22* @g_Tex, !\x22g_Tex\x22, i32 0, i32 3, i32 1, i32 2, !6\x7d\n".toList ∧
    PatchDXIL [("g_Tex".toList, ⟨7, 2, 1, .SRV, 0⟩)]
      ⟨[⟨3, 0, 4294967295⟩],
        "  %1 = call %dx.types.Handle @dx.op.createHandle(i32 57, i8 0, i32 0, i32 9, i1 false)\n!5 = !\x7bi32 0, %\x22class.Texture2D<float>\x22* @g_Tex, !\x22g_Tex\x22, i32 0, i32 3, i32 1, i32 2, !6\x7d\n".toList⟩ =
      .ok (false, ⟨[⟨3, 0, 0⟩],
        "  %1 = call %dx.types.Handle @dx.op.createHandle(i32 57, i8 0, i32 0, i32 9, i1 false)\n!5 = !\x7bi32 0, %\x22class.Texture2D<float>\x22* @g_Tex, !\x22g_Tex\x22, i32 2, i32 7, i32 1, i32 2, !6\x7d\n".toList⟩) ∧
    "  %1 = call %dx.types.Handle @dx.op.createHandle(i32 57, i8 0, i32 0, i32 9, i1 false)\n!5 = !\x7bi32 0, %\x22class.Texture2D<float>\x22* @g_Tex, !\x22g_Tex\x22, i32 2, i32 7, i32 1, i32 2, !6\x7d\n".toList ≠
      "  %1 = call %dx.types.Handle @dx.op.createHandle(i32 57, i8 0, i32 0, i32 9, i1 false)\n!5 = !\x7bi32 0, %\x22class.Texture2D<float>\x22* @g_Tex, !\x22g_Tex\x22, i32 0, i32 3, i32 1, i32 2, !6\x7d\n".toList :=
  ⟨by decide, by decide, by decide, by decide⟩

/-! ## The unset value and the record id (C23, C24) -/

theorem setRecordId_getElem?_ne (ExtResInfo : TResourceMapExtendedInfo) (UID RecordId u : Nat)
    (h : u ≠ UID) : (setRecordId ExtResInfo UID RecordId)[u]? = ExtResInfo[u]? := by
  unfold setRecordId
  rw [List.getElem?_modify]
  cases ExtResInfo[u]? with
  | none => rfl
  | some e => simp [Ne.symm h]

/-- C23 (unassigned sentinel). A value-initialised `ResourceExtendedInfo` holds
`2^32 - 1` in its three fields; `std::stoi` reads -1 in the field text `-1`, and
the cast to `Uint32` makes it `2^32 - 1`. Hence the previous-value guard of
`ReplaceRecord` passes on a field `-1` for a slot that was never filled in, and
a located named record whose space and bind-point fields both read `-1` is
patched to the desired space and bind point of an entry with such a slot. -/
theorem unassigned_sentinel (Name : Str) (B : BindInfo) (ExtResInfo : TResourceMapExtendedInfo)
    (DXIL head idLit mid tail : Str)
    (hExt : ExtResInfo[B.UID]? = some {})
    (hrec : NamedRecord DXIL Name head idLit mid "-1".toList "-1".toList tail) :
    ({} : ResourceExtendedInfo) = ⟨2 ^ 32 - 1, 2 ^ 32 - 1, 2 ^ 32 - 1⟩ ∧
    stoi "-1".toList = .ok (-1) ∧ toUint32 (-1) = 2 ^ 32 - 1 ∧
    (∀ a new : Str,
      ReplaceRecord (a ++ ", i32 ".toList ++ "-1".toList ++ tail) a.length new
          ({} : ResourceExtendedInfo).SrcBindPoint =
        .ok (a ++ ", i32 ".toList ++ new ++ tail, a.length + 6 + new.length)) ∧
    patchNamedRecord (Name, B) ⟨ExtResInfo, DXIL⟩ =
      .ok ⟨setRecordId ExtResInfo B.UID (digitsValue idLit),
        patchedNamedText Name head idLit mid (to_string B.Space) (to_string B.BindPoint) tail⟩ := by
  have hs : stoi "-1".toList = .ok (-1) := by decide
  have hu : toUint32 (-1) = 4294967295 := by decide
  refine ⟨by decide, hs, hu, ?_, ?_⟩
  · intro a new
    exact ReplaceRecord_ok a "-1".toList tail new (-1) _ hrec.bind hs hu
  · exact named_record_step Name B ExtResInfo {} DXIL head idLit mid _ _ tail (-1) (-1) hExt hrec
      hs hu hs hu

set_option maxRecDepth 4000 in
/-- Witness of C23: the texture `g_Tex`, whose slot of the table was never filled
in, against a record with the fields `i32 -1, i32 -1`; the declaration pass
returns the text with `i32 2, i32 7`. -/
theorem unassigned_sentinel_witness :
    [({} : ResourceExtendedInfo)][(⟨7, 2, 1, .SRV, 0⟩ : BindInfo).UID]? = some {} ∧
    NamedRecord
      "!5 = !\x7bi32 0, %\x22class.Texture2D<float>\x22* @g_Tex, !\x22g_Tex\x22, i32 -1, i32 -1, i32 1, i32 2, !6\x7d\n".toList
      "g_Tex".toList "!5 ".toList "0".toList "%\x22class.Texture2D<float>\x22* @g_Tex, ".toList
      "-1".toList "-1".toList ", i32 1, i32 2, !6\x7d\n".toList ∧
    patchNamedRecord ("g_Tex".toList, ⟨7, 2, 1, .SRV, 0⟩)
      ⟨[{}],
        "!5 = !\x7bi32 0, %\x22class.Texture2D<float>\x22* @g_Tex, !\x22g_Tex\x22, i32 -1, i32 -1, i32 1, i32 2, !6\x7d\n".toList⟩ =
      .ok ⟨setRecordId [{}] 0 (digitsValue "0".toList),
        patchedNamedText "g_Tex".toList "!5 ".toList "0".toList
          "%\x22class.Texture2D<float>\x22* @g_Tex, ".toList (to_string 2) (to_string 7)
          ", i32 1, i32 2, !6\x7d\n".toList⟩ ∧
    PatchResourceDeclaration [("g_Tex".toList, ⟨7, 2, 1, .SRV, 0⟩)]
      ⟨[{}],
        "!5 = !\x7bi32 0, %\x22class.Texture2D<float>\x22* @g_Tex, !\x22g_Tex\x22, i32 -1, i32 -1, i32 1, i32 2, !6\x7d\n".toList⟩ =
      .ok ⟨[⟨4294967295, 4294967295, 0⟩],
        "!5 = !\x7bi32 0, %\x22class.Texture2D<float>\x22* @g_Tex, !\x22g_Tex\x22, i32 2, i32 7, i32 1, i32 2, !6\x7d\n".toList⟩ :=
  have hrec : NamedRecord
      "!5 = !\x7bi32 0, %\x22class.Texture2D<float>\x22* @g_Tex, !\x22g_Tex\x22, i32 -1, i32 -1, i32 1, i32 2, !6\x7d\n".toList
      "g_Tex".toList "!5 ".toList "0".toList "%\x22class.Texture2D<float>\x22* @g_Tex, ".toList
      "-1".toList "-1".toList ", i32 1, i32 2, !6\x7d\n".toList :=
    ⟨by decide, by decide, by decide, by decide, by decide, by decide, by decide⟩
  ⟨by decide, hrec,
    (unassigned_sentinel "g_Tex".toList ⟨7, 2, 1, .SRV, 0⟩ [{}] _ _ _ _ _ (by decide) hrec).2.2.2.2,
    by decide⟩

/-- C24 (record id linkage). The named strategy, on a located record that passes
the guards, stores in the slot of the entry the number `idLit` that follows
`= !\x7bi32 ` at the start of the record, and so does the positional strategy for
the entry it selects; either one leaves the record id of every other slot as it
was. An entry whose quoted name does not occur in the text leaves the table as
it was, so its record id stays what it was, the unset value for a slot never
filled in. The search of the handle pass accepts an entry only when this record
id is the range id of the call. -/
theorem record_id_linkage (ResourceMap : TResourceBindingMap) (Name : Str) (B : BindInfo)
    (ExtResInfo : TResourceMapExtendedInfo) (Ext : ResourceExtendedInfo)
    (DXIL head idLit mid sp bp tail : Str) (vs vb : Int)
    (DXIL2 : Str) (pos : Nat) (head2 idLit2 ty sp2 bp2 tail2 : Str) (cls : ShaderResType)
    (vs2 vb2 : Int) (fuel : Nat)
    (hExt : ExtResInfo[B.UID]? = some Ext)
    (hrec : NamedRecord DXIL Name head idLit mid sp bp tail)
    (hsp : stoi sp = .ok vs) (hspv : toUint32 vs = Ext.SrcSpace)
    (hbp : stoi bp = .ok vb) (hbpv : toUint32 vb = Ext.SrcBindPoint)
    (hrec2 : AnonymousRecord DXIL2 pos head2 idLit2 ty sp2 bp2 tail2)
    (hty : RecognisedAs ResourceMap ty cls)
    (hsp2 : stoi sp2 = .ok vs2) (hbp2 : stoi bp2 = .ok vb2)
    (hvalid : ValidUIDs ResourceMap ExtResInfo)
    (hsome : ∃ nb ∈ ResourceMap, HasSource ExtResInfo (toUint32 vb2) (toUint32 vs2) cls nb) :
    (patchNamedRecord (Name, B) ⟨ExtResInfo, DXIL⟩ =
        .ok ⟨setRecordId ExtResInfo B.UID (digitsValue idLit),
          patchedNamedText Name head idLit mid (to_string B.Space) (to_string B.BindPoint) tail⟩ ∧
      (setRecordId ExtResInfo B.UID (digitsValue idLit))[B.UID]? =
        some { Ext with RecordId := digitsValue idLit } ∧
      ∀ u, u ≠ B.UID → (setRecordId ExtResInfo B.UID (digitsValue idLit))[u]? = ExtResInfo[u]?) ∧
    (∃ ResPair ∈ ResourceMap, ∃ E, ExtResInfo[ResPair.2.UID]? = some E ∧
      patchAnonymousRecords ResourceMap (fuel + 1) ⟨ExtResInfo, DXIL2⟩ pos =
        patchAnonymousRecords ResourceMap fuel
          ⟨setRecordId ExtResInfo ResPair.2.UID (digitsValue idLit2),
            anonymousText head2 idLit2 ty (to_string ResPair.2.Space)
              (to_string ResPair.2.BindPoint) tail2⟩
          ((recordPrefix head2 idLit2 ty).length + 5 + 6 + (to_string ResPair.2.Space).length + 6 +
            (to_string ResPair.2.BindPoint).length) ∧
      (setRecordId ExtResInfo ResPair.2.UID (digitsValue idLit2))[ResPair.2.UID]? =
        some { E with RecordId := digitsValue idLit2 } ∧
      ∀ u, u ≠ ResPair.2.UID →
        (setRecordId ExtResInfo ResPair.2.UID (digitsValue idLit2))[u]? = ExtResInfo[u]?) ∧
    (∀ D : Str, ¬ DxilName Name <:+: D →
      patchNamedRecord (Name, B) ⟨ExtResInfo, D⟩ = .ok ⟨ExtResInfo, D⟩) ∧
    (∀ (RangeId SrcIndex : Nat) (ResType : ShaderResType) (ResPair : Str × BindInfo)
      (E : ResourceExtendedInfo),
      findByRange ExtResInfo RangeId ResType SrcIndex ResourceMap = .ok (some (ResPair, E)) →
      ExtResInfo[ResPair.2.UID]? = some E ∧ E.RecordId = RangeId) := by
  refine ⟨⟨?_, setRecordId_getElem? _ _ _ _ hExt, fun u hu => setRecordId_getElem?_ne _ _ _ _ hu⟩,
    ?_, ?_, ?_⟩
  · exact named_record_step Name B ExtResInfo Ext DXIL head idLit mid sp bp tail vs vb hExt hrec
      hsp hspv hbp hbpv
  · obtain ⟨ResPair, hmem, ⟨E, hE, _⟩, hrun⟩ :=
      anonymous_record_step ResourceMap ExtResInfo DXIL2 pos head2 idLit2 ty sp2 bp2 tail2 cls vs2 vb2
        fuel hrec2 hty hsp2 hbp2 hvalid hsome
    exact ⟨ResPair, hmem, E, hE, hrun, setRecordId_getElem? _ _ _ _ hE,
      fun u hu => setRecordId_getElem?_ne _ _ _ _ hu⟩
  · intro D hno
    have hfind : find (DxilName Name) D 0 = none :=
      find_eq_none _ _ _ (fun j _ _ => by
        cases hj : occursAt (DxilName Name) D j with
        | false => rfl
        | true => exact absurd (occursAt_isInfix _ _ _ hj) hno)
    simp only [patchNamedRecord, hExt, hfind]
  · intro RangeId SrcIndex ResType ResPair E h
    have := findByRange_some ExtResInfo RangeId ResType SrcIndex ResPair E ResourceMap h
    exact ⟨this.2.1, this.2.2.1⟩

set_option maxRecDepth 8000 in
/-- Witness of C24: the named texture `g_Tex` in the record with id 4 and the
stripped constant buffer `Constants` in the record with id 2; the declaration
pass over a text that holds both records stores 4 and 2 in the two slots, and
the entry `g_Unused`, which the text does not name, keeps the unset id. -/
theorem record_id_linkage_witness :
    NamedRecord
      "!5 = !\x7bi32 4, %\x22class.Texture2D<float>\x22* @g_Tex, !\x22g_Tex\x22, i32 0, i32 3, i32 1, i32 2, !6\x7d\n".toList
      "g_Tex".toList "!5 ".toList "4".toList "%\x22class.Texture2D<float>\x22* @g_Tex, ".toList
      "0".toList "3".toList ", i32 1, i32 2, !6\x7d\n".toList ∧
    AnonymousRecord
      "!6 = !\x7bi32 2, %Constants* undef, !\x22\x22, i32 0, i32 1, i32 1, i32 16, null\x7d\n".toList 0
      "!6 ".toList "2".toList "%Constants* undef".toList "0".toList "1".toList
      ", i32 1, i32 16, null\x7d\n".toList ∧
    (setRecordId [⟨3, 0, 4294967295⟩, ⟨1, 0, 4294967295⟩] 0 (digitsValue "4".toList))[0]? =
      some ⟨3, 0, 4⟩ ∧
    PatchResourceDeclaration
      [("Constants".toList, ⟨0, 1, 1, .CBV, 1⟩), ("g_Tex".toList, ⟨7, 2, 1, .SRV, 0⟩),
        ("g_Unused".toList, ⟨9, 9, 1, .SRV, 2⟩)]
      ⟨[⟨3, 0, 4294967295⟩, ⟨1, 0, 4294967295⟩, {}],
        "!5 = !\x7bi32 4, %\x22class.Texture2D<float>\x22* @g_Tex, !\x22g_Tex\x22, i32 0, i32 3, i32 1, i32 2, !6\x7d\n!6 = !\x7bi32 2, %Constants* undef, !\x22\x22, i32 0, i32 1, i32 1, i32 16, null\x7d\n".toList⟩ =
      .ok ⟨[⟨3, 0, 4⟩, ⟨1, 0, 2⟩, ⟨4294967295, 4294967295, 4294967295⟩],
        "!5 = !\x7bi32 4, %\x22class.Texture2D<float>\x22* @g_Tex, !\x22g_Tex\x22, i32 2, i32 7, i32 1, i32 2, !6\x7d\n!6 = !\x7bi32 2, %Constants* undef, !\x22\x22, i32 1, i32 0, i32 1, i32 16, null\x7d\n".toList⟩ :=
  have hrec : NamedRecord
      "!5 = !\x7bi32 4, %\x22class.Texture2D<float>\x22* @g_Tex, !\x22g_Tex\x22, i32 0, i32 3, i32 1, i32 2, !6\x7d\n".toList
      "g_Tex".toList "!5 ".toList "4".toList "%\x22class.Texture2D<float>\x22* @g_Tex, ".toList
      "0".toList "3".toList ", i32 1, i32 2, !6\x7d\n".toList :=
    ⟨by decide, by decide, by decide, by decide, by decide, by decide, by decide⟩
  have hrec2 : AnonymousRecord
      "!6 = !\x7bi32 2, %Constants* undef, !\x22\x22, i32 0, i32 1, i32 1, i32 16, null\x7d\n".toList 0
      "!6 ".toList "2".toList "%Constants* undef".toList "0".toList "1".toList
      ", i32 1, i32 16, null\x7d\n".toList :=
    ⟨by decide, by decide, by decide, by decide, by decide, by decide, by decide, by decide⟩
  have hty : RecognisedAs [("Constants".toList, ⟨0, 1, 1, .CBV, 1⟩)] "%Constants* undef".toList .CBV :=
    .cbuffer ("Constants".toList, ⟨0, 1, 1, .CBV, 1⟩) (by decide) rfl (by decide) (by decide)
      (by decide)
  ⟨hrec, hrec2,
    (record_id_linkage [("Constants".toList, ⟨0, 1, 1, .CBV, 1⟩)] "g_Tex".toList ⟨7, 2, 1, .SRV, 0⟩
      [⟨3, 0, 4294967295⟩, ⟨1, 0, 4294967295⟩] ⟨3, 0, 4294967295⟩ _ _ _ _ _ _ _ 0 3
      _ 0 _ _ _ _ _ _ .CBV 0 1 80 (by decide) hrec (by decide) (by decide) (by decide) (by decide)
      hrec2 hty (by decide) (by decide) (by decide)
      ⟨("Constants".toList, ⟨0, 1, 1, .CBV, 1⟩), by decide, ⟨1, 0, 4294967295⟩, rfl, rfl, rfl,
        rfl⟩).1.2.1,
    by decide⟩

/-! ## The handle pass: constant-first additions (C22) -/

theorem patchHandles_no_call (ResourceMap : TResourceBindingMap) (fuel : Nat) (st : PatchState)
    (pos : Nat) (h : find CallHandlePattern st.DXIL pos = none) :
    patchHandles ResourceMap (fuel + 1) st pos = .ok st := by
  rw [patchHandles]
  split
  · simp only [patchHandleStep, h]
  · rfl

/-- C22 (dynamic index, constant first). Let the scan of `PatchResourceHandle`
locate a createHandle call whose index operand is a temporary `idx`, and let
the last `idx = add i32 ` that starts at or before the end of the operand be
followed by the integer constant `C` (digits, fitting `int`) and a comma. If
some entry of the map has the record id and the type of the call and a source
range that holds `C`, the iteration raises no error and rewrites `C` to the
decimal text of `ResPair.BindPoint + (C - SrcBindPoint)` for such an entry
`ResPair` (the first one in iteration order): the text before the constant and
the text from the comma on, which holds the variable, are as before, and the
loop goes on from the end of the index operand. When the search from that
position finds no call pattern in the new text, the loop returns the new text. -/
theorem dynamic_index_constant_first (ResourceMap : TResourceBindingMap)
    (ExtResInfo : TResourceMapExtendedInfo) (DXIL : Str) (pos : Nat)
    (pre op clsLit ridLit idx rest a C more : Str) (ResType : ShaderResType) (fuel : Nat)
    (hsite : HandleSite DXIL pos pre op clsLit ridLit idx rest)
    (hdyn : idx.head? = some '%')
    (htext : DXIL = a ++ IndexDecl idx ++ C ++ ',' :: more)
    (hle : a.length ≤ indexStart pre op clsLit ridLit + idx.length)
    (hlast : ∀ j, j ≤ indexStart pre op clsLit ridLit + idx.length → a.length < j →
      occursAt (IndexDecl idx) DXIL j = false)
    (hC : C ≠ [] ∧ ∀ c ∈ C, isDigit c = true) (hfit : digitsValue C ≤ 2147483647)
    (hcls : ResClassToType[digitsValue clsLit]? = some ResType)
    (hvalid : ValidUIDs ResourceMap ExtResInfo)
    (hsome : ∃ nb ∈ ResourceMap,
      Resolves ExtResInfo (digitsValue ridLit) ResType (digitsValue C) nb) :
    ∃ ResPair ∈ ResourceMap, ∃ Ext, ExtResInfo[ResPair.2.UID]? = some Ext ∧
      Ext.RecordId = digitsValue ridLit ∧ ResPair.2.ResType = ResType ∧
      Ext.SrcBindPoint ≤ digitsValue C ∧
      digitsValue C < (Ext.SrcBindPoint + ResPair.2.ArraySize) % 4294967296 ∧
      patchHandles ResourceMap (fuel + 1) ⟨ExtResInfo, DXIL⟩ pos =
        patchHandles ResourceMap fuel
          ⟨ExtResInfo, a ++ IndexDecl idx ++
            to_string ((ResPair.2.BindPoint + (digitsValue C - Ext.SrcBindPoint)) % 4294967296) ++
            ',' :: more⟩
          (indexStart pre op clsLit ridLit + idx.length) ∧
      (find CallHandlePattern (a ++ IndexDecl idx ++
            to_string ((ResPair.2.BindPoint + (digitsValue C - Ext.SrcBindPoint)) % 4294967296) ++
            ',' :: more) (indexStart pre op clsLit ridLit + idx.length) = none →
        patchHandles ResourceMap (fuel + 2) ⟨ExtResInfo, DXIL⟩ pos =
          .ok ⟨ExtResInfo, a ++ IndexDecl idx ++
            to_string ((ResPair.2.BindPoint + (digitsValue C - Ext.SrcBindPoint)) % 4294967296) ++
            ',' :: more⟩) := by
  have hu : toUint32 (digitsValue C : Int) = digitsValue C :=
    toUint32_natCast _ (by omega)
  obtain ⟨ResPair, Ext, hf, hmem, hE, h1, h2, h3, h4⟩ :=
    findByRange_found ExtResInfo (digitsValue ridLit) ResType (digitsValue C) ResourceMap hvalid
      hsome
  refine ⟨ResPair, hmem, Ext, hE, h1, h2, h3, h4, ?_⟩
  have hpos : pos < DXIL.length := hsite.parsed.1
  have hhead : C.head? ≠ some '%' := by
    obtain ⟨c, cs, rfl⟩ := List.exists_cons_of_ne_nil hC.1
    have hd := hC.2 c (by simp)
    simp only [List.head?_cons, ne_eq, Option.some.injEq]
    rintro rfl
    revert hd
    decide
  have hv := stoi_digits_nil C hC hfit
  rw [← hu] at hf
  have hrep := ReplaceBindPoint_found ResourceMap ExtResInfo (a ++ IndexDecl idx) C (',' :: more)
    (a.length + (IndexDecl idx).length) (digitsValue clsLit) (digitsValue ridLit) ResType _ ResPair
    Ext (by rw [List.length_append]) hv hcls hf
  rw [← htext] at hrep
  have hoff : (toUint32 (digitsValue C : Int) + 4294967296 - Ext.SrcBindPoint) % 4294967296 =
      digitsValue C - Ext.SrcBindPoint := by
    rw [hu]
    omega
  rw [hoff] at hrep
  have key : ∀ n, patchHandles ResourceMap (n + 1) ⟨ExtResInfo, DXIL⟩ pos =
      patchHandles ResourceMap n
        ⟨ExtResInfo, a ++ IndexDecl idx ++
          to_string ((ResPair.2.BindPoint + (digitsValue C - Ext.SrcBindPoint)) % 4294967296) ++
          ',' :: more⟩
        (indexStart pre op clsLit ridLit + idx.length) := by
    intro n
    rw [patchHandles_step _ _ _ _ hpos, patchHandleStep_site ResourceMap ExtResInfo hsite,
      if_pos hdyn, patchDynamicIndex_constantFirst ResourceMap ExtResInfo DXIL idx a C more _ _ _
        htext hle hlast hhead (isDigit_noStop C hC.2), hrep]
  refine ⟨key fuel, ?_⟩
  intro hno
  rw [key (fuel + 1)]
  exact patchHandles_no_call ResourceMap fuel _ _ hno

set_option maxRecDepth 8000 in
/-- Witness of C22: the temporary `%t` is `5 + %v`, the texture array recorded at
slots 3..10 (record id 0) is remapped to base slot 7; the constant becomes
9 = 7 + (5 - 3), `, %v` stays, and `PatchDXIL` returns `true`. -/
theorem dynamic_index_constant_first_witness :
    HandleSite
      "  %t = add i32 5, %v\n  %1 = call %dx.types.Handle @dx.op.createHandle(i32 57, i8 0, i32 0, i32 %t, i1 false)\n".toList
      0 "  %t = add i32 5, %v\n  %1".toList "57".toList "0".toList "0".toList "%t".toList " i1 false)\n".toList ∧
    ValidUIDs [("g_Tex".toList, ⟨7, 0, 8, .SRV, 0⟩)] [⟨3, 0, 0⟩] ∧
    (∃ ResPair ∈ [("g_Tex".toList, (⟨7, 0, 8, .SRV, 0⟩ : BindInfo))],
      ∃ Ext, [(⟨3, 0, 0⟩ : ResourceExtendedInfo)][ResPair.2.UID]? = some Ext ∧
      patchHandles [("g_Tex".toList, ⟨7, 0, 8, .SRV, 0⟩)] (97 + 2)
        ⟨[⟨3, 0, 0⟩],
          "  %t = add i32 5, %v\n  %1 = call %dx.types.Handle @dx.op.createHandle(i32 57, i8 0, i32 0, i32 %t, i1 false)\n".toList⟩ 0 =
        .ok ⟨[⟨3, 0, 0⟩], "  ".toList ++ IndexDecl "%t".toList ++
          to_string ((ResPair.2.BindPoint + (digitsValue "5".toList - Ext.SrcBindPoint)) %
            4294967296) ++
          ',' :: " %v\n  %1 = call %dx.types.Handle @dx.op.createHandle(i32 57, i8 0, i32 0, i32 %t, i1 false)\n".toList⟩) ∧
    PatchDXIL [("g_Tex".toList, ⟨7, 0, 8, .SRV, 0⟩)]
      ⟨[⟨3, 0, 0⟩],
        "  %t = add i32 5, %v\n  %1 = call %dx.types.Handle @dx.op.createHandle(i32 57, i8 0, i32 0, i32 %t, i1 false)\n".toList⟩ =
      .ok (true, ⟨[⟨3, 0, 0⟩],
        "  %t = add i32 9, %v\n  %1 = call %dx.types.Handle @dx.op.createHandle(i32 57, i8 0, i32 0, i32 %t, i1 false)\n".toList⟩) :=
  have hsite : HandleSite
      "  %t = add i32 5, %v\n  %1 = call %dx.types.Handle @dx.op.createHandle(i32 57, i8 0, i32 0, i32 %t, i1 false)\n".toList
      0 "  %t = add i32 5, %v\n  %1".toList "57".toList "0".toList "0".toList "%t".toList " i1 false)\n".toList :=
    ⟨by decide, by decide, by decide, by decide, by decide, by decide, by decide, by decide,
      by decide⟩
  have h := dynamic_index_constant_first [("g_Tex".toList, ⟨7, 0, 8, .SRV, 0⟩)] [⟨3, 0, 0⟩] _ 0
    _ _ _ _ _ _ "  ".toList "5".toList
    " %v\n  %1 = call %dx.types.Handle @dx.op.createHandle(i32 57, i8 0, i32 0, i32 %t, i1 false)\n".toList
    .SRV 97 hsite (by decide) (by decide) (by decide) (by decide) (by decide) (by decide)
    (by decide) (by decide)
    ⟨("g_Tex".toList, ⟨7, 0, 8, .SRV, 0⟩), by decide, ⟨3, 0, 0⟩, rfl, by decide, rfl,
      by decide, by decide⟩
  ⟨hsite, by decide,
    h.elim fun ResPair hr => ⟨ResPair, hr.1, hr.2.elim fun Ext hE => ⟨Ext, hE.1,
      hE.2.2.2.2.2.2 (by
        have hm := hr.1
        simp only [List.mem_singleton] at hm
        subst hm
        have hx : Ext = ⟨3, 0, 0⟩ := by
          have := hE.1
          simp at this
          exact this.symm
        subst hx
        decide)⟩⟩,
    by decide⟩

/-! ## The positional pass: read-write resources (C28) -/

theorem readWrite_not_recognised (ty rest : Str) (h : ReadWritePart <+: ty) :
    ¬ TexturePart <+: ty ++ rest ∧ ¬ SamplerPart <+: ty ++ rest := by
  obtain ⟨r, rfl⟩ := h
  have e1 : TexturePart = ['%', '\x22', 'c', 'l', 'a', 's', 's', '.', 'T'] ++ "exture".toList := rfl
  have e2 : ReadWritePart = ['%', '\x22', 'c', 'l', 'a', 's', 's', '.', 'R', 'W'] := rfl
  have e3 : SamplerPart = ['%', 's'] ++ "truct.SamplerState* undef".toList := rfl
  constructor
  · rintro ⟨u, hu⟩
    rw [e1, e2] at hu
    simp at hu
  · rintro ⟨u, hu⟩
    rw [e3, e2] at hu
    simp at hu

/-- C28 (stripped read-write resources are not patched). Let the scan of the
positional pass locate, from `pos`, a stripped record whose type signature is a
read-write shape (it starts with `%"class.RW`) or, more generally, starts with
neither the texture part nor the sampler part, and that does not start with
the type name `%Name* undef` of a constant-buffer entry of the map. Then,
whatever other entries the map holds and whatever the table records for them,
the iteration raises no error and writes nothing: the space and bind-point
fields keep their text and the scan goes on from the closing comma of the
marker. When the search from that position finds no further marker, the loop
returns the state it was given. -/
theorem anonymous_read_write_not_patched (ResourceMap : TResourceBindingMap)
    (ExtResInfo : TResourceMapExtendedInfo) (DXIL : Str) (pos : Nat)
    (head idLit ty sp bp tail : Str) (fuel : Nat)
    (hrec : AnonymousRecord DXIL pos head idLit ty sp bp tail)
    (hshape : ReadWritePart <+: ty ∨
      (¬ TexturePart <+: ty ++ EmptyResDecl ++ " i32 ".toList ++ sp ++ ", i32 ".toList ++ bp ++ tail ∧
        ¬ SamplerPart <+: ty ++ EmptyResDecl ++ " i32 ".toList ++ sp ++ ", i32 ".toList ++ bp ++ tail))
    (hcb : ∀ nb ∈ ResourceMap, nb.2.ResType = .CBV →
      ¬ CBName nb.1 <+: ty ++ EmptyResDecl ++ " i32 ".toList ++ sp ++ ", i32 ".toList ++ bp ++ tail) :
    patchAnonymousStep ResourceMap ⟨ExtResInfo, DXIL⟩ pos =
      .ok (some (⟨ExtResInfo, DXIL⟩, (recordPrefix head idLit ty).length + 5)) ∧
    patchAnonymousRecords ResourceMap (fuel + 1) ⟨ExtResInfo, DXIL⟩ pos =
      patchAnonymousRecords ResourceMap fuel ⟨ExtResInfo, DXIL⟩
        ((recordPrefix head idLit ty).length + 5) ∧
    (find EmptyResDecl DXIL ((recordPrefix head idLit ty).length + 5) = none →
      patchAnonymousRecords ResourceMap (fuel + 2) ⟨ExtResInfo, DXIL⟩ pos = .ok ⟨ExtResInfo, DXIL⟩) := by
  have e : DXIL = recordPrefix head idLit ty ++ EmptyResDecl ++
      (" i32 ".toList ++ sp ++ ", i32 ".toList ++ bp ++ tail) := by
    rw [hrec.text, anonymousText]
    have e1 : ", !\x22\x22".toList ++ ", i32 ".toList = EmptyResDecl ++ " i32 ".toList := rfl
    simp only [List.append_assoc]
    rw [← List.append_assoc (", !\x22\x22".toList), e1]
    simp only [List.append_assoc]
  have hassoc : ∀ p : Str, (p <+: ty ++ EmptyResDecl ++
      (" i32 ".toList ++ sp ++ ", i32 ".toList ++ bp ++ tail)) ↔
      (p <+: ty ++ EmptyResDecl ++ " i32 ".toList ++ sp ++ ", i32 ".toList ++ bp ++ tail) := by
    intro p
    simp only [List.append_assoc]
  have hsh : ¬ TexturePart <+: ty ++ EmptyResDecl ++
        (" i32 ".toList ++ sp ++ ", i32 ".toList ++ bp ++ tail) ∧
      ¬ SamplerPart <+: ty ++ EmptyResDecl ++
        (" i32 ".toList ++ sp ++ ", i32 ".toList ++ bp ++ tail) := by
    rcases hshape with hrw | ⟨h1, h2⟩
    · have := readWrite_not_recognised ty
        (EmptyResDecl ++ (" i32 ".toList ++ sp ++ ", i32 ".toList ++ bp ++ tail)) hrw
      simpa only [List.append_assoc] using this
    · exact ⟨fun h => h1 ((hassoc _).mp h), fun h => h2 ((hassoc _).mp h)⟩
  have hcand : SkippedCandidate ResourceMap DXIL pos (recordPrefix head idLit ty).length :=
    .unrecognised head idLit ty (" i32 ".toList ++ sp ++ ", i32 ".toList ++ bp ++ tail) e rfl
      hrec.start (fun j hj hle => hrec.firstMarker j hj hle) hrec.lastStart hrec.idDigits
      hrec.idFits hsh.1 hsh.2 (fun nb hnb hc h => hcb nb hnb hc ((hassoc _).mp h))
  obtain ⟨hpos, _, hstep⟩ := patchAnonymousStep_skipped ResourceMap ExtResInfo hcand
  have hskip : ∀ n, patchAnonymousRecords ResourceMap (n + 1) ⟨ExtResInfo, DXIL⟩ pos =
      patchAnonymousRecords ResourceMap n ⟨ExtResInfo, DXIL⟩
        ((recordPrefix head idLit ty).length + 5) := by
    intro n
    rw [patchAnonymousRecords_step _ _ _ _ hpos, hstep]
  refine ⟨hstep, hskip fuel, ?_⟩
  intro hnone
  rw [hskip (fuel + 1), patchAnonymousRecords]
  split
  · simp only [patchAnonymousStep, hnone]
  · rfl

set_option maxRecDepth 8000 in
/-- Witness of C28: a stripped read-write texture at space 0, slot 1, and a map
whose only entry is a read-write texture recorded at space 0, slot 1 and
remapped to space 3, slot 5; the declaration pass returns the text and the
table as they were. -/
theorem anonymous_read_write_not_patched_witness :
    AnonymousRecord
      "!4 = !\x7bi32 0, %\x22class.RWTexture2D<float>\x22* undef, !\x22\x22, i32 0, i32 1, i32 1, i32 2, null\x7d\n".toList
      0 "!4 ".toList "0".toList "%\x22class.RWTexture2D<float>\x22* undef".toList "0".toList
      "1".toList ", i32 1, i32 2, null\x7d\n".toList ∧
    HasSource [⟨1, 0, 4294967295⟩] (toUint32 1) (toUint32 0) .UAV
      ("g_RWTex".toList, ⟨5, 3, 1, .UAV, 0⟩) ∧
    patchAnonymousRecords [("g_RWTex".toList, ⟨5, 3, 1, .UAV, 0⟩)] (90 + 2)
      ⟨[⟨1, 0, 4294967295⟩],
        "!4 = !\x7bi32 0, %\x22class.RWTexture2D<float>\x22* undef, !\x22\x22, i32 0, i32 1, i32 1, i32 2, null\x7d\n".toList⟩
      0 =
      .ok ⟨[⟨1, 0, 4294967295⟩],
        "!4 = !\x7bi32 0, %\x22class.RWTexture2D<float>\x22* undef, !\x22\x22, i32 0, i32 1, i32 1, i32 2, null\x7d\n".toList⟩ ∧
    PatchResourceDeclaration [("g_RWTex".toList, ⟨5, 3, 1, .UAV, 0⟩)]
      ⟨[⟨1, 0, 4294967295⟩],
        "!4 = !\x7bi32 0, %\x22class.RWTexture2D<float>\x22* undef, !\x22\x22, i32 0, i32 1, i32 1, i32 2, null\x7d\n".toList⟩ =
      .ok ⟨[⟨1, 0, 4294967295⟩],
        "!4 = !\x7bi32 0, %\x22class.RWTexture2D<float>\x22* undef, !\x22\x22, i32 0, i32 1, i32 1, i32 2, null\x7d\n".toList⟩ :=
  have hrec : AnonymousRecord
      "!4 = !\x7bi32 0, %\x22class.RWTexture2D<float>\x22* undef, !\x22\x22, i32 0, i32 1, i32 1, i32 2, null\x7d\n".toList
      0 "!4 ".toList "0".toList "%\x22class.RWTexture2D<float>\x22* undef".toList "0".toList
      "1".toList ", i32 1, i32 2, null\x7d\n".toList :=
    ⟨by decide, by decide, by decide, by decide, by decide, by decide, by decide, by decide⟩
  ⟨hrec, ⟨⟨1, 0, 4294967295⟩, rfl, rfl, rfl, rfl⟩,
    (anonymous_read_write_not_patched [("g_RWTex".toList, ⟨5, 3, 1, .UAV, 0⟩)]
      [⟨1, 0, 4294967295⟩] _ 0 _ _ _ _ _ _ 90 hrec (Or.inl (by decide)) (by decide)).2.2
      (by decide),
    by decide⟩

/-! ## The handle pass: the class table (C29) -/

theorem findByRange_valid (ExtResInfo : TResourceMapExtendedInfo) (RangeId : Nat)
    (ResType : ShaderResType) (SrcIndex : Nat) : ∀ (ResourceMap : TResourceBindingMap),
    ValidUIDs ResourceMap ExtResInfo →
    ∃ o, findByRange ExtResInfo RangeId ResType SrcIndex ResourceMap = .ok o
  | [], _ => ⟨none, rfl⟩
  | nb :: rest, hvalid => by
    have hlt : nb.2.UID < ExtResInfo.length := hvalid nb (List.mem_cons_self _ _)
    have hE : ExtResInfo[nb.2.UID]? = some ExtResInfo[nb.2.UID] := List.getElem?_eq_getElem hlt
    unfold findByRange
    rw [hE]
    simp only
    split
    · exact ⟨_, rfl⟩
    · exact findByRange_valid ExtResInfo RangeId ResType SrcIndex rest
        (fun x hx => hvalid x (List.mem_cons_of_mem _ hx))

theorem ResClassToType_lookup (ResClass : Nat) :
    (∃ ResType, ResClassToType[ResClass]? = some ResType) ↔ ResClass < 4 := by
  constructor
  · rintro ⟨t, ht⟩
    by_contra hcon
    have hn : ResClassToType[ResClass]? = none :=
      List.getElem?_eq_none (by simp only [ResClassToType, List.length_cons, List.length_nil]; omega)
    rw [hn] at ht
    cases ht
  · intro h
    have h4 : ResClass = 0 ∨ ResClass = 1 ∨ ResClass = 2 ∨ ResClass = 3 := by omega
    rcases h4 with rfl | rfl | rfl | rfl
    · exact ⟨.SRV, rfl⟩
    · exact ⟨.UAV, rfl⟩
    · exact ⟨.CBV, rfl⟩
    · exact ⟨.Sampler, rfl⟩

set_option maxRecDepth 8000 in
/-- Counterexample to C29 as stated: the calls with the class operands `i8 7`
and `i8 -1` are not rejected. The class codes 7 and `2^32 - 1` reach
`ReplaceBindPoint`, whose table lookup is then out of bounds, and `PatchDXIL`
does not return `false`: its behaviour is undefined. -/
theorem class_lookup_counterexample :
    ResClassToType[7]? = none ∧
    ReplaceBindPoint [("g_Tex".toList, ⟨7, 0, 8, .SRV, 0⟩)] [⟨3, 0, 0⟩]
      "  %1 = call %dx.types.Handle @dx.op.createHandle(i32 57, i8 7, i32 0, i32 4, i1 false)\n".toList
      7 0 74 75 = .error .undefinedBehaviour ∧
    patchHandleStep [("g_Tex".toList, ⟨7, 0, 8, .SRV, 0⟩)] [⟨3, 0, 0⟩]
      "  %1 = call %dx.types.Handle @dx.op.createHandle(i32 57, i8 7, i32 0, i32 4, i1 false)\n".toList
      0 = .error .undefinedBehaviour ∧
    PatchDXIL [("g_Tex".toList, ⟨7, 0, 8, .SRV, 0⟩)]
      ⟨[⟨3, 0, 0⟩],
        "  %1 = call %dx.types.Handle @dx.op.createHandle(i32 57, i8 7, i32 0, i32 4, i1 false)\n".toList⟩ =
      .error (.undefinedBehaviour, ⟨[⟨3, 0, 0⟩],
        "  %1 = call %dx.types.Handle @dx.op.createHandle(i32 57, i8 7, i32 0, i32 4, i1 false)\n".toList⟩) ∧
    atoi "-1, i32 0, i32 4, i1 false)\n".toList = .ok (-1) ∧ toUint32 (-1) = 4294967295 ∧
    ResClassToType[4294967295]? = none ∧
    PatchDXIL [("g_Tex".toList, ⟨7, 0, 8, .SRV, 0⟩)]
      ⟨[⟨3, 0, 0⟩],
        "  %1 = call %dx.types.Handle @dx.op.createHandle(i32 57, i8 -1, i32 0, i32 4, i1 false)\n".toList⟩ =
      .error (.undefinedBehaviour, ⟨[⟨3, 0, 0⟩],
        "  %1 = call %dx.types.Handle @dx.op.createHandle(i32 57, i8 -1, i32 0, i32 4, i1 false)\n".toList⟩) :=
  ⟨by decide, by decide, by decide, by decide, by decide, by decide, by decide, by decide⟩

/-- C29, amended (the class table is looked up without a range check). The
lookup of the four-entry table is in bounds exactly for the class codes 0..3.
`PatchResourceHandle` does not check the code: for a located call whose index
operand is a decimal literal (digits, fitting `int`), with every entry of the
map owning a slot of the table, the iteration ends in the out-of-bounds lookup
(undefined behaviour) exactly when the class operand is 4 or more; such a call
is not rejected with an exception. -/
theorem class_lookup_unchecked (ResourceMap : TResourceBindingMap)
    (ExtResInfo : TResourceMapExtendedInfo) (DXIL : Str) (pos : Nat)
    (pre op clsLit ridLit idx rest : Str)
    (hsite : HandleSite DXIL pos pre op clsLit ridLit idx rest)
    (hidx : ∀ c ∈ idx, isDigit c = true) (hfit : digitsValue idx ≤ 2147483647)
    (hvalid : ValidUIDs ResourceMap ExtResInfo) :
    ((∃ ResType, ResClassToType[digitsValue clsLit]? = some ResType) ↔ digitsValue clsLit < 4) ∧
    (patchHandleStep ResourceMap ExtResInfo DXIL pos = .error .undefinedBehaviour ↔
      4 ≤ digitsValue clsLit) ∧
    (4 ≤ digitsValue clsLit →
      ∀ fuel, patchHandles ResourceMap (fuel + 1) ⟨ExtResInfo, DXIL⟩ pos =
        .error (.undefinedBehaviour, ⟨ExtResInfo, DXIL⟩)) := by
  obtain ⟨hpos, _, _, _, _, _, _, _, _, _, htext⟩ := hsite.parsed
  have hhead : ¬ idx.head? = some '%' := by
    obtain ⟨c, cs, rfl⟩ := List.exists_cons_of_ne_nil hsite.index.1
    have hd := hidx c (by simp)
    simp only [List.head?_cons, Option.some.injEq]
    rintro rfl
    revert hd
    decide
  have hv := stoi_digits_nil idx ⟨hsite.index.1, hidx⟩ hfit
  have hstep : patchHandleStep ResourceMap ExtResInfo DXIL pos =
      match ReplaceBindPoint ResourceMap ExtResInfo DXIL (digitsValue clsLit) (digitsValue ridLit)
          (indexStart pre op clsLit ridLit) (indexStart pre op clsLit ridLit + idx.length) with
      | .error f => .error f
      | .ok DXIL => .ok (some (DXIL, indexStart pre op clsLit ridLit + idx.length)) := by
    rw [patchHandleStep_site ResourceMap ExtResInfo hsite, if_neg hhead]
    try rfl
  have hub : 4 ≤ digitsValue clsLit →
      patchHandleStep ResourceMap ExtResInfo DXIL pos = .error .undefinedBehaviour := by
    intro h4
    have hn : ResClassToType[digitsValue clsLit]? = none :=
      List.getElem?_eq_none
        (by simp only [ResClassToType, List.length_cons, List.length_nil]; omega)
    have hrep : ReplaceBindPoint ResourceMap ExtResInfo DXIL (digitsValue clsLit)
        (digitsValue ridLit) (indexStart pre op clsLit ridLit)
        (indexStart pre op clsLit ridLit + idx.length) = .error .undefinedBehaviour := by
      rw [htext]
      simp only [ReplaceBindPoint, substr_mid _ idx (',' :: rest) (indexStart pre op clsLit ridLit)
        rfl, hv, hn]
    rw [hstep, hrep]
  refine ⟨ResClassToType_lookup _, ⟨?_, hub⟩, ?_⟩
  · intro h
    by_contra hcon
    obtain ⟨ResType, hcls⟩ := (ResClassToType_lookup (digitsValue clsLit)).mpr (by omega)
    obtain ⟨o, ho⟩ := findByRange_valid ExtResInfo (digitsValue ridLit) ResType
      (toUint32 (digitsValue idx : Int)) ResourceMap hvalid
    rw [hstep] at h
    cases o with
    | none =>
      have hrep := ReplaceBindPoint_not_found ResourceMap ExtResInfo _ idx (',' :: rest)
        (indexStart pre op clsLit ridLit) (digitsValue clsLit) (digitsValue ridLit) ResType _
        rfl hv hcls ho
      rw [← htext] at hrep
      rw [hrep] at h
      cases h
    | some p =>
      obtain ⟨ResPair, Ext⟩ := p
      have hrep := ReplaceBindPoint_found ResourceMap ExtResInfo _ idx (',' :: rest)
        (indexStart pre op clsLit ridLit) (digitsValue clsLit) (digitsValue ridLit) ResType _
        ResPair Ext rfl hv hcls ho
      rw [← htext] at hrep
      rw [hrep] at h
      cases h
  · intro h4 fuel
    rw [patchHandles_step _ _ _ _ hpos]
    simp only [hub h4]

set_option maxRecDepth 8000 in
/-- Witness of C29, amended: the call with the class operand `i8 7`. -/
theorem class_lookup_unchecked_witness :
    HandleSite
      "  %1 = call %dx.types.Handle @dx.op.createHandle(i32 57, i8 7, i32 0, i32 4, i1 false)\n".toList
      0 "  %1".toList "57".toList "7".toList "0".toList "4".toList " i1 false)\n".toList ∧
    ValidUIDs [("g_Tex".toList, ⟨7, 0, 8, .SRV, 0⟩)] [⟨3, 0, 0⟩] ∧
    4 ≤ digitsValue "7".toList ∧
    patchHandleStep [("g_Tex".toList, ⟨7, 0, 8, .SRV, 0⟩)] [⟨3, 0, 0⟩]
      "  %1 = call %dx.types.Handle @dx.op.createHandle(i32 57, i8 7, i32 0, i32 4, i1 false)\n".toList
      0 = .error .undefinedBehaviour :=
  have hsite : HandleSite
      "  %1 = call %dx.types.Handle @dx.op.createHandle(i32 57, i8 7, i32 0, i32 4, i1 false)\n".toList
      0 "  %1".toList "57".toList "7".toList "0".toList "4".toList " i1 false)\n".toList :=
    ⟨by decide, by decide, by decide, by decide, by decide, by decide, by decide, by decide,
      by decide⟩
  ⟨hsite, by decide, by decide,
    (class_lookup_unchecked [("g_Tex".toList, ⟨7, 0, 8, .SRV, 0⟩)] [⟨3, 0, 0⟩] _ 0 _ _ _ _ _ _
      hsite (by decide) (by decide) (by decide)).2.1.mpr (by decide)⟩

/-! ## Termination of the handle scan (C26) -/

theorem charAt_error (s : Str) (pos : Nat) (f : Fault) (h : charAt s pos = .error f) :
    f = .undefinedBehaviour := by
  unfold charAt at h
  split at h
  · cases h
  · cases h; rfl

theorem commaSpaceAt_error (DXIL : Str) (pos : Nat) (f : Fault)
    (h : commaSpaceAt DXIL pos = .error f) : f = .undefinedBehaviour := by
  unfold commaSpaceAt at h
  split at h
  · rename_i f0 hc
    cases h
    exact charAt_error _ _ _ hc
  · split at h
    · split at h
      · rename_i f0 hc
        cases h
        exact charAt_error _ _ _ hc
      · cases h
    · cases h

theorem substr_error (s : Str) (pos : Nat) (stop : Option Nat) (f : Fault)
    (h : substr s pos stop = .error f) : f = .thrown := by
  unfold substr at h
  split at h
  · split at h <;> cases h
  · cases h; rfl

theorem atoi_error (s : Str) (f : Fault) (h : atoi s = .error f) : f = .undefinedBehaviour := by
  unfold atoi at h
  split at h
  · cases h
  · split at h
    · cases h
    · cases h; rfl

theorem findByRange_error (ExtResInfo : TResourceMapExtendedInfo) (RangeId : Nat)
    (ResType : ShaderResType) (SrcIndex : Nat) (f : Fault) :
    ∀ (ResourceMap : TResourceBindingMap),
    findByRange ExtResInfo RangeId ResType SrcIndex ResourceMap = .error f →
    f = .undefinedBehaviour
  | [], h => by simp [findByRange] at h
  | nb :: rest, h => by
    unfold findByRange at h
    split at h
    · cases h; rfl
    · split at h
      · cases h
      · exact findByRange_error ExtResInfo RangeId ResType SrcIndex f rest h

theorem ReplaceBindPoint_error (ResourceMap : TResourceBindingMap)
    (ExtResInfo : TResourceMapExtendedInfo) (DXIL : Str) (ResClass RangeId s e : Nat) (f : Fault)
    (h : ReplaceBindPoint ResourceMap ExtResInfo DXIL ResClass RangeId s e = .error f) :
    f ≠ .outOfFuel := by
  unfold ReplaceBindPoint at h
  split at h
  · rename_i f0 hs
    cases h
    rw [substr_error _ _ _ _ hs]
    decide
  · split at h
    · rename_i f0 hs
      cases h
      rw [stoi_error _ _ hs]
      decide
    · (try simp only at h)
      split at h
      · cases h; decide
      · split at h
        · rename_i f0 hs
          cases h
          rw [findByRange_error _ _ _ _ _ _ hs]
          decide
        · cases h; decide
        · cases h

theorem patchDynamicIndex_error (ResourceMap : TResourceBindingMap)
    (ExtResInfo : TResourceMapExtendedInfo) (DXIL : Str) (ResClass RangeId IndexEndPos : Nat)
    (SrcIndexStr : Str) (f : Fault)
    (h : patchDynamicIndex ResourceMap ExtResInfo DXIL ResClass RangeId IndexEndPos SrcIndexStr =
      .error f) : f ≠ .outOfFuel := by
  unfold patchDynamicIndex at h
  (try simp only at h)
  split at h
  · cases h; decide
  · split at h
    · rename_i f0 hc
      cases h
      rw [charAt_error _ _ _ hc]
      decide
    · split at h
      · split at h
        · cases h; decide
        · split at h
          · rename_i f0 hc
            cases h
            rw [charAt_error _ _ _ hc]
            decide
          · split at h
            · split at h
              · cases h; decide
              · exact ReplaceBindPoint_error _ _ _ _ _ _ _ _ h
            · cases h; decide
      · split at h
        · cases h; decide
        · exact ReplaceBindPoint_error _ _ _ _ _ _ _ _ h

theorem readOperand_error (DXIL ty : Str) (pos : Nat) (f : Fault)
    (h : readOperand DXIL ty pos = .error f) : f ≠ .outOfFuel := by
  unfold readOperand at h
  split at h
  · rename_i f0 hc
    cases h
    rw [commaSpaceAt_error _ _ _ hc]
    decide
  · cases h; decide
  · (try simp only at h)
    split at h
    · split at h
      · cases h; decide
      · cases h
    · cases h; decide

theorem findAux_some_inv (pat : Str) : ∀ (xs : Str) (i m : Nat), findAux pat xs i = some m →
    i ≤ m ∧ m ≤ i + xs.length ∧ pat.isPrefixOf (xs.drop (m - i)) = true
  | [], i, m, h => by
    unfold findAux at h
    split at h
    · rename_i hp
      simp only [Option.some.injEq] at h
      subst h
      simpa using hp
    · cases h
  | c :: cs, i, m, h => by
    unfold findAux at h
    split at h
    · rename_i hp
      simp only [Option.some.injEq] at h
      subst h
      refine ⟨Nat.le_refl _, Nat.le_add_right _ _, ?_⟩
      rw [Nat.sub_self, List.drop_zero]
      exact hp
    · obtain ⟨h1, h2, h3⟩ := findAux_some_inv pat cs (i + 1) m h
      refine ⟨by omega, by rw [List.length_cons]; omega, ?_⟩
      have e : m - i = (m - (i + 1)) + 1 := by omega
      rw [e, List.drop_succ_cons]
      exact h3

/-- What `find` returns is an occurrence at or after the start of the search. -/
theorem find_some_inv (pat s : Str) (pos m : Nat) (h : find pat s pos = some m) :
    pos ≤ m ∧ m ≤ s.length ∧ occursAt pat s m = true := by
  unfold find at h
  split at h
  · obtain ⟨h1, h2, h3⟩ := findAux_some_inv pat _ _ _ h
    rw [List.length_drop] at h2
    refine ⟨h1, by omega, ?_⟩
    unfold occursAt
    rw [List.drop_drop] at h3
    have e : pos + (m - pos) = m := by omega
    rw [e] at h3
    exact h3
  · cases h

theorem readOperand_ok_pos (DXIL ty : Str) (pos s e : Nat)
    (h : readOperand DXIL ty pos = .ok (s, e)) : s = pos + 2 + ty.length ∧ s ≤ e := by
  have hn := readOperand_ok_inv DXIL ty pos s e h
  obtain ⟨a, lit, tail, _, _, he, _⟩ := NextArg_true_inv DXIL s e hn
  refine ⟨?_, by omega⟩
  unfold readOperand at h
  split at h
  · cases h
  · cases h
  · (try simp only at h)
    split at h
    · split at h
      · cases h
      · simp only [Except.ok.injEq, Prod.mk.injEq] at h
        exact h.1.symm
    · cases h

theorem patchHandleStep_error (ResourceMap : TResourceBindingMap)
    (ExtResInfo : TResourceMapExtendedInfo) (DXIL : Str) (pos : Nat) (f : Fault)
    (h : patchHandleStep ResourceMap ExtResInfo DXIL pos = .error f) : f ≠ .outOfFuel := by
  unfold patchHandleStep at h
  split at h
  · cases h
  · (try simp only at h)
    split at h
    · split at h
      · cases h; decide
      · split at h
        · rename_i f0 hr
          cases h
          exact readOperand_error _ _ _ _ hr
        · split at h
          · rename_i f0 hr
            cases h
            rw [atoi_error _ _ hr]
            decide
          · split at h
            · rename_i f0 hr
              cases h
              exact readOperand_error _ _ _ _ hr
            · split at h
              · rename_i f0 hr
                cases h
                rw [atoi_error _ _ hr]
                decide
              · split at h
                · rename_i f0 hr
                  cases h
                  exact readOperand_error _ _ _ _ hr
                · split at h
                  · rename_i f0 hr
                    cases h
                    rw [substr_error _ _ _ _ hr]
                    decide
                  · cases h; decide
                  · rename_i c cs hsub
                    split at h
                    · rename_i f0 hp
                      cases h
                      by_cases hc : c = '%'
                      · rw [if_pos hc] at hp
                        exact patchDynamicIndex_error _ _ _ _ _ _ _ _ hp
                      · rw [if_neg hc] at hp
                        exact ReplaceBindPoint_error _ _ _ _ _ _ _ _ hp
                    · cases h
    · cases h; decide

/-- Where a successful iteration of the handle loop resumes: it matched the
pattern at `m`, the first occurrence at or after `pos`, and goes on from a
position past the opcode keyword that follows the pattern; the text it leaves
comes from one call of `ReplaceBindPoint` on an operand `NextArg` scanned. -/
theorem patchHandleStep_resumes (ResourceMap : TResourceBindingMap)
    (ExtResInfo : TResourceMapExtendedInfo) (DXIL : Str) (pos : Nat) (D : Str) (p : Nat)
    (h : patchHandleStep ResourceMap ExtResInfo DXIL pos = .ok (some (D, p))) :
    ∃ m, find CallHandlePattern DXIL pos = some m ∧ m + 49 ≤ p := by
  unfold patchHandleStep at h
  split at h
  · cases h
  · rename_i m hfind
    refine ⟨m, hfind, ?_⟩
    (try simp only at h)
    split at h
    · split at h
      · cases h
      · rename_i p1 hn1
        have g1 := NextArg_true_inv _ _ _ hn1
        split at h
        · cases h
        · rename_i s2 p2 hr2
          have g2 := readOperand_ok_pos _ _ _ _ _ hr2
          split at h
          · cases h
          · split at h
            · cases h
            · rename_i s3 p3 hr3
              have g3 := readOperand_ok_pos _ _ _ _ _ hr3
              split at h
              · cases h
              · split at h
                · cases h
                · rename_i s4 p4 hr4
                  have g4 := readOperand_ok_pos _ _ _ _ _ hr4
                  split at h
                  · cases h
                  · cases h
                  · split at h
                    · cases h
                    · simp only [Except.ok.injEq, Option.some.injEq, Prod.mk.injEq] at h
                      obtain ⟨_, hp⟩ := h
                      obtain ⟨a, lit, tail, _, _, he, _⟩ := g1
                      rw [CallHandlePattern_length, i32_length] at he
                      omega
    · cases h

/-- What a successful iteration of the handle loop wrote: an operand `lit` that
ends at a comma became the decimal text of a 32-bit number. -/
theorem patchHandleStep_edit (ResourceMap : TResourceBindingMap)
    (ExtResInfo : TResourceMapExtendedInfo) (DXIL : Str) (pos : Nat) (D : Str) (p : Nat)
    (h : patchHandleStep ResourceMap ExtResInfo DXIL pos = .ok (some (D, p))) :
    ∃ a lit tail N, DXIL = a ++ lit ++ ',' :: tail ∧ lit ≠ [] ∧ N < 4294967296 ∧
      D = a ++ to_string N ++ ',' :: tail := by
  obtain ⟨cls, rid, s, e, hn, hrep⟩ := patchHandleStep_ok_inv _ _ _ _ _ _ h
  obtain ⟨a, lit, tail, htext, hlen, he, _⟩ := NextArg_true_inv DXIL s e hn
  rw [htext, he] at hrep
  obtain ⟨v, ResType, ResPair, Ext, hv, _, _, hD⟩ :=
    ReplaceBindPoint_ok_inv ResourceMap ExtResInfo a lit (',' :: tail) s cls rid D hlen.symm hrep
  refine ⟨a, lit, tail, _, htext, ?_, Nat.mod_lt _ (by decide), hD⟩
  intro hl
  rw [hl] at hv
  have hnil : stoi [] = .error .thrown := by decide
  rw [hnil] at hv
  cases hv

theorem pattern_no_digit : ∀ c ∈ CallHandlePattern, isDigit c = false := by decide

/-- An occurrence of a pattern without digits in a text where a piece was
replaced by a nonempty run of digits lies wholly before the new piece or wholly
after it, and was an occurrence in the old text. -/
theorem occursAt_replaced (pat a lit new t : Str) (j : Nat) (hne : pat ≠ [])
    (hpat : ∀ c ∈ pat, isDigit c = false) (hnn : new ≠ [])
    (hnew : ∀ c ∈ new, isDigit c = true)
    (h : occursAt pat (a ++ new ++ t) j = true) :
    (j + pat.length ≤ a.length ∧ occursAt pat (a ++ lit ++ t) j = true) ∨
    (a.length + new.length ≤ j ∧
      occursAt pat (a ++ lit ++ t) (j - new.length + lit.length) = true) := by
  by_cases h1 : a.length + new.length ≤ j
  · right
    refine ⟨h1, ?_⟩
    obtain ⟨k, rfl⟩ : ∃ k, j = (a ++ new).length + k :=
      ⟨j - (a.length + new.length), by rw [List.length_append]; omega⟩
    rw [occursAt_append_right] at h
    have e : (a ++ new).length + k - new.length + lit.length = (a ++ lit).length + k := by
      simp only [List.length_append]; omega
    rw [e, occursAt_append_right]
    exact h
  · by_cases h2 : j + pat.length ≤ a.length
    · left
      refine ⟨h2, ?_⟩
      rw [List.append_assoc] at h ⊢
      rw [occursAt_append_of_le _ _ _ _ h2] at h
      rw [occursAt_append_of_le _ _ _ _ h2]
      exact h
    · exfalso
      obtain ⟨u, hu⟩ := occursAt_inv _ _ _ h
      have hk : ∃ k, j ≤ k ∧ k < j + pat.length ∧ a.length ≤ k ∧ k < a.length + new.length := by
        have hp : 0 < pat.length := List.length_pos.mpr hne
        have hq : 0 < new.length := List.length_pos.mpr hnn
        by_cases hja : a.length ≤ j
        · exact ⟨j, Nat.le_refl _, by omega, hja, by omega⟩
        · exact ⟨a.length, by omega, by omega, Nat.le_refl _, by omega⟩
      obtain ⟨k, hk1, hk2, hk3, hk4⟩ := hk
      have hi : k - j < pat.length := by omega
      have g1 : (List.drop j (a ++ new ++ t))[k - j]? = some (pat[k - j]) := by
        rw [hu, List.getElem?_append_left hi, List.getElem?_eq_getElem hi]
      have hin : k - a.length < new.length := by omega
      have g2 : (List.drop j (a ++ new ++ t))[k - j]? = some (new[k - a.length]) := by
        rw [List.getElem?_drop]
        have e : j + (k - j) = k := by omega
        rw [e, List.append_assoc, List.getElem?_append_right hk3,
          List.getElem?_append_left hin, List.getElem?_eq_getElem hin]
      rw [g1] at g2
      simp only [Option.some.injEq] at g2
      have d1 := hpat _ (List.getElem_mem hi)
      have d2 := hnew _ (List.getElem_mem hin)
      rw [g2, d2] at d1
      cases d1

/-- Progress of the handle loop. A successful iteration from `pos` matched the
pattern at `m ≥ pos` and resumes at `p > m`; the text not yet scanned is
shorter than before; and every occurrence of the pattern at or after `p` in the
new text is an occurrence of the old text that starts after `m`. -/
theorem patchHandleStep_progress (ResourceMap : TResourceBindingMap)
    (ExtResInfo : TResourceMapExtendedInfo) (DXIL : Str) (pos : Nat) (D : Str) (p : Nat)
    (h : patchHandleStep ResourceMap ExtResInfo DXIL pos = .ok (some (D, p))) :
    ∃ m, find CallHandlePattern DXIL pos = some m ∧ pos ≤ m ∧ m < p ∧
      D.length - p < DXIL.length - pos ∧
      ∀ j, p ≤ j → occursAt CallHandlePattern D j = true →
        ∃ j0, m < j0 ∧ occursAt CallHandlePattern DXIL j0 = true := by
  obtain ⟨m, hfind, hmp⟩ := patchHandleStep_resumes _ _ _ _ _ _ h
  obtain ⟨a, lit, tail, N, htext, hlit, hN, hD⟩ := patchHandleStep_edit _ _ _ _ _ _ h
  obtain ⟨hpm, hml, hocc⟩ := find_some_inv _ _ _ _ hfind
  have hlen := to_string_length_le N hN
  have hlit1 : 0 < lit.length := List.length_pos.mpr hlit
  have hm45 : m + 45 ≤ DXIL.length := by
    rcases occursAt_length_le _ _ _ hocc with hle | hnil
    · rw [CallHandlePattern_length] at hle
      exact hle
    · exact absurd hnil (by decide)
  refine ⟨m, hfind, hpm, by omega, ?_, ?_⟩
  · rw [hD, htext]
    simp only [List.length_append, List.length_cons]
    rw [htext] at hm45
    simp only [List.length_append, List.length_cons] at hm45
    omega
  · intro j hj hoj
    rw [hD] at hoj
    rcases occursAt_replaced CallHandlePattern a lit (to_string N) (',' :: tail) j (by decide)
      pattern_no_digit (to_string_ne_nil N) (to_string_digitsEnd N).2.1 hoj with ⟨_, ho⟩ | ⟨_, ho⟩
    · exact ⟨j, by omega, by rw [htext]; exact ho⟩
    · exact ⟨j - (to_string N).length + lit.length, by omega, by rw [htext]; exact ho⟩

/-- With more fuel than characters left to scan, the handle loop does not run
out of fuel, and more fuel does not change its result. -/
theorem patchHandles_fuel (ResourceMap : TResourceBindingMap) :
    ∀ (fuel : Nat) (st : PatchState) (pos : Nat), st.DXIL.length - pos < fuel →
    (∀ k, patchHandles ResourceMap (fuel + k) st pos = patchHandles ResourceMap fuel st pos) ∧
    (∀ e, patchHandles ResourceMap fuel st pos = .error e → e.1 ≠ .outOfFuel)
  | 0, _, _, h => absurd h (Nat.not_lt_zero _)
  | fuel + 1, st, pos, h => by
    by_cases hpos : pos < st.DXIL.length
    · have hk : ∀ k, fuel + 1 + k = (fuel + k) + 1 := fun k => by omega
      cases hs : patchHandleStep ResourceMap st.ExtResInfo st.DXIL pos with
      | error f =>
        constructor
        · intro k
          rw [hk, patchHandles_step _ _ _ _ hpos, patchHandles_step _ _ _ _ hpos, hs]
        · intro e he
          rw [patchHandles_step _ _ _ _ hpos, hs] at he
          simp only [Except.error.injEq] at he
          rw [← he]
          exact patchHandleStep_error _ _ _ _ _ hs
      | ok o =>
        cases o with
        | none =>
          constructor
          · intro k
            rw [hk, patchHandles_step _ _ _ _ hpos, patchHandles_step _ _ _ _ hpos, hs]
          · intro e he
            rw [patchHandles_step _ _ _ _ hpos, hs] at he
            cases he
        | some r =>
          obtain ⟨D, p⟩ := r
          obtain ⟨m, _, _, _, hlt, _⟩ := patchHandleStep_progress _ _ _ _ _ _ hs
          have ih := patchHandles_fuel ResourceMap fuel ⟨st.ExtResInfo, D⟩ p
            (by simp only; omega)
          constructor
          · intro k
            rw [hk, patchHandles_step _ _ _ _ hpos, patchHandles_step _ _ _ _ hpos, hs]
            exact ih.1 k
          · intro e he
            rw [patchHandles_step _ _ _ _ hpos, hs] at he
            exact ih.2 e he
    · constructor
      · intro k
        have hk : fuel + 1 + k = (fuel + k) + 1 := by omega
        rw [hk, patchHandles, patchHandles, if_neg hpos, if_neg hpos]
      · intro e he
        rw [patchHandles, if_neg hpos] at he
        cases he

/-- C26 (termination of the handle scan). For every text and binding map the
loop of `PatchResourceHandle` ends, by finishing or by failing: the bound of one
iteration per character, plus one, is never exhausted, and a larger bound gives
the same result. Every iteration that goes on matched the pattern at the first
occurrence `m` at or after `pos` and resumes at a position `p > m`, with less
text left to scan than before, whether the replacement was made in place or in
an earlier addition and whether it is longer or shorter than the old literal;
and every occurrence of the pattern at or after `p` in the new text is an
occurrence of the old text that starts after `m`: the call just matched is not
matched again and the replacement creates no occurrence. -/
theorem handle_scan_terminates (ResourceMap : TResourceBindingMap) (st : PatchState) :
    (∀ e, PatchResourceHandle ResourceMap st = .error e → e.1 ≠ .outOfFuel) ∧
    (∀ k, patchHandles ResourceMap (st.DXIL.length + 1 + k) st 0 =
      PatchResourceHandle ResourceMap st) ∧
    (∀ (pos : Nat) (D : Str) (p : Nat),
      patchHandleStep ResourceMap st.ExtResInfo st.DXIL pos = .ok (some (D, p)) →
      ∃ m, find CallHandlePattern st.DXIL pos = some m ∧ pos ≤ m ∧ m < p ∧
        D.length - p < st.DXIL.length - pos ∧
        ∀ j, p ≤ j → occursAt CallHandlePattern D j = true →
          ∃ j0, m < j0 ∧ occursAt CallHandlePattern st.DXIL j0 = true) := by
  have h := patchHandles_fuel ResourceMap (st.DXIL.length + 1) st 0 (by omega)
  exact ⟨h.2, h.1, fun pos D p hs => patchHandleStep_progress _ _ _ _ _ _ hs⟩

/-! ## Termination of the positional scan (C25) -/

theorem findFirstNotOfAux_ge (set : Str) : ∀ (xs : Str) (i e : Nat),
    findFirstNotOfAux set xs i = some e → i ≤ e
  | [], _, _, h => by simp [findFirstNotOfAux] at h
  | c :: cs, i, e, h => by
    unfold findFirstNotOfAux at h
    split at h
    · have := findFirstNotOfAux_ge set cs (i + 1) e h
      omega
    · simp only [Option.some.injEq] at h
      omega

theorem ReadRecord_error (DXIL : Str) (pos : Nat) (f : Fault)
    (h : ReadRecord DXIL pos = .error f) : f ≠ .outOfFuel := by
  unfold ReadRecord at h
  split at h
  · rename_i f0 hc
    cases h
    rw [commaSpaceAt_error _ _ _ hc]
    decide
  · cases h
  · (try simp only at h)
    split at h
    · split at h
      · rename_i f0 hs
        cases h
        rw [substr_error _ _ _ _ hs]
        decide
      · split at h
        · rename_i f0 hs
          cases h
          rw [stoi_error _ _ hs]
          decide
        · cases h
    · cases h

/-- Where a failed `ReadRecord` stops: at `pos` or later. -/
theorem ReadRecord_failed_pos (DXIL : Str) (pos q : Nat)
    (h : ReadRecord DXIL pos = .ok (.failed q)) : pos ≤ q := by
  unfold ReadRecord at h
  split at h
  · cases h
  · simp only [Except.ok.injEq, ReadResult.failed.injEq] at h
    omega
  · (try simp only at h)
    split at h
    · split at h
      · cases h
      · split at h
        · cases h
        · cases h
    · simp only [Except.ok.injEq, ReadResult.failed.injEq] at h
      omega

/-- Where a successful `ReadRecord` stops: at the end of the field, at least six
characters further. -/
theorem ReadRecord_read_pos (DXIL : Str) (pos e v : Nat)
    (h : ReadRecord DXIL pos = .ok (.read (some e) v)) : pos + 6 ≤ e := by
  unfold ReadRecord at h
  split at h
  · cases h
  · cases h
  · (try simp only at h)
    split at h
    · split at h
      · cases h
      · split at h
        · cases h
        · simp only [Except.ok.injEq, ReadResult.read.injEq] at h
          have := findFirstNotOfAux_ge _ _ _ _ h.1
          simp only [i32_length] at this
          omega
    · cases h

theorem ReplaceRecord_error (DXIL : Str) (pos : Nat) (new : Str) (expected : Nat) (f : Fault)
    (h : ReplaceRecord DXIL pos new expected = .error f) : f ≠ .outOfFuel := by
  unfold ReplaceRecord at h
  split at h
  · rename_i f0 hc
    cases h
    rw [commaSpaceAt_error _ _ _ hc]
    decide
  · cases h; decide
  · (try simp only at h)
    split at h
    · split at h
      · rename_i f0 hs
        cases h
        rw [substr_error _ _ _ _ hs]
        decide
      · split at h
        · rename_i f0 hs
          cases h
          rw [stoi_error _ _ hs]
          decide
        · split at h
          · cases h
          · cases h; decide
    · cases h; decide

theorem findBySource_error (ExtResInfo : TResourceMapExtendedInfo) (BindPoint Space : Nat)
    (ResType : ShaderResType) (f : Fault) : ∀ (ResourceMap : TResourceBindingMap),
    findBySource ExtResInfo BindPoint Space ResType ResourceMap = .error f →
    f = .undefinedBehaviour
  | [], h => by simp [findBySource] at h
  | nb :: rest, h => by
    unfold findBySource at h
    split at h
    · cases h; rfl
    · split at h
      · cases h
      · exact findBySource_error ExtResInfo BindPoint Space ResType f rest h

theorem patchAnonymousStep_error (ResourceMap : TResourceBindingMap) (st : PatchState) (pos : Nat)
    (f : Fault) (s : PatchState) (h : patchAnonymousStep ResourceMap st pos = .error (f, s)) :
    f ≠ .outOfFuel := by
  unfold patchAnonymousStep at h
  split at h
  · cases h
  · (try simp only at h)
    split at h
    · cases h; decide
    · split at h
      · split at h
        · cases h; decide
        · split at h
          · rename_i f0 hs
            cases h
            rw [atoi_error _ _ hs]
            decide
          · split at h
            · rename_i f0 hs
              cases h
              rw [commaSpaceAt_error _ _ _ hs]
              decide
            · cases h; decide
            · split at h
              · cases h
              · split at h
                · rename_i f0 hs
                  cases h
                  exact ReadRecord_error _ _ _ hs
                · cases h
                · cases h; decide
                · split at h
                  · rename_i f0 hs
                    cases h
                    exact ReadRecord_error _ _ _ hs
                  · cases h
                  · split at h
                    · rename_i f0 hs
                      cases h
                      rw [findBySource_error _ _ _ _ _ _ hs]
                      decide
                    · cases h; decide
                    · split at h
                      · rename_i f0 hs
                        cases h
                        exact ReplaceRecord_error _ _ _ _ _ hs
                      · split at h
                        · rename_i f0 hs
                          cases h
                          exact ReplaceRecord_error _ _ _ _ _ hs
                        · cases h
      · cases h

/-- Where a successful iteration of the positional loop resumes: it examined
the marker at `m`, the first one at or after `pos`; either it wrote nothing and
goes on from the closing comma of the marker or later, or it replaced the two
fields that start at that comma and goes on from the end of the second one. -/
theorem patchAnonymousStep_resumes (ResourceMap : TResourceBindingMap) (st st' : PatchState)
    (pos pos' : Nat) (h : patchAnonymousStep ResourceMap st pos = .ok (some (st', pos'))) :
    ∃ m, find EmptyResDecl st.DXIL pos = some m ∧
      ((st' = st ∧ m + 5 ≤ pos') ∨
        ∃ (n1 n2 : Str) (e1 e2 : Nat) (D1 : Str) (p1 : Nat),
          ReplaceRecord st.DXIL (m + 5) n1 e1 = .ok (D1, p1) ∧
          ReplaceRecord D1 p1 n2 e2 = .ok (st'.DXIL, pos')) := by
  unfold patchAnonymousStep at h
  split at h
  · cases h
  · rename_i m hfind
    refine ⟨m, hfind, ?_⟩
    have hbrs : m + EmptyResDecl.length - 1 = m + 5 := by rw [EmptyResDecl_length]; rfl
    (try simp only at h)
    rw [hbrs] at h
    split at h
    · cases h
    · split at h
      · split at h
        · cases h
        · split at h
          · cases h
          · split at h
            · cases h
            · cases h
            · split at h
              · simp only [Except.ok.injEq, Option.some.injEq, Prod.mk.injEq] at h
                exact Or.inl ⟨h.1.symm, by omega⟩
              · split at h
                · cases h
                · rename_i q hq
                  simp only [Except.ok.injEq, Option.some.injEq, Prod.mk.injEq] at h
                  have := ReadRecord_failed_pos _ _ _ hq
                  exact Or.inl ⟨h.1.symm, by omega⟩
                · cases h
                · rename_i e1 Space hr1
                  have g1 := ReadRecord_read_pos _ _ _ _ hr1
                  split at h
                  · cases h
                  · rename_i q hq
                    simp only [Except.ok.injEq, Option.some.injEq, Prod.mk.injEq] at h
                    have := ReadRecord_failed_pos _ _ _ hq
                    exact Or.inl ⟨h.1.symm, by omega⟩
                  · split at h
                    · cases h
                    · cases h
                    · rename_i ResPair Ext hf
                      split at h
                      · cases h
                      · rename_i D1 p1 hr1
                        split at h
                        · cases h
                        · rename_i D2 p2 hr2
                          simp only [Except.ok.injEq, Option.some.injEq, Prod.mk.injEq] at h
                          obtain ⟨hst, hp⟩ := h
                          subst hp
                          subst hst
                          exact Or.inr ⟨_, _, _, _, D1, p1, hr1, hr2⟩
      · simp only [Except.ok.injEq, Option.some.injEq, Prod.mk.injEq] at h
        exact Or.inl ⟨h.1.symm, by omega⟩

theorem occursAt_of_drop_eq (pat s s' : Str) (p q j : Nat) (h : s'.drop p = s.drop q)
    (hj : p ≤ j) : occursAt pat s' j = occursAt pat s (q + (j - p)) := by
  unfold occursAt
  have e : j = p + (j - p) := by omega
  conv_lhs => rw [e, ← List.drop_drop, h, List.drop_drop]

/-- Progress of the positional loop. A successful iteration from `pos` examined
the marker at `m ≥ pos` and resumes at `p` with `m + 5 ≤ p`, the closing comma
of the marker or later; the text up to that comma is as before; the text from
`p` on is the old text from some `q` on, `m + 5 ≤ q`, so that less text is left
to scan than before and every marker at or after `p` in the new text is a
marker of the old text that starts after `m`. -/
theorem patchAnonymousStep_progress (ResourceMap : TResourceBindingMap) (st st' : PatchState)
    (pos p : Nat) (h : patchAnonymousStep ResourceMap st pos = .ok (some (st', p))) :
    ∃ m, find EmptyResDecl st.DXIL pos = some m ∧ pos ≤ m ∧ m + 5 ≤ p ∧
      st'.DXIL.take (m + 5) = st.DXIL.take (m + 5) ∧
      st'.DXIL.length - p < st.DXIL.length - pos ∧
      ∀ j, p ≤ j → occursAt EmptyResDecl st'.DXIL j = true →
        ∃ j0, m < j0 ∧ occursAt EmptyResDecl st.DXIL j0 = true := by
  obtain ⟨m, hfind, hcases⟩ := patchAnonymousStep_resumes _ _ _ _ _ h
  obtain ⟨hpm, hml, hocc⟩ := find_some_inv _ _ _ _ hfind
  have hm6 : m + 6 ≤ st.DXIL.length := by
    rcases occursAt_length_le _ _ _ hocc with hle | hnil
    · rw [EmptyResDecl_length] at hle
      exact hle
    · exact absurd hnil (by decide)
  have key : ∃ q, m + 5 ≤ q ∧ m + 5 ≤ p ∧ st'.DXIL.drop p = st.DXIL.drop q ∧
      st'.DXIL.take (m + 5) = st.DXIL.take (m + 5) := by
    rcases hcases with ⟨hst, hle⟩ | ⟨n1, n2, e1, e2, D1, p1, hr1, hr2⟩
    · subst hst
      exact ⟨p, hle, hle, rfl, rfl⟩
    · obtain ⟨a, sp, bp, tail, vs, vb, ht, hl, _, _, _, _, _, _, hD, hp⟩ :=
        ReplaceRecord_twice_inv _ _ _ _ _ _ _ _ _ _ hr1 hr2
      refine ⟨m + 5 + 6 + sp.length + 6 + bp.length, by omega, by omega, ?_, ?_⟩
      · rw [hD, ht]
        have l1 : (a ++ ", i32 ".toList ++ n1 ++ ", i32 ".toList ++ n2).length = p := by
          rw [hp]; simp only [List.length_append, commaI32_length, hl]
        have l2 : (a ++ ", i32 ".toList ++ sp ++ ", i32 ".toList ++ bp).length =
            m + 5 + 6 + sp.length + 6 + bp.length := by
          simp only [List.length_append, commaI32_length, hl]
        rw [drop_append_len _ _ _ l1.symm, drop_append_len _ _ _ l2.symm]
      · rw [hD, ht]
        simp only [List.append_assoc]
        rw [List.take_append_of_le_length (by omega), List.take_append_of_le_length (by omega)]
  obtain ⟨q, hq, hp5, hdrop, htake⟩ := key
  have hlen : st'.DXIL.length - p = st.DXIL.length - q := by
    have := congrArg List.length hdrop
    simpa only [List.length_drop] using this
  refine ⟨m, hfind, hpm, hp5, htake, by omega, ?_⟩
  intro j hj hoj
  rw [occursAt_of_drop_eq _ _ _ _ _ _ hdrop hj] at hoj
  exact ⟨q + (j - p), by omega, hoj⟩

theorem patchNamedRecord_error (ResPair : Str × BindInfo) (st : PatchState) (f : Fault)
    (s : PatchState) (h : patchNamedRecord ResPair st = .error (f, s)) : f ≠ .outOfFuel := by
  unfold patchNamedRecord at h
  split at h
  · cases h; decide
  · (try simp only at h)
    split at h
    · cases h
    · split at h
      · cases h; decide
      · split at h
        · split at h
          · cases h; decide
          · split at h
            · rename_i f0 hs
              cases h
              rw [atoi_error _ _ hs]
              decide
            · split at h
              · rename_i f0 hs
                cases h
                exact ReplaceRecord_error _ _ _ _ _ hs
              · split at h
                · rename_i f0 hs
                  cases h
                  exact ReplaceRecord_error _ _ _ _ _ hs
                · cases h
        · cases h; decide

theorem patchNamedRecords_error : ∀ (ResourceMap : TResourceBindingMap) (st : PatchState)
    (f : Fault) (s : PatchState), patchNamedRecords ResourceMap st = .error (f, s) →
    f ≠ .outOfFuel
  | [], _, _, _, h => by simp [patchNamedRecords] at h
  | ResPair :: rest, st, f, s, h => by
    unfold patchNamedRecords at h
    split at h
    · rename_i e0 he
      cases h
      exact patchNamedRecord_error _ _ _ _ he
    · exact patchNamedRecords_error rest _ f s h

/-- With more fuel than characters left to scan, the positional loop does not
run out of fuel, and more fuel does not change its result. -/
theorem patchAnonymousRecords_fuel (ResourceMap : TResourceBindingMap) :
    ∀ (fuel : Nat) (st : PatchState) (pos : Nat), st.DXIL.length - pos < fuel →
    (∀ k, patchAnonymousRecords ResourceMap (fuel + k) st pos =
      patchAnonymousRecords ResourceMap fuel st pos) ∧
    (∀ f s, patchAnonymousRecords ResourceMap fuel st pos = .error (f, s) → f ≠ .outOfFuel)
  | 0, _, _, h => absurd h (Nat.not_lt_zero _)
  | fuel + 1, st, pos, h => by
    by_cases hpos : pos < st.DXIL.length
    · have hk : ∀ k, fuel + 1 + k = (fuel + k) + 1 := fun k => by omega
      cases hs : patchAnonymousStep ResourceMap st pos with
      | error e =>
        obtain ⟨f0, s0⟩ := e
        constructor
        · intro k
          rw [hk, patchAnonymousRecords_step _ _ _ _ hpos, patchAnonymousRecords_step _ _ _ _ hpos,
            hs]
        · intro f s he
          rw [patchAnonymousRecords_step _ _ _ _ hpos, hs] at he
          simp only [Except.error.injEq, Prod.mk.injEq] at he
          rw [← he.1]
          exact patchAnonymousStep_error _ _ _ _ _ hs
      | ok o =>
        cases o with
        | none =>
          constructor
          · intro k
            rw [hk, patchAnonymousRecords_step _ _ _ _ hpos,
              patchAnonymousRecords_step _ _ _ _ hpos, hs]
          · intro f s he
            rw [patchAnonymousRecords_step _ _ _ _ hpos, hs] at he
            cases he
        | some r =>
          obtain ⟨st', p⟩ := r
          obtain ⟨m, _, _, _, _, hlt, _⟩ := patchAnonymousStep_progress _ _ _ _ _ hs
          have ih := patchAnonymousRecords_fuel ResourceMap fuel st' p (by omega)
          constructor
          · intro k
            rw [hk, patchAnonymousRecords_step _ _ _ _ hpos,
              patchAnonymousRecords_step _ _ _ _ hpos, hs]
            exact ih.1 k
          · intro f s he
            rw [patchAnonymousRecords_step _ _ _ _ hpos, hs] at he
            exact ih.2 f s he
    · constructor
      · intro k
        have hk : fuel + 1 + k = (fuel + k) + 1 := by omega
        rw [hk, patchAnonymousRecords, patchAnonymousRecords, if_neg hpos, if_neg hpos]
      · intro f s he
        rw [patchAnonymousRecords, if_neg hpos] at he
        cases he

/-- C25 (termination of the positional scan). For every text and binding map
the second loop of `PatchResourceDeclaration` ends, by finishing or by failing:
the bound of one iteration per character, plus one, is never exhausted, a
larger bound gives the same result, and so `PatchResourceDeclaration` itself
never stops for lack of fuel. Every iteration that goes on examined the marker
at the first occurrence `m` at or after `pos` and resumes at a position `p`
with `m + 5 ≤ p`, the closing comma of the marker or later, on the skip paths,
the failed-read paths and the patched path alike; the text up to that comma is
as before, less text is left to scan than before although a patch changes the
length of the text, and every marker at or after `p` in the new text is a
marker of the old text that starts after `m`: no marker is examined twice. -/
theorem positional_scan_terminates (ResourceMap : TResourceBindingMap) (st : PatchState) :
    (∀ f s, patchAnonymousRecords ResourceMap (st.DXIL.length + 1) st 0 = .error (f, s) →
      f ≠ .outOfFuel) ∧
    (∀ k, patchAnonymousRecords ResourceMap (st.DXIL.length + 1 + k) st 0 =
      patchAnonymousRecords ResourceMap (st.DXIL.length + 1) st 0) ∧
    (∀ f s, PatchResourceDeclaration ResourceMap st = .error (f, s) → f ≠ .outOfFuel) ∧
    (∀ (pos : Nat) (st' : PatchState) (p : Nat),
      patchAnonymousStep ResourceMap st pos = .ok (some (st', p)) →
      ∃ m, find EmptyResDecl st.DXIL pos = some m ∧ pos ≤ m ∧ m + 5 ≤ p ∧
        st'.DXIL.take (m + 5) = st.DXIL.take (m + 5) ∧
        st'.DXIL.length - p < st.DXIL.length - pos ∧
        ∀ j, p ≤ j → occursAt EmptyResDecl st'.DXIL j = true →
          ∃ j0, m < j0 ∧ occursAt EmptyResDecl st.DXIL j0 = true) := by
  have h := patchAnonymousRecords_fuel ResourceMap (st.DXIL.length + 1) st 0 (by omega)
  refine ⟨h.2, h.1, ?_, fun pos st' p hs => patchAnonymousStep_progress _ _ _ _ _ hs⟩
  intro f s he
  unfold PatchResourceDeclaration at he
  cases hn : patchNamedRecords ResourceMap st with
  | error e =>
    obtain ⟨f0, s0⟩ := e
    rw [hn] at he
    simp only [Except.error.injEq, Prod.mk.injEq] at he
    rw [← he.1]
    exact patchNamedRecords_error _ _ _ _ hn
  | ok st1 =>
    rw [hn] at he
    exact (patchAnonymousRecords_fuel ResourceMap (st1.DXIL.length + 1) st1 0 (by omega)).2 f s he

/-! ## The declaration pass: where a patch was made -/

theorem rfindAux_some_inv (pat s : Str) : ∀ (i p : Nat), rfindAux pat s i = some p →
    p ≤ i ∧ occursAt pat s p = true ∧ ∀ j, p < j → j ≤ i → occursAt pat s j = false
  | 0, p, h => by
    unfold rfindAux at h
    split at h
    · rename_i ho
      simp only [Option.some.injEq] at h
      subst h
      exact ⟨Nat.le_refl _, ho, fun j h1 h2 => absurd h1 (by omega)⟩
    · cases h
  | i + 1, p, h => by
    unfold rfindAux at h
    split at h
    · rename_i ho
      simp only [Option.some.injEq] at h
      subst h
      exact ⟨Nat.le_refl _, ho, fun j h1 h2 => absurd h1 (by omega)⟩
    · rename_i hno
      obtain ⟨h1, h2, h3⟩ := rfindAux_some_inv pat s i p h
      refine ⟨by omega, h2, ?_⟩
      intro j hj hle
      by_cases hji : j = i + 1
      · rw [hji]
        simpa using hno
      · exact h3 j hj (by omega)

/-- What `rfind` returns is the last occurrence that starts at or before `pos`. -/
theorem rfind_some_inv (pat s : Str) (pos p : Nat) (hne : pat ≠ [])
    (h : rfind pat s pos = some p) :
    p ≤ pos ∧ occursAt pat s p = true ∧ ∀ j, p < j → j ≤ pos → occursAt pat s j = false := by
  unfold rfind at h
  split at h
  · obtain ⟨h1, h2, h3⟩ := rfindAux_some_inv pat s _ p h
    refine ⟨by omega, h2, ?_⟩
    intro j hj hle
    by_cases hjm : j ≤ s.length - pat.length
    · exact h3 j hj (by omega)
    · cases ho : occursAt pat s j with
      | false => rfl
      | true =>
        rcases occursAt_length_le _ _ _ ho with hl | hn
        · omega
        · exact absurd hn hne
  · cases h

/-- The text up to the end of an occurrence. -/
theorem take_of_occursAt (pat s : Str) (q : Nat) (h : occursAt pat s q = true) :
    s.take (q + pat.length) = s.take q ++ pat := by
  obtain ⟨r, hr⟩ := occursAt_inv _ _ _ h
  by_cases hq : q ≤ s.length
  · have e : s = s.take q ++ (pat ++ r) := by
      rw [← hr, List.take_append_drop]
    conv_lhs => rw [e]
    rw [← List.append_assoc]
    rw [take_append_len _ _ _ (by rw [List.length_append, List.length_take]; omega)]
  · rw [List.drop_eq_nil_of_le (by omega)] at hr
    have hp : pat = [] := (List.append_eq_nil.mp hr.symm).1
    subst hp
    simp

/-- A record start `= !{i32 ` at `p` ends before a quoted name or an empty-name
marker that starts at or after `p`. -/
theorem start_before (T : Str) (p E : Nat) (c : Char) (r : Str)
    (hs : occursAt ResourceRecStart T p = true) (hi : occursAt i32 T (p + 4) = true)
    (hle : p ≤ E) (hE : T.drop E = c :: r) (hc : c = ',' ∨ (c = '!' ∧ r.head? = some '\x22')) :
    p + 8 ≤ E := by
  by_contra hcon
  obtain ⟨r1, hr1⟩ := occursAt_inv _ _ _ hs
  obtain ⟨r2, hr2⟩ := occursAt_inv _ _ _ hi
  rw [← List.drop_drop, hr1, drop_append_len ResourceRecStart r1 4 rfl] at hr2
  rw [hr2] at hr1
  obtain ⟨k, hk⟩ : ∃ k, E = p + k := ⟨E - p, by omega⟩
  subst hk
  rw [← List.drop_drop, hr1] at hE
  have e1 : ResourceRecStart = ['=', ' ', '!', '\x7b'] := rfl
  have e2 : i32 = ['i', '3', '2', ' '] := rfl
  rw [e1, e2] at hE
  have hlt : k < 8 := by omega
  interval_cases k <;>
    · simp at hE
      rcases hc with hc | ⟨hc, hq⟩
      · exact absurd (hE.1.trans hc) (by decide)
      · first
          | exact absurd (hE.1.trans hc) (by decide)
          | (rw [← hE.2] at hq; simp at hq)

/-- What an iteration of the named loop that wrote did: it found the quoted
name at `E`, the last record start `= !{` at or before it at `p`, followed by
`i32 `, and replaced the two fields that follow the name. -/
theorem patchNamedRecord_patched_inv (ResPair : Str × BindInfo) (st st' : PatchState)
    (h : patchNamedRecord ResPair st = .ok st') :
    st' = st ∨
    ∃ Ext E p id D1 p1 D2 p2, st.ExtResInfo[ResPair.2.UID]? = some Ext ∧
      find (DxilName ResPair.1) st.DXIL 0 = some E ∧
      rfind ResourceRecStart st.DXIL E = some p ∧
      occursAt i32 st.DXIL (p + 4) = true ∧
      ReplaceRecord st.DXIL (E + (DxilName ResPair.1).length) (to_string ResPair.2.Space)
        Ext.SrcSpace = .ok (D1, p1) ∧
      ReplaceRecord D1 p1 (to_string ResPair.2.BindPoint) Ext.SrcBindPoint = .ok (D2, p2) ∧
      st' = ⟨setRecordId st.ExtResInfo ResPair.2.UID id, D2⟩ := by
  unfold patchNamedRecord at h
  split at h
  · cases h
  · rename_i Ext hExt
    (try simp only at h)
    split at h
    · simp only [Except.ok.injEq] at h
      exact Or.inl h.symm
    · rename_i E hfind
      split at h
      · cases h
      · rename_i p hrfind
        split at h
        · rename_i hocc
          split at h
          · cases h
          · split at h
            · cases h
            · split at h
              · cases h
              · rename_i D1 p1 hr1
                split at h
                · cases h
                · rename_i D2 p2 hr2
                  simp only [Except.ok.injEq] at h
                  exact Or.inr ⟨Ext, E, p, _, D1, p1, D2, p2, hExt, hfind, hrfind, hocc, hr1, hr2,
                    h.symm⟩
        · cases h

/-- What an iteration of the positional loop that wrote did: it found the
marker at `m`, the last record start `= !{` at or before it at `p`, followed by
`i32 `, and replaced the two fields that start at the closing comma of the
marker, with the values of an entry of the map. -/
theorem patchAnonymousStep_patched_inv (ResourceMap : TResourceBindingMap) (st st' : PatchState)
    (pos pos' : Nat) (h : patchAnonymousStep ResourceMap st pos = .ok (some (st', pos'))) :
    st' = st ∨
    ∃ ResPair Ext m p id D1 p1 D2, ResPair ∈ ResourceMap ∧
      st.ExtResInfo[ResPair.2.UID]? = some Ext ∧
      find EmptyResDecl st.DXIL pos = some m ∧
      rfind ResourceRecStart st.DXIL m = some p ∧
      occursAt i32 st.DXIL (p + 4) = true ∧
      ReplaceRecord st.DXIL (m + 5) (to_string ResPair.2.Space) Ext.SrcSpace = .ok (D1, p1) ∧
      ReplaceRecord D1 p1 (to_string ResPair.2.BindPoint) Ext.SrcBindPoint = .ok (D2, pos') ∧
      st' = ⟨setRecordId st.ExtResInfo ResPair.2.UID id, D2⟩ := by
  unfold patchAnonymousStep at h
  split at h
  · cases h
  · rename_i m hfind
    have hbrs : m + EmptyResDecl.length - 1 = m + 5 := by rw [EmptyResDecl_length]; rfl
    (try simp only at h)
    rw [hbrs] at h
    split at h
    · cases h
    · rename_i p hrfind
      split at h
      · rename_i hocc
        split at h
        · cases h
        · split at h
          · cases h
          · split at h
            · cases h
            · cases h
            · split at h
              · simp only [Except.ok.injEq, Option.some.injEq, Prod.mk.injEq] at h
                exact Or.inl h.1.symm
              · split at h
                · cases h
                · simp only [Except.ok.injEq, Option.some.injEq, Prod.mk.injEq] at h
                  exact Or.inl h.1.symm
                · cases h
                · split at h
                  · cases h
                  · simp only [Except.ok.injEq, Option.some.injEq, Prod.mk.injEq] at h
                    exact Or.inl h.1.symm
                  · split at h
                    · cases h
                    · cases h
                    · rename_i ResPair Ext hf
                      split at h
                      · cases h
                      · rename_i D1 p1 hr1
                        split at h
                        · cases h
                        · rename_i D2 p2 hr2
                          simp only [Except.ok.injEq, Option.some.injEq, Prod.mk.injEq] at h
                          obtain ⟨hst, hp⟩ := h
                          subst hp
                          obtain ⟨hm, hE, _⟩ := findBySource_some _ _ _ _ _ _ _ hf
                          exact Or.inr ⟨ResPair, Ext, m, p, _, D1, p1, D2, hm, hE, hfind, hrfind,
                            hocc, hr1, hr2, hst.symm⟩
      · simp only [Except.ok.injEq, Option.some.injEq, Prod.mk.injEq] at h
        exact Or.inl h.1.symm

/-! ## The declaration pass: frame (C15) -/

/-- The text split at a record start `= !{i32 ` at `p` and at a later position
`E`. -/
theorem split_at_start (T : Str) (p E : Nat)
    (hs : occursAt ResourceRecStart T p = true) (hi : occursAt i32 T (p + 4) = true)
    (hle : p + 8 ≤ E) (hE : E ≤ T.length) :
    ∃ mid, T.take E = T.take p ++ ResourceRecStart ++ i32 ++ mid ∧
      (T.take p ++ ResourceRecStart ++ i32 ++ mid).length = E ∧ (T.take p).length = p := by
  have h1 := take_of_occursAt _ _ _ hs
  have h2 := take_of_occursAt _ _ _ hi
  have e4 : ResourceRecStart.length = 4 := rfl
  have e5 : i32.length = 4 := rfl
  rw [e4] at h1
  rw [e5, h1] at h2
  have e8 : p + 4 + 4 = p + 8 := by omega
  rw [e8] at h2
  refine ⟨(T.take E).drop (p + 8), ?_, ?_, by rw [List.length_take]; omega⟩
  · have : (T.take E).take (p + 8) = T.take (p + 8) := by
      rw [List.take_take, Nat.min_eq_left hle]
    rw [← h2, ← this, List.take_append_drop]
  · simp only [List.length_append, List.length_take, List.length_drop, e4, e5]
    omega

theorem RecordEdit.of_named (ResourceMap : TResourceBindingMap) (ResPair : Str × BindInfo)
    (hmem : ResPair ∈ ResourceMap) (T : Str) (E p : Nat) (e1 e2 : Nat) (D1 D2 : Str)
    (p1 p2 : Nat)
    (hfind : find (DxilName ResPair.1) T 0 = some E)
    (hrfind : rfind ResourceRecStart T E = some p)
    (hocc : occursAt i32 T (p + 4) = true)
    (h1 : ReplaceRecord T (E + (DxilName ResPair.1).length) (to_string ResPair.2.Space) e1 =
      .ok (D1, p1))
    (h2 : ReplaceRecord D1 p1 (to_string ResPair.2.BindPoint) e2 = .ok (D2, p2)) :
    RecordEdit ResourceMap T D2 := by
  obtain ⟨a, sp, bp, tail, vs, vb, ht, hl, hsp, hbp, _, _, _, _, hD, _⟩ :=
    ReplaceRecord_twice_inv _ _ _ _ _ _ _ _ _ _ h1 h2
  obtain ⟨_, hEl, hoE⟩ := find_some_inv _ _ _ _ hfind
  obtain ⟨hpE, hop, hlast⟩ := rfind_some_inv _ _ _ _ (by decide) hrfind
  obtain ⟨rn, hrn⟩ := occursAt_inv _ _ _ hoE
  have hname : DxilName ResPair.1 = '!' :: ('\x22' :: (ResPair.1 ++ "\x22".toList)) := rfl
  have h8 : p + 8 ≤ E :=
    start_before T p E '!' ('\x22' :: (ResPair.1 ++ "\x22".toList) ++ rn) hop hocc hpE
      (by rw [hrn, hname]; rfl) (Or.inr ⟨rfl, rfl⟩)
  obtain ⟨mid, hmid, hlen, hpl⟩ := split_at_start T p E hop hocc h8 hEl
  have ha : a = T.take p ++ ResourceRecStart ++ i32 ++ mid ++ DxilName ResPair.1 := by
    have e1 : a = T.take (E + (DxilName ResPair.1).length) := by
      rw [ht]
      simp only [List.append_assoc]
      rw [take_append_len _ _ _ hl.symm]
    rw [e1, take_of_occursAt _ _ _ hoE, hmid]
  generalize T.take p = h0 at ha hmid hlen hpl
  refine .named h0 mid sp bp tail ResPair hmem (by rw [ht, ha]) (by rw [hD, ha]) ?_ hsp hbp
  intro j hj hle
  rw [hpl] at hj
  rw [hlen] at hle
  exact hlast j hj hle

theorem RecordEdit.of_stripped (ResourceMap : TResourceBindingMap) (ResPair : Str × BindInfo)
    (hmem : ResPair ∈ ResourceMap) (T : Str) (pos m p : Nat) (e1 e2 : Nat) (D1 D2 : Str)
    (p1 p2 : Nat)
    (hfind : find EmptyResDecl T pos = some m)
    (hrfind : rfind ResourceRecStart T m = some p)
    (hocc : occursAt i32 T (p + 4) = true)
    (h1 : ReplaceRecord T (m + 5) (to_string ResPair.2.Space) e1 = .ok (D1, p1))
    (h2 : ReplaceRecord D1 p1 (to_string ResPair.2.BindPoint) e2 = .ok (D2, p2)) :
    RecordEdit ResourceMap T D2 := by
  obtain ⟨a, sp, bp, tail, vs, vb, ht, hl, hsp, hbp, _, _, _, _, hD, _⟩ :=
    ReplaceRecord_twice_inv _ _ _ _ _ _ _ _ _ _ h1 h2
  obtain ⟨_, hml, hom⟩ := find_some_inv _ _ _ _ hfind
  obtain ⟨hpm, hop, hlast⟩ := rfind_some_inv _ _ _ _ (by decide) hrfind
  obtain ⟨rn, hrn⟩ := occursAt_inv _ _ _ hom
  have hmark : EmptyResDecl = ", !\x22\x22".toList ++ [','] := rfl
  have h8 : p + 8 ≤ m :=
    start_before T p m ',' (" !\x22\x22,".toList ++ rn) hop hocc hpm (by rw [hrn]; rfl)
      (Or.inl rfl)
  obtain ⟨mid, hmid, hlen, hpl⟩ := split_at_start T p m hop hocc h8 hml
  have hom5 : occursAt ", !\x22\x22".toList T m = true := by
    unfold occursAt
    rw [hrn, hmark, List.append_assoc]
    exact List.isPrefixOf_iff_prefix.mpr (List.prefix_append _ _)
  have ha : a = T.take p ++ ResourceRecStart ++ i32 ++ mid ++ ", !\x22\x22".toList := by
    have e1 : a = T.take (m + 5) := by
      rw [ht]
      simp only [List.append_assoc]
      rw [take_append_len _ _ _ hl.symm]
    have := take_of_occursAt _ _ _ hom5
    rw [emptyName_length] at this
    rw [e1, this, hmid]
  generalize T.take p = h0 at ha hmid hlen hpl
  refine .stripped h0 mid sp bp tail ResPair hmem (by rw [ht, ha]) (by rw [hD, ha]) ?_ hsp hbp
  intro j hj hle
  rw [hpl] at hj
  rw [hlen] at hle
  exact hlast j hj hle

theorem patchNamedRecords_edits (ResourceMap : TResourceBindingMap) :
    ∀ (entries : TResourceBindingMap) (st st' : PatchState),
    (∀ nb ∈ entries, nb ∈ ResourceMap) → patchNamedRecords entries st = .ok st' →
    Relation.ReflTransGen (RecordEdit ResourceMap) st.DXIL st'.DXIL
  | [], st, st', _, h => by
    simp only [patchNamedRecords, Except.ok.injEq] at h
    rw [h]
  | ResPair :: rest, st, st', hsub, h => by
    unfold patchNamedRecords at h
    cases h1 : patchNamedRecord ResPair st with
    | error e => rw [h1] at h; cases h
    | ok st1 =>
      rw [h1] at h
      have ih := patchNamedRecords_edits ResourceMap rest st1 st'
        (fun nb hnb => hsub nb (List.mem_cons_of_mem _ hnb)) h
      rcases patchNamedRecord_patched_inv ResPair st st1 h1 with
        rfl | ⟨Ext, E, p, id, D1, p1, D2, p2, _, hf, hr, ho, r1, r2, hst⟩
      · exact ih
      · rw [hst] at ih
        exact Relation.ReflTransGen.head
          (RecordEdit.of_named ResourceMap ResPair (hsub ResPair (List.mem_cons_self _ _)) _ _ _ _ _
            _ _ _ _ hf hr ho r1 r2) ih

theorem patchAnonymousRecords_edits (ResourceMap : TResourceBindingMap) :
    ∀ (fuel : Nat) (st : PatchState) (pos : Nat) (st' : PatchState),
    patchAnonymousRecords ResourceMap fuel st pos = .ok st' →
    Relation.ReflTransGen (RecordEdit ResourceMap) st.DXIL st'.DXIL
  | 0, st, pos, st', h => by
    unfold patchAnonymousRecords at h
    split at h
    · cases h
    · simp only [Except.ok.injEq] at h
      rw [h]
  | fuel + 1, st, pos, st', h => by
    unfold patchAnonymousRecords at h
    split at h
    · cases h1 : patchAnonymousStep ResourceMap st pos with
      | error e => rw [h1] at h; cases h
      | ok o =>
        cases o with
        | none =>
          rw [h1] at h
          simp only [Except.ok.injEq] at h
          rw [h]
        | some sp =>
          obtain ⟨st1, pos1⟩ := sp
          rw [h1] at h
          have ih := patchAnonymousRecords_edits ResourceMap fuel st1 pos1 st' h
          rcases patchAnonymousStep_patched_inv ResourceMap st st1 pos pos1 h1 with
            rfl | ⟨ResPair, Ext, m, p, id, D1, p1, D2, hm, _, hf, hr, ho, r1, r2, hst⟩
          · exact ih
          · rw [hst] at ih
            exact Relation.ReflTransGen.head
              (RecordEdit.of_stripped ResourceMap ResPair hm _ _ _ _ _ _ _ _ _ _ hf hr ho r1 r2) ih
    · simp only [Except.ok.injEq] at h
      rw [h]

theorem RecordEdit.filter_eq {ResourceMap : TResourceBindingMap} {T T' : Str}
    (h : RecordEdit ResourceMap T T') :
    T'.filter (fun c => decide (c ∉ NumberSymbols)) =
      T.filter (fun c => decide (c ∉ NumberSymbols)) := by
  cases h with
  | named head mid sp bp tail ResPair _ hT hT' _ hsp hbp =>
    rw [hT, hT']
    simp only [List.filter_append, filter_numberSymbols _ hsp, filter_numberSymbols _ hbp.1,
      filter_numberSymbols _ (to_string_numberSymbols ResPair.2.Space),
      filter_numberSymbols _ (to_string_numberSymbols ResPair.2.BindPoint)]
  | stripped head mid sp bp tail ResPair _ hT hT' _ hsp hbp =>
    rw [hT, hT']
    simp only [List.filter_append, filter_numberSymbols _ hsp, filter_numberSymbols _ hbp.1,
      filter_numberSymbols _ (to_string_numberSymbols ResPair.2.Space),
      filter_numberSymbols _ (to_string_numberSymbols ResPair.2.BindPoint)]

theorem filter_eq_of_edits {ResourceMap : TResourceBindingMap} {T T' : Str}
    (h : Relation.ReflTransGen (RecordEdit ResourceMap) T T') :
    T'.filter (fun c => decide (c ∉ NumberSymbols)) =
      T.filter (fun c => decide (c ∉ NumberSymbols)) := by
  induction h with
  | refl => rfl
  | tail _ hstep ih => rw [hstep.filter_eq, ih]

/-- C15 (declaration-patch frame). The text a successful
`PatchResourceDeclaration` returns is reached from the input by patching
records one after the other. Each step takes a record that starts with
`= !{i32 `, the last such start at or before its name field, and an entry of
the map; the name field is the quoted name of the entry or the empty name
`, !""`; the two fields `, i32 sp, i32 bp` that directly follow the name field,
complete runs of characters of `+-0123456789`, become the decimal texts of the
desired space and bind point of the entry; the text before the space field and
the text after the bind-point field, which begins with the range-size field,
are as they were. Hence the characters other than number symbols are the same,
in the same order, in both texts; in particular every brace, parenthesis and
other such character occurs as often in the output as in the input. -/
theorem declaration_patch_frame (ResourceMap : TResourceBindingMap) (st st' : PatchState)
    (h : PatchResourceDeclaration ResourceMap st = .ok st') :
    Relation.ReflTransGen (RecordEdit ResourceMap) st.DXIL st'.DXIL ∧
    st'.DXIL.filter (fun c => decide (c ∉ NumberSymbols)) =
      st.DXIL.filter (fun c => decide (c ∉ NumberSymbols)) ∧
    ∀ c, c ∉ NumberSymbols → st'.DXIL.count c = st.DXIL.count c := by
  have hedits : Relation.ReflTransGen (RecordEdit ResourceMap) st.DXIL st'.DXIL := by
    unfold PatchResourceDeclaration at h
    cases h1 : patchNamedRecords ResourceMap st with
    | error e => rw [h1] at h; cases h
    | ok st1 =>
      rw [h1] at h
      exact (patchNamedRecords_edits ResourceMap ResourceMap st st1 (fun _ hnb => hnb) h1).trans
        (patchAnonymousRecords_edits ResourceMap _ st1 0 st' h)
  have hfilter : st'.DXIL.filter (fun c => decide (c ∉ NumberSymbols)) =
      st.DXIL.filter (fun c => decide (c ∉ NumberSymbols)) := filter_eq_of_edits hedits
  exact ⟨hedits, hfilter, fun c hc => count_eq_of_filter_eq _ _ c hc hfilter⟩

set_option maxRecDepth 4000 in
/-- Witness of C15: a named texture record and a stripped constant-buffer record
are both patched; the two texts agree outside the four rewritten fields. -/
theorem declaration_patch_frame_witness :
    PatchResourceDeclaration [("g_Tex".toList, ⟨7, 2, 1, .SRV, 0⟩), ("Constants".toList, ⟨0, 1, 1, .CBV, 1⟩)]
      ⟨[⟨3, 0, 4294967295⟩, ⟨1, 0, 4294967295⟩],
        "!4 = !\x7bi32 0, %\x22class.Texture2D<vector<float, 4> >\x22* undef, !\x22g_Tex\x22, i32 0, i32 3, i32 1, i32 2, i32 0, !6\x7d\n!5 = !\x7bi32 1, %Constants* undef, !\x22\x22, i32 0, i32 1, i32 1, i32 16, null\x7d\n".toList⟩ =
      .ok ⟨[⟨3, 0, 0⟩, ⟨1, 0, 1⟩],
        "!4 = !\x7bi32 0, %\x22class.Texture2D<vector<float, 4> >\x22* undef, !\x22g_Tex\x22, i32 2, i32 7, i32 1, i32 2, i32 0, !6\x7d\n!5 = !\x7bi32 1, %Constants* undef, !\x22\x22, i32 1, i32 0, i32 1, i32 16, null\x7d\n".toList⟩ ∧
    Relation.ReflTransGen
      (RecordEdit [("g_Tex".toList, ⟨7, 2, 1, .SRV, 0⟩), ("Constants".toList, ⟨0, 1, 1, .CBV, 1⟩)])
      "!4 = !\x7bi32 0, %\x22class.Texture2D<vector<float, 4> >\x22* undef, !\x22g_Tex\x22, i32 0, i32 3, i32 1, i32 2, i32 0, !6\x7d\n!5 = !\x7bi32 1, %Constants* undef, !\x22\x22, i32 0, i32 1, i32 1, i32 16, null\x7d\n".toList
      "!4 = !\x7bi32 0, %\x22class.Texture2D<vector<float, 4> >\x22* undef, !\x22g_Tex\x22, i32 2, i32 7, i32 1, i32 2, i32 0, !6\x7d\n!5 = !\x7bi32 1, %Constants* undef, !\x22\x22, i32 1, i32 0, i32 1, i32 16, null\x7d\n".toList ∧
    ("!4 = !\x7bi32 0, %\x22class.Texture2D<vector<float, 4> >\x22* undef, !\x22g_Tex\x22, i32 2, i32 7, i32 1, i32 2, i32 0, !6\x7d\n!5 = !\x7bi32 1, %Constants* undef, !\x22\x22, i32 1, i32 0, i32 1, i32 16, null\x7d\n".toList).filter
        (fun c => decide (c ∉ NumberSymbols)) =
      ("!4 = !\x7bi32 0, %\x22class.Texture2D<vector<float, 4> >\x22* undef, !\x22g_Tex\x22, i32 0, i32 3, i32 1, i32 2, i32 0, !6\x7d\n!5 = !\x7bi32 1, %Constants* undef, !\x22\x22, i32 0, i32 1, i32 1, i32 16, null\x7d\n".toList).filter
        (fun c => decide (c ∉ NumberSymbols)) ∧
    ∀ c, c ∉ NumberSymbols →
      ("!4 = !\x7bi32 0, %\x22class.Texture2D<vector<float, 4> >\x22* undef, !\x22g_Tex\x22, i32 2, i32 7, i32 1, i32 2, i32 0, !6\x7d\n!5 = !\x7bi32 1, %Constants* undef, !\x22\x22, i32 1, i32 0, i32 1, i32 16, null\x7d\n".toList).count c =
      ("!4 = !\x7bi32 0, %\x22class.Texture2D<vector<float, 4> >\x22* undef, !\x22g_Tex\x22, i32 0, i32 3, i32 1, i32 2, i32 0, !6\x7d\n!5 = !\x7bi32 1, %Constants* undef, !\x22\x22, i32 0, i32 1, i32 1, i32 16, null\x7d\n".toList).count c :=
  have h : PatchResourceDeclaration [("g_Tex".toList, ⟨7, 2, 1, .SRV, 0⟩), ("Constants".toList, ⟨0, 1, 1, .CBV, 1⟩)]
      ⟨[⟨3, 0, 4294967295⟩, ⟨1, 0, 4294967295⟩],
        "!4 = !\x7bi32 0, %\x22class.Texture2D<vector<float, 4> >\x22* undef, !\x22g_Tex\x22, i32 0, i32 3, i32 1, i32 2, i32 0, !6\x7d\n!5 = !\x7bi32 1, %Constants* undef, !\x22\x22, i32 0, i32 1, i32 1, i32 16, null\x7d\n".toList⟩ =
      .ok ⟨[⟨3, 0, 0⟩, ⟨1, 0, 1⟩],
        "!4 = !\x7bi32 0, %\x22class.Texture2D<vector<float, 4> >\x22* undef, !\x22g_Tex\x22, i32 2, i32 7, i32 1, i32 2, i32 0, !6\x7d\n!5 = !\x7bi32 1, %Constants* undef, !\x22\x22, i32 1, i32 0, i32 1, i32 16, null\x7d\n".toList⟩ := by decide
  ⟨h, declaration_patch_frame _ _ _ h⟩

/-! ## The identity remap (C11) -/

theorem numberAfterComma_iff : ∀ (x : Char) (l : Str),
    numberAfterComma x l = false ↔ List.Chain (fun x y => x = ',' → y ∉ NumberSymbols) x l
  | _, [] => by simp [numberAfterComma]
  | x, y :: rest => by
    rw [List.chain_cons, ← numberAfterComma_iff y rest]
    simp [numberAfterComma]

/-- The shape `NoNumberAfterComma` as a chain condition on neighbours. -/
theorem NoNumberAfterComma_iff (T : Str) :
    NoNumberAfterComma T ↔ List.Chain' (fun x y => x = ',' → y ∉ NumberSymbols) T := by
  cases T with
  | nil => simp [NoNumberAfterComma]
  | cons x l => exact numberAfterComma_iff x l

theorem chain_noComma : ∀ (l : Str), (∀ c ∈ l, c ≠ ',') →
    List.Chain' (fun x y => x = ',' → y ∉ NumberSymbols) l
  | [], _ => List.chain'_nil
  | x :: l, h => by
    rw [List.chain'_cons']
    refine ⟨fun y _ hx => absurd hx (h x (List.mem_cons_self _ _)), ?_⟩
    exact chain_noComma l (fun c hc => h c (List.mem_cons_of_mem _ hc))

/-- Replacing a piece that does not follow a comma by a text without comma keeps
`NoNumberAfterComma`. -/
theorem NoNumberAfterComma.replace (X lit new tail : Str)
    (h : NoNumberAfterComma (X ++ lit ++ tail))
    (hX : ∀ c, X.getLast? = some c → c ≠ ',') (hnew : ∀ c ∈ new, c ≠ ',') :
    NoNumberAfterComma (X ++ new ++ tail) := by
  rw [NoNumberAfterComma_iff] at h ⊢
  rw [List.append_assoc, List.chain'_append] at h
  obtain ⟨hcX, hcY, _⟩ := h
  rw [List.chain'_append] at hcY
  obtain ⟨_, hct, _⟩ := hcY
  rw [List.append_assoc, List.chain'_append]
  refine ⟨hcX, ?_, ?_⟩
  · rw [List.chain'_append]
    refine ⟨chain_noComma new hnew, hct, ?_⟩
    intro x hx y _ hxc
    exact absurd hxc (hnew x (List.mem_of_mem_getLast? hx))
  · intro x hx y _ hxc
    exact absurd hxc (hX x hx)

theorem occursAt_getElem? (pat T : Str) (j : Nat) (h : occursAt pat T j = true) (i : Nat)
    (hi : i < pat.length) : T[j + i]? = pat[i]? := by
  obtain ⟨r, hr⟩ := occursAt_inv _ _ _ h
  have : (T.drop j)[i]? = pat[i]? := by
    rw [hr, List.getElem?_append_left hi]
  rw [List.getElem?_drop] at this
  exact this

theorem occursAt_mem (pat T : Str) (j : Nat) (h : occursAt pat T j = true) :
    ∀ c ∈ pat, c ∈ T := fun _ hc => (occursAt_isInfix _ _ _ h).subset hc

/-- An occurrence in `A ++ B` lies in `A`, or in `B`, or across the border. -/
theorem occursAt_append_cases (pat A B : Str) (j : Nat) (h : occursAt pat (A ++ B) j = true) :
    (j + pat.length ≤ A.length ∧ occursAt pat A j = true) ∨
    (A.length ≤ j ∧ occursAt pat B (j - A.length) = true) ∨
    (j < A.length ∧ A.length < j + pat.length) := by
  by_cases h1 : j + pat.length ≤ A.length
  · left
    rw [occursAt_append_of_le _ _ _ _ h1] at h
    exact ⟨h1, h⟩
  · by_cases h2 : A.length ≤ j
    · right; left
      obtain ⟨k, rfl⟩ : ∃ k, j = A.length + k := ⟨j - A.length, by omega⟩
      rw [occursAt_append_right] at h
      exact ⟨h2, by rw [Nat.add_sub_cancel_left]; exact h⟩
    · right; right
      omega

/-- A pattern without line break that starts in a line lies in the line. -/
theorem occursAt_line (pat L B : Str) (j : Nat) (hL : L.getLast? = some '\n')
    (hp : '\n' ∉ pat) (h : occursAt pat (L ++ B) j = true) (hj : j < L.length) :
    j + pat.length ≤ L.length ∧ occursAt pat L j = true := by
  rcases occursAt_append_cases _ _ _ _ h with h1 | h1 | h1
  · exact h1
  · omega
  · exfalso
    have hg := occursAt_getElem? _ _ _ h (L.length - 1 - j) (by omega)
    have e : j + (L.length - 1 - j) = L.length - 1 := by omega
    rw [e, List.getElem?_append_left (by omega)] at hg
    have hl : L[L.length - 1]? = some '\n' := by
      rw [← hL, List.getLast?_eq_getElem?]
    rw [hl] at hg
    exact hp (List.getElem?_mem hg.symm)

theorem NoStart.nil (pat : Str) : NoStart pat [] := fun _ _ hj => by simp at hj

theorem NoStart.line {pat L : Str} (hL : L.getLast? = some '\n') (hp : '\n' ∉ pat)
    (h : ¬ pat <:+: L) : NoStart pat L := by
  intro X j hj
  cases hocc : occursAt pat (L ++ X) j with
  | false => rfl
  | true =>
    exact absurd (occursAt_isInfix _ _ _ (occursAt_line _ _ _ _ hL hp hocc hj).2) h

theorem isDigit_ne_of {c x : Char} (h : isDigit c = true) (hx : isDigit x = false) : c ≠ x := by
  rintro rfl
  rw [h] at hx
  cases hx

theorem allOrNone_forall₂ {α β : Type} (f : α → Option β) : ∀ (l : List α) (l' : List β),
    allOrNone f l = some l' ↔ List.Forall₂ (fun a b => f a = some b) l l'
  | [], l' => by
    simp only [allOrNone, Option.some.injEq]
    constructor
    · rintro rfl; exact .nil
    · intro h; cases h; rfl
  | a :: l, l' => by
    simp only [allOrNone]
    constructor
    · intro h
      cases hfa : f a with
      | none => rw [hfa] at h; cases h
      | some b =>
        rw [hfa] at h
        cases hl : allOrNone f l with
        | none => rw [hl] at h; cases h
        | some bs =>
          rw [hl] at h
          simp only [Option.some.injEq] at h
          subst h
          exact .cons hfa ((allOrNone_forall₂ f l bs).mp hl)
    · intro h
      cases h with
      | cons hab hrest =>
        rw [hab, (allOrNone_forall₂ f l _).mpr hrest]

theorem length_setRecordId (E : TResourceMapExtendedInfo) (u i : Nat) :
    (setRecordId E u i).length = E.length := by
  unfold setRecordId
  exact List.length_modify _ _ _

theorem Decl.WellFormed.remap {d : Decl} (h : d.WellFormed) (nb : Str × BindInfo) :
    (d.remap nb).WellFormed :=
  ⟨h.head, h.idDigits, h.idFits, h.ty, h.name,
    ⟨(to_string_digitsEnd _).1, (to_string_digitsEnd _).2.1⟩,
    ⟨(to_string_digitsEnd _).1, (to_string_digitsEnd _).2.1⟩, h.rest, h.line, h.restStart⟩

theorem Call.site_constant (c : Call) (h : c.temp = []) :
    c.site = ⟨c.gap, c.op, c.clsLit, c.ridLit, c.idx, c.nonUniform⟩ := by
  unfold Call.site
  rw [if_pos h]

theorem Call.site_temporary (c : Call) (h : c.temp ≠ []) :
    c.site = ⟨c.gap ++ IndexDecl c.temp ++ c.idx ++ c.link, c.op, c.clsLit, c.ridLit, c.temp,
      c.nonUniform⟩ := by
  unfold Call.site
  rw [if_neg h]

theorem remapIndex_lt (M : TResourceBindingMap) (E : TResourceMapExtendedInfo) (cls rid idx n : Nat)
    (h : remapIndex M E cls rid idx = some n) : n < 4294967296 := by
  unfold remapIndex at h
  split at h
  · split at h
    · cases h
    · split at h
      · simp only [Option.some.injEq] at h
        omega
      · cases h
  · cases h

theorem flagText_noMark (s : CallSite) : ∀ ch ∈ flagText s, ch ≠ '!' := by
  unfold flagText
  cases s.nonUniform <;> decide

theorem Call.noMark (c : Call) (hw : c.WellFormed) : ∀ ch ∈ callSiteText c.site, ch ≠ '!' := by
  have hg : ∀ ch ∈ c.gap, ch ≠ '!' := fun ch h => hw.noMark ch (by simp [h])
  have ht : ∀ ch ∈ c.temp, ch ≠ '!' := fun ch h => hw.noMark ch (by simp [h])
  have hl : ∀ ch ∈ c.link, ch ≠ '!' := fun ch h => hw.noMark ch (by simp [h])
  have ho : ∀ ch ∈ c.op, ch ≠ '!' := fun ch h => hw.noMark ch (by simp [h])
  have hc : ∀ ch ∈ c.clsLit, ch ≠ '!' := fun ch h => isDigit_ne_of (hw.clsDigits.2 ch h) (by decide)
  have hr : ∀ ch ∈ c.ridLit, ch ≠ '!' := fun ch h => isDigit_ne_of (hw.ridDigits.2 ch h) (by decide)
  have hi : ∀ ch ∈ c.idx, ch ≠ '!' := fun ch h => isDigit_ne_of (hw.idxDigits.2 ch h) (by decide)
  by_cases htemp : c.temp = []
  · rw [c.site_constant htemp]
    simp only [callSiteText, List.forall_mem_append]
    and_intros
    all_goals first
      | exact hg
      | exact ho
      | exact hc
      | exact hr
      | exact hi
      | exact flagText_noMark _
      | decide
  · rw [c.site_temporary htemp]
    simp only [callSiteText, IndexDecl, List.forall_mem_append]
    and_intros
    all_goals first
      | exact hg
      | exact ht
      | exact hl
      | exact ho
      | exact hc
      | exact hr
      | exact hi
      | exact flagText_noMark _
      | decide

theorem namedDecl_wellFormed (L : TResourceBindingMap) (E : TResourceMapExtendedInfo)
    (d d' : Decl) (hd : d.WellFormed) (h : namedDecl L E d = some d') : d'.WellFormed := by
  unfold namedDecl at h
  split at h
  · simp only [Option.some.injEq] at h
    rw [← h]; exact hd
  · split at h
    · cases h
    · split at h
      · simp only [Option.some.injEq] at h
        rw [← h]; exact hd.remap _
      · cases h

theorem anonymousDecl_wellFormed (M : TResourceBindingMap) (E : TResourceMapExtendedInfo)
    (d d' : Decl) (hd : d.WellFormed) (h : anonymousDecl M E d = some d') : d'.WellFormed := by
  unfold anonymousDecl at h
  split at h
  · split at h
    · cases hs : sourceEntry M E d with
      | none => rw [hs] at h; cases h
      | some nb =>
        rw [hs] at h
        simp only [Option.map_some', Option.some.injEq] at h
        rw [← h]; exact hd.remap _
    · cases h
  · simp only [Option.some.injEq] at h
    rw [← h]; exact hd

theorem allOrNone_wellFormed (f : Decl → Option Decl)
    (hf : ∀ d d', d.WellFormed → f d = some d' → d'.WellFormed) :
    ∀ (l l' : List Decl), (∀ d ∈ l, d.WellFormed) → allOrNone f l = some l' →
    ∀ d' ∈ l', d'.WellFormed := by
  intro l l' hw h
  rw [allOrNone_forall₂] at h
  intro d' hd'
  obtain ⟨d, hd, hr⟩ := forall₂_partner_left h d' hd'
  exact hf d d' (hw d hd) hr

theorem namedDecl_name (L : TResourceBindingMap) (E : TResourceMapExtendedInfo)
    (d d' : Decl) (h : namedDecl L E d = some d') :
    d'.head = d.head ∧ d'.idLit = d.idLit ∧ d'.ty = d.ty ∧ d'.name = d.name ∧ d'.rest = d.rest := by
  unfold namedDecl at h
  split at h
  · simp only [Option.some.injEq] at h
    rw [← h]; exact ⟨rfl, rfl, rfl, rfl, rfl⟩
  · split at h
    · cases h
    · split at h
      · simp only [Option.some.injEq] at h
        rw [← h]; exact ⟨rfl, rfl, rfl, rfl, rfl⟩
      · cases h

theorem storeIds_length : ∀ (ids : List (Nat × Nat)) (E : TResourceMapExtendedInfo),
    (storeIds ids E).length = E.length
  | [], _ => rfl
  | p :: ids, E => by
    have : storeIds (p :: ids) E = storeIds ids (setRecordId E p.1 p.2) := rfl
    rw [this, storeIds_length ids _, length_setRecordId]

theorem remapCall_wellFormed (M : TResourceBindingMap) (E : TResourceMapExtendedInfo)
    (c c' : Call) (hc : c.WellFormed) (h : remapCall M E c = some c') : c'.WellFormed := by
  unfold remapCall at h
  cases hr : remapIndex M E (digitsValue c.clsLit) (digitsValue c.ridLit) (digitsValue c.idx) with
  | none => rw [hr] at h; cases h
  | some n =>
    rw [hr] at h
    simp only [Option.map_some', Option.some.injEq] at h
    subst h
    have hlt := remapIndex_lt M E _ _ _ n hr
    have hlen := to_string_length_le n (by omega)
    exact ⟨hc.opcode, hc.clsDigits, hc.clsFits, hc.ridDigits, hc.ridFits,
      ⟨to_string_ne_nil _, (to_string_digitsEnd _).2.1⟩, by show (to_string n).length ≤ 11; omega,
      hc.constant, fun ht => ⟨(hc.temporary ht).name, (hc.temporary ht).link,
        (hc.temporary ht).before, (hc.temporary ht).after, (hc.temporary ht).lastDecl⟩,
      hc.noMark, hc.noEq⟩

/-- The shader the first run leaves is well-formed. -/
theorem WellFormedShader.patched {calls calls' : List Call} {mid : Str}
    {decls declsN declsA : List Decl} {trailer : Str} {M : TResourceBindingMap}
    {E E1 : TResourceMapExtendedInfo} (hw : WellFormedShader calls mid decls trailer)
    (h1 : allOrNone (namedDecl M E) decls = some declsN)
    (h2 : allOrNone (anonymousDecl M E) declsN = some declsA)
    (h3 : allOrNone (remapCall M E1) calls = some calls')
    (hnames : declsA.map (fun d => d.name) = decls.map (fun d => d.name)) :
    WellFormedShader calls' mid declsA trailer := by
  refine ⟨?_, hw.noMark, hw.line, hw.noCall, ?_, ?_, hw.trailer⟩
  · intro c' hc'
    rw [allOrNone_forall₂] at h3
    obtain ⟨c, hc, hr⟩ := forall₂_partner_left h3 c' hc'
    exact remapCall_wellFormed M E1 c c' (hw.eachCall c hc) hr
  · exact allOrNone_wellFormed _ (anonymousDecl_wellFormed M E) declsN declsA
      (allOrNone_wellFormed _ (namedDecl_wellFormed M E) decls declsN hw.eachDecl h1) h2
  · have hp : (decls.map (fun d => d.name)).Pairwise (fun a b => a = b → a = []) :=
      (List.pairwise_map).mpr hw.names
    rw [← hnames] at hp
    exact (List.pairwise_map).mp hp

end Diligent
